import Mathlib

/-! # atompub-server: conditional requests, ETags and plain-text ingestion

A shallow embedding of parts of `helpers.go`, `marshal.go`, `validate.go`,
`backend.go`, `storer.go` and `handler.go`.

Go `string` and `[]byte` values are modelled as lists of bytes (`Bytes`), each
byte a natural number below 256.  Go functions with a result list ending in
`error` are modelled with `Except`: the error case carries the error, the
other results then being Go's zero values.

Routines of the Go standard library that the embedded code calls are modelled
in the namespaces `utf8`, `strings`, `strconv`, `xml`, `url`, `fnv` and
`base32`, following the library's source.
-/

set_option autoImplicit false
set_option linter.dupNamespace false

namespace AtomPub

deriving instance DecidableEq for Except

/-- A Go `string` or `[]byte`: a sequence of bytes. -/
abbrev Bytes := List Nat

/-- The bytes of an ASCII literal, as written in the Go source. -/
def ascii (s : String) : Bytes := s.toList.map Char.toNat

/-! ## `unicode/utf8` -/

namespace utf8

/-- The constant `utf8.RuneError`, U+FFFD. -/
def RuneError : Nat := 0xFFFD

/-- Continuation byte test: `locb <= b && b <= hicb`. -/
def isCont (b : Nat) : Bool := 0x80 ≤ b && b ≤ 0xBF

/-- Model of `utf8.DecodeRune`: the first rune of `p` and its width in bytes.
Invalid or truncated encodings give `(RuneError, 1)`, empty input
`(RuneError, 0)`.  The case split on the first byte follows the table `first`
and the accept ranges of the second byte. -/
def DecodeRune : Bytes → Nat × Nat
  | [] => (RuneError, 0)
  | p0 :: rest =>
    if p0 < 0x80 then (p0, 1)
    else if p0 < 0xC2 then (RuneError, 1)
    else if p0 < 0xE0 then
      match rest with
      | b1 :: _ =>
        if isCont b1 then ((p0 % 0x20) * 0x40 + b1 % 0x40, 2) else (RuneError, 1)
      | [] => (RuneError, 1)
    else if p0 < 0xF0 then
      match rest with
      | b1 :: b2 :: _ =>
        let lo := if p0 = 0xE0 then 0xA0 else 0x80
        let hi := if p0 = 0xED then 0x9F else 0xBF
        if b1 < lo || hi < b1 then (RuneError, 1)
        else if !isCont b2 then (RuneError, 1)
        else ((p0 % 0x10) * 0x1000 + (b1 % 0x40) * 0x40 + b2 % 0x40, 3)
      | _ => (RuneError, 1)
    else if p0 < 0xF5 then
      match rest with
      | b1 :: b2 :: b3 :: _ =>
        let lo := if p0 = 0xF0 then 0x90 else 0x80
        let hi := if p0 = 0xF4 then 0x8F else 0xBF
        if b1 < lo || hi < b1 then (RuneError, 1)
        else if !isCont b2 then (RuneError, 1)
        else if !isCont b3 then (RuneError, 1)
        else ((p0 % 0x08) * 0x40000 + (b1 % 0x40) * 0x1000 + (b2 % 0x40) * 0x40 + b3 % 0x40, 4)
      | _ => (RuneError, 1)
    else (RuneError, 1)

/-- Model of `utf8.ValidRune`. -/
def ValidRune (r : Nat) : Bool := r < 0xD800 || (0xDFFF < r && r ≤ 0x10FFFF)

/-- Model of `utf8.AppendRune` applied to an empty buffer: the UTF-8 encoding
of `r`, that of `RuneError` for surrogates and values out of range. -/
def EncodeRune (r : Nat) : Bytes :=
  if r < 0x80 then [r]
  else if r < 0x800 then [0xC0 + r / 0x40, 0x80 + r % 0x40]
  else if !ValidRune r then [0xEF, 0xBF, 0xBD]
  else if r < 0x10000 then [0xE0 + r / 0x1000, 0x80 + (r / 0x40) % 0x40, 0x80 + r % 0x40]
  else [0xF0 + r / 0x40000, 0x80 + (r / 0x1000) % 0x40, 0x80 + (r / 0x40) % 0x40, 0x80 + r % 0x40]

/-- Loop of `utf8.ValidString`; `skip` counts the bytes of the current rune
still to pass over. -/
def validFrom : Nat → Bytes → Bool
  | _, [] => true
  | skip + 1, _ :: rest => validFrom skip rest
  | 0, b :: rest =>
    let (r, w) := DecodeRune (b :: rest)
    if r = RuneError && w = 1 then false else validFrom (w - 1) rest

/-- Model of `utf8.ValidString`. -/
def ValidString (s : Bytes) : Bool := validFrom 0 s

end utf8

/-- The UTF-8 bytes of a text literal. -/
def utf8Bytes (s : String) : Bytes := (s.toList.map (fun c => utf8.EncodeRune c.toNat)).flatten

/-! ## `strings` and `bytes` -/

namespace strings

/-- Loop of `strings.Split` for a non-empty separator: `cur` is the piece read
so far, `skip` the number of separator bytes still to pass over. -/
def splitFrom (sep : Bytes) : Nat → Bytes → Bytes → List Bytes
  | _, cur, [] => [cur]
  | skip + 1, cur, _ :: rest => splitFrom sep skip cur rest
  | 0, cur, b :: rest =>
    if sep.isPrefixOf (b :: rest) then cur :: splitFrom sep (sep.length - 1) [] rest
    else splitFrom sep 0 (cur ++ [b]) rest

/-- Model of `strings.Split(s, sep)` for a non-empty `sep`: the pieces between
the successive leftmost occurrences of `sep`. -/
def Split (s sep : Bytes) : List Bytes := splitFrom sep 0 [] s

end strings

/-! ## `strconv.Unquote` -/

namespace strconv

/-- Value of a hexadecimal digit, as the library's `unhex`. -/
def unhex (b : Nat) : Option Nat :=
  if 48 ≤ b ∧ b ≤ 57 then some (b - 48)
  else if 97 ≤ b ∧ b ≤ 102 then some (b - 97 + 10)
  else if 65 ≤ b ∧ b ≤ 70 then some (b - 65 + 10)
  else none

/-- Reads `n` hexadecimal digits: `v = v<<4 | x` for each of them. -/
def readHex : Nat → Nat → Bytes → Option (Nat × Bytes)
  | 0, v, s => some (v, s)
  | _ + 1, _, [] => none
  | n + 1, v, b :: s =>
    match unhex b with
    | none => none
    | some x => readHex n (v * 16 + x) s

/-- Reads `n` octal digits: `v = (v << 3) | x` for each of them. -/
def readOct : Nat → Nat → Bytes → Option (Nat × Bytes)
  | 0, v, s => some (v, s)
  | _ + 1, _, [] => none
  | n + 1, v, b :: s =>
    if 48 ≤ b ∧ b ≤ 55 then readOct n (v * 8 + (b - 48)) s else none

/-- Model of `strconv.UnquoteChar(s, quote)`: the value of the first
character or escape sequence of `s`, whether it is to be written as a
multibyte rune, and the rest of `s`; `none` is `ErrSyntax`. -/
def UnquoteChar (s : Bytes) (quote : Nat) : Option (Nat × Bool × Bytes) :=
  match s with
  | [] => none
  | c :: rest =>
    if c = quote ∧ (quote = 39 ∨ quote = 34) then none
    else if 0x80 ≤ c then
      let (r, size) := utf8.DecodeRune s
      some (r, true, s.drop size)
    else if c ≠ 92 then some (c, false, rest)
    else
      match rest with
      | [] => none
      | e :: s2 =>
        if e = 97 then some (7, false, s2)
        else if e = 98 then some (8, false, s2)
        else if e = 102 then some (12, false, s2)
        else if e = 110 then some (10, false, s2)
        else if e = 114 then some (13, false, s2)
        else if e = 116 then some (9, false, s2)
        else if e = 118 then some (11, false, s2)
        else if e = 120 then
          (readHex 2 0 s2).map (fun (v, s3) => (v, false, s3))
        else if e = 117 ∨ e = 85 then
          match readHex (if e = 117 then 4 else 8) 0 s2 with
          | none => none
          | some (v, s3) => if utf8.ValidRune v then some (v, true, s3) else none
        else if 48 ≤ e ∧ e ≤ 55 then
          match readOct 2 (e - 48) s2 with
          | none => none
          | some (v, s3) => if v > 255 then none else some (v, false, s3)
        else if e = 92 then some (92, false, s2)
        else if e = 39 ∨ e = 34 then
          if e ≠ quote then none else some (e, false, s2)
        else none

/-- The loop of `unquote` over a quoted string with escape sequences: reads
up to the terminating quote and returns the unescaped bytes and what follows
the quote. -/
def unquoteLoop (quote : Nat) : Nat → Bytes → Bytes → Option (Bytes × Bytes)
  | 0, _, _ => none
  | fuel + 1, buf, inp =>
    match inp with
    | [] => none
    | c :: rest =>
      if c = quote then some (buf, rest)
      else
        match UnquoteChar inp quote with
        | none => none
        | some (r, multibyte, rem) =>
          if c = 10 then none
          else
            let buf2 := buf ++ (if r < 0x80 ∨ multibyte = false then [r] else utf8.EncodeRune r)
            if quote = 39 then
              match rem with
              | q :: rem2 => if q = quote then some (buf2, rem2) else none
              | [] => none
            else unquoteLoop quote fuel buf2 rem

/-- Model of the library's `unquote(in, true)`: the unquoted prefix of `inp`
and the remainder; `none` is `ErrSyntax`. -/
def unquote (inp : Bytes) : Option (Bytes × Bytes) :=
  match inp with
  | [] => none
  | [_] => none
  | quote :: body =>
    match body.indexOf? quote with
    | none => none
    | some i =>
      let inner := body.take i
      if quote = 96 then some (inner.filter (fun b => b ≠ 13), body.drop (i + 1))
      else if quote = 34 ∨ quote = 39 then
        let fast : Bool :=
          !inner.contains 92 && !inner.contains 10 &&
            (if quote = 34 then utf8.ValidString inner
             else
               let (r, n) := utf8.DecodeRune inner
               n = i && (r ≠ utf8.RuneError || n ≠ 1))
        if fast then some (inner, body.drop (i + 1))
        else unquoteLoop quote (body.length + 1) [] body
      else none

/-- Model of `strconv.Unquote`: the value of a Go string, raw string or
character literal; `none` is `ErrSyntax` (message "invalid syntax"). -/
def Unquote (s : Bytes) : Option Bytes :=
  match unquote s with
  | none => none
  | some (out, rem) => if rem.length > 0 then none else some out

end strconv

/-! ## `helpers.go`: conditional requests -/

/-- The type `HTTPError` of `handler.go`. -/
structure HTTPError where
  code : Nat
  message : String
  deriving DecidableEq, Repr

/-- The constant `http.StatusBadRequest`. -/
def StatusBadRequest : Nat := 400

/-- The text of `strconv.ErrSyntax`. -/
def ErrSyntax : String := "invalid syntax"

/-- The loop of `matchETag` over the pieces of the header value. -/
def matchETagLoop (etag : Bytes) : List Bytes → Except String (Bool × Bool)
  | [] => .ok (true, false)
  | quote_et :: rest =>
    match strconv.Unquote quote_et with
    | none => .error ErrSyntax
    | some unquote_et =>
      if unquote_et = etag then .ok (true, true) else matchETagLoop etag rest

/-- The function `matchETag` of `helpers.go`: `(isSet, match)`, or the error
of `strconv.Unquote`. -/
def matchETag (etag header_val : Bytes) : Except String (Bool × Bool) :=
  if header_val ≠ [] ∧ etag = [] then .ok (true, false)
  else if header_val = [] then .ok (false, false)
  else if header_val = ascii "*" then .ok (true, true)
  else matchETagLoop etag (strings.Split header_val (ascii ", "))

/-- The function `IfMatchIfNoneMatch` of `helpers.go`: `proceed`, or the
`HTTPError` built from a header that does not parse. -/
def IfMatchIfNoneMatch (etag ifmatch ifnonematch : Bytes) : Except HTTPError Bool :=
  match matchETag etag ifnonematch with
  | .error e => .error { code := StatusBadRequest, message := e }
  | .ok (isSet, «match») =>
    if isSet && «match» then .ok false
    else
      match matchETag etag ifmatch with
      | .error e => .error { code := StatusBadRequest, message := e }
      | .ok (isSet2, match2) =>
        if isSet2 && !match2 then .ok false else .ok true

/-! ## `net/url` -/

namespace url

/-- The library's `stringContainsCTLByte`. -/
def stringContainsCTLByte (s : Bytes) : Bool := s.any (fun b => b < 32 || b = 0x7f)

/-- The library's `ishex`. -/
def ishex (c : Nat) : Bool :=
  (48 ≤ c && c ≤ 57) || (97 ≤ c && c ≤ 102) || (65 ≤ c && c ≤ 70)

/-- The library's `unhex`. -/
def unhex (c : Nat) : Nat :=
  if 48 ≤ c ∧ c ≤ 57 then c - 48
  else if 97 ≤ c ∧ c ≤ 102 then c - 97 + 10
  else if 65 ≤ c ∧ c ≤ 70 then c - 65 + 10
  else 0

/-- The escaping modes of `unescape` that `Parse` uses. -/
inductive encoding where
  | encodePath
  | encodeHost
  | encodeZone
  | encodeUserPassword
  | encodeFragment
  deriving DecidableEq

/-- The library's `shouldEscape(c, encodeHost)`. -/
def shouldEscapeHost (c : Nat) : Bool :=
  if (97 ≤ c ∧ c ≤ 122) ∨ (65 ≤ c ∧ c ≤ 90) ∨ (48 ≤ c ∧ c ≤ 57) then false
  else if c ∈ (ascii "!$&'()*+,;=:[]<>\"") then false
  else if c ∈ (ascii "-_.~") then false
  else true

/-- Model of the checks of the library's `unescape(s, mode)`: `true` when it
returns no error. -/
def unescapeOk (mode : encoding) : Bytes → Bool
  | [] => true
  | [c] =>
    if c = 37 then false
    else !((mode = .encodeHost || mode = .encodeZone) && c < 0x80 && shouldEscapeHost c)
  | [c, d] =>
    if c = 37 then false
    else !((mode = .encodeHost || mode = .encodeZone) && c < 0x80 && shouldEscapeHost c)
      && unescapeOk mode [d]
  | c :: h1 :: h2 :: rest =>
    if c = 37 then
      if !ishex h1 || !ishex h2 then false
      else if mode = .encodeHost && unhex h1 < 8 && [c, h1, h2] ≠ ascii "%25" then false
      else if mode = .encodeZone && [c, h1, h2] ≠ ascii "%25" && unhex h1 * 16 + unhex h2 ≠ 32
          && shouldEscapeHost (unhex h1 * 16 + unhex h2) then false
      else unescapeOk mode rest
    else !((mode = .encodeHost || mode = .encodeZone) && c < 0x80 && shouldEscapeHost c)
      && unescapeOk mode (h1 :: h2 :: rest)

/-- The library's `getScheme`: the scheme and the rest, `none` for the error
"missing protocol scheme"; `i` is the index of the byte examined. -/
def getSchemeFrom (rawURL : Bytes) : Nat → Bytes → Option (Bytes × Bytes)
  | _, [] => some ([], rawURL)
  | i, c :: rest =>
    if (97 ≤ c ∧ c ≤ 122) ∨ (65 ≤ c ∧ c ≤ 90) then getSchemeFrom rawURL (i + 1) rest
    else if (48 ≤ c ∧ c ≤ 57) ∨ c = 43 ∨ c = 45 ∨ c = 46 then
      if i = 0 then some ([], rawURL) else getSchemeFrom rawURL (i + 1) rest
    else if c = 58 then
      if i = 0 then none else some (rawURL.take i, rest)
    else some ([], rawURL)

/-- The library's `getScheme`. -/
def getScheme (rawURL : Bytes) : Option (Bytes × Bytes) := getSchemeFrom rawURL 0 rawURL

/-- The library's `validOptionalPort`. -/
def validOptionalPort (port : Bytes) : Bool :=
  match port with
  | [] => true
  | c :: digits => c = 58 && digits.all (fun b => 48 ≤ b && b ≤ 57)

/-- The library's `validUserinfo`. -/
def validUserinfo (s : Bytes) : Bool :=
  s.all (fun r =>
    (65 ≤ r && r ≤ 90) || (97 ≤ r && r ≤ 122) || (48 ≤ r && r ≤ 57)
      || (ascii "-._:~!$&'()*+,;=%@").contains r)

/-- Index of the last occurrence of the byte `c`, as `strings.LastIndex`. -/
def lastIndexByte (s : Bytes) (c : Nat) : Option Nat :=
  match s.reverse.indexOf? c with
  | none => none
  | some j => some (s.length - 1 - j)

/-- Index of the first occurrence of `sep`, as `strings.Index`. -/
def indexFrom (sep : Bytes) : Nat → Bytes → Option Nat
  | i, [] => if sep = [] then some i else none
  | i, c :: rest => if sep.isPrefixOf (c :: rest) then some i else indexFrom sep (i + 1) rest

/-- Model of the library's `parseHost`: `true` when it returns no error. -/
def parseHostOk (host : Bytes) : Bool :=
  if host.head? = some 91 then
    match lastIndexByte host 93 with
    | none => false
    | some i =>
      if !validOptionalPort (host.drop (i + 1)) then false
      else
        match indexFrom (ascii "%25") 0 (host.take i) with
        | some zone =>
          unescapeOk .encodeHost (host.take zone)
            && unescapeOk .encodeZone ((host.take i).drop zone)
            && unescapeOk .encodeHost (host.drop i)
        | none => unescapeOk .encodeHost host
  else
    match lastIndexByte host 58 with
    | some i => validOptionalPort (host.drop i) && unescapeOk .encodeHost host
    | none => unescapeOk .encodeHost host

/-- Model of the library's `parseAuthority`: `true` when it returns no
error. -/
def parseAuthorityOk (authority : Bytes) : Bool :=
  match lastIndexByte authority 64 with
  | none => parseHostOk authority
  | some i =>
    if !parseHostOk (authority.drop (i + 1)) then false
    else
      let userinfo := authority.take i
      if !validUserinfo userinfo then false
      else
        match userinfo.indexOf? 58 with
        | none => unescapeOk .encodeUserPassword userinfo
        | some j =>
          unescapeOk .encodeUserPassword (userinfo.take j)
            && unescapeOk .encodeUserPassword (userinfo.drop (j + 1))

/-- Model of the library's `parse(rawURL, false)`: `true` when it returns no
error. -/
def parseOk (rawURL : Bytes) : Bool :=
  if stringContainsCTLByte rawURL then false
  else if rawURL = ascii "*" then true
  else
    match getScheme rawURL with
    | none => false
    | some (scheme, rest0) =>
      let rest :=
        match rest0.indexOf? 63 with
        | none => rest0
        | some q => rest0.take q
      if rest.head? ≠ some 47 then
        if scheme ≠ [] then true
        else
          let segment :=
            match rest.indexOf? 47 with
            | none => rest
            | some s => rest.take s
          if segment.contains 58 then false else unescapeOk .encodePath rest
      else if (ascii "//").isPrefixOf rest
          && (scheme ≠ [] || !(ascii "///").isPrefixOf rest) then
        let authority0 := rest.drop 2
        match authority0.indexOf? 47 with
        | none => parseAuthorityOk authority0 && unescapeOk .encodePath []
        | some i => parseAuthorityOk (authority0.take i) && unescapeOk .encodePath (authority0.drop i)
      else unescapeOk .encodePath rest

/-- Model of `url.Parse`, following the library source of Go 1.20: `true`
when it returns a nil error.  The fragment after the first `#` is cut off and
checked on its own. -/
def Parse (rawURL : Bytes) : Bool :=
  match rawURL.indexOf? 35 with
  | none => parseOk rawURL
  | some i =>
    if !parseOk (rawURL.take i) then false
    else if rawURL.drop (i + 1) = [] then true
    else unescapeOk .encodeFragment (rawURL.drop (i + 1))

end url

/-! ## `hash/fnv` and `encoding/base32` -/

namespace fnv

/-- The constant `offset64`. -/
def offset64 : Nat := 14695981039346656037

/-- The constant `prime64`. -/
def prime64 : Nat := 1099511628211

/-- The method `Write` of the 64-bit FNV-1a hash `sum64a`, on `uint64`
arithmetic: for each byte `hash ^= c; hash *= prime64`. -/
def Write (hash : Nat) (data : Bytes) : Nat :=
  data.foldl (fun h c => ((h ^^^ c) * prime64) % 2 ^ 64) hash

/-- The method `Sum(nil)` of `sum64a`: the eight bytes of the hash, most
significant first. -/
def Sum (hash : Nat) : Bytes :=
  [hash / 2 ^ 56 % 256, hash / 2 ^ 48 % 256, hash / 2 ^ 40 % 256, hash / 2 ^ 32 % 256,
   hash / 2 ^ 24 % 256, hash / 2 ^ 16 % 256, hash / 2 ^ 8 % 256, hash % 256]

end fnv

namespace base32

/-- The alphabet `encodeStd` of RFC 4648. -/
def encodeStd : Bytes := ascii "ABCDEFGHIJKLMNOPQRSTUVWXYZ234567"

/-- The padding character `StdPadding`. -/
def StdPadding : Nat := 61

/-- The character of a 5-bit block: `enc.encode[b & 31]`. -/
def encodeChar (b : Nat) : Nat := encodeStd.getD (b % 32) 0

/-- The eight 5-bit blocks of a quantum of up to five bytes (missing bytes
read as zero), as computed by `Encode`. -/
def blocks (b0 b1 b2 b3 b4 : Nat) : List Nat :=
  [b0 / 8, (b0 % 8) * 4 + b1 / 64, (b1 / 2) % 32, (b1 % 2) * 16 + b2 / 16,
   (b2 % 16) * 2 + b3 / 128, (b3 / 4) % 32, (b3 % 4) * 8 + b4 / 32, b4 % 32]

/-- Model of `StdEncoding.EncodeToString`: each quantum of five bytes gives
eight characters; a final shorter quantum is padded with `=`. -/
def EncodeToString : Bytes → Bytes
  | [] => []
  | [b0] => ((blocks b0 0 0 0 0).take 2).map encodeChar ++ List.replicate 6 StdPadding
  | [b0, b1] => ((blocks b0 b1 0 0 0).take 4).map encodeChar ++ List.replicate 4 StdPadding
  | [b0, b1, b2] => ((blocks b0 b1 b2 0 0).take 5).map encodeChar ++ List.replicate 3 StdPadding
  | [b0, b1, b2, b3] =>
    ((blocks b0 b1 b2 b3 0).take 7).map encodeChar ++ List.replicate 1 StdPadding
  | b0 :: b1 :: b2 :: b3 :: b4 :: rest =>
    (blocks b0 b1 b2 b3 b4).map encodeChar ++ EncodeToString rest

end base32

/-! ## `time` -/

/-- A `time.Time`: an instant, Unix seconds and nanoseconds within the
second, and the offset of its location in seconds east of UTC. -/
structure Time where
  sec : Int
  nsec : Nat
  offset : Int
  deriving DecidableEq, Repr

namespace Time

/-- Decimal digits of `n`, most significant first. -/
def digits (n : Nat) : Bytes := (Nat.toDigits 10 n).map Char.toNat

/-- The library's `appendInt(b, x, width)`: `x` in decimal, padded with
zeros to `width` digits, after a minus sign when negative. -/
def appendInt (x : Int) (width : Nat) : Bytes :=
  let ds := digits x.natAbs
  (if x < 0 then [45] else []) ++ List.replicate (width - ds.length) 48 ++ ds

/-- Year, month and day of the day `z` counted from 1970-01-01, in the
proleptic Gregorian calendar. -/
def civil (z : Int) : Int × Int × Int :=
  let z := z + 719468
  let era := Int.fdiv z 146097
  let doe := z - era * 146097
  let yoe := Int.fdiv (doe - Int.fdiv doe 1460 + Int.fdiv doe 36524 - Int.fdiv doe 146096) 365
  let y := yoe + era * 400
  let doy := doe - (365 * yoe + Int.fdiv yoe 4 - Int.fdiv yoe 100)
  let mp := Int.fdiv (5 * doy + 2) 153
  let d := doy - Int.fdiv (153 * mp + 2) 5 + 1
  let m := if mp < 10 then mp + 3 else mp - 9
  (if m ≤ 2 then y + 1 else y, m, d)

/-- The fraction of `Format` for the layout element `.999999999`: nothing for
zero, else a dot and nine digits with the trailing zeros removed. -/
def appendNano (nanosec : Nat) : Bytes :=
  if nanosec = 0 then []
  else 46 :: ((appendInt nanosec 9).reverse.dropWhile (fun b => b = 48)).reverse

/-- The zone of `Format` for the layout element `Z07:00`. -/
def appendZone (offset : Int) : Bytes :=
  if offset = 0 then [90]
  else
    let zone := Int.tdiv offset 60
    (if zone < 0 then [45] else [43]) ++ appendInt (zone.natAbs / 60) 2 ++ [58]
      ++ appendInt (zone.natAbs % 60) 2

/-- Model of `t.Format(time.RFC3339Nano)`, the layout
`2006-01-02T15:04:05.999999999Z07:00`. -/
def Format (t : Time) : Bytes :=
  let loc := t.sec + t.offset
  let (y, m, d) := civil (Int.fdiv loc 86400)
  let s := Int.fmod loc 86400
  appendInt y 4 ++ [45] ++ appendInt m 2 ++ [45] ++ appendInt d 2 ++ [84]
    ++ appendInt (Int.fdiv s 3600) 2 ++ [58] ++ appendInt (Int.fmod (Int.fdiv s 60) 60) 2 ++ [58]
    ++ appendInt (Int.fmod s 60) 2 ++ appendNano t.nsec ++ appendZone t.offset

end Time

/-! ## `xml.go`: the data model -/

/-- The constant `atom_xmlns` of `marshal.go`. -/
def atom_xmlns : Bytes := ascii "http://www.w3.org/2005/Atom"

/-- The constant `app_xmlns` of `marshal.go`. -/
def app_xmlns : Bytes := ascii "http://www.w3.org/2007/app"

/-- The type `xml.Name`. -/
structure Name where
  Space : Bytes
  Local : Bytes
  deriving DecidableEq, Repr

/-- The type `URI`. -/
structure URI where
  XMLName : Name
  Target : Bytes
  deriving DecidableEq, Repr

/-- The type `DateConstruct`. -/
structure DateConstruct where
  XMLName : Name
  T : Time
  deriving DecidableEq, Repr

/-- The type `TextConstruct`. -/
structure TextConstruct where
  XMLName : Name
  «Type» : Bytes
  Text : Bytes
  deriving DecidableEq, Repr

/-- The type `Person`; `URI` is a pointer, `none` when nil. -/
structure Person where
  XMLName : Name
  Name : Bytes
  URI : Option URI
  deriving DecidableEq, Repr

/-- The type `Link`. -/
structure Link where
  Href : Bytes
  Relation : Bytes
  «Type» : Bytes
  HrefLang : Bytes
  Title : Bytes
  Length : Nat
  deriving DecidableEq, Repr

/-- The type `Category`. -/
structure Category where
  Term : Bytes
  Scheme : Bytes
  Label : Bytes
  deriving DecidableEq, Repr

/-- The type `Generator`. -/
structure Generator where
  URI : Bytes
  Version : Bytes
  Text : Bytes
  deriving DecidableEq, Repr

/-- The type `Content`; `Body` is a slice, `none` when nil. -/
structure Content where
  «Type» : Bytes
  Src : Bytes
  Body : Option Bytes
  deriving DecidableEq, Repr

/-- The type `PublishingControl`. -/
structure PublishingControl where
  Draft : Bytes
  deriving DecidableEq, Repr

/-- The type `Accept`. -/
structure Accept where
  Text : Bytes
  deriving DecidableEq, Repr

/-- The type `Categories`. -/
structure Categories where
  Fixed : Bytes
  Scheme : Bytes
  Href : Bytes
  Categories : List Category
  deriving DecidableEq, Repr

/-- The type `Collection`.  The pointer `Title` is kept by value. -/
structure Collection where
  Href : Bytes
  Title : Option TextConstruct
  Categories : List Categories
  Accepts : List Accept
  deriving DecidableEq, Repr

/-- The type `Source`.  Pointer fields are `Option`s, `none` when nil; slices
are lists, a nil slice being the empty list.  The `Collection` object a
Source points to is kept inside it. -/
structure Source where
  Id : Option URI
  Updated : Option DateConstruct
  Authors : List Person
  Title : Option TextConstruct
  Links : List Link
  Categories : List Category
  Contributors : List Person
  Icon : Option URI
  Logo : Option URI
  Generator : Option Generator
  Subtitle : Option TextConstruct
  Rights : Option TextConstruct
  Collection : Option Collection
  deriving DecidableEq, Repr

/-- A pointer to a `Source` object: its index among the Source objects of
the backend. -/
abbrev SourcePtr := Nat

/-- The type `Entry`.  The `Source` pointer is shared with the feed map. -/
structure Entry where
  Id : URI
  Updated : DateConstruct
  Authors : List Person
  Title : TextConstruct
  Links : List Link
  Content : Content
  Categories : List Category
  Contributors : List Person
  Published : Option DateConstruct
  Summary : Option TextConstruct
  Rights : Option TextConstruct
  Source : Option SourcePtr
  Edited : Option DateConstruct
  Control : Option PublishingControl
  deriving DecidableEq, Repr

/-- The type `Feed`. -/
structure Feed where
  Id : Option URI
  Updated : Option DateConstruct
  Authors : List Person
  Title : Option TextConstruct
  Links : List Link
  Entries : List Entry
  Categories : List Category
  Contributors : List Person
  Icon : Option URI
  Logo : Option URI
  Generator : Option Generator
  Subtitle : Option TextConstruct
  Rights : Option TextConstruct
  Collection : Option Collection
  deriving DecidableEq, Repr

/-! ## `marshal.go` and `helpers.go`: ETags -/

/-- The method `URI.MarshalTo` of `marshal.go`: the bytes written to the
buffered writer, or the error returned (nothing is written then).  A nil
receiver writes nothing. -/
def URI.MarshalTo (u : Option URI) : Except String Bytes :=
  match u with
  | none => .ok []
  | some u =>
    if u.XMLName.Space = atom_xmlns then
      if url.Parse u.Target then
        .ok (ascii "<" ++ u.XMLName.Local ++ ascii ">" ++ u.Target ++ ascii "</"
          ++ u.XMLName.Local ++ ascii ">")
      else .error "url.Parse"
    else .error "unknown URI construct xmlns"

/-- The method `DateConstruct.MarshalTo` of `marshal.go`: the bytes written,
or the error returned (nothing is written then). -/
def DateConstruct.MarshalTo (t : Option DateConstruct) : Except String Bytes :=
  match t with
  | none => .ok []
  | some t =>
    if t.XMLName.Space = atom_xmlns then
      .ok (ascii "<" ++ t.XMLName.Local ++ ascii ">" ++ t.T.Format ++ ascii "</"
        ++ t.XMLName.Local ++ ascii ">")
    else if t.XMLName.Space = app_xmlns then
      .ok (ascii "<" ++ (t.XMLName.Local ++ ascii " xmlns=\"" ++ app_xmlns ++ ascii "\"")
        ++ ascii ">" ++ t.T.Format ++ ascii "</" ++ t.XMLName.Local ++ ascii ">")
    else .error "unknown date construct xmlns"

/-- The tail of both `ETag` methods: the buffered bytes are flushed into a
fresh `fnv.New64a()` hasher, and the first 13 characters of the base32 text of
its sum are returned. -/
def etagOfWritten (written : Bytes) : Bytes :=
  (base32.EncodeToString (fnv.Sum (fnv.Write fnv.offset64 written))).take 13

/-- The method `Feed.ETag` of `helpers.go`; a nil receiver is `none`. -/
def Feed.ETag (feed : Option Feed) : Except String Bytes :=
  match feed with
  | none => .error "nil pointer dereference"
  | some feed =>
    match URI.MarshalTo feed.Id with
    | .error e => .error e
    | .ok w1 =>
      match DateConstruct.MarshalTo feed.Updated with
      | .error e => .error e
      | .ok w2 => .ok (etagOfWritten (w1 ++ w2))

/-- The method `Entry.ETag` of `helpers.go`; a nil receiver is `none`. -/
def Entry.ETag (entry : Option Entry) : Except String Bytes :=
  match entry with
  | none => .error "nil pointer dereference"
  | some entry =>
    match URI.MarshalTo (some entry.Id) with
    | .error e => .error e
    | .ok w1 =>
      match DateConstruct.MarshalTo (some entry.Updated) with
      | .error e => .error e
      | .ok w2 => .ok (etagOfWritten (w1 ++ w2))

/-- The Go value `&Entry{Id: id, Updated: updated}`: all other fields have
their zero value. -/
def Entry.zeroWith (id : URI) (updated : DateConstruct) : Entry :=
  { Id := id, Updated := updated, Authors := [], Title := ⟨⟨[], []⟩, [], []⟩, Links := [],
    Content := ⟨[], [], none⟩, Categories := [], Contributors := [], Published := none,
    Summary := none, Rights := none, Source := none, Edited := none, Control := none }

/-- The Go value `&Feed{Id: id, Updated: updated}`: all other fields have
their zero value. -/
def Feed.zeroWith (id : Option URI) (updated : Option DateConstruct) : Feed :=
  { Id := id, Updated := updated, Authors := [], Title := none, Links := [], Entries := [],
    Categories := [], Contributors := [], Icon := none, Logo := none, Generator := none,
    Subtitle := none, Rights := none, Collection := none }

/-! ## `encoding/xml`: `EscapeText` -/

namespace xml

/-- The library's `isInCharacterRange`: the `Char` production of XML 1.0. -/
def isInCharacterRange (r : Nat) : Bool :=
  r = 0x09 || r = 0x0A || r = 0x0D || (0x20 ≤ r && r ≤ 0xD7FF) || (0xE000 ≤ r && r ≤ 0xFFFD)
    || (0x10000 ≤ r && r ≤ 0x10FFFF)

/-- What `escapeText` writes for one decoded rune `r` of `width` bytes, `raw`
being those bytes: the escape sequence of a special character, U+FFFD for an
invalid byte or a rune outside the XML character range, else the bytes
themselves. -/
def escapeRune (r width : Nat) (raw : Bytes) : Bytes :=
  if r = 34 then ascii "&#34;"
  else if r = 39 then ascii "&#39;"
  else if r = 38 then ascii "&amp;"
  else if r = 60 then ascii "&lt;"
  else if r = 62 then ascii "&gt;"
  else if r = 9 then ascii "&#x9;"
  else if r = 10 then ascii "&#xA;"
  else if r = 13 then ascii "&#xD;"
  else if !isInCharacterRange r || (r = utf8.RuneError && width = 1) then [0xEF, 0xBF, 0xBD]
  else raw

/-- The loop of `escapeText`; `skip` counts the bytes of the current rune
still to pass over (`i += width`). -/
def escapeFrom : Nat → Bytes → Bytes
  | _, [] => []
  | skip + 1, _ :: rest => escapeFrom skip rest
  | 0, b :: rest =>
    let rw := utf8.DecodeRune (b :: rest)
    escapeRune rw.1 rw.2 ((b :: rest).take rw.2) ++ escapeFrom (rw.2 - 1) rest

/-- Model of `xml.EscapeText`: the bytes written for `s`. -/
def EscapeText (s : Bytes) : Bytes := escapeFrom 0 s

end xml

/-! ## `backend.go`: plain-text ingestion -/

/-- The variable `protocol_list` of `backend.go`. -/
def protocol_list : List Bytes :=
  [ascii "cat", ascii "http", ascii "https", ascii "mailto", ascii "tel", ascii "sms"]

/-- The loop variables of `preparePlainText`: the output buffer `buf`, the
list `urls` and the list `categories`. -/
structure ScanState where
  buf : Bytes
  urls : List Bytes
  categories : List Bytes
  deriving DecidableEq, Repr

/-- The set of `bytes.IndexAny(after, "\n ")`. -/
def isNewlineOrSpace (b : Nat) : Bool := b = 10 || b = 32

/-- The loop `for k, v := range protocol_list`: the first index `k` and
scheme `v` such that `before` ends in `v` and `v:after` parses as a URL. -/
def matchProtocol (before after : Bytes) : List Bytes → Nat → Option (Nat × Bytes)
  | [], _ => none
  | v :: vs, k =>
    if v.isSuffixOf before && url.Parse (v ++ [58] ++ after) then some (k, v)
    else matchProtocol before after vs (k + 1)

/-- The text of `fmt.Sprintf("[%d]", n)`. -/
def marker (n : Nat) : Bytes := [91] ++ Time.digits n ++ [93]

/-- Model of `strings.TrimPrefix`. -/
def strings.TrimPrefix (s pfx : Bytes) : Bytes :=
  if pfx.isPrefixOf s then s.drop pfx.length else s

/-- The bytes of `s` once its first bytes have been overwritten by `ov`. -/
def overwrite (s ov : Bytes) : Bytes := ov.take s.length ++ s.drop ov.length

/-- The statement `if len(input_bytes) > 1 && input_bytes[0] == ' ' &&
input_bytes[1] == '.' { input_bytes = input_bytes[1:] }`; `none` is the nil
slice. -/
def dropSpaceBeforePeriod : Option Bytes → Option Bytes
  | some (32 :: 46 :: r) => some (46 :: r)
  | other => other

/-- The marker text for `raw_url`: `[l+1]` when `urls[l]` is `raw_url`, else
`[len(urls)+1]`, the URL being appended. -/
def urlMarker (urls : List Bytes) (raw_url : Bytes) : Bytes :=
  match urls.indexOf? raw_url with
  | some l => marker (l + 1)
  | none => marker (urls.length + 1)

/-- What `before = append(before, m...)` does to the bytes `r` of the new
`input_bytes`.  `input_bytes` is a slice of the array returned by
`io.ReadAll`, which has room for `slack` more bytes after the input, and
`bytes.Cut` returns `before` as `input_bytes[:i]`, whose capacity runs to the
end of that array.  When `m` fits into that capacity `append` writes it into
the array in place, after the `before1.length` bytes kept of `before`: the
bytes of `r` that lie under it are overwritten.  Otherwise `append` copies
to a new array and `r` is untouched. -/
def appendInPlace (slack : Nat) (input_bytes before1 m r : Bytes) : Bytes :=
  if before1.length + m.length ≤ input_bytes.length + slack then
    overwrite r (m.drop (input_bytes.length - r.length - before1.length))
  else r

/-- The new `input_bytes` after `bytes.IndexAny(after, "\n ")`: the slice
`after[i:]` from the first newline or space on, or nil (`none`) when there is
none. -/
def restAfterTail (after0 : Bytes) : Option Bytes :=
  match after0.dropWhile (fun b => !isNewlineOrSpace b) with
  | [] => none
  | c :: r => some (c :: r)

/-- The body of the `for` loop of `preparePlainText` once `bytes.Cut` has
found a `:`: `before` is the text in front of it, `after` the tail up to the
next newline or space and `rest` the new `input_bytes`.  The result is the
new state and the new `input_bytes`, `none` when the loop is left. -/
def scanChunk (slack : Nat) (st : ScanState) (input_bytes before after : Bytes)
    (rest : Option Bytes) : ScanState × Option Bytes :=
  match matchProtocol before after protocol_list 0 with
  | some (k, v) =>
    let raw_url := v ++ [58] ++ after
    let before1 := before.take (before.length - v.length)
    if k = 0 then
      ({ st with buf := st.buf ++ xml.EscapeText before1,
                 categories := st.categories ++ [strings.TrimPrefix raw_url (ascii "cat:")] },
        rest.map (fun r => r.drop 1))
    else
      let rest1 := dropSpaceBeforePeriod rest
      let m := urlMarker st.urls raw_url
      ({ st with buf := st.buf ++ xml.EscapeText (before1 ++ m),
                 urls := if raw_url ∈ st.urls then st.urls else st.urls ++ [raw_url] },
        rest1.map (appendInPlace slack input_bytes before1 m))
  | none =>
    ({ st with buf := st.buf ++ xml.EscapeText (before ++ [58] ++ after) }, rest)

/-- One pass through the body of the `for` loop of `preparePlainText`, from
`bytes.Cut` to the test `input_bytes == nil`.  The result is the new state and
the new `input_bytes`, `none` when the loop is left. -/
def scanStep (slack : Nat) (st : ScanState) (input_bytes : Bytes) :
    ScanState × Option Bytes :=
  match input_bytes.dropWhile (fun b => b ≠ 58) with
  | [] => ({ st with buf := st.buf ++ xml.EscapeText input_bytes }, none)
  | _ :: after0 =>
    scanChunk slack st input_bytes (input_bytes.takeWhile (fun b => b ≠ 58))
      (after0.takeWhile (fun b => !isNewlineOrSpace b)) (restAfterTail after0)

/-- The `for` loop of `preparePlainText`; every pass but the last shortens
`input_bytes`, so `fuel` above its length is never used up. -/
def scanLoop (slack : Nat) : Nat → ScanState → Bytes → ScanState
  | 0, st, _ => st
  | fuel + 1, st, input_bytes =>
    match scanStep slack st input_bytes with
    | (st1, none) => st1
    | (st1, some rest) => scanLoop slack fuel st1 rest

/-- The opening text of the output buffer. -/
def xhtmlOpen : Bytes :=
  ascii "<div xmlns=\"http://www.w3.org/1999/xhtml\" style=\"white-space: pre-line;\"><p>"

/-- The state in which `preparePlainText` leaves its `for` loop. -/
def scanInput (slack : Nat) (input : Bytes) : ScanState :=
  scanLoop slack (input.length + 1) { buf := xhtmlOpen, urls := [], categories := [] } input

/-- The loop `for k, u := range urls` writing the footer links. -/
def footerLinks : Nat → List Bytes → Bytes
  | _, [] => []
  | k, u :: us =>
    ascii "<a href=\"" ++ xml.EscapeText u ++ ascii "\">[" ++ Time.digits (k + 1)
      ++ ascii "]&#xA0;" ++ xml.EscapeText u ++ ascii "</a>" ++ footerLinks (k + 1) us

/-- The part of `preparePlainText` after its `for` loop. -/
def finishPlainText (st : ScanState) : Bytes × List Bytes :=
  let buf := st.buf ++ ascii "</p>"
  let buf :=
    if st.urls.length ≠ 0 then
      buf ++ ascii "<div style=\"word-break:break-all;\">" ++ footerLinks 0 st.urls
        ++ ascii "</div>"
    else buf
  (buf ++ ascii "</div>", st.categories)

/-- The function `preparePlainText` of `backend.go` on the bytes `input` read
by `io.ReadAll` into an array with room for `slack` more bytes: the output
and the categories (the error result is always nil once the input is read). -/
def preparePlainText (slack : Nat) (input : Bytes) : Bytes × List Bytes :=
  finishPlainText (scanInput slack input)

/-- The chunks `(before, tail)` that the forward scan anchored on `:` meets
as long as no token is recognised: `before` runs up to the first `:`, `tail`
from there to the next space or newline (or to the end of the input), where
the scan resumes. -/
def candidates : Nat → Bytes → List (Bytes × Bytes)
  | 0, _ => []
  | fuel + 1, input =>
    match input.dropWhile (fun b => b ≠ 58) with
    | [] => []
    | _ :: after0 =>
      (input.takeWhile (fun b => b ≠ 58), after0.takeWhile (fun b => !isNewlineOrSpace b))
        :: candidates fuel (after0.dropWhile (fun b => !isNewlineOrSpace b))

/-! ## `backend.go`: the model and its PUT operations -/

namespace Time

/-- Model of `t.Round(d)` for a duration `d` of nanoseconds dividing one
second: the nearest multiple of `d`, halfway values rounding up. -/
def Round (t : Time) (d : Nat) : Time :=
  let n : Int := t.sec * 1000000000 + t.nsec
  let r : Int := Int.emod n d
  let m : Int := if r + r < d then n - r else n + d - r
  { sec := Int.fdiv m 1000000000, nsec := (Int.fmod m 1000000000).toNat, offset := t.offset }

/-- The constant `time.Second`, in nanoseconds. -/
def Second : Nat := 1000000000

/-- The constant `time.Microsecond`, in nanoseconds. -/
def Microsecond : Nat := 1000

end Time

/-- The method `URI.Consumes` of `helpers.go`; `none` is the nil pointer. -/
def URI.Consumes (u v : Option URI) : Bool :=
  match u, v with
  | none, none => true
  | none, some _ => false
  | some _, none => false
  | some u, some v => u.Target = v.Target && u.XMLName = v.XMLName

/-- The method `DateConstruct.Set` of `helpers.go` on a non-nil receiver. -/
def DateConstruct.Set (d : DateConstruct) (t : Time) : DateConstruct := { d with T := t }

/-- How a run of `xml.Decoder` ends: `Token` returns `io.EOF` from then on,
or a syntax or read error from then on. -/
inductive DecoderEnd where
  | EOF
  | error (msg : String)
  deriving DecidableEq, Repr

/-- A token returned by `Decoder.Token`: an `xml.StartElement` with its name,
or a token of another type. -/
inductive XmlToken where
  | StartElement (name : Name)
  | other
  deriving DecidableEq, Repr

/-- A run of `xml.NewDecoder(...)` over some bytes: the tokens that the
successive calls of `Token` return, and the way the run ends. -/
structure DecoderRun where
  tokens : List XmlToken
  ending : DecoderEnd
  deriving DecidableEq, Repr

/-- Model of `bytes.Map` with the mapping of `preparePutContent`, which drops
the rune `\n` and keeps every other rune: each decoded rune is written back
encoded, an invalid byte as U+FFFD; `skip` counts the bytes of the current
rune still to pass over. -/
def dropNewlinesFrom : Nat → Bytes → Bytes
  | _, [] => []
  | skip + 1, _ :: rest => dropNewlinesFrom skip rest
  | 0, b :: rest =>
    let rw := utf8.DecodeRune (b :: rest)
    (if rw.1 = 10 then [] else utf8.EncodeRune rw.1) ++ dropNewlinesFrom (rw.2 - 1) rest

/-- The namespace of XHTML. -/
def xhtml_xmlns : Bytes := ascii "http://www.w3.org/1999/xhtml"

/-- The `for` loop of `preparePutContent` over the tokens that follow the
first: `some none` when the loop is left at `io.EOF`, `some (some e)` when it
returns the error `e`, and `none` when it never ends: after the tokens the
decoder returns an error other than `io.EOF` on every call, and the loop
continues on each. -/
def putContentLoop (ending : DecoderEnd) : List XmlToken → Option (Option String)
  | [] =>
    match ending with
    | .EOF => some none
    | .error _ => none
  | .other :: rest => putContentLoop ending rest
  | .StartElement name :: rest =>
    if name.Local = ascii "p" ∨ name.Local = ascii "a" then putContentLoop ending rest
    else some (some ("tag " ++ String.mk (name.Local.map Char.ofNat) ++ " not allowed"))

/-- The function `preparePutContent` of `backend.go`, `decode` giving the run
of the XML decoder over the bytes it is created on.  The result is `none`
when the function does not return. -/
def preparePutContent (decode : Bytes → DecoderRun) (innerxml : Bytes) :
    Option (Except String Bytes) :=
  let innerxml := dropNewlinesFrom 0 innerxml
  let run := decode innerxml
  match run.tokens with
  | [] =>
    match run.ending with
    | .EOF => some (.error "EOF")
    | .error msg => some (.error msg)
  | .other :: _ => some (.error "content does not start with xhtml div")
  | .StartElement name :: rest =>
    if name.Space ≠ xhtml_xmlns ∨ name.Local ≠ ascii "div" then
      some (.error "content does not start with xhtml div")
    else
      match putContentLoop run.ending rest with
      | none => none
      | some (some e) => some (.error e)
      | some none => some (.ok innerxml)

/-- The interface `Storer` of `storer.go` over a store state `σ`: each method
returns the new state and the error, `none` when nil.  `AddEntry` also
receives the Source object the entry points to. -/
structure Storer (σ : Type) where
  AddEntry : σ → Entry → Option Source → σ × Option String
  DeleteEntry : σ → Entry → Option Source → σ × Option String
  AddSource : σ → Option Source → σ × Option String
  DeleteSource : σ → Option Source → σ × Option String
  Commit : σ → Bytes → σ × Option String

/-- The type `Backend`.  `heap` holds the Source objects, a `SourcePtr` being
an index into it; the maps are association lists; a slot of `collections`
(the list `serviceDocument.Workspaces[0].Collections`) is nil or points to the
`Collection` object kept in a Source. -/
structure Backend (σ : Type) where
  heap : List Source
  sourcemap : List (Bytes × SourcePtr)
  entrymap : List (Bytes × Entry)
  collections : List (Option SourcePtr)
  storer : σ

/-- The fields of `http.Request` that the backend reads. -/
structure Request where
  Method : Bytes
  Path : Bytes
  deriving DecidableEq, Repr

/-- The assignment `m[key] = value` on a map kept as an association list. -/
def mapSet {α : Type} (m : List (Bytes × α)) (key : Bytes) (value : α) : List (Bytes × α) :=
  match m with
  | [] => [(key, value)]
  | (k, v) :: rest => if k = key then (key, value) :: rest else (k, v) :: mapSet rest key value

/-- The message `fmt.Sprintf("%s %s", r.Method, r.URL.Path)`. -/
def commitMessage (r : Request) : Bytes := r.Method ++ [32] ++ r.Path

/-- The calls `AddSource` and `Commit` that end `PutFeed`, with the error
they make of a failure. -/
def storeSource {σ : Type} (S : Storer σ) (b : Backend σ) (r : Request) (v : Source) :
    Backend σ × Option HTTPError :=
  match S.AddSource b.storer (some v) with
  | (s1, some e) => ({ b with storer := s1 }, some { code := 500, message := e })
  | (s1, none) =>
    match S.Commit s1 (commitMessage r) with
    | (s2, some e) => ({ b with storer := s2 }, some { code := 500, message := e })
    | (s2, none) => ({ b with storer := s2 }, none)

/-- The method `Backend.PutFeed` of `backend.go`, `now` being the reading of
`time.Now()` and `new_feed` a non-nil feed: the new backend and the error,
`none` when nil.  The result is `none` when the call panics on a nil
pointer. -/
def Backend.PutFeed {σ : Type} (S : Storer σ) (now : Time) (b : Backend σ) (r : Request)
    (new_feed : Feed) : Option (Backend σ × Option HTTPError) :=
  match b.sourcemap.lookup r.Path with
  | none => some (b, some { code := 404, message := "" })
  | some ptr =>
    match b.heap[ptr]? with
    | none => none
    | some v =>
      if !URI.Consumes v.Id new_feed.Id then
        some (b, some { code := 400, message := "cannot change the URI of the feed" })
      else
        match v.Collection with
        | none => none
        | some c =>
          let v1 : Source :=
            { v with
              Collection := some { c with
                Title := new_feed.Title
                Categories := [{ Fixed := [], Scheme := [], Href := [],
                                 Categories := new_feed.Categories }] }
              Authors := new_feed.Authors
              Contributors := new_feed.Contributors
              Title := new_feed.Title
              Subtitle := new_feed.Subtitle
              Icon := new_feed.Icon
              Logo := new_feed.Logo
              Links := new_feed.Links
              Rights := new_feed.Rights
              Categories := new_feed.Categories
              Updated := v.Updated.map (fun d => d.Set (now.Round Time.Microsecond)) }
          some (storeSource S { b with heap := b.heap.set ptr v1 } r v1)

/-- The calls `AddEntry`, `AddSource` and `Commit` that end `PutEntry`. -/
def storeEntry {σ : Type} (S : Storer σ) (b : Backend σ) (r : Request) (entry : Entry)
    (source : Source) : Backend σ × Option HTTPError :=
  match S.AddEntry b.storer entry (some source) with
  | (s1, some e) => ({ b with storer := s1 }, some { code := 500, message := e })
  | (s1, none) => storeSource S { b with storer := s1 } r source

/-- The method `Backend.PutEntry` of `backend.go`, `now1` and `now2` being
the two readings of `time.Now()` and `decode` the XML decoder: the new backend
and the error, `none` when nil.  The stored entry is changed in place, so a
return after the first assignments leaves them in the model.  The result is
`none` when the call does not return. -/
def Backend.PutEntry {σ : Type} (S : Storer σ) (decode : Bytes → DecoderRun) (now1 now2 : Time)
    (b : Backend σ) (r : Request) (new_entry : Entry) : Option (Backend σ × Option HTTPError) :=
  match b.entrymap.lookup r.Path with
  | none => some (b, some { code := 404, message := "" })
  | some entry =>
    match entry.Source with
    | none => some (b, some { code := 500, message := "nil pointer dereference" })
    | some ptr =>
      match b.heap[ptr]? with
      | none => none
      | some source =>
        match source.Updated with
        | none => some (b, some { code := 500, message := "nil pointer dereference" })
        | some updated =>
          if !URI.Consumes (some entry.Id) (some new_entry.Id) then
            some (b, some { code := 400, message := "cannot change the URI of the entry" })
          else
            let entry1 := { entry with Updated := entry.Updated.Set (now1.Round Time.Second) }
            let source1 :=
              { source with Updated := some (updated.Set (now2.Round Time.Microsecond)) }
            let put (e : Entry) : Backend σ :=
              { b with heap := b.heap.set ptr source1, entrymap := mapSet b.entrymap r.Path e }
            if entry1.Title.«Type» ≠ ascii "text" ∧ entry1.Title.«Type» ≠ [] then
              some (put entry1, some { code := 400, message := "title type must be \"text\"" })
            else
              let entry2 := { entry1 with Title := new_entry.Title }
              if entry2.Summary.any (fun s => s.«Type» ≠ ascii "text" ∧ s.«Type» ≠ []) then
                some (put entry2,
                  some { code := 400, message := "summary type must be \"text\"" })
              else
                let entry3 := { entry2 with Summary := new_entry.Summary }
                if entry3.Rights.any (fun s => s.«Type» ≠ ascii "text" ∧ s.«Type» ≠ []) then
                  some (put entry3,
                    some { code := 400, message := "rights type must be \"text\"" })
                else
                  let entry4 :=
                    { entry3 with
                      Rights := new_entry.Rights
                      Authors := new_entry.Authors
                      Contributors := new_entry.Contributors
                      Control := new_entry.Control
                      Links := new_entry.Links
                      Categories := new_entry.Categories }
                  if new_entry.Content.«Type» ≠ ascii "xhtml" then
                    some (put entry4,
                      some { code := 400, message := "cannot change content type from xhtml" })
                  else if new_entry.Content.Src ≠ [] then
                    some (put entry4, some { code := 400, message := "content must be inline" })
                  else
                    match preparePutContent decode (new_entry.Content.Body.getD []) with
                    | none => none
                    | some (.error e) => some (put entry4, some { code := 400, message := e })
                    | some (.ok body) =>
                      let entry5 :=
                        { entry4 with Content := { new_entry.Content with Body := some body } }
                      some (storeEntry S (put entry5) r entry5 source1)

/-! ### A small backend, for concrete instances -/

/-- A storer none of whose methods fails, over a store without state. -/
def okStorer : Storer Unit :=
  { AddEntry := fun s _ _ => (s, none)
    DeleteEntry := fun s _ _ => (s, none)
    AddSource := fun s _ => (s, none)
    DeleteSource := fun s _ => (s, none)
    Commit := fun s _ => (s, none) }

/-- A decoder run over a single `div` start element of XHTML and its end. -/
def divDecoder : Bytes → DecoderRun :=
  fun _ => { tokens := [.StartElement ⟨xhtml_xmlns, ascii "div"⟩, .other], ending := .EOF }

/-- The id element with the given text. -/
def atomId (target : String) : URI := ⟨⟨atom_xmlns, ascii "id"⟩, ascii target⟩

/-- The updated element with the given time. -/
def atomUpdated (t : Time) : DateConstruct := ⟨⟨atom_xmlns, ascii "updated"⟩, t⟩

/-- A Source as `PostToRoot` creates it, at `/feed/1`. -/
def sampleSource : Source :=
  { Id := some (atomId "urn:uuid:00000000-0000-4000-8000-000000000001")
    Updated := some (atomUpdated ⟨1739525592, 546909000, 0⟩)
    Authors := [⟨⟨atom_xmlns, ascii "author"⟩, ascii "John Doe", none⟩]
    Title := some ⟨⟨atom_xmlns, ascii "title"⟩, ascii "text", ascii "test microblog"⟩
    Links := [], Categories := [], Contributors := [], Icon := none, Logo := none,
    Generator := none, Subtitle := none, Rights := none
    Collection := some
      { Href := ascii "/feed/1"
        Title := some ⟨⟨atom_xmlns, ascii "title"⟩, ascii "text", ascii "test microblog"⟩
        Categories := [⟨[], [], [], []⟩], Accepts := [⟨ascii "text/plain"⟩] } }

/-- An Entry as `PostToFeed` creates it, owned by `sampleSource`. -/
def sampleEntry : Entry :=
  { Entry.zeroWith (atomId "urn:uuid:00000000-0000-4000-8000-000000000002")
      (atomUpdated ⟨1739525600, 0, 0⟩) with
    Title := ⟨⟨atom_xmlns, ascii "title"⟩, [], ascii "Untitled"⟩
    Content := ⟨ascii "xhtml", [], some (xhtmlOpen ++ ascii "hello</p></div>")⟩
    Source := some 0 }

/-- A backend holding `sampleSource` and `sampleEntry`. -/
def sampleBackend : Backend Unit :=
  { heap := [sampleSource], sourcemap := [(ascii "/feed/1", 0)],
    entrymap := [(ascii "/entry/2", sampleEntry)], collections := [some 0], storer := () }

/-! ### A feed whose ETag survives a PUT -/

/-- The value `&Feed{...}` that `GetFeed` returns for the Source `source` and
the sorted entries `entry_ptrs`. -/
def feedOf (source : Source) (entry_ptrs : List Entry) : Feed :=
  { Id := source.Id, Authors := source.Authors, Updated := source.Updated,
    Rights := source.Rights, Links := source.Links, Title := source.Title,
    Subtitle := source.Subtitle, Icon := source.Icon, Logo := source.Logo,
    Categories := source.Categories, Entries := entry_ptrs,
    Contributors := [], Generator := none, Collection := none }

/-- A backend whose only feed was last updated at 2024-10-07T23:26:19.178077Z. -/
def collisionBackend : Backend Unit :=
  { heap := [{ sampleSource with Updated := some (atomUpdated ⟨1728343579, 178077000, 0⟩) }],
    sourcemap := [(ascii "/feed/1", 0)], entrymap := [], collections := [some 0], storer := () }

/-- A feed document submitted by PUT to `/feed/1`, as `putFeed` of
`handler.go` passes it on: the id and the updated element are those of the
stored feed, and it has a title, an author and a link with the relation
`self`. -/
def collisionFeed : Feed :=
  { Feed.zeroWith (some (atomId "urn:uuid:00000000-0000-4000-8000-000000000001"))
      (some (atomUpdated ⟨1728343579, 178077000, 0⟩)) with
    Title := some ⟨⟨atom_xmlns, ascii "title"⟩, ascii "text", ascii "renamed microblog"⟩
    Authors := [⟨⟨atom_xmlns, ascii "author"⟩, ascii "John Doe", none⟩]
    Links := [⟨ascii "/feed/1", ascii "self", [], [], [], 0⟩] }

/-! ## A long input for `preparePlainText`

The text ` tel:000 tel:001 … tel:998 tel: http://x`: 999 different telephone
links, then the link `tel:` with an empty tail, then an `http` link. -/

/-- The three decimal digits of `i`, for `i < 1000`. -/
def threeDigits (i : Nat) : Bytes := [48 + i / 100, 48 + i / 10 % 10, 48 + i % 10]

/-- The URL `tel:ddd` as `fmt.Sprintf("%s:%s", v, after)` builds it. -/
def telUrl (i : Nat) : Bytes := ascii "tel" ++ [58] ++ threeDigits i

/-- The text of `c` links ` tel:ddd` numbered from `s`. -/
def telLinks : Nat → Nat → Bytes
  | _, 0 => []
  | s, c + 1 => ascii " tel:" ++ threeDigits s ++ telLinks (s + 1) c

/-- The text of `c` markers ` [k]` numbered from `s + 1`. -/
def telMarkers : Nat → Nat → Bytes
  | _, 0 => []
  | s, c + 1 => [32] ++ marker (s + 1) ++ telMarkers (s + 1) c

/-- The URLs `tel:000`, `tel:001`, … below `n`. -/
def telUrls (n : Nat) : List Bytes := (List.range n).map telUrl

/-- The input ` tel:000 tel:001 … tel:998 tel: http://x`. -/
def manyLinksInput : Bytes := telLinks 0 999 ++ ascii " tel: http://x"

/-! ## `validate.go` -/

namespace mime

/-- The library's `isTokenChar`, on a byte: a byte of a multi-byte rune is
not a token character. -/
def isTokenChar (b : Nat) : Bool :=
  0x20 < b && b < 0x7f && !(ascii "()<>@,;:\\\"/[]?=").contains b

/-- The library's `consumeToken`. -/
def consumeToken (v : Bytes) : Bytes × Bytes := (v.takeWhile isTokenChar, v.dropWhile isTokenChar)

/-- The library's `checkMediaTypeDisposition`: the error, `none` when nil. -/
def checkMediaTypeDisposition (s : Bytes) : Option String :=
  match consumeToken s with
  | ([], _) => some "mime: no media type"
  | (_, []) => none
  | (_, c :: rest) =>
    if c ≠ 47 then some "mime: expected slash after first token"
    else
      match consumeToken rest with
      | ([], _) => some "mime: expected token after slash"
      | (_, []) => none
      | (_, _ :: _) => some "mime: unexpected content after media subtype"

/-- The function `strings.ToLower` on ASCII text. -/
def toLower (s : Bytes) : Bytes := s.map (fun b => if 65 ≤ b ∧ b ≤ 90 then b + 32 else b)

/-- The white space of `strings.TrimSpace` among the ASCII bytes. -/
def isSpace (b : Nat) : Bool := b = 9 || b = 10 || b = 11 || b = 12 || b = 13 || b = 32

/-- The function `strings.TrimSpace` on ASCII text. -/
def trimSpace (s : Bytes) : Bytes :=
  ((s.dropWhile isSpace).reverse.dropWhile isSpace).reverse

/-- Model of `mime.ParseMediaType` for an ASCII text `v` that holds no
parameter (no `;`): the media type in lower case, or the error.  The text
after a `;` is not examined. -/
def ParseMediaType (v : Bytes) : Except String Bytes :=
  let mediatype := trimSpace (toLower (v.takeWhile (fun b => b ≠ 59)))
  match checkMediaTypeDisposition mediatype with
  | some e => .error e
  | none => .ok mediatype

end mime

/-- The relations that `Link.Validate` returns as they are. -/
def knownRelations : List Bytes :=
  [ascii "self", ascii "related", ascii "alternate", ascii "enclosure", ascii "via",
    ascii "edit", ascii "edit-media"]

/-- The method `Link.Validate` of `validate.go`: the relation, or the error;
`none` is the nil pointer. -/
def Link.Validate (l : Option Link) : Except String Bytes :=
  match l with
  | none => .error "nil link"
  | some l =>
    if l.Href = [] then .error "empty href"
    else if !url.Parse l.Href then .error "url.Parse"
    else if l.Relation = [] then .ok (ascii "alternate")
    else if l.Relation ∈ knownRelations then .ok l.Relation
    else .error "unknown link relation"

/-- The inline content types that `Content.Validate` accepts without parsing
them. -/
def plainContentTypes : List Bytes := [[], ascii "text", ascii "html", ascii "xhtml"]

/-- The method `Content.Validate` of `validate.go`, `ParseMediaType` giving
the media type that `mime.ParseMediaType` returns, or its error: the results
`needs_alternate_link` and `needs_summary`, or the error; `none` is the nil
pointer. -/
def Content.Validate (ParseMediaType : Bytes → Except String Bytes) (c : Option Content) :
    Except String (Bool × Bool) :=
  match c with
  | none => .ok (true, false)
  | some c =>
    if c.Src ≠ [] then
      if !url.Parse c.Src then .error "url.Parse"
      else
        match ParseMediaType c.«Type» with
        | .error e => .error e
        | .ok _ =>
          if c.Body ≠ none then .error "body must be empty if src is set" else .ok (false, true)
    else if c.«Type» ∈ plainContentTypes then .ok (false, false)
    else
      match ParseMediaType c.«Type» with
      | .error e => .error e
      | .ok mt =>
        if (ascii "text/").isPrefixOf mt then .ok (false, false)
        else if (ascii "/xml").isSuffixOf mt || (ascii "+xml").isSuffixOf mt then
          .ok (false, false)
        else .ok (false, true)

/-- The test `n.XMLName.Local != local || n.XMLName.Space != space`. -/
def Name.isNot (n : Name) (loc space : Bytes) : Bool := n.Local ≠ loc || n.Space ≠ space

/-- A loop `for _, a := range persons` of `validate.go` that returns the error
`msg` at the first person whose XML name is not `loc` in the Atom namespace;
`count` tells whether the loop sets `has_author` after each person.  The
result is the new `has_author` and whether the loop returned. -/
def validatePersons (loc : Bytes) (count : Bool) : Bool → List Person → Bool × Bool
  | has_author, [] => (has_author, false)
  | has_author, a :: rest =>
    if a.XMLName.isNot loc atom_xmlns then (has_author, true)
    else validatePersons loc count (has_author || count) rest

/-- The loop `for _, l := range s.Links` of `Source.Validate`: the first
error, `none` when every link validates. -/
def validateLinks : List Link → Option String
  | [] => none
  | l :: rest =>
    match Link.Validate (some l) with
    | .error e => some e
    | .ok _ => validateLinks rest

/-- The method `Source.Validate` of `validate.go`: the results `has_author`
and `err`, `none` when nil. -/
def Source.Validate (s : Option Source) (feed_id : Option URI) : Bool × Option String :=
  match s with
  | none => (false, none)
  | some s =>
    if URI.Consumes feed_id s.Id then (false, none)
    else if s.Updated.any (fun n => n.XMLName.isNot (ascii "updated") atom_xmlns) then
      (false, some "error: bad updated xml element")
    else if !s.Id.any (fun n => !n.XMLName.isNot (ascii "id") atom_xmlns) then
      (false, some "error: bad id xml element")
    else if s.Icon.any (fun n => n.XMLName.isNot (ascii "icon") atom_xmlns) then
      (false, some "error: bad icon xml name")
    else if s.Logo.any (fun n => n.XMLName.isNot (ascii "logo") atom_xmlns) then
      (false, some "error: bad logo xml name")
    else if s.Rights.any (fun n => n.XMLName.isNot (ascii "rights") atom_xmlns) then
      (false, some "error: bad rights xml name")
    else if s.Subtitle.any (fun n => n.XMLName.isNot (ascii "subtitle") atom_xmlns) then
      (false, some "error: bad subtitle xml name")
    else if s.Title.any (fun n => n.XMLName.isNot (ascii "title") atom_xmlns) then
      (false, some "error: bad title xml name")
    else
      match validatePersons (ascii "author") true false s.Authors with
      | (has_author, true) => (has_author, some "error: bad author xml name")
      | (has_author, false) =>
        match validatePersons (ascii "contributor") false has_author s.Contributors with
        | (_, true) => (has_author, some "error: bad contributor xml name")
        | (_, false) => (has_author, validateLinks s.Links)

/-- The loop `for _, l := range t.Links` of `Entry.Validate`, `nal` being
`needs_alternate_link`: its new value, or the error of the first link that
does not validate. -/
def entryLinks : Bool → List Link → Except String Bool
  | nal, [] => .ok nal
  | nal, l :: rest =>
    match Link.Validate (some l) with
    | .error e => .error e
    | .ok rel => entryLinks (if rel = ascii "alternate" then false else nal) rest

/-- The last `else` block of `Entry.Validate`, with the results of
`Content.Validate`: the results `has_author` and `err` and whether the block
returned. -/
def Entry.validateRest (t : Entry) (has_author nal ns : Bool) : Bool × Option String × Bool :=
  if t.Summary = none ∧ ns = true then (has_author, some "needs summary", true)
  else
    match entryLinks nal t.Links with
    | .error e => (has_author, some e, true)
    | .ok true => (has_author, some "needs link with rel=alternate", true)
    | .ok false =>
      match validatePersons (ascii "author") true has_author t.Authors with
      | (ha, true) => (ha, some "error: bad author xml name", true)
      | (ha, false) =>
        match validatePersons (ascii "contributor") false ha t.Contributors with
        | (_, true) => (ha, some "error: bad contributor xml name", true)
        | (_, false) => (ha, none, false)

/-- The method `Entry.Validate` of `validate.go`, `source` being the Source
object `t.Source` points to (`none` when nil): the results `has_author` and
`err`, `none` when nil. -/
def Entry.Validate (ParseMediaType : Bytes → Except String Bytes)
    (source : Option AtomPub.Source)
    (t : Option Entry) (feed_id : Option URI) : Bool × Option String :=
  match t with
  | none => (false, none)
  | some t =>
    let last (has_author : Bool) (err : Option String) : Bool × Option String :=
      if feed_id = none ∧ has_author = false then (has_author, some "error: entry needs author")
      else (has_author, err)
    if t.Title.Text = [] then last false (some "error: empty title")
    else if t.Updated.XMLName.isNot (ascii "updated") atom_xmlns then
      last false (some "error: bad updated xml name")
    else if t.Id.XMLName.isNot (ascii "id") atom_xmlns then
      last false (some "error: bad id xml name")
    else if t.Published.any (fun n => n.XMLName.isNot (ascii "published") atom_xmlns) then
      last false (some "error: bad published xml name")
    else if t.Edited.any (fun n => n.XMLName.isNot (ascii "edited") app_xmlns) then
      last false (some "error: bad edited xml name")
    else
      match Source.Validate source feed_id with
      | (has_author, some e) => last has_author (some e)
      | (has_author, none) =>
        match Content.Validate ParseMediaType (some t.Content) with
        | .error e => last has_author (some e)
        | .ok (nal, ns) =>
          match t.validateRest has_author nal ns with
          | (ha, err, true) => (ha, err)
          | (ha, err, false) => last ha err

/-- The Source object a pointer refers to, `none` for the nil pointer. -/
def deref (heap : List Source) (p : Option SourcePtr) : Option Source :=
  p.bind (fun i => heap[i]?)

/-- The loop `for _, t := range f.Entries` of `Feed.Validate`: the new
`needs_author`, or the error of the first entry that does not validate. -/
def feedEntries (ParseMediaType : Bytes → Except String Bytes) (heap : List Source)
    (feed_id : Option URI) : Bool → List Entry → Except String Bool
  | needs_author, [] => .ok needs_author
  | needs_author, t :: rest =>
    match Entry.Validate ParseMediaType (deref heap t.Source) (some t) feed_id with
    | (_, some e) => .error e
    | (ha, none) => feedEntries ParseMediaType heap feed_id (needs_author || !ha) rest

/-- The loop `for _, l := range f.Links` of `Feed.Validate`, `needs_self`
being the flag: its new value, or the error of the first link that does not
validate. -/
def feedLinks : Bool → List Link → Except String Bool
  | needs_self, [] => .ok needs_self
  | needs_self, l :: rest =>
    match Link.Validate (some l) with
    | .error e => .error e
    | .ok rel => feedLinks (if rel = ascii "self" then false else needs_self) rest

/-- The method `Feed.Validate` of `validate.go`, `heap` holding the Source
objects that the entries of the feed point to: the error, `none` when nil. -/
def Feed.Validate (ParseMediaType : Bytes → Except String Bytes) (heap : List Source)
    (f : Option Feed) : Option String :=
  match f with
  | none => none
  | some f =>
    if !f.Title.any (fun t => t.Text ≠ []) then some "error: empty title"
    else if !f.Updated.any (fun n => !n.XMLName.isNot (ascii "updated") atom_xmlns) then
      some "error: bad updated element"
    else if !f.Id.any (fun n => !n.XMLName.isNot (ascii "id") atom_xmlns) then
      some "error: bad id element"
    else if f.Icon.any (fun n => n.XMLName.isNot (ascii "icon") atom_xmlns) then
      some "error: bad icon element"
    else if f.Logo.any (fun n => n.XMLName.isNot (ascii "logo") atom_xmlns) then
      some "error: bad logo element"
    else if f.Rights.any (fun n => n.XMLName.isNot (ascii "rights") atom_xmlns) then
      some "error: bad rights element"
    else if f.Subtitle.any (fun n => n.XMLName.isNot (ascii "subtitle") atom_xmlns) then
      some "error: bad subtitle element"
    else if f.Title.any (fun n => n.XMLName.isNot (ascii "title") atom_xmlns) then
      some "error: bad title element"
    else
      match feedEntries ParseMediaType heap f.Id false f.Entries with
      | .error e => some e
      | .ok needs_author =>
        if needs_author ∧ f.Authors.length = 0 then some "error: feed needs author"
        else
          match validatePersons (ascii "author") false false f.Authors with
          | (_, true) => some "error: bad author xml name"
          | (_, false) =>
            match validatePersons (ascii "contributor") false false f.Contributors with
            | (_, true) => some "error: bad contributor xml name"
            | (_, false) =>
              match feedLinks true f.Links with
              | .error e => some e
              | .ok true => some "needs link with self relation"
              | .ok false => none

/-! ## `encoding/xml`: the tokens of a `Decoder`

A model of `xml.NewDecoder(r).Token()` in its default strict mode for texts
made of start tags with quoted attributes, end tags and character data with
entity references, all names being ASCII.  Comments, processing instructions,
CDATA sections and directives (markup that starts with `<!` or `<?`) are
outside the model, as is the wording of the syntax errors. -/

namespace xml

/-- The library's `isNameByte`. -/
def isNameByte (c : Nat) : Bool :=
  (65 ≤ c && c ≤ 90) || (97 ≤ c && c ≤ 122) || (48 ≤ c && c ≤ 57) || c = 95 || c = 58
    || c = 46 || c = 45

/-- The library's `isName` on an ASCII name. -/
def isName : Bytes → Bool
  | [] => false
  | c :: rest =>
    ((65 ≤ c && c ≤ 90) || (97 ≤ c && c ≤ 122) || c = 95 || c = 58) && rest.all isNameByte

/-- The library's `nsname`: the name read, split at its colon into prefix and
local part, and the rest of the input; `none` when there is no valid name. -/
def nsname (s : Bytes) : Option (Name × Bytes) :=
  let nm := s.takeWhile isNameByte
  let rest := s.dropWhile isNameByte
  if !isName nm then none
  else if nm.count 58 > 1 then some (⟨[], nm⟩, rest)
  else
    match nm.indexOf? 58 with
    | none => some (⟨[], nm⟩, rest)
    | some i =>
      if i = 0 ∨ i + 1 = nm.length then some (⟨[], nm⟩, rest)
      else some (⟨nm.take i, nm.drop (i + 1)⟩, rest)

/-- The library's `space`: skips blanks, carriage returns, newlines, tabs. -/
def skipSpace (s : Bytes) : Bytes :=
  s.dropWhile (fun b => b = 32 || b = 13 || b = 10 || b = 9)

/-- The value of a run of digits in the given base. -/
def digitsValue (base : Nat) (ds : Bytes) : Nat :=
  ds.foldl (fun n d => n * base + url.unhex d) 0

/-- The entity reference that follows a `&`: the text it stands for and the
rest of the input, `none` when the reference is invalid. -/
def entityRef (s : Bytes) : Option (Bytes × Bytes) :=
  match s with
  | 35 :: r1 =>
    let base := if r1.head? = some 120 then 16 else 10
    let r2 := if r1.head? = some 120 then r1.drop 1 else r1
    let isDigit := fun b => (48 ≤ b && b ≤ 57)
      || (base = 16 && ((97 ≤ b && b ≤ 102) || (65 ≤ b && b ≤ 70)))
    let ds := r2.takeWhile isDigit
    match r2.dropWhile isDigit with
    | 59 :: r3 =>
      let n := digitsValue base ds
      if ds = [] ∨ 0x10FFFF < n then none
      else some (utf8.EncodeRune n, r3)
    | _ => none
  | _ =>
    let nm := s.takeWhile (fun b => isNameByte b || 0x80 ≤ b)
    match s.dropWhile (fun b => isNameByte b || 0x80 ≤ b) with
    | 59 :: r3 =>
      if nm = ascii "lt" then some ([60], r3)
      else if nm = ascii "gt" then some ([62], r3)
      else if nm = ascii "amp" then some ([38], r3)
      else if nm = ascii "apos" then some ([39], r3)
      else if nm = ascii "quot" then some ([34], r3)
      else none
    | _ => none

/-- The runes of `data` are valid UTF-8 and in the character range of XML;
`skip` counts the bytes of the current rune still to pass over. -/
def charsOk : Nat → Bytes → Bool
  | _, [] => true
  | skip + 1, _ :: rest => charsOk skip rest
  | 0, b :: rest =>
    let rw := utf8.DecodeRune (b :: rest)
    if rw.1 = utf8.RuneError ∧ rw.2 = 1 then false
    else isInCharacterRange rw.1 && charsOk (rw.2 - 1) rest

/-- The loop of the library's `text(quote, false)`: the data read so far is
`acc`, the last two bytes are `b0` and `b1`.  The result is the data and the
rest of the input, `none` on a syntax error.  Unquoted text ends in front of a
`<` or at the end of the input, quoted text behind the quote. -/
def textLoop (quote : Option Nat) : Nat → Nat → Nat → Bytes → Bytes → Option (Bytes × Bytes)
  | 0, _, _, _, _ => none
  | _ + 1, _, _, acc, [] => some (acc, [])
  | fuel + 1, b0, b1, acc, b :: rest =>
    if quote = some b then some (acc, rest)
    else if b = 60 then (if quote.isSome then none else some (acc, b :: rest))
    else if b0 = 93 ∧ b1 = 93 ∧ b = 62 then none
    else if b = 38 then
      match entityRef rest with
      | none => none
      | some (text, r) =>
        if r.length < (b :: rest).length then textLoop quote fuel 0 0 (acc ++ text) r else none
    else if b = 13 then textLoop quote fuel b1 b (acc ++ [10]) rest
    else if b1 = 13 ∧ b = 10 then textLoop quote fuel b1 b acc rest
    else textLoop quote fuel b1 b (acc ++ [b]) rest

/-- The library's `text(quote, false)`. -/
def text (quote : Option Nat) (s : Bytes) : Option (Bytes × Bytes) :=
  match textLoop quote (s.length + 1) 0 0 [] s with
  | none => none
  | some (data, rest) => if charsOk 0 data then some (data, rest) else none

/-- The attributes of a start tag: the loop of `rawToken` that reads them.
The result is the attributes, whether the tag ends in `/>`, and the rest of
the input, `none` on a syntax error. -/
def attrs : Nat → List (Name × Bytes) → Bytes → Option (List (Name × Bytes) × Bool × Bytes)
  | 0, _, _ => none
  | fuel + 1, acc, s =>
    match skipSpace s with
    | [] => none
    | 47 :: r => (match r with
      | 62 :: r1 => some (acc, true, r1)
      | _ => none)
    | 62 :: r => some (acc, false, r)
    | c :: r =>
      match nsname (c :: r) with
      | none => none
      | some (name, r1) =>
        match skipSpace r1 with
        | 61 :: r2 =>
          (match skipSpace r2 with
          | q :: r3 =>
            if q = 34 ∨ q = 39 then
              match text (some q) r3 with
              | none => none
              | some (value, r4) => attrs fuel (acc ++ [(name, value)]) r4
            else none
          | [] => none)
        | _ => none

/-- The name space bindings of a start tag: the attributes `xmlns:p` and
`xmlns` bind the prefix `p` and the empty prefix. -/
def bind (ns : List (Bytes × Bytes)) : List (Name × Bytes) → List (Bytes × Bytes)
  | [] => ns
  | (name, value) :: rest =>
    if name.Space = ascii "xmlns" then bind ((name.Local, value) :: ns) rest
    else if name.Space = [] ∧ name.Local = ascii "xmlns" then bind (([], value) :: ns) rest
    else bind ns rest

/-- The library's `translate(n, true)` of an element name. -/
def translate (ns : List (Bytes × Bytes)) (n : Name) : Name :=
  if n.Space = ascii "xmlns" then n
  else if n.Space = [] ∧ n.Local = ascii "xmlns" then n
  else
    let space := if n.Space = ascii "xml" then ascii "http://www.w3.org/XML/1998/namespace"
      else n.Space
    match ns.lookup space with
    | some v => ⟨v, n.Local⟩
    | none => ⟨space, n.Local⟩

/-- The successive results of `Token`: `ns` holds the name space bindings in
force and `stack` the open elements, each with the bindings to restore when
it is closed. -/
def tokens : Nat → List (Bytes × Bytes) → List (Name × List (Bytes × Bytes)) → Bytes →
    List XmlToken × DecoderEnd
  | 0, _, _, _ => ([], .error "XML syntax error")
  | _ + 1, _, stack, [] =>
    if stack = [] then ([], .EOF) else ([], .error "XML syntax error: unexpected EOF")
  | fuel + 1, _, stack, 60 :: 47 :: r =>
    match nsname r with
    | none => ([], .error "XML syntax error: expected element name after </")
    | some (name, r1) =>
      match skipSpace r1, stack with
      | 62 :: r2, (open_, saved) :: stack1 =>
        if open_ ≠ name then ([], .error "XML syntax error: element closed by another")
        else
          let res := tokens fuel saved stack1 r2
          (.other :: res.1, res.2)
      | 62 :: _, [] => ([], .error "XML syntax error: unexpected end element")
      | _, _ => ([], .error "XML syntax error: invalid characters between </ and >")
  | fuel + 1, ns, stack, 60 :: r =>
    match nsname r with
    | none => ([], .error "XML syntax error: expected element name after <")
    | some (name, r1) =>
      match attrs (r1.length + 1) [] r1 with
      | none => ([], .error "XML syntax error in element")
      | some (as, empty, r2) =>
        let ns1 := bind ns as
        if empty then
          let res := tokens fuel ns stack r2
          (.StartElement (translate ns1 name) :: .other :: res.1, res.2)
        else
          let res := tokens fuel ns1 ((name, ns) :: stack) r2
          (.StartElement (translate ns1 name) :: res.1, res.2)
  | fuel + 1, ns, stack, b :: r =>
    match text none (b :: r) with
    | none => ([], .error "XML syntax error in character data")
    | some (_, r1) =>
      let res := tokens fuel ns stack r1
      (.other :: res.1, res.2)

/-- The run of `xml.NewDecoder(bytes.NewReader(s))`. -/
def decode (s : Bytes) : DecoderRun :=
  let res := tokens (s.length + 1) [] [] s
  { tokens := res.1, ending := res.2 }

end xml

/-! ## `backend.go`: creating and deleting -/

namespace url

/-- The value of the library's `unescape(s, encodePath)` on a text that passes
its checks: every `%XX` is replaced by the byte it stands for. -/
def unescapePath : Bytes → Bytes
  | [] => []
  | [c] => [c]
  | [c, d] => [c, d]
  | c :: h1 :: h2 :: rest =>
    if c = 37 then (unhex h1 * 16 + unhex h2) :: unescapePath rest
    else c :: unescapePath (h1 :: h2 :: rest)

/-- The text that the library's `parse` hands to `setPath`, for a `rawURL`
without fragment that parses. -/
def rawPath (rawURL : Bytes) : Bytes :=
  if rawURL = ascii "*" then rawURL
  else
    match getScheme rawURL with
    | none => []
    | some (scheme, rest0) =>
      let rest :=
        match rest0.indexOf? 63 with
        | none => rest0
        | some q => rest0.take q
      if rest.head? ≠ some 47 ∧ scheme ≠ [] then []
      else if (ascii "//").isPrefixOf rest
          && (scheme ≠ [] || !(ascii "///").isPrefixOf rest) then
        let authority0 := rest.drop 2
        match authority0.indexOf? 47 with
        | none => []
        | some i => authority0.drop i
      else rest

/-- The field `Path` of the URL that `url.Parse` returns, `none` when it
returns an error. -/
def ParsePath (rawURL : Bytes) : Option Bytes :=
  if Parse rawURL then
    some (unescapePath (rawPath (rawURL.takeWhile (fun b => b ≠ 35))))
  else none

end url

namespace uuid

/-- The positions of the sixteen pairs of hex digits in the text
`xxxxxxxx-xxxx-xxxx-xxxx-xxxxxxxxxxxx`. -/
def pairs : List Nat := [0, 2, 4, 6, 9, 11, 14, 16, 19, 21, 24, 26, 28, 30, 32, 34]

/-- The text of `UUID.String()` for the hex digits `ds` of the sixteen bytes. -/
def format (ds : Bytes) : Bytes :=
  let l := mime.toLower ds
  l.take 8 ++ [45] ++ (l.drop 8).take 4 ++ [45] ++ (l.drop 12).take 4 ++ [45]
    ++ (l.drop 16).take 4 ++ [45] ++ l.drop 20

/-- Model of `uuid.Parse(s)` of `github.com/google/uuid` followed by
`String()`: the canonical text of the UUID, `none` when `Parse` returns an
error.  The forms accepted are the text of 36 bytes, the same behind
`urn:uuid:` (in any case), the same inside two bytes that are not examined,
and 32 hex digits. -/
def Parse (s : Bytes) : Option Bytes :=
  let dashed (t : Bytes) : Option Bytes :=
    if t.getD 8 0 ≠ 45 ∨ t.getD 13 0 ≠ 45 ∨ t.getD 18 0 ≠ 45 ∨ t.getD 23 0 ≠ 45 then none
    else if pairs.all (fun x => url.ishex (t.getD x 0) && url.ishex (t.getD (x + 1) 0)) then
      some (format (pairs.flatMap (fun x => [t.getD x 0, t.getD (x + 1) 0])))
    else none
  if s.length = 36 then dashed s
  else if s.length = 45 then
    if mime.toLower (s.take 9) = ascii "urn:uuid:" then dashed (s.drop 9) else none
  else if s.length = 38 then dashed (s.drop 1)
  else if s.length = 32 then
    if s.all url.ishex then some (format s) else none
  else none

end uuid

/-- The function `strings.EqualFold` on ASCII texts. -/
def strings.EqualFold (s t : Bytes) : Bool := mime.toLower s = mime.toLower t

/-- The statement `delete(m, key)` on a map kept as an association list. -/
def mapDelete {α : Type} (m : List (Bytes × α)) (key : Bytes) : List (Bytes × α) :=
  m.filter (fun kv => kv.1 ≠ key)

/-- The backend that `NewBackend` returns over an empty store. -/
def Backend.empty {σ : Type} (storer : σ) : Backend σ :=
  { heap := [], sourcemap := [], entrymap := [], collections := [], storer := storer }

/-- The last loop of `PostToRoot`: the pointer is put into the first nil slot
of the collection list, and appended when there is none. -/
def fillSlot (p : SourcePtr) : List (Option SourcePtr) → List (Option SourcePtr)
  | [] => [some p]
  | none :: rest => some p :: rest
  | some q :: rest => some q :: fillSlot p rest

/-- The method `Backend.PostToRoot` of `backend.go`: `now` is the reading of
`time.Now()`, `fresh` the text of `uuid.NewString()`, `doc` holds the Source
objects that the entries of `new_feed` point to.  The results are the new
backend, the feed (the object `new_feed` as the call leaves it), the feed URL
and the error, `none` when nil. -/
def Backend.PostToRoot {σ : Type} (S : Storer σ) (ParseMediaType : Bytes → Except String Bytes)
    (now : Time) (fresh : Bytes) (doc : List Source) (b : Backend σ) (r : Request)
    (new_feed : Feed) : Backend σ × Feed × Bytes × Option HTTPError :=
  if new_feed.Title = none ∨ new_feed.Authors = [] then
    (b, new_feed, [],
      some { code := 400, message := "need to set <title> and <author> for new feeds" })
  else
    let uuid_string :=
      match new_feed.Id with
      | none => fresh
      | some id =>
        match uuid.Parse id.Target with
        | none => fresh
        | some u => u
    let feed_URL := ascii "/feed/" ++ uuid_string
    if (b.sourcemap.lookup feed_URL).isSome then
      (b, new_feed, feed_URL,
        some { code := 409, message := "feed with given URI already exists" })
    else
      let collection : Collection :=
        { Href := feed_URL, Title := new_feed.Title, Accepts := [⟨ascii "text/plain"⟩],
          Categories := [{ Fixed := [], Scheme := [], Href := [],
                           Categories := new_feed.Categories }] }
      let feed : Feed :=
        { new_feed with
          Id := some ⟨⟨atom_xmlns, ascii "id"⟩, ascii "urn:uuid:" ++ uuid_string⟩
          Updated := some ⟨⟨atom_xmlns, ascii "updated"⟩, now.Round Time.Microsecond⟩
          Collection := some collection }
      match Feed.Validate ParseMediaType doc (some feed) with
      | some e => (b, feed, feed_URL, some { code := 400, message := e })
      | none =>
        let source : Source :=
          { Id := feed.Id, Updated := feed.Updated, Authors := feed.Authors,
            Title := feed.Title, Links := feed.Links, Categories := feed.Categories,
            Icon := feed.Icon, Logo := feed.Logo, Subtitle := feed.Subtitle,
            Rights := feed.Rights, Contributors := feed.Contributors,
            Collection := feed.Collection, Generator := none }
        let b1 : Backend σ :=
          { b with heap := b.heap ++ [source],
                   sourcemap := mapSet b.sourcemap feed_URL b.heap.length }
        match storeSource S b1 r source with
        | (b2, some e) => (b2, feed, feed_URL, some e)
        | (b2, none) =>
          ({ b2 with collections := fillSlot b.heap.length b2.collections }, feed, feed_URL,
            none)

/-- The loop `for k, v := range b.entrymap` of `DeleteFeed` over the entries
still to visit, in the order of the iteration: `kept` holds the entries
visited and not deleted, `id` is the id of the deleted Source.  The results
are the new entry map, the store, the error, and whether the method returns
from inside the loop; `none` when an entry points to no Source object. -/
def deleteEntries {σ : Type} (S : Storer σ) (heap : List Source) (id : Option URI) :
    List (Bytes × Entry) → List (Bytes × Entry) → σ → Option HTTPError →
    Option (List (Bytes × Entry) × σ × Option HTTPError × Bool)
  | kept, [], s, err => some (kept, s, err, false)
  | kept, (k, v) :: rest, s, err =>
    match v.Source with
    | none =>
      some (kept ++ (k, v) :: rest, s,
        some { code := 500, message := "nil pointer dereference" }, true)
    | some p =>
      match heap[p]? with
      | none => none
      | some src =>
        if src.Id = none then
          some (kept ++ (k, v) :: rest, s,
            some { code := 500, message := "nil pointer dereference" }, true)
        else if !URI.Consumes id src.Id then
          deleteEntries S heap id (kept ++ [(k, v)]) rest s err
        else
          match S.DeleteEntry s v (some src) with
          | (s1, some e) =>
            deleteEntries S heap id (kept ++ [(k, v)]) rest s1
              (some { code := 500, message := e })
          | (s1, none) => deleteEntries S heap id kept rest s1 err

/-- The loop `for k, v := range b.serviceDocument.Workspaces[0].Collections`
of `DeleteFeed`: the new slots and whether the method returns from inside the
loop with the error 500; `none` when a slot points to no Collection
object. -/
def clearSlots (heap : List Source) (path : Bytes) :
    List (Option SourcePtr) → Option (List (Option SourcePtr) × Bool)
  | [] => some ([], false)
  | none :: rest =>
    match clearSlots heap path rest with
    | none => none
    | some (slots, ret) => some (none :: slots, ret)
  | some p :: rest =>
    match (heap[p]?).bind (fun src => src.Collection) with
    | none => none
    | some c =>
      match url.ParsePath c.Href with
      | none => some (some p :: rest, true)
      | some u =>
        match clearSlots heap path rest with
        | none => none
        | some (slots, ret) => some ((if u = path then none else some p) :: slots, ret)

/-- The method `Backend.DeleteFeed` of `backend.go`: the new backend and the
error, `none` when nil.  The entry map is visited in the order of its list.
The result is `none` when the call follows a pointer to no object. -/
def Backend.DeleteFeed {σ : Type} (S : Storer σ) (b : Backend σ) (r : Request) :
    Option (Backend σ × Option HTTPError) :=
  match b.sourcemap.lookup r.Path with
  | none => some (b, some { code := 404, message := "" })
  | some ptr =>
    match b.heap[ptr]? with
    | none => none
    | some source =>
      match S.DeleteSource b.storer (some source) with
      | (s1, some _) =>
        some ({ b with storer := s1 }, some { code := 500, message := "nil pointer dereference" })
      | (s1, none) =>
        match deleteEntries S b.heap source.Id [] b.entrymap s1 none with
        | none => none
        | some (entries, s2, err, true) =>
          some ({ b with sourcemap := mapDelete b.sourcemap r.Path, entrymap := entries,
                         storer := s2 }, err)
        | some (entries, s2, err, false) =>
          match clearSlots b.heap r.Path b.collections with
          | none => none
          | some (slots, true) =>
            some ({ b with sourcemap := mapDelete b.sourcemap r.Path, entrymap := entries,
                           collections := slots, storer := s2 },
              some { code := 500, message := "nil pointer dereference" })
          | some (slots, false) =>
            let b1 : Backend σ :=
              { b with sourcemap := mapDelete b.sourcemap r.Path, entrymap := entries,
                       collections := slots, storer := s2 }
            match err with
            | some e => some (b1, some e)
            | none =>
              match S.Commit s2 (commitMessage r) with
              | (s3, some e) => some ({ b1 with storer := s3 }, some { code := 500, message := e })
              | (s3, none) => some ({ b1 with storer := s3 }, none)

/-- The method `Backend.DeleteEntry` of `backend.go`, `now` being the reading
of `time.Now()`: the new backend and the error, `none` when nil.  The result
is `none` when the call follows a pointer to no object. -/
def Backend.DeleteEntry {σ : Type} (S : Storer σ) (now : Time) (b : Backend σ) (r : Request) :
    Option (Backend σ × Option HTTPError) :=
  match b.entrymap.lookup r.Path with
  | none => some (b, some { code := 404, message := "" })
  | some entry =>
    match entry.Source with
    | none => some (b, some { code := 500, message := "nil pointer dereference" })
    | some ptr =>
      match b.heap[ptr]? with
      | none => none
      | some source =>
        match source.Updated with
        | none => some (b, some { code := 500, message := "nil pointer dereference" })
        | some updated =>
          let source1 := { source with Updated := some (updated.Set (now.Round Time.Microsecond)) }
          let b1 : Backend σ := { b with heap := b.heap.set ptr source1 }
          match S.DeleteEntry b1.storer entry (some source1) with
          | (s1, some e) => some ({ b1 with storer := s1 }, some { code := 500, message := e })
          | (s1, none) =>
            match S.Commit s1 (commitMessage r) with
            | (s2, some e) => some ({ b1 with storer := s2 }, some { code := 500, message := e })
            | (s2, none) =>
              some ({ b1 with storer := s2, entrymap := mapDelete b1.entrymap r.Path }, none)

/-- The function `plainTextPost` of `backend.go` on a body that is read
without error: `now` is the reading of `time.Now()`, `fresh` the text of
`uuid.NewString()`, `slack` the room left in the array of `io.ReadAll`.  The
results are the entry and the categories. -/
def plainTextPost (slack : Nat) (now : Time) (fresh : Bytes) (body slug : Bytes) :
    Entry × List Bytes :=
  let out := preparePlainText slack body
  ({ Entry.zeroWith ⟨⟨atom_xmlns, ascii "id"⟩, ascii "urn:uuid:" ++ fresh⟩
        ⟨⟨atom_xmlns, ascii "updated"⟩, now.Round Time.Second⟩ with
      Content := ⟨ascii "xhtml", [], some out.1⟩
      Title := ⟨⟨atom_xmlns, ascii "title"⟩, [], if slug = [] then ascii "Untitled" else slug⟩ },
    out.2)

/-- The first loop of `PostToFeed`, over the collection list: `some (some ok)`
when a collection with the path of the request is found, `ok` telling whether
one of its accepted types equals the content type; `some none` when there is
none (404); `none` when the loop panics (a href that does not parse) or
follows a pointer to no object. -/
def findCollection (heap : List Source) (path contentType : Bytes) :
    List (Option SourcePtr) → Option (Option Bool)
  | [] => some none
  | none :: rest => findCollection heap path contentType rest
  | some p :: rest =>
    match (heap[p]?).bind (fun src => src.Collection) with
    | none => none
    | some c =>
      match url.ParsePath c.Href with
      | none => none
      | some u =>
        if u = path then
          some (some (c.Accepts.any (fun a => strings.EqualFold contentType a.Text)))
        else findCollection heap path contentType rest

/-- The categories that `PostToFeed` gives the entry: for every term of
`cats`, the categories of the Source with that term. -/
def pickCategories (cats : List Bytes) (sourceCategories : List Category) : List Category :=
  cats.flatMap (fun term => sourceCategories.filter (fun cat => cat.Term = term))

/-- The method `Backend.PostToFeed` of `backend.go` for a request with the
given headers `Content-Type` and `Slug` and the given body: `now1` and `now2`
are the readings of `time.Now()`, `fresh` the text of `uuid.NewString()`.
The results are the new backend, the entry (`none` when nil), the entry URL
and the error, `none` when nil.  The result is `none` when the call panics or
follows a pointer to no object. -/
def Backend.PostToFeed {σ : Type} (S : Storer σ) (ParseMediaType : Bytes → Except String Bytes)
    (slack : Nat) (now1 now2 : Time) (fresh : Bytes) (b : Backend σ) (r : Request)
    (contentType slug body : Bytes) :
    Option (Backend σ × Option Entry × Bytes × Option HTTPError) :=
  match findCollection b.heap r.Path contentType b.collections with
  | none => none
  | some none => some (b, none, [], some { code := 404, message := "" })
  | some (some false) => some (b, none, [], some { code := 415, message := "" })
  | some (some true) =>
    if contentType ≠ ascii "text/plain" then none
    else
      let post := plainTextPost slack now1 fresh body slug
      match b.sourcemap.lookup r.Path with
      | none =>
        if post.2 ≠ [] then none
        else
          let entry := { post.1 with Source := none, Categories := [] }
          match Entry.Validate ParseMediaType none (some entry) none with
          | (_, some e) => some (b, some entry, [], some { code := 400, message := e })
          | (_, none) => none
      | some ptr =>
        match b.heap[ptr]? with
        | none => none
        | some source =>
          let entry :=
            { post.1 with Source := some ptr,
                          Categories := pickCategories post.2 source.Categories }
          match Entry.Validate ParseMediaType (some source) (some entry) none with
          | (_, some e) => some (b, some entry, [], some { code := 400, message := e })
          | (_, none) =>
            match source.Updated with
            | none => none
            | some updated =>
              let source1 :=
                { source with Updated := some (updated.Set (now2.Round Time.Microsecond)) }
              let b1 : Backend σ := { b with heap := b.heap.set ptr source1 }
              match storeEntry S b1 r entry source1 with
              | (b2, some e) => (some (b2, some entry, [], some e))
              | (b2, none) =>
                let entry_relative := ascii "/entry/" ++ fresh
                some ({ b2 with entrymap := mapSet b2.entrymap entry_relative entry },
                  some entry, entry_relative, none)

/-! ### Sample requests -/

/-- A feed document with a title, an author and a link with relation `self`,
and with the given id. -/
def newFeed (id : Option URI) : Feed :=
  { Feed.zeroWith id (some (atomUpdated ⟨1739525592, 0, 0⟩)) with
    Title := some ⟨⟨atom_xmlns, ascii "title"⟩, ascii "text", ascii "test microblog"⟩
    Authors := [⟨⟨atom_xmlns, ascii "author"⟩, ascii "John Doe", none⟩]
    Links := [⟨ascii "/feed/1", ascii "self", [], [], [], 0⟩] }

/-- A backend with one feed, at `/feed/00000000-0000-4000-8000-000000000001`. -/
def oneFeedBackend : Backend Unit :=
  (Backend.PostToRoot okStorer mime.ParseMediaType ⟨1739525592, 546909000, 0⟩
    (ascii "00000000-0000-4000-8000-000000000001") [] (Backend.empty ())
    ⟨ascii "POST", ascii "/"⟩ (newFeed none)).1

/-- The backend `oneFeedBackend` after its feed is deleted: the collection
list is left with one empty slot. -/
def holeBackend : Backend Unit :=
  ((Backend.DeleteFeed okStorer oneFeedBackend
    ⟨ascii "DELETE", ascii "/feed/00000000-0000-4000-8000-000000000001"⟩).map (·.1)).getD
    oneFeedBackend

/-- The feed document of a PUT that names no author: a title and a link with
relation `self`, the id and the updated element being those of the stored
feed, as `putFeed` of `handler.go` sets them before it validates. -/
def authorlessFeed : Feed :=
  { Feed.zeroWith (some (atomId "urn:uuid:00000000-0000-4000-8000-000000000001"))
      (some (atomUpdated ⟨1739525600, 123456000, 0⟩)) with
    Title := some ⟨⟨atom_xmlns, ascii "title"⟩, ascii "text", ascii "renamed microblog"⟩
    Links := [⟨ascii "/feed/1", ascii "self", [], [], [], 0⟩] }

/-! ## `backend.go`: reading -/

/-- The method `Time.After` of the library for times without a monotonic
clock reading: the instant `t` is after `u`. -/
def Time.After (t u : Time) : Bool := decide (u.sec < t.sec) || (t.sec = u.sec && u.nsec < t.nsec)

/-- The method `Backend.GetEntry` of `backend.go`: the entry and the error,
each `none` when nil. -/
def Backend.GetEntry {σ : Type} (b : Backend σ) (r : Request) : Option Entry × Option HTTPError :=
  match b.entrymap.lookup r.Path with
  | none => (none, some { code := 404, message := "" })
  | some ent => (some ent, none)

/-- The method `Backend.GetRoot` of `backend.go`: the collection list of the
workspace of the service document it returns, each slot nil (`none`) or the
`Collection` object it points to. -/
def Backend.GetRoot {σ : Type} (b : Backend σ) : List (Option Collection) :=
  b.collections.map (fun slot =>
    slot.bind (fun p => (b.heap[p]?).bind (fun src => src.Collection)))

/-- The loop `for _, v := range b.entrymap` of `GetFeed` over the entries
still to visit, in the order of the iteration: `entry_ptrs` holds the entries
gathered, `id` is the id of the Source.  The result is `some none` when the
method returns the error 500 from inside the loop, and `none` when an entry
points to no Source object. -/
def gatherEntries (heap : List Source) (id : Option URI) :
    List Entry → List (Bytes × Entry) → Option (Option (List Entry))
  | entry_ptrs, [] => some (some entry_ptrs)
  | entry_ptrs, (_, v) :: rest =>
    match v.Source with
    | none => some none
    | some p =>
      match heap[p]? with
      | none => none
      | some src =>
        if !URI.Consumes id src.Id then gatherEntries heap id entry_ptrs rest
        else gatherEntries heap id (entry_ptrs ++ [v]) rest

/-- The function literal that `GetFeed` hands to `sort.Slice`: the entry at
index `i` comes before the entry at index `j` when it was updated after it. -/
def updatedAfter (ei ej : Entry) : Bool := ei.Updated.T.After ej.Updated.T

/-- The method `Backend.GetFeed` of `backend.go`: the feed and the error,
each `none` when nil.  `sort` stands for `sort.Slice`: it gives the order in
which the library leaves the slice for the given `less`.  The entry map is
visited in the order of its list.  The result is `none` when the call follows
a pointer to no object. -/
def Backend.GetFeed {σ : Type} (sort : (Entry → Entry → Bool) → List Entry → List Entry)
    (b : Backend σ) (r : Request) : Option (Option Feed × Option HTTPError) :=
  match b.sourcemap.lookup r.Path with
  | none => some (none, some { code := 404, message := "" })
  | some ptr =>
    match b.heap[ptr]? with
    | none => none
    | some source =>
      if source.Id = none then
        some (none, some { code := 500, message := "nil pointer dereference" })
      else
        match gatherEntries b.heap source.Id [] b.entrymap with
        | none => none
        | some none => some (none, some { code := 500, message := "nil pointer dereference" })
        | some (some entry_ptrs) => some (some (feedOf source (sort updatedAfter entry_ptrs)), none)

namespace sort

/-- The inner loop of the library's `insertionSortLessFunc`: the element `x`
is swapped with the element before it as long as `less x y` holds for that
element `y`.  The list holds the elements before `x`, the nearest first. -/
def insertDown {α : Type} (less : α → α → Bool) (x : α) : List α → List α
  | [] => [x]
  | y :: ys => if less x y then y :: insertDown less x ys else x :: y :: ys

/-- The library's `insertionSortLessFunc` over a whole slice, which is what
`sort.Slice` runs on a slice of at most 12 elements. -/
def insertionSort {α : Type} (less : α → α → Bool) (l : List α) : List α :=
  (l.foldl (fun sorted x => insertDown less x sorted) []).reverse

/-- What the library asks of the `less` of `sort.Slice`: a strict weak
ordering. -/
def StrictWeak {α : Type} (less : α → α → Bool) : Prop :=
  (∀ a, less a a = false) ∧ (∀ a b c, less a b = true → less b c = true → less a c = true) ∧
  (∀ a b c, less a b = false → less b c = false → less a c = false)

/-- What the library promises of `sort.Slice`: for a strict weak ordering the
slice is left as a rearrangement of its elements in which no element is less
than one before it. -/
def Sorts {α : Type} (sort : (α → α → Bool) → List α → List α) : Prop :=
  ∀ less, StrictWeak less → ∀ l,
    (sort less l).Perm l ∧ (sort less l).Pairwise (fun a c => less c a = false)

end sort

/-! ## The states of a run

The backend that `NewBackend` builds over an empty store, and the backends
that the six writing operations make of it when they return no error. -/

/-- The coupling of the feed map, the entry map, the Source objects and the
collection list: the keys of each map are distinct; a Source under the key
`/feed/u` has the id `urn:uuid:u` and a collection whose href is the key, a URL
with that path; the Source of every entry is in the feed map; every Source of
the feed map is in exactly one slot of the collection list, and every slot
that is not empty holds a Source of the feed map. -/
structure WellFormed {σ : Type} (b : Backend σ) : Prop where
  feedKeys : (b.sourcemap.map Prod.fst).Nodup
  entryKeys : (b.entrymap.map Prod.fst).Nodup
  feedIds : ∀ k p, (k, p) ∈ b.sourcemap → ∃ u src c, b.heap[p]? = some src ∧
    src.Id = some ⟨⟨atom_xmlns, ascii "id"⟩, ascii "urn:uuid:" ++ u⟩ ∧ k = ascii "/feed/" ++ u ∧
    src.Collection = some c ∧ c.Href = k ∧ url.ParsePath k = some k
  entrySources : ∀ k e, (k, e) ∈ b.entrymap → ∃ p kp, e.Source = some p ∧ (kp, p) ∈ b.sourcemap
  slotOf : ∀ k p, (k, p) ∈ b.sourcemap →
    ∃ i : Nat, b.collections[i]? = some (some p) ∧
      ∀ j : Nat, b.collections[j]? = some (some p) → j = i
  slotFeeds : ∀ (i : Nat) (p : SourcePtr), b.collections[i]? = some (some p) → ∃ k, (k, p) ∈ b.sourcemap

/-! ### Sample states -/

/-- The backend `oneFeedBackend` after the text `hello` is posted to its
feed. -/
def postedBackend : Backend Unit :=
  ((Backend.PostToFeed okStorer mime.ParseMediaType 507 ⟨1739525600, 100000000, 0⟩
    ⟨1739525600, 123456000, 0⟩ (ascii "00000000-0000-4000-8000-000000000002") oneFeedBackend
    ⟨ascii "POST", ascii "/feed/00000000-0000-4000-8000-000000000001"⟩ (ascii "text/plain") []
    (ascii "hello")).map (fun res => res.1)).getD oneFeedBackend

/-- A backend with one feed, at `/feed/00000000-0000-4000-8000-000000000001`,
that has the categories `foo` and `bar`. -/
def catBackend : Backend Unit :=
  (Backend.PostToRoot okStorer mime.ParseMediaType ⟨1739525592, 546909000, 0⟩
    (ascii "00000000-0000-4000-8000-000000000001") [] (Backend.empty ())
    ⟨ascii "POST", ascii "/"⟩
    { newFeed none with Categories := [⟨ascii "foo", [], []⟩, ⟨ascii "bar", [], []⟩] }).1

/-! ## `marshal.go`: the bytes of a document

Each `MarshalTo` writes to a `bufio.Writer` over a buffer in memory.  The
model gives the bytes written when the method returns no error, and the error
otherwise: the callers modelled here drop the buffer when there is one. -/

/-- Writes in sequence: the bytes of all of them, or the first error. -/
def writeAll : List (Except String Bytes) → Except String Bytes
  | [] => .ok []
  | .error e :: _ => .error e
  | .ok w :: rest =>
    match writeAll rest with
    | .error e => .error e
    | .ok ws => .ok (w ++ ws)

/-- A loop `for _, a := range items` that marshals the items of a slice in
turn and returns the first error. -/
def marshalEach {α : Type} (f : α → Except String Bytes) (items : List α) : Except String Bytes :=
  writeAll (items.map f)

/-- The method `TextConstruct.MarshalTo` of `marshal.go`; `none` is the nil
pointer.  (The method also sets an empty `Type` of the object to `text`.) -/
def TextConstruct.MarshalTo (t : Option TextConstruct) (parent : Name) : Except String Bytes :=
  match t with
  | none => .ok []
  | some t =>
    if t.XMLName.Space = atom_xmlns then
      let header :=
        if parent.Space ≠ atom_xmlns then ascii "atom:" ++ t.XMLName.Local else t.XMLName.Local
      let typ := if t.«Type» = [] then ascii "text" else t.«Type»
      if t.Text ≠ [] then
        .ok (ascii "<" ++ header ++ ascii " type=\"" ++ typ ++ ascii "\">" ++ t.Text ++ ascii "</"
          ++ header ++ ascii ">")
      else .ok (ascii "<" ++ header ++ ascii "/>")
    else .error "unknown text construct xmlns"

/-- The method `Person.MarshalTo` of `marshal.go`. -/
def Person.MarshalTo (p : Person) : Except String Bytes :=
  if p.XMLName.Space = atom_xmlns then
    let tag := p.XMLName.Local
    writeAll
      [ .ok (if p.Name = [] then ascii "<" ++ tag ++ ascii "><name/>"
             else ascii "<" ++ tag ++ ascii "><name>" ++ p.Name ++ ascii "</name>"),
        URI.MarshalTo p.URI,
        .ok (ascii "</" ++ tag ++ ascii ">") ]
  else .error "unknown Person xmlns"

/-- The method `Content.MarshalTo` of `marshal.go`. -/
def Content.MarshalTo (t : Content) : Except String Bytes :=
  if t.Src ≠ [] then
    .ok (ascii "<content src=\"" ++ t.Src ++ ascii "\""
      ++ (if t.«Type» = [] then ascii "/>" else ascii " type=\"" ++ t.«Type» ++ ascii "\"/>"))
  else
    .ok (ascii "<content type=\"" ++ t.«Type» ++ ascii "\">" ++ t.Body.getD []
      ++ ascii "</content>")

/-- An attribute ` name="value"` that a `MarshalTo` writes when the value is
not empty. -/
def attr (name : String) (value : Bytes) : Bytes :=
  if value = [] then [] else ascii " " ++ ascii name ++ ascii "=\"" ++ value ++ ascii "\""

/-- The method `Link.MarshalTo` of `marshal.go`, `ParseMediaType` giving the
result of `mime.ParseMediaType`. -/
def Link.MarshalTo (ParseMediaType : Bytes → Except String Bytes) (l : Link) :
    Except String Bytes :=
  if !url.Parse l.Href then .error "url.Parse"
  else
    writeAll
      [ .ok (ascii "<link" ++ ascii " href=\"" ++ l.Href ++ ascii "\"" ++ attr "rel" l.Relation),
        (if l.«Type» = [] then .ok []
         else
           match ParseMediaType l.«Type» with
           | .error e => .error e
           | .ok _ => .ok (attr "type" l.«Type»)),
        .ok (attr "hreflang" l.HrefLang ++ attr "title" l.Title
          ++ (if l.Length = 0 then [] else attr "length" (Time.digits l.Length)) ++ ascii "/>") ]

/-- The method `Category.MarshalTo` of `marshal.go`. -/
def Category.MarshalTo (c : Category) (parent : Name) : Except String Bytes :=
  if parent.Space ≠ atom_xmlns ∧ parent.Space ≠ app_xmlns then
    .error "unknown parent xmlns for category"
  else
    let header := if parent.Space = atom_xmlns then ascii "category" else ascii "atom:category"
    if c.Term = [] then .error "Category is missing term"
    else if c.Scheme ≠ [] ∧ url.Parse c.Scheme = false then .error "url.Parse"
    else
      .ok (ascii "<" ++ header ++ ascii " term=\"" ++ c.Term ++ ascii "\"" ++ attr "scheme" c.Scheme
        ++ attr "label" c.Label ++ ascii "/>")

/-- The method `PublishingControl.MarshalTo` of `marshal.go`; `none` is the
nil pointer. -/
def PublishingControl.MarshalTo (c : Option PublishingControl) : Except String Bytes :=
  match c with
  | none => .ok []
  | some c =>
    if c.Draft ≠ ascii "yes" then .ok []
    else .ok (ascii "<control xmlns=\"" ++ app_xmlns ++ ascii "\"><draft>yes</draft></control>")

/-- The method `Source.MarshalTo` of `marshal.go`; `none` is the nil pointer
of the Source, of `feed_id` and of the entry `t`. -/
def Source.MarshalTo (ParseMediaType : Bytes → Except String Bytes) (s : Option Source)
    (feed_id : Option URI) (t : Option Entry) : Except String Bytes :=
  match s with
  | none => .ok []
  | some s =>
    if URI.Consumes feed_id s.Id then .ok []
    else
      let parent : Name := ⟨atom_xmlns, ascii "source"⟩
      match t with
      | none =>
        writeAll
          [ .ok (ascii "<feed xmlns=\"" ++ atom_xmlns ++ ascii "\">"),
            URI.MarshalTo s.Id,
            TextConstruct.MarshalTo s.Title parent,
            TextConstruct.MarshalTo s.Subtitle parent,
            DateConstruct.MarshalTo s.Updated,
            marshalEach Person.MarshalTo s.Authors,
            marshalEach Person.MarshalTo s.Contributors,
            marshalEach (Link.MarshalTo ParseMediaType) s.Links,
            marshalEach (fun c => c.MarshalTo parent) s.Categories,
            URI.MarshalTo s.Icon,
            URI.MarshalTo s.Logo,
            TextConstruct.MarshalTo s.Rights parent,
            .ok (ascii "</feed>") ]
      | some t =>
        writeAll
          [ .ok (ascii "<source>"),
            URI.MarshalTo s.Id,
            (if t.Authors = [] then marshalEach Person.MarshalTo s.Authors else .ok []),
            (if t.Rights = none then TextConstruct.MarshalTo s.Rights parent else .ok []),
            .ok (ascii "</source>") ]

/-- The method `Entry.MarshalTo` of `marshal.go`, `source` being the Source
object `t.Source` points to; `none` is the nil pointer. -/
def Entry.MarshalTo (ParseMediaType : Bytes → Except String Bytes)
    (source : Option AtomPub.Source) (t : Option Entry) (feed_id : Option URI) :
    Except String Bytes :=
  match t with
  | none => .ok []
  | some t =>
    let header : Except String Bytes :=
      if feed_id ≠ none then .ok (ascii "entry")
      else
        match (Entry.Validate ParseMediaType source (some t) feed_id).2 with
        | some e => .error e
        | none => .ok (ascii "entry xmlns=\"" ++ atom_xmlns ++ ascii "\"")
    match header with
    | .error e => .error e
    | .ok header =>
      let sub_parent : Name := ⟨atom_xmlns, ascii "entry"⟩
      writeAll
        [ .ok (ascii "<" ++ header ++ ascii ">"),
          TextConstruct.MarshalTo (some t.Title) sub_parent,
          TextConstruct.MarshalTo t.Summary sub_parent,
          DateConstruct.MarshalTo (some t.Updated),
          DateConstruct.MarshalTo t.Published,
          DateConstruct.MarshalTo t.Edited,
          URI.MarshalTo (some t.Id),
          marshalEach Person.MarshalTo t.Authors,
          marshalEach Person.MarshalTo t.Contributors,
          t.Content.MarshalTo,
          marshalEach (Link.MarshalTo ParseMediaType) t.Links,
          marshalEach (fun c => c.MarshalTo sub_parent) t.Categories,
          TextConstruct.MarshalTo t.Rights sub_parent,
          PublishingControl.MarshalTo t.Control,
          Source.MarshalTo ParseMediaType source feed_id (some t),
          .ok (ascii "</entry>") ]

/-! ## `storer.go` -/

namespace xml

/-- The constant `xml.Header` of the library. -/
def Header : Bytes := ascii "<?xml version=\"1.0\" encoding=\"UTF-8\"?>" ++ [10]

/-- The run of the decoder over a document that may start with the XML
declaration of `Header`, which the decoder returns as one token (a `ProcInst`;
it accepts the version 1.0 and the encoding UTF-8). -/
def decodeDocument (s : Bytes) : DecoderRun :=
  let declaration := ascii "<?xml version=\"1.0\" encoding=\"UTF-8\"?>"
  if declaration.isPrefixOf s then
    let run := decode (s.drop declaration.length)
    { tokens := .other :: run.tokens, ending := run.ending }
  else decode s

end xml

/-- The loop of `AddEntry` and `AddSource` that copies the buffer to the
file, over the bytes of the buffer still to read: the bytes written to the
file.  `l` holds the bytes that `ReadBytes('>')` has read so far, and
`afterGt` tells that `ReadByte` is next.  At the end of the buffer `ReadBytes`
returns the bytes it has read together with `io.EOF`, and the loop ends
without writing them. -/
def stageLines : Bytes → Bool → Bytes → Bytes
  | _, _, [] => []
  | _, true, b :: rest => (if b ≠ 60 then [b] else [10, b]) ++ stageLines [] false rest
  | l, false, c :: rest =>
    if c = 62 then l ++ [c] ++ stageLines [] true rest else stageLines (l ++ [c]) false rest

/-- Whether the byte `a` is immediately followed by the byte `b` somewhere in
the text. -/
def adjacent (a b : Nat) : Bytes → Bool
  | x :: y :: rest => (x = a && y = b) || adjacent a b (y :: rest)
  | _ => false

/-- The part of `BillyStorer` that staging and committing use: the files of
the scratch filesystem `fsys` with their content, the blobs registered in
`hashmap` under their path (a blob stands for its hash), and the messages of
the commits made. -/
structure BillyStorer where
  fsys : List (Bytes × Bytes)
  hashmap : List (Bytes × Bytes)
  commits : List Bytes
  deriving DecidableEq, Repr

/-- The method `BillyStorer.AddEntry` of `storer.go`, `source` being the
Source object `entry.Source` points to: the new store and the error, `none`
when nil.  The scratch filesystem is in memory; its calls do not fail.  The
file is created before the entry is marshalled. -/
def BillyStorer.AddEntry (ParseMediaType : Bytes → Except String Bytes) (s : BillyStorer)
    (entry : Option Entry) (source : Option Source) : BillyStorer × Option String :=
  match entry with
  | none => (s, some "nil pointer dereference")
  | some entry =>
    match uuid.Parse entry.Id.Target with
    | none => (s, some "invalid entry id")
    | some entry_uuid =>
      let path := ascii "entry/" ++ entry_uuid ++ ascii ".atom"
      match Entry.MarshalTo ParseMediaType source (some entry) none with
      | .error e => ({ s with fsys := mapSet s.fsys path [] }, some e)
      | .ok w =>
        ({ s with fsys := mapSet s.fsys path (stageLines [] false (xml.Header ++ w)) }, none)

/-- The method `BillyStorer.AddSource` of `storer.go`: the new store and the
error, `none` when nil.  The last statement of the method is `return nil`. -/
def BillyStorer.AddSource (ParseMediaType : Bytes → Except String Bytes) (s : BillyStorer)
    (source : Option Source) : BillyStorer × Option String :=
  match source with
  | none => (s, none)
  | some source =>
    match source.Id with
    | none => (s, none)
    | some id =>
      match uuid.Parse id.Target with
      | none => (s, none)
      | some source_uuid =>
        let path := ascii "source/" ++ source_uuid ++ ascii ".atom"
        match Source.MarshalTo ParseMediaType (some source) none none with
        | .error _ => ({ s with fsys := mapSet s.fsys path [] }, none)
        | .ok w =>
          ({ s with fsys := mapSet s.fsys path (stageLines [] false (xml.Header ++ w)) }, none)

/-- The method `BillyStorer.Commit` of `storer.go` over a repository whose
calls do not fail: `storeObjs` makes a blob of every file of the scratch
filesystem, registers it in `hashmap` under the path of the file and removes
the file; then the commit is made. -/
def BillyStorer.Commit (s : BillyStorer) (message : Bytes) : BillyStorer × Option String :=
  ({ fsys := [],
     hashmap := s.fsys.foldl (fun m f => mapSet m f.1 f.2) s.hashmap,
     commits := s.commits ++ [message] }, none)

/-- The first function literal of `Populate`, for a file under `source/`:
`source` is the object that `Decode` has filled.  The result is the new Source
objects and the new feed map, or the error. -/
def populateSource (heap : List Source) (sourcemap : List (Bytes × SourcePtr))
    (source : Source) : Except String (List Source × List (Bytes × SourcePtr)) :=
  match source.Id, source.Updated with
  | some id, some _ =>
    match uuid.Parse id.Target with
    | none => .error "cannot parse source id as urn:uuid"
    | some u =>
      .ok (heap ++ [source], mapSet sourcemap (ascii "/feed/" ++ u ++ ascii ".atom") heap.length)
  | _, _ => .error "nil pointer dereference"

/-- The second function literal of `Populate`, for a file under `entry/`:
`entry` is the object that `Decode` has filled and `parsed` the Source object
that it has made of the `source` element, `none` when there is none.  The
result is the new entry map, or the error. -/
def populateEntry (ParseMediaType : Bytes → Except String Bytes)
    (sourcemap : List (Bytes × SourcePtr)) (entrymap : List (Bytes × Entry))
    (entry : Entry) (parsed : Option Source) : Except String (List (Bytes × Entry)) :=
  let entry1 : Entry :=
    { entry with
      Content := { entry.Content with
                   Body := some (dropNewlinesFrom 0 (entry.Content.Body.getD [])) } }
  match (Entry.Validate ParseMediaType parsed (some entry1) none).2 with
  | some e => .error e
  | none =>
    match parsed.bind (fun s => s.Id) with
    | none => .error "nil pointer dereference"
    | some id =>
      match uuid.Parse id.Target with
      | none => .error "cannot parse source id as urn:uuid"
      | some u =>
        match sourcemap.lookup (ascii "/feed/" ++ u ++ ascii ".atom") with
        | none => .error "entry without a source"
        | some source =>
          match uuid.Parse entry1.Id.Target with
          | none => .error "cannot parse entry id as urn:uuid"
          | some v =>
            .ok (mapSet entrymap (ascii "/entry/" ++ v ++ ascii ".atom")
              { entry1 with Source := some source })

/-- The method `BillyStorer.Populate` of `storer.go` over the objects that
`Decode` makes of the files of the current commit, those under `source/` and
those under `entry/`, each in the order of the tree: the Source objects, the
feed map and the entry map, or the error. -/
def Populate (ParseMediaType : Bytes → Except String Bytes) (sources : List Source)
    (entries : List (Entry × Option Source)) :
    Except String (List Source × List (Bytes × SourcePtr) × List (Bytes × Entry)) :=
  let loaded : Except String (List Source × List (Bytes × SourcePtr)) := sources.foldl
    (fun acc source =>
      match acc with
      | .error e => .error e
      | .ok (heap, sourcemap) => populateSource heap sourcemap source)
    (.ok ([], []))
  match loaded with
  | .error e => .error e
  | .ok (heap, sourcemap) =>
    let filled : Except String (List (Bytes × Entry)) := entries.foldl
      (fun acc en =>
        match acc with
        | .error e => .error e
        | .ok entrymap => populateEntry ParseMediaType sourcemap entrymap en.1 en.2)
      (.ok [])
    match filled with
    | .error e => .error e
    | .ok entrymap => .ok (heap, sourcemap, entrymap)

/-- The loop of `NewBackend` that builds the service document, over the feed
map in the order of its list: the Source objects, each with its new
collection, and the collection list; `none` when the function panics. -/
def buildCollections : List (Bytes × SourcePtr) → List Source → List (Option SourcePtr) →
    Option (List Source × List (Option SourcePtr))
  | [], heap, collections => some (heap, collections)
  | (k, p) :: rest, heap, collections =>
    match heap[p]? with
    | none => none
    | some v =>
      match v.Title with
      | none => none
      | some title =>
        if title.XMLName.Space ≠ atom_xmlns ∨ title.XMLName.Local ≠ ascii "title" then none
        else
          let collection : Collection :=
            { Href := k, Title := v.Title, Accepts := [⟨ascii "text/plain"⟩],
              Categories := [{ Fixed := [], Scheme := [], Href := [],
                               Categories := v.Categories }] }
          buildCollections rest (heap.set p { v with Collection := some collection })
            (collections ++ [some p])

/-- The function `NewBackend` of `backend.go` over the objects that `Decode`
makes of the files of the store; `none` when the function panics. -/
def NewBackend {σ : Type} (ParseMediaType : Bytes → Except String Bytes) (sources : List Source)
    (entries : List (Entry × Option Source)) (storer : σ) : Option (Backend σ) :=
  match Populate ParseMediaType sources entries with
  | .error _ => none
  | .ok (heap, sourcemap, entrymap) =>
    match buildCollections sourcemap heap [] with
    | none => none
    | some (heap1, collections) =>
      some { heap := heap1, sourcemap := sourcemap, entrymap := entrymap,
             collections := collections, storer := storer }

/-! ### Sample documents -/

/-- The entry that `postedBackend` holds. -/
def postedEntry : Entry :=
  (postedBackend.entrymap.lookup (ascii "/entry/00000000-0000-4000-8000-000000000002")).getD
    sampleEntry

/-- An entry document for a PUT to the entry of `postedBackend`: the stored
entry with a title of type `html`. -/
def htmlTitleEntry : Entry :=
  { postedEntry with
    Title := ⟨⟨atom_xmlns, ascii "title"⟩, ascii "html", ascii "&lt;b&gt;news&lt;/b&gt;"⟩ }

/-- An entry document for a PUT to the entry of `postedBackend`: the stored
entry with a title of type `text`. -/
def textTitleEntry : Entry :=
  { postedEntry with Title := ⟨⟨atom_xmlns, ascii "title"⟩, ascii "text", ascii "news"⟩ }

/-- The object that `Decode` makes of the file that `AddSource` has written
for the Source of `postedBackend`: the file holds no collection. -/
def storedSource : Source :=
  { (postedBackend.heap[0]?).getD sampleSource with Collection := none }

/-- The object that `Decode` makes of the file that `AddEntry` has written
for `postedEntry`: the title has the type `text` that `MarshalTo` writes, the
body of the content has the line breaks of the file, and the `source` element
holds the id and the authors of the Source. -/
def storedEntry : Entry × Option Source :=
  ({ postedEntry with
     Title := { postedEntry.Title with «Type» := ascii "text" }
     Content := ⟨ascii "xhtml", [], some ([10] ++ ascii
       "<div xmlns=\"http://www.w3.org/1999/xhtml\" style=\"white-space: pre-line;\">"
       ++ [10] ++ ascii "<p>hello</p>" ++ [10] ++ ascii "</div>" ++ [10])⟩
     Source := none },
   some { Id := storedSource.Id, Updated := none, Authors := storedSource.Authors, Title := none,
          Links := [], Categories := [], Contributors := [], Icon := none, Logo := none,
          Generator := none, Subtitle := none, Rights := none, Collection := none })

/-- The entry `postedEntry` with an author whose name holds an ampersand, as
`Decode` makes it of `<author><name>Tom &amp; Jerry</name></author>`. -/
def ampersandEntry : Entry :=
  { postedEntry with Authors := [⟨⟨atom_xmlns, ascii "author"⟩, ascii "Tom & Jerry", none⟩] }

/-- The entry `postedEntry` with an author whose name holds no special
character. -/
def plainNameEntry : Entry :=
  { postedEntry with Authors := [⟨⟨atom_xmlns, ascii "author"⟩, ascii "Tom and Jerry", none⟩] }

/-- The Source of `postedBackend` with a category whose term holds a quote,
as `Decode` makes it of `<category term="5&quot; disks"/>`. -/
def quoteSource : Source :=
  { (postedBackend.heap[0]?).getD sampleSource with
    Categories := [⟨ascii "5\" disks", [], []⟩] }

/-- The Source of `postedBackend` with a category that has no term. -/
def noTermSource : Source :=
  { (postedBackend.heap[0]?).getD sampleSource with Categories := [⟨[], [], []⟩] }

/-- The backend `postedBackend` over a store that holds the documents of its
Source and of its entry, as `AddEntry`, `AddSource` and `Commit` leave them. -/
def billyBackend : Backend BillyStorer :=
  let s0 : BillyStorer := ⟨[], [], []⟩
  let s1 := (BillyStorer.AddEntry mime.ParseMediaType s0 (some postedEntry)
    (postedBackend.heap[0]?)).1
  let s2 := (BillyStorer.AddSource mime.ParseMediaType s1 (postedBackend.heap[0]?)).1
  let s3 := (BillyStorer.Commit s2
    (ascii "POST /feed/00000000-0000-4000-8000-000000000001")).1
  { heap := postedBackend.heap, sourcemap := postedBackend.sourcemap,
    entrymap := postedBackend.entrymap, collections := postedBackend.collections, storer := s3 }

/-- A feed document for a PUT to the feed of `postedBackend` with a category
that has no term. -/
def noTermFeed : Feed := { collisionFeed with Categories := [⟨[], [], []⟩] }

/-! ## `marshal.go`: the bytes of a feed -/

/-- The method `Generator.MarshalTo` of `marshal.go`; `none` is the nil
pointer. -/
def Generator.MarshalTo (g : Option Generator) : Except String Bytes :=
  match g with
  | none => .ok []
  | some g =>
    if g.URI ≠ [] ∧ url.Parse g.URI = false then .error "url.Parse"
    else
      .ok (ascii "<generator" ++ attr "uri" g.URI ++ attr "version" g.Version
        ++ (if g.Text ≠ [] then ascii ">" ++ g.Text ++ ascii "</generator>" else ascii "/>"))

/-- The method `Accept.MarshalTo` of `marshal.go`. -/
def Accept.MarshalTo (a : Accept) : Except String Bytes :=
  if a.Text = [] then .ok (ascii "<accept/>")
  else .ok (ascii "<accept>" ++ a.Text ++ ascii "</accept>")

/-- The method `Categories.MarshalTo` of `marshal.go`. -/
def Categories.MarshalTo (c : AtomPub.Categories) : Except String Bytes :=
  if c.Href ≠ [] then
    if !url.Parse c.Href then .error "url.Parse"
    else .ok (ascii "<categories href=\"" ++ c.Href ++ ascii "\"/>")
  else if c.Fixed ≠ ascii "no" ∧ c.Fixed ≠ [] ∧ c.Fixed ≠ ascii "yes" then
    .error "unknown fixed attribute"
  else if c.Scheme ≠ [] ∧ url.Parse c.Scheme = false then .error "url.Parse"
  else
    writeAll
      [ .ok ((if c.Fixed = ascii "yes" then ascii "<categories fixed=\"yes\""
              else ascii "<categories")
          ++ (if c.Scheme ≠ [] then ascii " scheme=\"" ++ c.Scheme ++ ascii "\">"
              else ascii ">")),
        marshalEach (fun cat => cat.MarshalTo ⟨app_xmlns, ascii "categories"⟩) c.Categories,
        .ok (ascii "</categories>") ]

/-- The method `Collection.MarshalTo` of `marshal.go`; `none` is the nil
pointer.  For a parent of another name space the method sets an error that
the next assignment to `err` overwrites unless the href is empty; the header
is then empty. -/
def Collection.MarshalTo (c : Option Collection) (parent : Name) : Except String Bytes :=
  match c with
  | none => .ok []
  | some c =>
    let header :=
      if parent.Space = app_xmlns then ascii "collection"
      else if parent.Space = atom_xmlns then
        ascii "collection xmlns:atom=\"http://www.w3.org/2005/Atom\""
          ++ ascii " xmlns=\"http://www.w3.org/2007/app\""
      else []
    let footer :=
      if parent.Space = app_xmlns ∨ parent.Space = atom_xmlns then ascii "collection" else []
    if c.Href = [] then .error "empty collection href"
    else if !url.Parse c.Href then .error "url.Parse"
    else
      writeAll
        [ .ok (ascii "<" ++ header ++ ascii " href=\"" ++ c.Href ++ ascii "\">"),
          TextConstruct.MarshalTo c.Title ⟨app_xmlns, ascii "collection"⟩,
          marshalEach AtomPub.Categories.MarshalTo c.Categories,
          marshalEach Accept.MarshalTo c.Accepts,
          .ok (ascii "</" ++ footer ++ ascii ">") ]

/-- The method `Feed.MarshalTo` of `marshal.go` on a feed that is not nil,
`heap` holding the Source objects that its entries point to. -/
def Feed.MarshalTo (ParseMediaType : Bytes → Except String Bytes) (heap : List Source)
    (f : Feed) : Except String Bytes :=
  match Feed.Validate ParseMediaType heap (some f) with
  | some e => .error e
  | none =>
    let parent : Name := ⟨atom_xmlns, ascii "feed"⟩
    writeAll
      [ .ok (ascii "<feed xmlns=\"" ++ atom_xmlns ++ ascii "\">"),
        URI.MarshalTo f.Id,
        TextConstruct.MarshalTo f.Title parent,
        TextConstruct.MarshalTo f.Subtitle parent,
        DateConstruct.MarshalTo f.Updated,
        marshalEach Person.MarshalTo f.Authors,
        marshalEach Person.MarshalTo f.Contributors,
        marshalEach (fun c => c.MarshalTo parent) f.Categories,
        marshalEach (Link.MarshalTo ParseMediaType) f.Links,
        URI.MarshalTo f.Icon,
        URI.MarshalTo f.Logo,
        TextConstruct.MarshalTo f.Rights parent,
        Generator.MarshalTo f.Generator,
        Collection.MarshalTo f.Collection parent,
        marshalEach (fun t => Entry.MarshalTo ParseMediaType (deref heap t.Source) (some t) f.Id)
          f.Entries,
        .ok (ascii "</feed>") ]

/-! ## `handler.go`

The methods of `Handler` that serve `/feed/...` and `/entry/...`, over the
backend `h.B`.  A method of the handler either returns an error, which
`ServeHTTP` answers with `http.Error(w, e.Error(), e.code)`, or calls
`w.WriteHeader` and returns no body, or returns the body of a response with
status 200. -/

/-- The header fields of the request that these methods read with
`r.Header.Get`, the empty text for a field that is not set. -/
structure RequestHeader where
  ContentType : Bytes
  IfMatch : Bytes
  IfNoneMatch : Bytes
  deriving DecidableEq, Repr

/-- What `ServeHTTP` answers after a method of the handler. -/
inductive Response where
  | error (e : HTTPError)
  | header (status : Nat)
  | document (etag body : Bytes)
  deriving DecidableEq, Repr

/-- The status code of the response. -/
def Response.status : Response → Nat
  | .error e => e.code
  | .header status => status
  | .document _ _ => 200

/-- What a method of the handler that writes leaves behind: the backend,
whether `Decode` has been called on `r.Body`, and the response. -/
structure Handled (σ : Type) where
  backend : Backend σ
  bodyRead : Bool
  response : Response

/-- The method `Handler.putFeed` of `handler.go`.  `new_feed` is what
`xml.NewDecoder(r.Body).Decode` makes of the body, `none` when it returns an
error, and `doc` holds the Source objects that its entries point to; `now` is
the reading of `time.Now()`.  The result is `none` when the call panics. -/
def Handler.putFeed {σ : Type} (S : Storer σ) (ParseMediaType : Bytes → Except String Bytes)
    (sortSlice : (Entry → Entry → Bool) → List Entry → List Entry) (now : Time)
    (b : Backend σ) (r : Request) (h : RequestHeader) (new_feed : Option Feed)
    (doc : List Source) : Option (Handled σ) :=
  if h.ContentType ≠ ascii "application/atom+xml;type=feed" then
    some ⟨b, false, .error
      { code := 415, message := "content-type must be application/atom+xml;type=feed" }⟩
  else
    match b.GetFeed sortSlice r with
    | none => none
    | some (_, some e) => some ⟨b, false, .error e⟩
    | some (none, none) =>
      some ⟨b, false, .error { code := 500, message := "nil pointer dereference" }⟩
    | some (some feed, none) =>
      match Feed.ETag (some feed) with
      | .error e => some ⟨b, false, .error { code := 500, message := e }⟩
      | .ok etag =>
        match IfMatchIfNoneMatch etag h.IfMatch h.IfNoneMatch with
        | .error e => some ⟨b, false, .error e⟩
        | .ok false => some ⟨b, false, .error { code := 412, message := "" }⟩
        | .ok true =>
          match new_feed with
          | none =>
            some ⟨b, true, .error
              { code := 400, message := "could not unmarshal request body" }⟩
          | some new_feed =>
            let new_feed := { new_feed with Id := feed.Id, Updated := feed.Updated }
            match Feed.Validate ParseMediaType doc (some new_feed) with
            | some e => some ⟨b, true, .error { code := 400, message := e }⟩
            | none =>
              match b.PutFeed S now r new_feed with
              | none => none
              | some (b1, some e) => some ⟨b1, true, .error e⟩
              | some (b1, none) => some ⟨b1, true, .header 200⟩

/-- The method `Handler.putEntry` of `handler.go`.  `new_entry` is what
`xml.NewDecoder(r.Body).Decode` makes of the body, `none` when it returns an
error; `now1` and `now2` are the readings of `time.Now()`.  The result is
`none` when the call does not return. -/
def Handler.putEntry {σ : Type} (S : Storer σ) (ParseMediaType : Bytes → Except String Bytes)
    (decode : Bytes → DecoderRun) (now1 now2 : Time) (b : Backend σ) (r : Request)
    (h : RequestHeader) (new_entry : Option Entry) : Option (Handled σ) :=
  if h.ContentType ≠ ascii "application/atom+xml;type=entry" then
    some ⟨b, false, .error
      { code := 415, message := "content-type must be application/atom+xml;type=entry" }⟩
  else
    match b.GetEntry r with
    | (_, some e) => some ⟨b, false, .error e⟩
    | (none, none) =>
      some ⟨b, false, .error { code := 500, message := "nil pointer dereference" }⟩
    | (some entry, none) =>
      match Entry.ETag (some entry) with
      | .error e => some ⟨b, false, .error { code := 500, message := e }⟩
      | .ok etag =>
        match IfMatchIfNoneMatch etag h.IfMatch h.IfNoneMatch with
        | .error e => some ⟨b, false, .error e⟩
        | .ok false => some ⟨b, false, .error { code := 412, message := "" }⟩
        | .ok true =>
          match new_entry with
          | none =>
            some ⟨b, true, .error
              { code := 400, message := "could not unmarshal request body" }⟩
          | some new_entry =>
            let new_entry := { new_entry with Source := entry.Source }
            match (Entry.Validate ParseMediaType (deref b.heap new_entry.Source)
              (some new_entry) none).2 with
            | some _ => some ⟨b, true, .error { code := 400, message := "invalid atom entry" }⟩
            | none =>
              match b.PutEntry S decode now1 now2 r new_entry with
              | none => none
              | some (b1, some e) => some ⟨b1, true, .error e⟩
              | some (b1, none) => some ⟨b1, true, .header 200⟩

/-- The method `Handler.deleteEntry` of `handler.go`, `now` being the reading
of `time.Now()`.  The result is `none` when the call panics. -/
def Handler.deleteEntry {σ : Type} (S : Storer σ) (now : Time) (b : Backend σ) (r : Request)
    (h : RequestHeader) : Option (Handled σ) :=
  match b.GetEntry r with
  | (_, some e) => some ⟨b, false, .error e⟩
  | (none, none) => some ⟨b, false, .error { code := 500, message := "" }⟩
  | (some entry, none) =>
    match Entry.ETag (some entry) with
    | .error _ => some ⟨b, false, .error { code := 500, message := "" }⟩
    | .ok etag =>
      match IfMatchIfNoneMatch etag h.IfMatch h.IfNoneMatch with
      | .error e => some ⟨b, false, .error e⟩
      | .ok false => some ⟨b, false, .error { code := 412, message := "" }⟩
      | .ok true =>
        match b.DeleteEntry S now r with
        | none => none
        | some (b1, some e) => some ⟨b1, false, .error e⟩
        | some (b1, none) => some ⟨b1, false, .header 200⟩

/-- The method `Handler.deleteFeed` of `handler.go`.  The result is `none`
when the call panics. -/
def Handler.deleteFeed {σ : Type} (S : Storer σ)
    (sortSlice : (Entry → Entry → Bool) → List Entry → List Entry) (b : Backend σ)
    (r : Request) (h : RequestHeader) : Option (Handled σ) :=
  match b.GetFeed sortSlice r with
  | none => none
  | some (_, some e) => some ⟨b, false, .error e⟩
  | some (none, none) => some ⟨b, false, .error { code := 500, message := "" }⟩
  | some (some feed, none) =>
    match Feed.ETag (some feed) with
    | .error _ => some ⟨b, false, .error { code := 500, message := "" }⟩
    | .ok etag =>
      match IfMatchIfNoneMatch etag h.IfMatch h.IfNoneMatch with
      | .error e => some ⟨b, false, .error e⟩
      | .ok false => some ⟨b, false, .error { code := 412, message := "" }⟩
      | .ok true =>
        match b.DeleteFeed S r with
        | none => none
        | some (b1, some e) => some ⟨b1, false, .error e⟩
        | some (b1, none) => some ⟨b1, false, .header 200⟩

/-- The method `Handler.serveFeed` of `handler.go`: the response.  (The
marshalling of the feed also sets the empty `Type` fields of the stored text
constructs to `text`.)  The result is `none` when the call panics. -/
def Handler.serveFeed {σ : Type} (ParseMediaType : Bytes → Except String Bytes)
    (sortSlice : (Entry → Entry → Bool) → List Entry → List Entry) (b : Backend σ)
    (r : Request) (h : RequestHeader) : Option Response :=
  match b.GetFeed sortSlice r with
  | none => none
  | some (_, some e) => some (.error e)
  | some (none, none) => some (.error { code := 500, message := "" })
  | some (some feed, none) =>
    match Feed.ETag (some feed) with
    | .error _ => some (.error { code := 500, message := "" })
    | .ok etag =>
      match IfMatchIfNoneMatch etag h.IfMatch h.IfNoneMatch with
      | .error e => some (.error e)
      | .ok false => some (.header 304)
      | .ok true =>
        match Feed.MarshalTo ParseMediaType b.heap feed with
        | .error _ => some (.error { code := 500, message := "" })
        | .ok w => some (.document etag (xml.Header ++ w))

/-- The method `Handler.serveEntry` of `handler.go`: the response.  (The
marshalling of the entry also sets the empty `Type` fields of the stored text
constructs to `text`.) -/
def Handler.serveEntry {σ : Type} (ParseMediaType : Bytes → Except String Bytes)
    (b : Backend σ) (r : Request) (h : RequestHeader) : Response :=
  match b.GetEntry r with
  | (_, some e) => .error e
  | (none, none) => .error { code := 500, message := "" }
  | (some entry, none) =>
    match Entry.ETag (some entry) with
    | .error _ => .error { code := 500, message := "" }
    | .ok etag =>
      match IfMatchIfNoneMatch etag h.IfMatch h.IfNoneMatch with
      | .error e => .error e
      | .ok false => .header 304
      | .ok true =>
        match Entry.MarshalTo ParseMediaType (deref b.heap entry.Source) (some entry) none with
        | .error _ => .error { code := 500, message := "" }
        | .ok w => .document etag (xml.Header ++ w)

/-! ## `backend.go`: the passes of the loop of `preparePutContent` -/

/-- The `for` loop of `preparePutContent` followed for at most `passes`
passes through its body: `some none` when the loop has been left at `io.EOF`,
`some (some e)` when it has returned the error `e`, and `none` when it is
still running after these passes.  After the last token `dec.Token()` returns
the same result on every call: at `io.EOF` the loop is left; with any other
error `errors.Is(e, io.EOF)` is false, `t` is nil, the type assertion
`t.(xml.StartElement)` fails and the loop continues. -/
def putContentPasses (ending : DecoderEnd) : Nat → List XmlToken → Option (Option String)
  | 0, _ => none
  | passes + 1, [] =>
    match ending with
    | .EOF => some none
    | .error _ => putContentPasses ending passes []
  | passes + 1, .other :: rest => putContentPasses ending passes rest
  | passes + 1, .StartElement name :: rest =>
    if name.Local = ascii "p" ∨ name.Local = ascii "a" then putContentPasses ending passes rest
    else some (some ("tag " ++ String.mk (name.Local.map Char.ofNat) ++ " not allowed"))

/-! ## Texts without line breaks -/

/-- Texts that `bytes.Map`, called with the mapping that drops the rune `\n`
(in `preparePutContent` and in `Populate`), leaves as they are, also in front
of another text: sequences of ASCII bytes other than the newline and of runes
of several bytes that the mapping writes back as it read them. -/
inductive Runes : Bytes → Prop where
  | nil : Runes []
  | ascii (b : Nat) (rest : Bytes) : b < 0x80 → b ≠ 10 → Runes rest → Runes (b :: rest)
  | multi (raw rest : Bytes) : raw ≠ [] → (∀ x ∈ raw, 0x80 ≤ x) →
      (∀ t, dropNewlinesFrom 0 (raw ++ t) = raw ++ dropNewlinesFrom 0 t) →
      Runes rest → Runes (raw ++ rest)

/-- Whether the loop of `AddEntry` and `AddSource` calls `ReadByte` next, once
it has read the given bytes: the loop calls `ReadBytes('>')`, which reads up
to the next `>`, and `ReadByte`, which reads one byte, in turn. -/
def stageNext : Bool → Bytes → Bool
  | afterGt, [] => afterGt
  | true, _ :: rest => stageNext false rest
  | false, c :: rest => stageNext (c = 62) rest

/-! ## `storer.go`: deleting an entry -/

/-- The method `BillyStorer.DeleteEntry` of `storer.go`: the blob registered
for the entry is taken out of `hashmap`; the new store and the error, `none`
when nil. -/
def BillyStorer.DeleteEntry (s : BillyStorer) (entry : Option Entry) :
    BillyStorer × Option String :=
  match entry with
  | none => (s, some "nil pointer dereference")
  | some entry =>
    match uuid.Parse entry.Id.Target with
    | none => (s, some "invalid entry id")
    | some entry_uuid =>
      ({ s with hashmap := mapDelete s.hashmap (ascii "entry/" ++ entry_uuid ++ ascii ".atom") },
        none)

/-! ## Runs of the backend under a clock -/

/-- Model of `t.UnixNano()`: the nanoseconds of the instant since the
epoch. -/
def Time.UnixNano (t : Time) : Int := t.sec * 1000000000 + t.nsec

/-- The runs of the backend under a clock that does not go back:
`ClockRun S P decode t0 b0 t b` tells that a sequence of calls of the six
writing operations, each with any outcome, leads from the backend `b0` to the
backend `b`, that every reading of `time.Now()` in it is at or after `t0`
(nanoseconds since the epoch) and at or after the readings before it, and that
`t` is the last reading (`t0` when there is none).  `PostToFeed` and
`PutEntry` read the clock twice.  Between two calls the handlers marshal the
stored objects, which may set an empty `Type` of a text construct to `text`:
`marshalled` allows every change of the stored objects that keeps the
`updated` elements of the Sources and the keys and `updated` elements of the
entries. -/
inductive ClockRun {σ : Type} (S : Storer σ) (ParseMediaType : Bytes → Except String Bytes)
    (decode : Bytes → DecoderRun) (t0 : Int) (b0 : Backend σ) : Int → Backend σ → Prop where
  | start : ClockRun S ParseMediaType decode t0 b0 t0 b0
  | PostToRoot (t : Int) (b : Backend σ) (now : Time) (fresh : Bytes) (doc : List Source)
      (r : Request) (new_feed : Feed) :
      ClockRun S ParseMediaType decode t0 b0 t b → t ≤ now.UnixNano →
      ClockRun S ParseMediaType decode t0 b0 now.UnixNano
        (Backend.PostToRoot S ParseMediaType now fresh doc b r new_feed).1
  | PutFeed (t : Int) (b b' : Backend σ) (now : Time) (r : Request) (new_feed : Feed)
      (err : Option HTTPError) :
      ClockRun S ParseMediaType decode t0 b0 t b → t ≤ now.UnixNano →
      Backend.PutFeed S now b r new_feed = some (b', err) →
      ClockRun S ParseMediaType decode t0 b0 now.UnixNano b'
  | DeleteFeed (t : Int) (b b' : Backend σ) (r : Request) (err : Option HTTPError) :
      ClockRun S ParseMediaType decode t0 b0 t b →
      Backend.DeleteFeed S b r = some (b', err) →
      ClockRun S ParseMediaType decode t0 b0 t b'
  | PostToFeed (t : Int) (b b' : Backend σ) (slack : Nat) (now1 now2 : Time)
      (fresh : Bytes) (r : Request) (contentType slug body : Bytes) (entry : Option Entry)
      (entry_URL : Bytes) (err : Option HTTPError) :
      ClockRun S ParseMediaType decode t0 b0 t b → t ≤ now1.UnixNano →
      now1.UnixNano ≤ now2.UnixNano →
      Backend.PostToFeed S ParseMediaType slack now1 now2 fresh b r contentType slug body
        = some (b', entry, entry_URL, err) →
      ClockRun S ParseMediaType decode t0 b0 now2.UnixNano b'
  | PutEntry (t : Int) (b b' : Backend σ) (now1 now2 : Time) (r : Request)
      (new_entry : Entry) (err : Option HTTPError) :
      ClockRun S ParseMediaType decode t0 b0 t b → t ≤ now1.UnixNano →
      now1.UnixNano ≤ now2.UnixNano →
      Backend.PutEntry S decode now1 now2 b r new_entry = some (b', err) →
      ClockRun S ParseMediaType decode t0 b0 now2.UnixNano b'
  | DeleteEntry (t : Int) (b b' : Backend σ) (now : Time) (r : Request)
      (err : Option HTTPError) :
      ClockRun S ParseMediaType decode t0 b0 t b → t ≤ now.UnixNano →
      Backend.DeleteEntry S now b r = some (b', err) →
      ClockRun S ParseMediaType decode t0 b0 now.UnixNano b'
  | marshalled (t : Int) (b b' : Backend σ) :
      ClockRun S ParseMediaType decode t0 b0 t b →
      b'.heap.map (fun s => s.Updated) = b.heap.map (fun s => s.Updated) →
      b'.entrymap.map (fun kv => (kv.1, kv.2.Updated))
        = b.entrymap.map (fun kv => (kv.1, kv.2.Updated)) →
      ClockRun S ParseMediaType decode t0 b0 t b'

/-- Every `updated` element of the backend holds a clock reading at or before
`t`, rounded: every Source object has an `updated` element, with a reading
rounded to microseconds, and every entry of the entry map one with a reading
rounded to seconds; the keys of the entry map are distinct. -/
def UpdatedBefore {σ : Type} (t : Int) (b : Backend σ) : Prop :=
  (b.entrymap.map Prod.fst).Nodup ∧
  (∀ (p : Nat) (s : Source), b.heap[p]? = some s →
    ∃ (d : DateConstruct) (now : Time), s.Updated = some d ∧
      d.T = now.Round Time.Microsecond ∧ now.UnixNano ≤ t) ∧
  (∀ (k : Bytes) (e : Entry), (k, e) ∈ b.entrymap →
    ∃ now : Time, e.Updated.T = now.Round Time.Second ∧ now.UnixNano ≤ t)

/-- From the backend `b` to the backend `b'` no `updated` element goes back:
every Source object of `b` with an `updated` element is a Source object of
`b'` with an `updated` element that is not before it, and an entry of `b'`
under a key of `b` has an `updated` element that is not before the one of the
entry of `b`. -/
def UpdatedMonotone {σ : Type} (b b' : Backend σ) : Prop :=
  (∀ (p : Nat) (s : Source) (d : DateConstruct), b.heap[p]? = some s → s.Updated = some d →
    ∃ (s' : Source) (d' : DateConstruct), b'.heap[p]? = some s' ∧ s'.Updated = some d' ∧
      d.T.After d'.T = false) ∧
  (∀ (k : Bytes) (e e' : Entry), (k, e) ∈ b.entrymap → (k, e') ∈ b'.entrymap →
    e.Updated.T.After e'.Updated.T = false)

/-! ### A backend with two feeds, for `GetFeed` -/

/-- The backend `b` after the text `hello` is posted to the feed at `path` at
the second `sec`, the new entry getting the UUID `fresh`. -/
def postHello (b : Backend Unit) (sec : Int) (fresh path : Bytes) : Backend Unit :=
  ((Backend.PostToFeed okStorer mime.ParseMediaType 507 ⟨sec, 0, 0⟩ ⟨sec, 0, 0⟩ fresh b
    ⟨ascii "POST", path⟩ (ascii "text/plain") [] (ascii "hello")).map (fun res => res.1)).getD b

/-- The backend `b` after the entry at `path` is PUT back as it is stored, at
the second `sec`. -/
def putBack (b : Backend Unit) (sec : Int) (path : Bytes) : Backend Unit :=
  match b.entrymap.lookup path with
  | none => b
  | some entry =>
    ((Backend.PutEntry okStorer xml.decode ⟨sec, 0, 0⟩ ⟨sec, 0, 0⟩ b ⟨ascii "PUT", path⟩
      entry).map (fun res => res.1)).getD b

/-- A backend with two feeds.  The feed `/feed/…0001` has three entries,
posted at the seconds 1739525620 (`…0011`), 1739525630 (`…0012`) and
1739525640 (`…0013`); the feed `/feed/…0009` has one, posted at 1739525625
(`…0091`).  At last the entry `…0012` is PUT back at 1739525650, so the entry
map, in the order of its list, holds the entries updated at 20, 25, 50 and
40 seconds past 1739525600. -/
def twoFeedsBackend : Backend Unit :=
  let b1 := (Backend.PostToRoot okStorer mime.ParseMediaType ⟨1739525593, 0, 0⟩
    (ascii "00000000-0000-4000-8000-000000000009") [] oneFeedBackend
    ⟨ascii "POST", ascii "/"⟩ (newFeed none)).1
  let b2 := postHello b1 1739525620 (ascii "00000000-0000-4000-8000-000000000011")
    (ascii "/feed/00000000-0000-4000-8000-000000000001")
  let b3 := postHello b2 1739525625 (ascii "00000000-0000-4000-8000-000000000091")
    (ascii "/feed/00000000-0000-4000-8000-000000000009")
  let b4 := postHello b3 1739525630 (ascii "00000000-0000-4000-8000-000000000012")
    (ascii "/feed/00000000-0000-4000-8000-000000000001")
  let b5 := postHello b4 1739525640 (ascii "00000000-0000-4000-8000-000000000013")
    (ascii "/feed/00000000-0000-4000-8000-000000000001")
  putBack b5 1739525650 (ascii "/entry/00000000-0000-4000-8000-000000000012")

/-- The last twelve characters of the ids of the entries of a feed, with the
seconds of their `updated` elements, in the order of the feed. -/
def entryOrder (feed : Feed) : List (Bytes × Int) :=
  feed.Entries.map (fun e => (e.Id.Target.drop 33, e.Updated.T.sec))

/-! # Theorems -/

/-! ## Conditional requests -/

theorem unquote_star : strconv.Unquote (ascii "*") = none := by decide

theorem matchETag_empty_header (etag : Bytes) : matchETag etag [] = .ok (false, false) := by
  simp [matchETag]

theorem matchETag_empty_etag (header_val : Bytes) (h : header_val ≠ []) :
    matchETag [] header_val = .ok (true, false) := by
  simp [matchETag, h]

theorem matchETag_star (etag : Bytes) (h : etag ≠ []) :
    matchETag etag (ascii "*") = .ok (true, true) := by
  have hs : ascii "*" ≠ [] := by decide
  simp [matchETag, h, hs]

theorem matchETag_list (etag header_val : Bytes) (h : etag ≠ []) (h1 : header_val ≠ [])
    (h2 : header_val ≠ ascii "*") :
    matchETag etag header_val = matchETagLoop etag (strings.Split header_val (ascii ", ")) := by
  simp [matchETag, h, h1, h2]

/-- A piece that does not unquote, reached before any piece equal to the
quoted ETag, makes the loop fail. -/
theorem matchETagLoop_malformed (etag : Bytes) (pre : List Bytes) (t : Bytes) (post : List Bytes)
    (ht : strconv.Unquote t = none) (hpre : ∀ p ∈ pre, strconv.Unquote p ≠ some etag) :
    matchETagLoop etag (pre ++ t :: post) = .error ErrSyntax := by
  induction pre with
  | nil => simp [matchETagLoop, ht]
  | cons p ps ih =>
    have hps : ∀ q ∈ ps, strconv.Unquote q ≠ some etag := fun q hq => hpre q (by simp [hq])
    have hp : strconv.Unquote p ≠ some etag := hpre p (by simp)
    cases hu : strconv.Unquote p with
    | none => simp [matchETagLoop, hu]
    | some u =>
      have hne : u ≠ etag := by
        intro he
        exact hp (by rw [hu, he])
      simp [matchETagLoop, hu, hne, ih hps]

/-- A list holding a piece that does not unquote is never reported as
"set, no match". -/
theorem matchETagLoop_of_mem_malformed (etag : Bytes) (toks : List Bytes) (t : Bytes)
    (ht : strconv.Unquote t = none) (hmem : t ∈ toks) :
    matchETagLoop etag toks = .ok (true, true) ∨ matchETagLoop etag toks = .error ErrSyntax := by
  induction toks with
  | nil => simp at hmem
  | cons p ps ih =>
    cases hu : strconv.Unquote p with
    | none => simp [matchETagLoop, hu]
    | some u =>
      by_cases he : u = etag
      · simp [matchETagLoop, hu, he]
      · have hpt : p ≠ t := by
          intro hpt
          rw [hpt, ht] at hu
          exact Option.noConfusion hu
        have hmem2 : t ∈ ps := by
          rcases List.mem_cons.mp hmem with h | h
          · exact absurd h.symm hpt
          · exact h
        simpa [matchETagLoop, hu, he] using ih hmem2

/-- C1: when both header values parse without error, `IfMatchIfNoneMatch`
proceeds exactly when it is not the case that If-None-Match is set and
matches, and If-Match is unset or matches; with both headers empty it
proceeds; a matching If-None-Match blocks whatever If-Match is. -/
theorem IfMatchIfNoneMatch_proceed_iff (etag ifmatch ifnonematch : Bytes) :
    (∀ s1 m1 s2 m2 : Bool,
      matchETag etag ifnonematch = .ok (s1, m1) → matchETag etag ifmatch = .ok (s2, m2) →
      ∃ proceed : Bool, IfMatchIfNoneMatch etag ifmatch ifnonematch = .ok proceed ∧
        (proceed = true ↔ ¬ (s1 = true ∧ m1 = true) ∧ (s2 = false ∨ m2 = true)))
    ∧ IfMatchIfNoneMatch etag [] [] = .ok true
    ∧ (matchETag etag ifnonematch = .ok (true, true) →
        IfMatchIfNoneMatch etag ifmatch ifnonematch = .ok false) := by
  refine ⟨?_, ?_, ?_⟩
  · intro s1 m1 s2 m2 h1 h2
    cases s1 <;> cases m1 <;> cases s2 <;> cases m2 <;>
      simp [IfMatchIfNoneMatch, h1, h2]
  · simp [IfMatchIfNoneMatch, matchETag_empty_header]
  · intro h1
    simp [IfMatchIfNoneMatch, h1]

theorem IfMatchIfNoneMatch_proceed_iff_witness :
    matchETag (ascii "abc") (ascii "\"xyz\"") = .ok (true, false) ∧
    matchETag (ascii "abc") (ascii "\"abc\"") = .ok (true, true) ∧
    (∃ proceed : Bool,
      IfMatchIfNoneMatch (ascii "abc") (ascii "\"abc\"") (ascii "\"xyz\"") = .ok proceed ∧
        (proceed = true ↔ ¬ (true = true ∧ false = true) ∧ (true = false ∨ true = true))) :=
  ⟨by decide, by decide,
    (IfMatchIfNoneMatch_proceed_iff (ascii "abc") (ascii "\"abc\"") (ascii "\"xyz\"")).1
      true false true true (by decide) (by decide)⟩

/-- C2 (as stated, refuted): with current ETag `abc` the header `"xyz", *`
is a comma-space-separated list holding the token `*`, yet `matchETag`
returns an error instead of "set and matching". -/
theorem matchETag_star_in_list_counterexample :
    ascii "abc" ≠ [] ∧
    ascii "*" ∈ strings.Split (ascii "\"xyz\", *") (ascii ", ") ∧
    matchETag (ascii "abc") (ascii "\"xyz\", *") = .error ErrSyntax := by
  decide

/-- C2 (amended): for a non-empty current ETag the header `*` alone is set
and matching with no error; a longer list holding the token `*` is reported
as matching or as an error, and as an error whenever no piece before the `*`
unquotes to the current ETag. -/
theorem matchETag_star_alone (etag header_val : Bytes) (h : etag ≠ []) :
    matchETag etag (ascii "*") = .ok (true, true)
    ∧ (ascii "*" ∈ strings.Split header_val (ascii ", ") →
        matchETag etag header_val = .ok (true, true) ∨
        matchETag etag header_val = .error ErrSyntax)
    ∧ (∀ pre post, header_val ≠ ascii "*" →
        strings.Split header_val (ascii ", ") = pre ++ ascii "*" :: post →
        (∀ p ∈ pre, strconv.Unquote p ≠ some etag) →
        matchETag etag header_val = .error ErrSyntax) := by
  refine ⟨matchETag_star etag h, ?_, ?_⟩
  · intro hmem
    by_cases h2 : header_val = ascii "*"
    · left
      rw [h2]
      exact matchETag_star etag h
    · have h1 : header_val ≠ [] := by
        intro h0
        rw [h0] at hmem
        revert hmem
        decide
      rw [matchETag_list etag header_val h h1 h2]
      exact matchETagLoop_of_mem_malformed etag _ _ unquote_star hmem
  · intro pre post h2 hsplit hpre
    have h1 : header_val ≠ [] := by
      intro h0
      rw [h0] at hsplit
      have hmem : ascii "*" ∈ strings.Split [] (ascii ", ") := by
        rw [hsplit]
        simp
      revert hmem
      decide
    rw [matchETag_list etag header_val h h1 h2, hsplit]
    exact matchETagLoop_malformed etag pre _ post unquote_star hpre

theorem matchETag_star_alone_witness :
    ascii "abc" ≠ [] ∧
    (matchETag (ascii "abc") (ascii "*") = .ok (true, true)
    ∧ (ascii "*" ∈ strings.Split (ascii "\"xyz\", *") (ascii ", ") →
        matchETag (ascii "abc") (ascii "\"xyz\", *") = .ok (true, true) ∨
        matchETag (ascii "abc") (ascii "\"xyz\", *") = .error ErrSyntax)
    ∧ (∀ pre post, ascii "\"xyz\", *" ≠ ascii "*" →
        strings.Split (ascii "\"xyz\", *") (ascii ", ") = pre ++ ascii "*" :: post →
        (∀ p ∈ pre, strconv.Unquote p ≠ some (ascii "abc")) →
        matchETag (ascii "abc") (ascii "\"xyz\", *") = .error ErrSyntax)) :=
  ⟨by decide, matchETag_star_alone (ascii "abc") (ascii "\"xyz\", *") (by decide)⟩

/-- C3: with an empty current ETag every non-empty header value is "set, no
match" with no error, and `IfMatchIfNoneMatch("", "", h)` proceeds. -/
theorem matchETag_empty_etag_set_no_match (h : Bytes) (hne : h ≠ []) :
    matchETag [] h = .ok (true, false) ∧ IfMatchIfNoneMatch [] [] h = .ok true := by
  refine ⟨matchETag_empty_etag h hne, ?_⟩
  simp [IfMatchIfNoneMatch, matchETag_empty_etag h hne, matchETag_empty_header]

theorem matchETag_empty_etag_set_no_match_witness :
    ascii "not quoted" ≠ [] ∧
    matchETag [] (ascii "not quoted") = .ok (true, false) ∧
    IfMatchIfNoneMatch [] [] (ascii "not quoted") = .ok true :=
  ⟨by decide, matchETag_empty_etag_set_no_match (ascii "not quoted") (by decide)⟩

/-- C4 (as stated, refuted): with current ETag `abc`, the set If-Match header
`"abc", bad` holds the token `bad`, neither `*` nor a quoted string, yet
`IfMatchIfNoneMatch` returns no error and proceeds. -/
theorem IfMatchIfNoneMatch_malformed_counterexample :
    ascii "abc" ≠ [] ∧
    ascii "bad" ∈ strings.Split (ascii "\"abc\", bad") (ascii ", ") ∧
    ascii "bad" ≠ ascii "*" ∧ strconv.Unquote (ascii "bad") = none ∧
    IfMatchIfNoneMatch (ascii "abc") (ascii "\"abc\", bad") [] = .ok true := by
  decide

/-- C4 (amended): for a non-empty current ETag, a set header other than `*`
one of whose pieces does not unquote, no earlier piece of it being the quoted
current ETag, makes `IfMatchIfNoneMatch` return an `HTTPError` with code 400
(and so `proceed = false`): always for If-None-Match, and for If-Match
whenever If-None-Match parsed and did not block. -/
theorem IfMatchIfNoneMatch_malformed_reached (etag ifmatch ifnonematch : Bytes)
    (h : etag ≠ []) :
    (∀ pre t post, ifnonematch ≠ [] → ifnonematch ≠ ascii "*" →
        strings.Split ifnonematch (ascii ", ") = pre ++ t :: post →
        strconv.Unquote t = none → (∀ p ∈ pre, strconv.Unquote p ≠ some etag) →
        IfMatchIfNoneMatch etag ifmatch ifnonematch =
          .error { code := 400, message := ErrSyntax })
    ∧ (∀ pre t post (s m : Bool), ifmatch ≠ [] → ifmatch ≠ ascii "*" →
        strings.Split ifmatch (ascii ", ") = pre ++ t :: post →
        strconv.Unquote t = none → (∀ p ∈ pre, strconv.Unquote p ≠ some etag) →
        matchETag etag ifnonematch = .ok (s, m) → (s && m) = false →
        IfMatchIfNoneMatch etag ifmatch ifnonematch =
          .error { code := 400, message := ErrSyntax }) := by
  have key : ∀ (hv : Bytes) pre t post, hv ≠ [] → hv ≠ ascii "*" →
      strings.Split hv (ascii ", ") = pre ++ t :: post →
      strconv.Unquote t = none → (∀ p ∈ pre, strconv.Unquote p ≠ some etag) →
      matchETag etag hv = .error ErrSyntax := by
    intro hv pre t post h1 h2 hsplit ht hpre
    rw [matchETag_list etag hv h h1 h2, hsplit]
    exact matchETagLoop_malformed etag pre t post ht hpre
  refine ⟨?_, ?_⟩
  · intro pre t post h1 h2 hsplit ht hpre
    simp [IfMatchIfNoneMatch, key ifnonematch pre t post h1 h2 hsplit ht hpre, StatusBadRequest]
  · intro pre t post s m h1 h2 hsplit ht hpre hinm hsm
    simp [IfMatchIfNoneMatch, hinm, hsm, key ifmatch pre t post h1 h2 hsplit ht hpre,
      StatusBadRequest]

theorem IfMatchIfNoneMatch_malformed_reached_witness :
    ascii "abc" ≠ [] ∧
    ascii "bad, \"abc\"" ≠ [] ∧ ascii "bad, \"abc\"" ≠ ascii "*" ∧
    strings.Split (ascii "bad, \"abc\"") (ascii ", ") = [] ++ ascii "bad" :: [ascii "\"abc\""] ∧
    strconv.Unquote (ascii "bad") = none ∧
    IfMatchIfNoneMatch (ascii "abc") [] (ascii "bad, \"abc\"") =
      .error { code := 400, message := ErrSyntax } :=
  ⟨by decide, by decide, by decide, by decide, by decide,
    (IfMatchIfNoneMatch_malformed_reached (ascii "abc") [] (ascii "bad, \"abc\"")
      (by decide)).1 [] (ascii "bad") [ascii "\"abc\""] (by decide) (by decide) (by decide)
      (by decide) (by simp)⟩

/-! ## ETags -/

theorem fnv_Write_lt (data : Bytes) (h : Nat) (hh : h < 2 ^ 64) : fnv.Write h data < 2 ^ 64 := by
  induction data generalizing h with
  | nil => simpa [fnv.Write] using hh
  | cons c cs ih =>
    have : fnv.Write h (c :: cs) = fnv.Write (((h ^^^ c) * fnv.prime64) % 2 ^ 64) cs := by
      simp [fnv.Write]
    rw [this]
    exact ih _ (Nat.mod_lt _ (by norm_num))

theorem fnv_Write_append (a b : Bytes) (h : Nat) :
    fnv.Write h (a ++ b) = fnv.Write (fnv.Write h a) b := by
  simp [fnv.Write]

theorem fnv_Sum_injective (h1 h2 : Nat) (hh1 : h1 < 2 ^ 64) (hh2 : h2 < 2 ^ 64)
    (heq : fnv.Sum h1 = fnv.Sum h2) : h1 = h2 := by
  simp only [fnv.Sum, List.cons.injEq, and_true] at heq
  norm_num at hh1 hh2 heq
  omega

theorem encodeChar_ne_pad (b : Nat) : base32.encodeChar b ≠ base32.StdPadding := by
  have key : ∀ k < 32, base32.encodeStd.getD k 0 ≠ 61 := by decide
  exact key (b % 32) (Nat.mod_lt _ (by norm_num))

theorem encodeChar_injective (a b : Nat) (ha : a < 32) (hb : b < 32)
    (h : base32.encodeChar a = base32.encodeChar b) : a = b := by
  have key : ∀ i < 32, ∀ j < 32, base32.encodeStd.getD i 0 = base32.encodeStd.getD j 0 → i = j := by
    decide
  have h2 := key (a % 32) (Nat.mod_lt _ (by norm_num)) (b % 32) (Nat.mod_lt _ (by norm_num)) h
  omega

/-- The first 13 characters of the base32 text of eight bytes: the eight
blocks of the first five bytes and the first five blocks of the last three. -/
theorem base32_take13 (b0 b1 b2 b3 b4 b5 b6 b7 : Nat) :
    (base32.EncodeToString [b0, b1, b2, b3, b4, b5, b6, b7]).take 13 =
      (base32.blocks b0 b1 b2 b3 b4 ++ (base32.blocks b5 b6 b7 0 0).take 5).map
        base32.encodeChar := by
  simp [base32.EncodeToString, base32.blocks]

theorem etagOfWritten_length (w : Bytes) : (etagOfWritten w).length = 13 := by
  simp [etagOfWritten, fnv.Sum, base32.EncodeToString, base32.blocks]

theorem etagOfWritten_no_padding (w : Bytes) : base32.StdPadding ∉ etagOfWritten w := by
  unfold etagOfWritten fnv.Sum
  rw [base32_take13]
  intro hmem
  rcases List.mem_map.mp hmem with ⟨b, _, hb⟩
  exact encodeChar_ne_pad b hb

theorem map_encodeChar_injective (l1 l2 : List Nat) (h1 : ∀ x ∈ l1, x < 32)
    (h2 : ∀ x ∈ l2, x < 32) (h : l1.map base32.encodeChar = l2.map base32.encodeChar) :
    l1 = l2 := by
  induction l1 generalizing l2 with
  | nil =>
    cases l2 with
    | nil => rfl
    | cons b bs => simp at h
  | cons a as ih =>
    cases l2 with
    | nil => simp at h
    | cons b bs =>
      simp only [List.map_cons, List.cons.injEq] at h
      have hab := encodeChar_injective a b (h1 a (by simp)) (h2 b (by simp)) h.1
      have hrest := ih bs (fun x hx => h1 x (by simp [hx])) (fun x hx => h2 x (by simp [hx])) h.2
      rw [hab, hrest]

theorem blocks_lt (b0 b1 b2 b3 b4 : Nat) (h0 : b0 < 256) (h1 : b1 < 256) (h2 : b2 < 256)
    (h3 : b3 < 256) (h4 : b4 < 256) : ∀ x ∈ base32.blocks b0 b1 b2 b3 b4, x < 32 := by
  intro x hx
  simp only [base32.blocks, List.mem_cons, List.mem_singleton, List.not_mem_nil, or_false] at hx
  omega

/-- The 13 characters determine the eight bytes. -/
theorem base32_take13_injective (a b : List Nat) (ha : a.length = 8) (hb : b.length = 8)
    (hla : ∀ x ∈ a, x < 256) (hlb : ∀ x ∈ b, x < 256)
    (h : (base32.EncodeToString a).take 13 = (base32.EncodeToString b).take 13) : a = b := by
  match a, ha with
  | [a0, a1, a2, a3, a4, a5, a6, a7], _ =>
    match b, hb with
    | [b0, b1, b2, b3, b4, b5, b6, b7], _ =>
      have A : ∀ i ∈ [a0, a1, a2, a3, a4, a5, a6, a7], i < 256 := hla
      have B : ∀ i ∈ [b0, b1, b2, b3, b4, b5, b6, b7], i < 256 := hlb
      simp only [List.mem_cons, List.mem_singleton, List.not_mem_nil, or_false,
        forall_eq_or_imp, forall_eq] at A B
      rw [base32_take13, base32_take13] at h
      have hblocks := map_encodeChar_injective _ _ ?_ ?_ h
      · simp only [base32.blocks, List.take, List.cons_append, List.nil_append,
          List.cons.injEq, and_true] at hblocks
        simp only [List.cons.injEq, and_true]
        omega
      · intro x hx
        rcases List.mem_append.mp hx with hx | hx
        · exact blocks_lt _ _ _ _ _ A.1 A.2.1 A.2.2.1 A.2.2.2.1 A.2.2.2.2.1 x hx
        · exact blocks_lt _ _ _ 0 0 A.2.2.2.2.2.1 A.2.2.2.2.2.2.1 A.2.2.2.2.2.2.2 (by norm_num)
            (by norm_num) x (List.mem_of_mem_take hx)
      · intro x hx
        rcases List.mem_append.mp hx with hx | hx
        · exact blocks_lt _ _ _ _ _ B.1 B.2.1 B.2.2.1 B.2.2.2.1 B.2.2.2.2.1 x hx
        · exact blocks_lt _ _ _ 0 0 B.2.2.2.2.2.1 B.2.2.2.2.2.2.1 B.2.2.2.2.2.2.2 (by norm_num)
            (by norm_num) x (List.mem_of_mem_take hx)

theorem fnv_Sum_bytes (h : Nat) : (fnv.Sum h).length = 8 ∧ ∀ x ∈ fnv.Sum h, x < 256 := by
  refine ⟨rfl, ?_⟩
  intro x hx
  simp only [fnv.Sum, List.mem_cons, List.mem_singleton, List.not_mem_nil, or_false] at hx
  omega

/-- The 13 characters carry all 64 bits of the hash: two ETags are equal
exactly when the two FNV-1a sums are. -/
theorem etagOfWritten_eq_iff (w1 w2 : Bytes) :
    etagOfWritten w1 = etagOfWritten w2 ↔
      fnv.Write fnv.offset64 w1 = fnv.Write fnv.offset64 w2 := by
  constructor
  · intro h
    have hl1 := fnv_Write_lt w1 fnv.offset64 (by decide)
    have hl2 := fnv_Write_lt w2 fnv.offset64 (by decide)
    unfold etagOfWritten at h
    exact fnv_Sum_injective _ _ hl1 hl2
      (base32_take13_injective _ _ (fnv_Sum_bytes _).1 (fnv_Sum_bytes _).1
        (fnv_Sum_bytes _).2 (fnv_Sum_bytes _).2 h)
  · intro h
    simp [etagOfWritten, h]

/-- C5 (as stated, refuted): an entry and a feed whose id and updated are
correctly namespaced, the id target being the single byte 0x7F, which does
not parse as a URL: both `ETag` methods return an error and no 13-character
text. -/
theorem ETag_unparsable_id_counterexample :
    (Entry.zeroWith ⟨⟨atom_xmlns, ascii "id"⟩, [0x7f]⟩
        ⟨⟨atom_xmlns, ascii "updated"⟩, ⟨0, 0, 0⟩⟩).Id.XMLName = ⟨atom_xmlns, ascii "id"⟩ ∧
    (Entry.zeroWith ⟨⟨atom_xmlns, ascii "id"⟩, [0x7f]⟩
        ⟨⟨atom_xmlns, ascii "updated"⟩, ⟨0, 0, 0⟩⟩).Updated.XMLName
      = ⟨atom_xmlns, ascii "updated"⟩ ∧
    Entry.ETag (some (Entry.zeroWith ⟨⟨atom_xmlns, ascii "id"⟩, [0x7f]⟩
        ⟨⟨atom_xmlns, ascii "updated"⟩, ⟨0, 0, 0⟩⟩)) = .error "url.Parse" ∧
    Feed.ETag (some (Feed.zeroWith (some ⟨⟨atom_xmlns, ascii "id"⟩, [0x7f]⟩)
        (some ⟨⟨atom_xmlns, ascii "updated"⟩, ⟨0, 0, 0⟩⟩))) = .error "url.Parse" := by
  decide

/-- C5 (amended): for every feed and entry carrying the same Atom-namespaced
id and updated, the id target parsing as a URL, both `ETag` methods return the
first 13 characters of the base32 text of the 64-bit FNV-1a sum of
marshal(id) followed by marshal(updated); the result has 13 characters, none
of them `=`, and every entry and feed with that id and updated has it. -/
theorem ETag_formula (feed : Feed) (entry : Entry) (id : URI) (updated : DateConstruct)
    (hid : id.XMLName.Space = atom_xmlns) (hup : updated.XMLName.Space = atom_xmlns)
    (hurl : url.Parse id.Target = true)
    (hf1 : feed.Id = some id) (hf2 : feed.Updated = some updated)
    (he1 : entry.Id = id) (he2 : entry.Updated = updated) :
    ∃ w1 w2 etag : Bytes,
      URI.MarshalTo (some id) = .ok w1 ∧ DateConstruct.MarshalTo (some updated) = .ok w2 ∧
      etag = (base32.EncodeToString (fnv.Sum (fnv.Write fnv.offset64 (w1 ++ w2)))).take 13 ∧
      Entry.ETag (some entry) = .ok etag ∧ Feed.ETag (some feed) = .ok etag ∧
      etag.length = 13 ∧ base32.StdPadding ∉ etag ∧
      (∀ entry2 : Entry, entry2.Id = id → entry2.Updated = updated →
        Entry.ETag (some entry2) = .ok etag) ∧
      (∀ feed2 : Feed, feed2.Id = some id → feed2.Updated = some updated →
        Feed.ETag (some feed2) = .ok etag) := by
  have hw1 : URI.MarshalTo (some id) = .ok (ascii "<" ++ id.XMLName.Local ++ ascii ">"
      ++ id.Target ++ ascii "</" ++ id.XMLName.Local ++ ascii ">") := by
    simp [URI.MarshalTo, hid, hurl]
  have hw2 : DateConstruct.MarshalTo (some updated) = .ok (ascii "<" ++ updated.XMLName.Local
      ++ ascii ">" ++ updated.T.Format ++ ascii "</" ++ updated.XMLName.Local ++ ascii ">") := by
    simp [DateConstruct.MarshalTo, hup]
  have hentry : ∀ entry2 : Entry, entry2.Id = id → entry2.Updated = updated →
      Entry.ETag (some entry2) = .ok (etagOfWritten ((ascii "<" ++ id.XMLName.Local ++ ascii ">"
        ++ id.Target ++ ascii "</" ++ id.XMLName.Local ++ ascii ">") ++ (ascii "<"
        ++ updated.XMLName.Local ++ ascii ">" ++ updated.T.Format ++ ascii "</"
        ++ updated.XMLName.Local ++ ascii ">"))) := by
    intro entry2 h1 h2
    simp only [Entry.ETag, h1, h2, hw1, hw2]
  have hfeed : ∀ feed2 : Feed, feed2.Id = some id → feed2.Updated = some updated →
      Feed.ETag (some feed2) = .ok (etagOfWritten ((ascii "<" ++ id.XMLName.Local ++ ascii ">"
        ++ id.Target ++ ascii "</" ++ id.XMLName.Local ++ ascii ">") ++ (ascii "<"
        ++ updated.XMLName.Local ++ ascii ">" ++ updated.T.Format ++ ascii "</"
        ++ updated.XMLName.Local ++ ascii ">"))) := by
    intro feed2 h1 h2
    simp only [Feed.ETag, h1, h2, hw1, hw2]
  exact ⟨_, _, _, hw1, hw2, rfl, hentry entry he1 he2, hfeed feed hf1 hf2,
    etagOfWritten_length _, etagOfWritten_no_padding _, hentry, hfeed⟩

theorem ETag_formula_witness :
    (⟨atom_xmlns, ascii "id"⟩ : Name).Space = atom_xmlns ∧
    url.Parse (ascii "urn:uuid:123e4567-e89b-12d3-a456-426614174000") = true ∧
    ∃ w1 w2 etag : Bytes,
      URI.MarshalTo (some ⟨⟨atom_xmlns, ascii "id"⟩,
        ascii "urn:uuid:123e4567-e89b-12d3-a456-426614174000"⟩) = .ok w1 ∧
      DateConstruct.MarshalTo (some ⟨⟨atom_xmlns, ascii "updated"⟩, ⟨1739525592, 0, 0⟩⟩)
        = .ok w2 ∧
      etag = (base32.EncodeToString (fnv.Sum (fnv.Write fnv.offset64 (w1 ++ w2)))).take 13 ∧
      Entry.ETag (some (Entry.zeroWith
        ⟨⟨atom_xmlns, ascii "id"⟩, ascii "urn:uuid:123e4567-e89b-12d3-a456-426614174000"⟩
        ⟨⟨atom_xmlns, ascii "updated"⟩, ⟨1739525592, 0, 0⟩⟩)) = .ok etag ∧
      Feed.ETag (some (Feed.zeroWith
        (some ⟨⟨atom_xmlns, ascii "id"⟩, ascii "urn:uuid:123e4567-e89b-12d3-a456-426614174000"⟩)
        (some ⟨⟨atom_xmlns, ascii "updated"⟩, ⟨1739525592, 0, 0⟩⟩))) = .ok etag ∧
      etag.length = 13 ∧ base32.StdPadding ∉ etag :=
  ⟨rfl, by decide,
    let ⟨w1, w2, etag, h1, h2, h3, h4, h5, h6, h7, _, _⟩ :=
      ETag_formula
        (Feed.zeroWith
          (some ⟨⟨atom_xmlns, ascii "id"⟩, ascii "urn:uuid:123e4567-e89b-12d3-a456-426614174000"⟩)
          (some ⟨⟨atom_xmlns, ascii "updated"⟩, ⟨1739525592, 0, 0⟩⟩))
        (Entry.zeroWith
          ⟨⟨atom_xmlns, ascii "id"⟩, ascii "urn:uuid:123e4567-e89b-12d3-a456-426614174000"⟩
          ⟨⟨atom_xmlns, ascii "updated"⟩, ⟨1739525592, 0, 0⟩⟩)
        ⟨⟨atom_xmlns, ascii "id"⟩, ascii "urn:uuid:123e4567-e89b-12d3-a456-426614174000"⟩
        ⟨⟨atom_xmlns, ascii "updated"⟩, ⟨1739525592, 0, 0⟩⟩
        rfl rfl (by decide) rfl rfl rfl rfl
    ⟨w1, w2, etag, h1, h2, h3, h4, h5, h6, h7⟩⟩


/-! ## Plain-text ingestion -/

theorem DecodeRune_width (x : Nat) (xs : Bytes) :
    1 ≤ (utf8.DecodeRune (x :: xs)).2 ∧ (utf8.DecodeRune (x :: xs)).2 ≤ xs.length + 1 := by
  rcases xs with _ | ⟨a, _ | ⟨b, _ | ⟨c, t⟩⟩⟩ <;>
    simp only [utf8.DecodeRune, utf8.isCont] <;>
    split_ifs <;> simp

theorem isCont_ascii (y : Nat) (hy : y < 0x80) : utf8.isCont y = false := by
  simp [utf8.isCont]
  omega

theorem DecodeRune_append (x : Nat) (xs ys : Bytes) (hys : ∀ y ∈ ys.head?, y < 0x80) :
    utf8.DecodeRune (x :: xs ++ ys) = utf8.DecodeRune (x :: xs) := by
  rcases ys with _ | ⟨y, ys⟩
  · simp
  have hy : y < 0x80 := hys y (by simp)
  have hc : utf8.isCont y = false := isCont_ascii y hy
  by_cases h1 : x < 0x80
  · simp [utf8.DecodeRune, h1]
  by_cases h2 : x < 0xC2
  · simp [utf8.DecodeRune, h1, h2]
  by_cases h3 : x < 0xE0
  · rcases xs with _ | ⟨a, t⟩
    · simp [utf8.DecodeRune, h1, h2, h3, hc]
    · simp [utf8.DecodeRune, h1, h2, h3]
  by_cases h4 : x < 0xF0
  · rcases xs with _ | ⟨a, _ | ⟨b, t⟩⟩
    · rcases ys with _ | ⟨y2, ys⟩
      · simp [utf8.DecodeRune, h1, h2, h3, h4]
      · have : (if x = 224 then 160 else 128) > y := by split_ifs <;> omega
        simp [utf8.DecodeRune, h1, h2, h3, h4, this]
    · simp [utf8.DecodeRune, h1, h2, h3, h4, hc]
    · simp [utf8.DecodeRune, h1, h2, h3, h4]
  by_cases h5 : x < 0xF5
  · rcases xs with _ | ⟨a, _ | ⟨b, _ | ⟨c, t⟩⟩⟩
    · rcases ys with _ | ⟨y2, _ | ⟨y3, ys⟩⟩
      · simp [utf8.DecodeRune, h1, h2, h3, h4, h5]
      · simp [utf8.DecodeRune, h1, h2, h3, h4, h5]
      · have : (if x = 240 then 144 else 128) > y := by split_ifs <;> omega
        simp [utf8.DecodeRune, h1, h2, h3, h4, h5, this]
    · rcases ys with _ | ⟨y2, ys⟩
      · simp [utf8.DecodeRune, h1, h2, h3, h4, h5]
      · simp [utf8.DecodeRune, h1, h2, h3, h4, h5, hc]
    · simp [utf8.DecodeRune, h1, h2, h3, h4, h5, hc]
    · simp [utf8.DecodeRune, h1, h2, h3, h4, h5]
  · simp [utf8.DecodeRune, h1, h2, h3, h4, h5]

theorem escapeFrom_append (xs ys : Bytes) (skip : Nat) (hskip : skip ≤ xs.length)
    (hys : ∀ y ∈ ys.head?, y < 0x80) :
    xml.escapeFrom skip (xs ++ ys) = xml.escapeFrom skip xs ++ xml.escapeFrom 0 ys := by
  induction xs generalizing skip with
  | nil =>
    have : skip = 0 := by simpa using hskip
    subst this
    cases ys <;> simp [xml.escapeFrom]
  | cons x xs ih =>
    cases skip with
    | succ s =>
      simp only [List.cons_append, xml.escapeFrom]
      exact ih s (by simpa using hskip)
    | zero =>
      have hw := DecodeRune_width x xs
      have hd := DecodeRune_append x xs ys hys
      simp only [List.cons_append] at hd ⊢
      simp only [xml.escapeFrom, hd]
      rw [ih _ (by omega)]
      have htake : List.take (utf8.DecodeRune (x :: xs)).2 (x :: (xs ++ ys))
          = List.take (utf8.DecodeRune (x :: xs)).2 (x :: xs) := by
        rw [← List.cons_append, List.take_append_of_le_length (by simpa using hw.2)]
      rw [htake, List.append_assoc]

/-- `EscapeText` distributes over a split in front of an ASCII byte. -/
theorem EscapeText_append (xs ys : Bytes) (hys : ∀ y ∈ ys.head?, y < 0x80) :
    xml.EscapeText (xs ++ ys) = xml.EscapeText xs ++ xml.EscapeText ys :=
  escapeFrom_append xs ys 0 (Nat.zero_le _) hys


theorem dropWhile_cons_head {p : Nat → Bool} {l : Bytes} {c : Nat} {r : Bytes}
    (h : l.dropWhile p = c :: r) : p c = false := by
  have hne : l.dropWhile p ≠ [] := by simp [h]
  have := List.head_dropWhile_not p l hne
  simpa [h] using this

theorem takeWhile_of_dropWhile_nil {p : Nat → Bool} {l : Bytes} (h : l.dropWhile p = []) :
    l.takeWhile p = l := by
  have := List.takeWhile_append_dropWhile p l
  rw [h, List.append_nil] at this
  exact this

theorem newlineOrSpace_ascii (c : Nat) (h : (!isNewlineOrSpace c) = false) : c < 0x80 := by
  simp [isNewlineOrSpace] at h
  omega

/-- As long as no chunk is recognised the loop writes the escaped input. -/
theorem scanLoop_no_token (slack : Nat) (fuel : Nat) (st : ScanState) (cur : Bytes)
    (hfuel : cur.length < fuel)
    (H : ∀ c ∈ candidates fuel cur, matchProtocol c.1 c.2 protocol_list 0 = none) :
    scanLoop slack fuel st cur = { st with buf := st.buf ++ xml.EscapeText cur } := by
  induction fuel generalizing st cur with
  | zero => omega
  | succ fuel ih =>
    have hsplit := List.takeWhile_append_dropWhile (fun b => decide (b ≠ 58)) cur
    cases hd : cur.dropWhile (fun b => decide (b ≠ 58)) with
    | nil =>
      simp only [scanLoop, scanStep, hd]
    | cons colon after0 =>
      have hsplit2 := List.takeWhile_append_dropWhile (fun b => !isNewlineOrSpace b) after0
      have hcolon : colon = 58 := by
        have := dropWhile_cons_head hd
        simpa using this
      have hcand : matchProtocol (cur.takeWhile (fun b => decide (b ≠ 58)))
          (after0.takeWhile (fun b => !isNewlineOrSpace b)) protocol_list 0 = none :=
        H (_, _) (by simp only [candidates, hd]; exact List.mem_cons_self _ _)
      rw [hd] at hsplit
      generalize hb : cur.takeWhile (fun b => decide (b ≠ 58)) = before at hsplit hcand
      generalize ha : after0.takeWhile (fun b => !isNewlineOrSpace b) = after at hsplit2 hcand
      subst hcolon
      cases hr : after0.dropWhile (fun b => !isNewlineOrSpace b) with
      | nil =>
        simp only [scanLoop, scanStep, scanChunk, restAfterTail, hd, hr, hb, ha, hcand]
        rw [hr, List.append_nil] at hsplit2
        rw [hsplit2, ← hsplit]
        simp
      | cons c r =>
        rw [hr] at hsplit2
        have hlen : (c :: r).length < fuel := by
          have h1 : cur.length = before.length + (1 + after0.length) := by
            rw [← hsplit]
            simp
            omega
          have h2 : after0.length = after.length + (c :: r).length := by
            rw [← hsplit2]
            simp
          omega
        have Hrest : ∀ x ∈ candidates fuel (c :: r),
            matchProtocol x.1 x.2 protocol_list 0 = none := by
          intro x hx
          apply H
          simp only [candidates, hd, hr]
          exact List.mem_cons_of_mem _ hx
        simp only [scanLoop, scanStep, scanChunk, restAfterTail, hd, hr, hb, ha, hcand]
        rw [ih _ _ hlen Hrest]
        have hc : c < 0x80 := newlineOrSpace_ascii c (dropWhile_cons_head hr)
        have hcur : cur = (before ++ [58] ++ after) ++ (c :: r) := by
          rw [← hsplit, ← hsplit2]
          simp
        rw [hcur, EscapeText_append _ (c :: r) (by simpa using hc)]
        simp [List.append_assoc]

theorem candidates_no_colon (fuel : Nat) (input : Bytes) (h : 58 ∉ input) :
    candidates fuel input = [] := by
  cases fuel with
  | zero => rfl
  | succ fuel =>
    have hd : input.dropWhile (fun b => decide (b ≠ 58)) = [] := by
      rw [List.dropWhile_eq_nil_iff]
      intro x hx
      have : x ≠ 58 := fun h0 => h (h0 ▸ hx)
      simpa using this
    simp only [candidates, hd]

/-- C10: an input none of whose chunks is recognised as a token, in
particular an input without `:`, gives no category and the opening text, the
XML-escaped input and `</p></div>`, with no footer. -/
theorem preparePlainText_no_token (slack : Nat) (input : Bytes) :
    ((∀ c ∈ candidates (input.length + 1) input,
        matchProtocol c.1 c.2 protocol_list 0 = none) →
      preparePlainText slack input =
        (xhtmlOpen ++ xml.EscapeText input ++ ascii "</p></div>", []))
    ∧ (58 ∉ input →
      preparePlainText slack input =
        (xhtmlOpen ++ xml.EscapeText input ++ ascii "</p></div>", [])) := by
  have key : (∀ c ∈ candidates (input.length + 1) input,
        matchProtocol c.1 c.2 protocol_list 0 = none) →
      preparePlainText slack input =
        (xhtmlOpen ++ xml.EscapeText input ++ ascii "</p></div>", []) := by
    intro H
    have hloop := scanLoop_no_token slack (input.length + 1)
      { buf := xhtmlOpen, urls := [], categories := [] } input (Nat.lt_succ_self _) H
    simp only [preparePlainText, scanInput, hloop, finishPlainText]
    have : ascii "</p></div>" = ascii "</p>" ++ ascii "</div>" := by decide
    simp [this]
  refine ⟨key, ?_⟩
  intro h
  apply key
  rw [candidates_no_colon _ _ h]
  simp

theorem preparePlainText_no_token_witness :
    (∀ c ∈ candidates ((ascii "A:B <a map> & more").length + 1) (ascii "A:B <a map> & more"),
        matchProtocol c.1 c.2 protocol_list 0 = none) ∧
    preparePlainText 0 (ascii "A:B <a map> & more") =
        (xhtmlOpen ++ xml.EscapeText (ascii "A:B <a map> & more") ++ ascii "</p></div>", [])
    ∧ 58 ∉ ascii "plain text" ∧
    preparePlainText 0 (ascii "plain text") =
        (xhtmlOpen ++ xml.EscapeText (ascii "plain text") ++ ascii "</p></div>", []) :=
  ⟨by decide,
    (preparePlainText_no_token 0 (ascii "A:B <a map> & more")).1 (by decide),
    by decide,
    (preparePlainText_no_token 0 (ascii "plain text")).2 (by decide)⟩


theorem overwrite_length (s ov : Bytes) : (overwrite s ov).length = s.length := by
  simp [overwrite]
  omega

theorem appendInPlace_length (slack : Nat) (input_bytes before1 m r : Bytes) :
    (appendInPlace slack input_bytes before1 m r).length = r.length := by
  unfold appendInPlace
  split
  · exact overwrite_length _ _
  · rfl

theorem dropSpaceBeforePeriod_length (rest : Option Bytes) (r1 : Bytes)
    (h : dropSpaceBeforePeriod rest = some r1) : ∃ r, rest = some r ∧ r1.length ≤ r.length := by
  unfold dropSpaceBeforePeriod at h
  split at h
  · rename_i r
    simp only [Option.some.injEq] at h
    exact ⟨_, rfl, by rw [← h]; simp⟩
  · exact ⟨r1, h, le_refl _⟩

theorem dropWhile_length_le (p : Nat → Bool) (l : Bytes) : (l.dropWhile p).length ≤ l.length := by
  have := congrArg List.length (List.takeWhile_append_dropWhile p l)
  rw [List.length_append] at this
  omega

theorem restAfterTail_length (after0 r : Bytes) (h : restAfterTail after0 = some r) :
    r.length ≤ after0.length := by
  have hlen := dropWhile_length_le (fun b => !isNewlineOrSpace b) after0
  unfold restAfterTail at h
  split at h
  · simp at h
  · rename_i c r0 heq
    simp only [Option.some.injEq] at h
    rw [← h, ← heq]
    exact hlen

theorem scanChunk_rest_le (slack : Nat) (st st1 : ScanState) (cur before after r : Bytes)
    (rest : Option Bytes) (h : scanChunk slack st cur before after rest = (st1, some r)) :
    ∃ x, rest = some x ∧ r.length ≤ x.length := by
  unfold scanChunk at h
  split at h
  · split at h
    · simp only [Prod.mk.injEq] at h
      cases hrc : rest with
      | none => simp [hrc] at h
      | some x =>
        simp only [hrc, Option.map_some', Option.some.injEq] at h
        exact ⟨x, rfl, by rw [← h.2]; simp⟩
    · simp only [Prod.mk.injEq] at h
      cases hrc : dropSpaceBeforePeriod rest with
      | none => simp [hrc] at h
      | some x =>
        obtain ⟨y, hy, hxy⟩ := dropSpaceBeforePeriod_length rest x hrc
        simp only [hrc, Option.map_some', Option.some.injEq] at h
        exact ⟨y, hy, by rw [← h.2, appendInPlace_length]; exact hxy⟩
  · simp only [Prod.mk.injEq] at h
    exact ⟨r, h.2, le_refl _⟩

/-- Every pass that continues the loop shortens `input_bytes`. -/
theorem scanStep_rest_lt (slack : Nat) (st st1 : ScanState) (cur r : Bytes)
    (h : scanStep slack st cur = (st1, some r)) : r.length < cur.length := by
  have hlen := dropWhile_length_le (fun b => decide (b ≠ 58)) cur
  cases hd : cur.dropWhile (fun b => decide (b ≠ 58)) with
  | nil =>
    simp only [scanStep, hd] at h
    simp at h
  | cons colon after0 =>
    rw [hd] at hlen
    simp only [List.length_cons] at hlen
    simp only [scanStep, hd] at h
    obtain ⟨x, hx, hrx⟩ := scanChunk_rest_le _ _ _ _ _ _ _ _ h
    have := restAfterTail_length after0 x hx
    omega

/-- Above the length of the input the fuel of the loop is irrelevant: the
loop always leaves through its `break`. -/
theorem scanLoop_fuel (slack : Nat) (fuel1 fuel2 : Nat) (st : ScanState) (cur : Bytes)
    (h1 : cur.length < fuel1) (h2 : cur.length < fuel2) :
    scanLoop slack fuel1 st cur = scanLoop slack fuel2 st cur := by
  induction fuel1 generalizing fuel2 st cur with
  | zero => omega
  | succ f1 ih =>
    cases fuel2 with
    | zero => omega
    | succ f2 =>
      simp only [scanLoop]
      cases hs : scanStep slack st cur with
      | mk st1 rest =>
        cases rest with
        | none => rfl
        | some r =>
          have := scanStep_rest_lt slack st st1 cur r hs
          exact ih f2 st1 r (by omega) (by omega)

theorem takeWhile_colon_split (pre rest : Bytes) (h : 58 ∉ pre) :
    (pre ++ 58 :: rest).takeWhile (fun b => decide (b ≠ 58)) = pre
    ∧ (pre ++ 58 :: rest).dropWhile (fun b => decide (b ≠ 58)) = 58 :: rest := by
  have hp : ∀ a ∈ pre, (fun b => decide (b ≠ 58)) a = true := by
    intro a ha
    have : a ≠ 58 := fun h0 => h (h0 ▸ ha)
    simpa using this
  constructor
  · rw [List.takeWhile_append_of_pos hp]
    simp
  · rw [List.dropWhile_append_of_pos hp]
    simp

theorem takeWhile_tail_split (tail rest : Bytes)
    (htail : ∀ b ∈ tail, isNewlineOrSpace b = false)
    (hrest : ∀ c ∈ rest.head?, isNewlineOrSpace c = true) :
    (tail ++ rest).takeWhile (fun b => !isNewlineOrSpace b) = tail
    ∧ restAfterTail (tail ++ rest) = (if rest = [] then none else some rest) := by
  have hp : ∀ a ∈ tail, (fun b => !isNewlineOrSpace b) a = true := by
    intro a ha
    simp [htail a ha]
  constructor
  · rw [List.takeWhile_append_of_pos hp]
    cases rest with
    | nil => simp
    | cons c r =>
      have : isNewlineOrSpace c = true := hrest c (by simp)
      simp [List.takeWhile, this]
  · unfold restAfterTail
    rw [List.dropWhile_append_of_pos hp]
    cases rest with
    | nil => simp
    | cons c r =>
      have : isNewlineOrSpace c = true := hrest c (by simp)
      simp [List.dropWhile, this]

/-- The pass over an input that starts with the chunk `before:tail`. -/
theorem scanStep_chunk (slack : Nat) (st : ScanState) (before tail rest : Bytes)
    (hb : 58 ∉ before) (htail : ∀ b ∈ tail, isNewlineOrSpace b = false)
    (hrest : ∀ c ∈ rest.head?, isNewlineOrSpace c = true) :
    scanStep slack st (before ++ 58 :: (tail ++ rest)) =
      scanChunk slack st (before ++ 58 :: (tail ++ rest)) before tail
        (if rest = [] then none else some rest) := by
  obtain ⟨h1, h2⟩ := takeWhile_colon_split before (tail ++ rest) hb
  obtain ⟨h3, h4⟩ := takeWhile_tail_split tail rest htail hrest
  simp only [scanStep, h1, h2, h3, h4]

/-- The chunk `p0 cat:tail`: the text before the token is written, the tail
is appended to the categories, the URL list is left alone, and the byte after
the token, when there is one, is dropped. -/
theorem scanChunk_cat (slack : Nat) (st : ScanState) (cur p0 tail : Bytes)
    (rest : Option Bytes) (hurl : url.Parse (ascii "cat" ++ [58] ++ tail) = true) :
    scanChunk slack st cur (p0 ++ ascii "cat") tail rest =
      ({ st with buf := st.buf ++ xml.EscapeText p0, categories := st.categories ++ [tail] },
        rest.map (fun r => r.drop 1)) := by
  have hcat : ascii "cat" = [99, 97, 116] := by decide
  have hm : matchProtocol (p0 ++ ascii "cat") tail protocol_list 0 = some (0, ascii "cat") := by
    have hsuf : (ascii "cat").isSuffixOf (p0 ++ ascii "cat") = true := by
      rw [List.isSuffixOf_iff_suffix]
      exact List.suffix_append _ _
    have hurl2 : url.Parse (ascii "cat" ++ 58 :: tail) = true := by simpa using hurl
    simp [protocol_list, matchProtocol, hsuf, hurl2]
  have htrim : strings.TrimPrefix (ascii "cat" ++ [58] ++ tail) (ascii "cat:") = tail := by
    have : ascii "cat:" = [99, 97, 116, 58] := by decide
    rw [this, hcat]
    simp [strings.TrimPrefix, List.isPrefixOf]
  have htake : (p0 ++ ascii "cat").take ((p0 ++ ascii "cat").length - (ascii "cat").length)
      = p0 := by
    simp
  simp only [scanChunk, hm, htrim, htake, if_true]

/-- C9 (as stated, refuted): in the input `ab cat:foo` the token is the last
thing in the input.  The output text is `ab `, every byte of the input outside
the token: no byte is consumed besides the token, whereas in `ab cat:foo cd`
the space after the token is. -/
theorem preparePlainText_cat_at_end_counterexample :
    preparePlainText 0 (ascii "ab cat:foo") =
      (xhtmlOpen ++ ascii "ab " ++ ascii "</p></div>", [ascii "foo"]) ∧
    (ascii "ab ").length + (ascii "cat:foo").length = (ascii "ab cat:foo").length ∧
    preparePlainText 0 (ascii "ab cat:foo cd") =
      (xhtmlOpen ++ ascii "ab cd" ++ ascii "</p></div>", [ascii "foo"]) := by
  decide

/-- C9 (amended): when the scan reaches a chunk `p0 cat:tail` whose
`cat:tail` parses as a URL, the pass writes only the text `p0` in front of
the token, appends `tail` to the categories, leaves the URL list alone and
drops the newline or space that ends the tail; when the token ends the input
nothing more is dropped and the loop is left.  For an input starting with
such a chunk the output is that of the scan resumed after the dropped
byte. -/
theorem scanStep_cat_token (slack : Nat) (st : ScanState) (p0 tail rest : Bytes)
    (hp0 : 58 ∉ p0) (htail : ∀ b ∈ tail, isNewlineOrSpace b = false)
    (hrest : ∀ c ∈ rest.head?, isNewlineOrSpace c = true)
    (hurl : url.Parse (ascii "cat:" ++ tail) = true) :
    scanStep slack st (p0 ++ ascii "cat:" ++ tail ++ rest) =
      ({ st with buf := st.buf ++ xml.EscapeText p0, categories := st.categories ++ [tail] },
        if rest = [] then none else some (rest.drop 1))
    ∧ preparePlainText slack (p0 ++ ascii "cat:" ++ tail ++ rest) =
      finishPlainText
        (if rest = [] then
          { buf := xhtmlOpen ++ xml.EscapeText p0, urls := [], categories := [tail] }
        else
          scanLoop slack ((rest.drop 1).length + 1)
            { buf := xhtmlOpen ++ xml.EscapeText p0, urls := [], categories := [tail] }
            (rest.drop 1)) := by
  have hcolon : ascii "cat:" = ascii "cat" ++ [58] := by decide
  have hcat : ascii "cat" = [99, 97, 116] := by decide
  have hb : 58 ∉ p0 ++ ascii "cat" := by
    rw [hcat]
    simp [hp0]
  have hshape : p0 ++ ascii "cat:" ++ tail ++ rest
      = (p0 ++ ascii "cat") ++ 58 :: (tail ++ rest) := by
    rw [hcolon]
    simp
  have hurl2 : url.Parse (ascii "cat" ++ [58] ++ tail) = true := by
    rw [← hcolon]
    exact hurl
  have hstep : ∀ st : ScanState, scanStep slack st (p0 ++ ascii "cat:" ++ tail ++ rest) =
      ({ st with buf := st.buf ++ xml.EscapeText p0, categories := st.categories ++ [tail] },
        if rest = [] then none else some (rest.drop 1)) := by
    intro st
    rw [hshape, scanStep_chunk slack st _ tail rest hb htail hrest,
      scanChunk_cat slack st _ p0 tail _ hurl2]
    cases rest <;> simp
  refine ⟨hstep st, ?_⟩
  have hloop : scanLoop slack ((p0 ++ ascii "cat:" ++ tail ++ rest).length + 1)
      { buf := xhtmlOpen, urls := [], categories := [] } (p0 ++ ascii "cat:" ++ tail ++ rest) =
      (if rest = [] then
        { buf := xhtmlOpen ++ xml.EscapeText p0, urls := [], categories := [tail] }
      else
        scanLoop slack (p0 ++ ascii "cat:" ++ tail ++ rest).length
          { buf := xhtmlOpen ++ xml.EscapeText p0, urls := [], categories := [tail] }
          (rest.drop 1)) := by
    rw [scanLoop, hstep]
    cases rest <;> simp
  simp only [preparePlainText, scanInput, hloop]
  cases hr : rest with
  | nil => simp
  | cons c r =>
    simp only [List.drop_succ_cons, List.drop_zero, reduceCtorEq, if_false]
    congr 1
    apply scanLoop_fuel
    · simp
      omega
    · simp

theorem scanStep_cat_token_witness :
    58 ∉ ascii "ab " ∧ url.Parse (ascii "cat:" ++ ascii "foo") = true ∧
    scanStep 0 { buf := xhtmlOpen, urls := [], categories := [] }
        (ascii "ab " ++ ascii "cat:" ++ ascii "foo" ++ ascii " cd") =
      ({ buf := xhtmlOpen ++ xml.EscapeText (ascii "ab "), urls := [],
         categories := [] ++ [ascii "foo"] },
        if ascii " cd" = [] then none else some ((ascii " cd").drop 1)) :=
  ⟨by decide, by decide,
    (scanStep_cat_token 0 { buf := xhtmlOpen, urls := [], categories := [] }
      (ascii "ab ") (ascii "foo") (ascii " cd") (by decide) (by decide) (by decide)
      (by decide)).1⟩

/-! ## PUT keeps the id -/

theorem mapSet_lookup {α : Type} (m : List (Bytes × α)) (key : Bytes) (value : α) :
    (mapSet m key value).lookup key = some value := by
  induction m with
  | nil => simp [mapSet, List.lookup]
  | cons kv rest ih =>
    obtain ⟨k, v⟩ := kv
    by_cases h : k = key
    · simp [mapSet, h, List.lookup]
    · have h2 : (key == k) = false := by
        simp
        exact fun h3 => h h3.symm
      simp [mapSet, h, List.lookup, h2, ih]

theorem storeSource_fields {σ : Type} (S : Storer σ) (b : Backend σ) (r : Request) (v : Source) :
    (storeSource S b r v).1.heap = b.heap ∧ (storeSource S b r v).1.sourcemap = b.sourcemap
    ∧ (storeSource S b r v).1.entrymap = b.entrymap
    ∧ (storeSource S b r v).1.collections = b.collections := by
  unfold storeSource
  split
  · simp
  · split <;> simp

theorem storeEntry_fields {σ : Type} (S : Storer σ) (b : Backend σ) (r : Request) (e : Entry)
    (v : Source) :
    (storeEntry S b r e v).1.heap = b.heap ∧ (storeEntry S b r e v).1.sourcemap = b.sourcemap
    ∧ (storeEntry S b r e v).1.entrymap = b.entrymap
    ∧ (storeEntry S b r e v).1.collections = b.collections := by
  unfold storeEntry
  split
  · simp
  · exact storeSource_fields S _ r v

theorem PutFeed_id_change {σ : Type} (S : Storer σ) (now : Time) (b : Backend σ) (r : Request)
    (new_feed : Feed) (ptr : SourcePtr) (v : Source)
    (h1 : b.sourcemap.lookup r.Path = some ptr) (h2 : b.heap[ptr]? = some v)
    (h3 : URI.Consumes v.Id new_feed.Id = false) :
    Backend.PutFeed S now b r new_feed =
      some (b, some { code := 400, message := "cannot change the URI of the feed" }) := by
  simp [Backend.PutFeed, h1, h2, h3]

theorem PutEntry_id_change {σ : Type} (S : Storer σ) (decode : Bytes → DecoderRun)
    (now1 now2 : Time) (b : Backend σ) (r : Request) (new_entry entry : Entry) (ptr : SourcePtr)
    (source : Source) (updated : DateConstruct)
    (h1 : b.entrymap.lookup r.Path = some entry) (h2 : entry.Source = some ptr)
    (h3 : b.heap[ptr]? = some source) (h4 : source.Updated = some updated)
    (h5 : URI.Consumes (some entry.Id) (some new_entry.Id) = false) :
    Backend.PutEntry S decode now1 now2 b r new_entry =
      some (b, some { code := 400, message := "cannot change the URI of the entry" }) := by
  simp [Backend.PutEntry, h1, h2, h3, h4, h5]

theorem storeSource_eq {σ : Type} (S : Storer σ) (b b' : Backend σ) (r : Request) (v : Source)
    (e : Option HTTPError) (h : storeSource S b r v = (b', e)) :
    b'.heap = b.heap ∧ b'.sourcemap = b.sourcemap ∧ b'.entrymap = b.entrymap
    ∧ b'.collections = b.collections := by
  have hf := storeSource_fields S b r v
  rw [h] at hf
  exact hf

theorem storeEntry_eq {σ : Type} (S : Storer σ) (b b' : Backend σ) (r : Request) (en : Entry)
    (v : Source) (e : Option HTTPError) (h : storeEntry S b r en v = (b', e)) :
    b'.heap = b.heap ∧ b'.sourcemap = b.sourcemap ∧ b'.entrymap = b.entrymap
    ∧ b'.collections = b.collections := by
  have hf := storeEntry_fields S b r en v
  rw [h] at hf
  exact hf

theorem getElem?_lt {α : Type} (l : List α) (i : Nat) (x : α) (h : l[i]? = some x) :
    i < l.length := by
  by_contra hge
  have : l[i]? = none := by
    rw [List.getElem?_eq_none_iff]
    omega
  rw [this] at h
  exact Option.noConfusion h

theorem PutFeed_success_id {σ : Type} (S : Storer σ) (now : Time) (b b' : Backend σ)
    (r : Request) (new_feed : Feed)
    (h : Backend.PutFeed S now b r new_feed = some (b', none)) :
    ∃ ptr v, b.sourcemap.lookup r.Path = some ptr ∧ b.heap[ptr]? = some v ∧
      b'.sourcemap.lookup r.Path = some ptr ∧ (b'.heap[ptr]?).map Source.Id = some v.Id := by
  unfold Backend.PutFeed at h
  split at h
  · simp at h
  · rename_i ptr hptr
    split at h
    · simp at h
    · rename_i v hv
      split at h
      · simp at h
      · split at h
        · simp at h
        · rename_i c hc
          simp only [Option.some.injEq] at h
          obtain ⟨hf1, hf2, _, _⟩ := storeSource_eq S _ _ _ _ _ h
          dsimp only at hf1 hf2
          have hlt := getElem?_lt _ _ _ hv
          have hp' : b'.sourcemap.lookup r.Path = some ptr := by
            rw [hf2]
            exact hptr
          refine ⟨ptr, v, hptr, hv, hp', ?_⟩
          rw [hf1, List.getElem?_set_self hlt]
          rfl

theorem PutEntry_success_id {σ : Type} (S : Storer σ) (decode : Bytes → DecoderRun)
    (now1 now2 : Time) (b b' : Backend σ) (r : Request) (new_entry : Entry)
    (h : Backend.PutEntry S decode now1 now2 b r new_entry = some (b', none)) :
    ∃ entry, b.entrymap.lookup r.Path = some entry ∧
      (b'.entrymap.lookup r.Path).map Entry.Id = some entry.Id := by
  unfold Backend.PutEntry at h
  split at h
  · simp at h
  · rename_i entry hentry
    split at h
    · simp at h
    · split at h
      · simp at h
      · split at h
        · simp at h
        · split at h
          · simp at h
          · simp only at h
            split at h
            · simp at h
            · split at h
              · simp at h
              · split at h
                · simp at h
                · split at h
                  · simp at h
                  · split at h
                    · simp at h
                    · split at h
                      · simp at h
                      · simp at h
                      · simp only [Option.some.injEq] at h
                        obtain ⟨_, _, hf3, _⟩ := storeEntry_eq S _ _ _ _ _ _ h
                        dsimp only at hf3
                        refine ⟨entry, hentry, ?_⟩
                        rw [hf3, mapSet_lookup]
                        rfl

/-- C7: `PutFeed` and `PutEntry` return a 400 error and leave the backend as
it was when the submitted id does not equal the stored id (the entry's Source
and its updated being present), and after every successful `PutFeed` or
`PutEntry` the stored resource has the id it had before the call. -/
theorem Put_keeps_id {σ : Type} (S : Storer σ) (decode : Bytes → DecoderRun) (now1 now2 : Time)
    (b : Backend σ) (r : Request) :
    (∀ (new_feed : Feed) (ptr : SourcePtr) (v : Source),
      b.sourcemap.lookup r.Path = some ptr → b.heap[ptr]? = some v →
      URI.Consumes v.Id new_feed.Id = false →
      Backend.PutFeed S now1 b r new_feed =
        some (b, some { code := 400, message := "cannot change the URI of the feed" }))
    ∧ (∀ (new_entry entry : Entry) (ptr : SourcePtr) (source : Source) (updated : DateConstruct),
      b.entrymap.lookup r.Path = some entry → entry.Source = some ptr →
      b.heap[ptr]? = some source → source.Updated = some updated →
      URI.Consumes (some entry.Id) (some new_entry.Id) = false →
      Backend.PutEntry S decode now1 now2 b r new_entry =
        some (b, some { code := 400, message := "cannot change the URI of the entry" }))
    ∧ (∀ (new_feed : Feed) (b' : Backend σ),
      Backend.PutFeed S now1 b r new_feed = some (b', none) →
      ∃ ptr v, b.sourcemap.lookup r.Path = some ptr ∧ b.heap[ptr]? = some v ∧
        b'.sourcemap.lookup r.Path = some ptr ∧ (b'.heap[ptr]?).map Source.Id = some v.Id)
    ∧ (∀ (new_entry : Entry) (b' : Backend σ),
      Backend.PutEntry S decode now1 now2 b r new_entry = some (b', none) →
      ∃ entry, b.entrymap.lookup r.Path = some entry ∧
        (b'.entrymap.lookup r.Path).map Entry.Id = some entry.Id) :=
  ⟨fun new_feed ptr v h1 h2 h3 => PutFeed_id_change S now1 b r new_feed ptr v h1 h2 h3,
   fun new_entry entry ptr source updated h1 h2 h3 h4 h5 =>
     PutEntry_id_change S decode now1 now2 b r new_entry entry ptr source updated h1 h2 h3 h4 h5,
   fun new_feed b' h => PutFeed_success_id S now1 b b' r new_feed h,
   fun new_entry b' h => PutEntry_success_id S decode now1 now2 b b' r new_entry h⟩

theorem Put_keeps_id_witness :
    sampleBackend.entrymap.lookup (ascii "/entry/2") = some sampleEntry ∧
    sampleBackend.heap[0]? = some sampleSource ∧
    URI.Consumes (some sampleEntry.Id)
      (some (atomId "urn:uuid:00000000-0000-4000-8000-00000000000f")) = false ∧
    Backend.PutEntry okStorer divDecoder ⟨1739525700, 600000000, 0⟩ ⟨1739525700, 600001900, 0⟩
        sampleBackend ⟨ascii "PUT", ascii "/entry/2"⟩
        { sampleEntry with Id := atomId "urn:uuid:00000000-0000-4000-8000-00000000000f" } =
      some (sampleBackend,
        some { code := 400, message := "cannot change the URI of the entry" }) ∧
    ∃ b' : Backend Unit,
      Backend.PutEntry okStorer divDecoder ⟨1739525700, 600000000, 0⟩
        ⟨1739525700, 600001900, 0⟩ sampleBackend ⟨ascii "PUT", ascii "/entry/2"⟩
        { sampleEntry with Title := ⟨⟨atom_xmlns, ascii "title"⟩, [], ascii "New Title"⟩ } =
        some (b', none) ∧
      (b'.entrymap.lookup (ascii "/entry/2")).map Entry.Id = some sampleEntry.Id :=
  ⟨by decide, by decide, by decide,
    (Put_keeps_id okStorer divDecoder ⟨1739525700, 600000000, 0⟩ ⟨1739525700, 600001900, 0⟩
      sampleBackend ⟨ascii "PUT", ascii "/entry/2"⟩).2.1
      { sampleEntry with Id := atomId "urn:uuid:00000000-0000-4000-8000-00000000000f" }
      sampleEntry 0 sampleSource (atomUpdated ⟨1739525592, 546909000, 0⟩)
      (by decide) (by decide) (by decide) (by decide) (by decide),
    ⟨_, rfl, by decide⟩⟩

/-! ## C6: the ETag across a PUT -/

/-- A successful `PutFeed` stores a Source with the id it had and with the
updated time set to the rounded `now`. -/
theorem PutFeed_success_updated {σ : Type} (S : Storer σ) (now : Time) (b b' : Backend σ)
    (r : Request) (new_feed : Feed)
    (h : Backend.PutFeed S now b r new_feed = some (b', none)) :
    ∃ ptr v v1, b.sourcemap.lookup r.Path = some ptr ∧ b.heap[ptr]? = some v ∧
      b'.sourcemap.lookup r.Path = some ptr ∧ b'.heap[ptr]? = some v1 ∧ v1.Id = v.Id ∧
      v1.Updated = v.Updated.map (fun d => d.Set (now.Round Time.Microsecond)) := by
  unfold Backend.PutFeed at h
  split at h
  · simp at h
  · rename_i ptr hptr
    split at h
    · simp at h
    · rename_i v hv
      split at h
      · simp at h
      · split at h
        · simp at h
        · rename_i c hc
          simp only [Option.some.injEq] at h
          obtain ⟨hf1, hf2, _, _⟩ := storeSource_eq S _ _ _ _ _ h
          dsimp only at hf1 hf2
          have hlt := getElem?_lt _ _ _ hv
          have hp1 : b'.sourcemap.lookup r.Path = some ptr := by
            rw [hf2]
            exact hptr
          have hget : ∃ v1, b'.heap[ptr]? = some v1 ∧ v1.Id = v.Id ∧
              v1.Updated = v.Updated.map (fun d => d.Set (now.Round Time.Microsecond)) := by
            rw [hf1, List.getElem?_set_self hlt]
            exact ⟨_, rfl, rfl, rfl⟩
          obtain ⟨v1, g1, g2, g3⟩ := hget
          exact ⟨ptr, v, v1, hptr, hv, hp1, g1, g2, g3⟩

/-- A successful `PutEntry` stores an entry with the id it had and with the
updated time set to the rounded `now1`. -/
theorem PutEntry_success_updated {σ : Type} (S : Storer σ) (decode : Bytes → DecoderRun)
    (now1 now2 : Time) (b b' : Backend σ) (r : Request) (new_entry : Entry)
    (h : Backend.PutEntry S decode now1 now2 b r new_entry = some (b', none)) :
    ∃ entry entry1, b.entrymap.lookup r.Path = some entry ∧
      b'.entrymap.lookup r.Path = some entry1 ∧ entry1.Id = entry.Id ∧
      entry1.Updated = entry.Updated.Set (now1.Round Time.Second) := by
  unfold Backend.PutEntry at h
  split at h
  · simp at h
  · rename_i entry hentry
    split at h
    · simp at h
    · split at h
      · simp at h
      · split at h
        · simp at h
        · split at h
          · simp at h
          · simp only at h
            split at h
            · simp at h
            · split at h
              · simp at h
              · split at h
                · simp at h
                · split at h
                  · simp at h
                  · split at h
                    · simp at h
                    · split at h
                      · simp at h
                      · simp at h
                      · simp only [Option.some.injEq] at h
                        obtain ⟨_, _, hf3, _⟩ := storeEntry_eq S _ _ _ _ _ _ h
                        dsimp only at hf3
                        have hget : ∃ entry1, b'.entrymap.lookup r.Path = some entry1 ∧
                            entry1.Id = entry.Id ∧
                            entry1.Updated = entry.Updated.Set (now1.Round Time.Second) := by
                          rw [hf3, mapSet_lookup]
                          exact ⟨_, rfl, rfl, rfl⟩
                        obtain ⟨entry1, g1, g2, g3⟩ := hget
                        exact ⟨entry, entry1, hentry, g1, g2, g3⟩

/-- Two feeds with the same marshalled id have the same ETag exactly when the
FNV-1a states after the marshalled id and updated are the same. -/
theorem Feed_ETag_eq_iff (f1 f2 : Feed) (w w1 w2 : Bytes)
    (hid1 : URI.MarshalTo f1.Id = .ok w) (hid2 : URI.MarshalTo f2.Id = .ok w)
    (h1 : DateConstruct.MarshalTo f1.Updated = .ok w1)
    (h2 : DateConstruct.MarshalTo f2.Updated = .ok w2) :
    Feed.ETag (some f1) = Feed.ETag (some f2) ↔
      fnv.Write fnv.offset64 (w ++ w1) = fnv.Write fnv.offset64 (w ++ w2) := by
  simp only [Feed.ETag, hid1, hid2, h1, h2, Except.ok.injEq]
  exact etagOfWritten_eq_iff _ _

/-- Two entries with the same marshalled id have the same ETag exactly when
the FNV-1a states after the marshalled id and updated are the same. -/
theorem Entry_ETag_eq_iff (e1 e2 : Entry) (w w1 w2 : Bytes)
    (hid1 : URI.MarshalTo (some e1.Id) = .ok w) (hid2 : URI.MarshalTo (some e2.Id) = .ok w)
    (h1 : DateConstruct.MarshalTo (some e1.Updated) = .ok w1)
    (h2 : DateConstruct.MarshalTo (some e2.Updated) = .ok w2) :
    Entry.ETag (some e1) = Entry.ETag (some e2) ↔
      fnv.Write fnv.offset64 (w ++ w1) = fnv.Write fnv.offset64 (w ++ w2) := by
  simp only [Entry.ETag, hid1, hid2, h1, h2, Except.ok.injEq]
  exact etagOfWritten_eq_iff _ _

/-- The ETag of a feed reads its id and its updated only. -/
theorem Feed_ETag_congr (f1 f2 : Feed) (hid : f1.Id = f2.Id) (hup : f1.Updated = f2.Updated) :
    Feed.ETag (some f1) = Feed.ETag (some f2) := by
  simp only [Feed.ETag, hid, hup]

/-- The ETag of an entry reads its id and its updated only. -/
theorem Entry_ETag_congr (e1 e2 : Entry) (hid : e1.Id = e2.Id) (hup : e1.Updated = e2.Updated) :
    Entry.ETag (some e1) = Entry.ETag (some e2) := by
  simp only [Entry.ETag, hid, hup]

/-- C6 (amended): after a successful `PutFeed` or `PutEntry` the stored
resource has the id it had, and the ETag computed after the call differs from
the ETag computed before it exactly when the FNV-1a hash of the marshalled id
and updated differs.  So a changed ETag means a changed updated value; a
changed updated value changes the ETag unless the two hashes collide.  The
ETag of a feed is taken on any feed that carries the id and the updated of the
stored Source, as the feed that `GetFeed` returns does. -/
theorem Put_ETag_differs {σ : Type} (S : Storer σ) (decode : Bytes → DecoderRun)
    (now1 now2 : Time) (b : Backend σ) (r : Request) :
    (∀ (new_feed : Feed) (b' : Backend σ),
      Backend.PutFeed S now1 b r new_feed = some (b', none) →
      ∃ ptr v v1, b.sourcemap.lookup r.Path = some ptr ∧ b.heap[ptr]? = some v ∧
        b'.sourcemap.lookup r.Path = some ptr ∧ b'.heap[ptr]? = some v1 ∧ v1.Id = v.Id ∧
        ∀ feed feed1 : Feed, feed.Id = v.Id → feed.Updated = v.Updated →
          feed1.Id = v1.Id → feed1.Updated = v1.Updated →
          (Feed.ETag (some feed1) ≠ Feed.ETag (some feed) → v1.Updated ≠ v.Updated) ∧
          ∀ w w1 w2 : Bytes, URI.MarshalTo v.Id = .ok w →
            DateConstruct.MarshalTo v.Updated = .ok w1 →
            DateConstruct.MarshalTo v1.Updated = .ok w2 →
            (Feed.ETag (some feed1) ≠ Feed.ETag (some feed) ↔
              fnv.Write fnv.offset64 (w ++ w2) ≠ fnv.Write fnv.offset64 (w ++ w1)))
    ∧ (∀ (new_entry : Entry) (b' : Backend σ),
      Backend.PutEntry S decode now1 now2 b r new_entry = some (b', none) →
      ∃ entry entry1, b.entrymap.lookup r.Path = some entry ∧
        b'.entrymap.lookup r.Path = some entry1 ∧ entry1.Id = entry.Id ∧
        (Entry.ETag (some entry1) ≠ Entry.ETag (some entry) →
          entry1.Updated ≠ entry.Updated) ∧
        ∀ w w1 w2 : Bytes, URI.MarshalTo (some entry.Id) = .ok w →
          DateConstruct.MarshalTo (some entry.Updated) = .ok w1 →
          DateConstruct.MarshalTo (some entry1.Updated) = .ok w2 →
          (Entry.ETag (some entry1) ≠ Entry.ETag (some entry) ↔
            fnv.Write fnv.offset64 (w ++ w2) ≠ fnv.Write fnv.offset64 (w ++ w1))) := by
  constructor
  · intro new_feed b' h
    obtain ⟨ptr, v, v1, h1, h2, h3, h4, h5, _⟩ := PutFeed_success_updated S now1 b b' r new_feed h
    refine ⟨ptr, v, v1, h1, h2, h3, h4, h5, ?_⟩
    intro feed feed1 hfi hfu hgi hgu
    constructor
    · intro hne heq
      exact hne (Feed_ETag_congr feed1 feed (by rw [hgi, hfi, h5]) (by rw [hgu, hfu, heq]))
    · intro w w1 w2 hw hw1 hw2
      exact not_congr (Feed_ETag_eq_iff feed1 feed w w2 w1 (by rw [hgi, h5, hw])
        (by rw [hfi, hw]) (by rw [hgu, hw2]) (by rw [hfu, hw1]))
  · intro new_entry b' h
    obtain ⟨entry, entry1, h1, h2, h3, _⟩ :=
      PutEntry_success_updated S decode now1 now2 b b' r new_entry h
    refine ⟨entry, entry1, h1, h2, h3, ?_, ?_⟩
    · intro hne heq
      exact hne (Entry_ETag_congr entry1 entry h3 heq)
    · intro w w1 w2 hw hw1 hw2
      exact not_congr (Entry_ETag_eq_iff entry1 entry w w2 w1 (by rw [h3, hw]) hw hw2 hw1)

theorem Put_ETag_differs_witness :
    ∃ b' : Backend Unit,
      Backend.PutEntry okStorer divDecoder ⟨1739525700, 600000000, 0⟩
        ⟨1739525700, 600001900, 0⟩ sampleBackend ⟨ascii "PUT", ascii "/entry/2"⟩
        { sampleEntry with Title := ⟨⟨atom_xmlns, ascii "title"⟩, [], ascii "New Title"⟩ } =
        some (b', none) ∧
      ∃ entry entry1, sampleBackend.entrymap.lookup (ascii "/entry/2") = some entry ∧
        b'.entrymap.lookup (ascii "/entry/2") = some entry1 ∧ entry1.Id = entry.Id ∧
        (Entry.ETag (some entry1) ≠ Entry.ETag (some entry) →
          entry1.Updated ≠ entry.Updated) ∧
        ∀ w w1 w2 : Bytes, URI.MarshalTo (some entry.Id) = .ok w →
          DateConstruct.MarshalTo (some entry.Updated) = .ok w1 →
          DateConstruct.MarshalTo (some entry1.Updated) = .ok w2 →
          (Entry.ETag (some entry1) ≠ Entry.ETag (some entry) ↔
            fnv.Write fnv.offset64 (w ++ w2) ≠ fnv.Write fnv.offset64 (w ++ w1)) :=
  ⟨_, rfl,
    (Put_ETag_differs okStorer divDecoder ⟨1739525700, 600000000, 0⟩
      ⟨1739525700, 600001900, 0⟩ sampleBackend ⟨ascii "PUT", ascii "/entry/2"⟩).2
      { sampleEntry with Title := ⟨⟨atom_xmlns, ascii "title"⟩, [], ascii "New Title"⟩ } _ rfl⟩

set_option maxRecDepth 100000 in
/-- C6 (as stated, refuted): the feed `/feed/1`, last updated at
2024-10-07T23:26:19.178077Z, is PUT at 2136-02-15T00:34:47.9542674Z.  The call
succeeds, the id is kept and the updated value changes to
2136-02-15T00:34:47.954267Z, yet the ETag of the feed is `4WIR62AUXKLBS` before
and after: the two marshalled texts have the same FNV-1a sum. -/
theorem Put_ETag_collision_counterexample :
    ∃ (b' : Backend Unit) (v v1 : Source),
      Backend.PutFeed okStorer ⟨5242322087, 954267400, 0⟩ collisionBackend
        ⟨ascii "PUT", ascii "/feed/1"⟩ collisionFeed = some (b', none) ∧
      collisionBackend.heap[0]? = some v ∧ b'.heap[0]? = some v1 ∧
      v.Updated = some (atomUpdated ⟨1728343579, 178077000, 0⟩) ∧
      v1.Updated = some (atomUpdated ⟨5242322087, 954267000, 0⟩) ∧
      v1.Id = v.Id ∧ v1.Updated ≠ v.Updated ∧
      Feed.ETag (some (feedOf v [])) = .ok (ascii "4WIR62AUXKLBS") ∧
      Feed.ETag (some (feedOf v1 [])) = .ok (ascii "4WIR62AUXKLBS") :=
  ⟨_, _, _, rfl, rfl, rfl, by decide, by decide, by decide, by decide, by decide, by decide⟩

/-! ## C8: URL markers and the footer -/

/-- Every `tel:ddd` parses as a URL. -/
theorem telUrl_parses : ∀ i < 1000, url.Parse (telUrl i) = true := by decide!

/-- The markers ` [1]` … ` [1000]` hold nothing that `xml.EscapeText` escapes. -/
theorem marker_escape : ∀ i < 1000,
    xml.EscapeText ([32] ++ marker (i + 1)) = [32] ++ marker (i + 1) := by decide!

/-- A marker below `[1000]` has at most five bytes. -/
theorem marker_short : ∀ i < 1000, (marker i).length ≤ 5 := by decide!

theorem threeDigits_injective (i j : Nat) (hi : i < 1000) (hj : j < 1000)
    (h : threeDigits i = threeDigits j) : i = j := by
  simp only [threeDigits, List.cons.injEq, and_true] at h
  omega

/-- The chunk ` tel:tail` with a URL not seen before and text after it: the
marker gets the next free number, the URL is appended to the list, and the
marker is appended to `before` inside the array of `input_bytes`. -/
theorem scanChunk_tel (slack : Nat) (st : ScanState) (cur tail R : Bytes)
    (hurl : url.Parse (ascii "tel" ++ [58] ++ tail) = true)
    (hnew : ascii "tel" ++ [58] ++ tail ∉ st.urls)
    (hR : dropSpaceBeforePeriod (some R) = some R) :
    scanChunk slack st cur (ascii " tel") tail (some R) =
      ({ st with buf := st.buf ++ xml.EscapeText ([32] ++ marker (st.urls.length + 1)),
                 urls := st.urls ++ [ascii "tel" ++ [58] ++ tail] },
        some (appendInPlace slack cur [32] (marker (st.urls.length + 1)) R)) := by
  have hm : matchProtocol (ascii " tel") tail protocol_list 0 = some (4, ascii "tel") := by
    have h1 : (ascii "cat").isSuffixOf (ascii " tel") = false := by decide
    have h2 : (ascii "http").isSuffixOf (ascii " tel") = false := by decide
    have h3 : (ascii "https").isSuffixOf (ascii " tel") = false := by decide
    have h4 : (ascii "mailto").isSuffixOf (ascii " tel") = false := by decide
    have h5 : (ascii "tel").isSuffixOf (ascii " tel") = true := by decide
    simp only [protocol_list, matchProtocol, h1, h2, h3, h4, h5, hurl, Bool.false_and,
      Bool.true_and, if_true, if_false, Bool.false_eq_true]
  have hidx : st.urls.indexOf? (ascii "tel" ++ [58] ++ tail) = none := by
    rw [List.indexOf?_eq_none_iff]
    intro x hx hxe
    have : x = ascii "tel" ++ [58] ++ tail := by simpa using hxe
    exact hnew (this ▸ hx)
  have htake : (ascii " tel").take ((ascii " tel").length - (ascii "tel").length) = [32] := by
    decide
  simp only [scanChunk, hm, htake, urlMarker, hidx, hR, hnew, if_false, Option.map]
  simp

theorem telUrl_not_mem (i : Nat) (hi : i < 1000) : telUrl i ∉ telUrls i := by
  intro h
  simp only [telUrls, List.mem_map, List.mem_range] at h
  obtain ⟨j, hj, hji⟩ := h
  have h3 : threeDigits j = threeDigits i := by
    simpa [telUrl] using hji
  have := threeDigits_injective j i (by omega) hi h3
  omega

theorem telUrls_length (n : Nat) : (telUrls n).length = n := by
  simp [telUrls]

theorem telUrls_succ (n : Nat) : telUrls (n + 1) = telUrls n ++ [telUrl n] := by
  simp [telUrls, List.range_succ]

theorem threeDigits_not_space (i : Nat) : ∀ b ∈ threeDigits i, isNewlineOrSpace b = false := by
  intro b hb
  simp only [threeDigits, List.mem_cons, List.mem_singleton, List.not_mem_nil, or_false] at hb
  simp only [isNewlineOrSpace, Bool.or_eq_false_iff, decide_eq_false_iff_not]
  omega

/-- The pass over one link `tel:ddd` that is followed by more text. -/
theorem scanStep_tel_link (slack : Nat) (st : ScanState) (i : Nat) (hi : i < 999) (R : Bytes)
    (hurls : st.urls = telUrls i) :
    scanStep slack st (ascii " tel:" ++ threeDigits i ++ 32 :: 116 :: R) =
      ({ st with buf := st.buf ++ ([32] ++ marker (i + 1)), urls := telUrls (i + 1) },
        some (32 :: 116 :: R)) := by
  have hin : ascii " tel:" ++ threeDigits i ++ 32 :: 116 :: R
      = ascii " tel" ++ 58 :: (threeDigits i ++ 32 :: 116 :: R) := by
    have : ascii " tel:" = ascii " tel" ++ [58] := by decide
    rw [this]
    simp
  have hb : 58 ∉ ascii " tel" := by decide
  have hstep := scanStep_chunk slack st (ascii " tel") (threeDigits i) (32 :: 116 :: R) hb
    (threeDigits_not_space i) (by simp [isNewlineOrSpace])
  have hchunk := scanChunk_tel slack st (ascii " tel" ++ 58 :: (threeDigits i ++ 32 :: 116 :: R))
    (threeDigits i) (32 :: 116 :: R) (telUrl_parses i (by omega))
    (by rw [hurls]; exact telUrl_not_mem i (by omega)) rfl
  have hlen : (marker (i + 1)).length ≤ 5 := marker_short (i + 1) (by omega)
  have hov : appendInPlace slack (ascii " tel" ++ 58 :: (threeDigits i ++ 32 :: 116 :: R)) [32]
      (marker (i + 1)) (32 :: 116 :: R) = 32 :: 116 :: R := by
    have hl : (ascii " tel" ++ 58 :: (threeDigits i ++ 32 :: 116 :: R)).length
        = 10 + R.length := by
      have : (ascii " tel").length = 4 := by decide
      simp [this, threeDigits]
      omega
    have hd : (marker (i + 1)).drop (10 + R.length - (32 :: 116 :: R).length - [32].length)
        = [] := by
      apply List.drop_eq_nil_of_le
      simp
      omega
    unfold appendInPlace
    rw [hl, hd]
    simp [overwrite]
  rw [hin, hstep]
  simp only [List.cons_ne_nil, if_false] 
  rw [hchunk, hurls, telUrls_length, hov, marker_escape i (by omega), telUrls_succ]
  rfl

theorem telLinks_head (s c : Nat) (R : Bytes) :
    ∃ R1, telLinks s c ++ 32 :: 116 :: R = 32 :: 116 :: R1 := by
  cases c with
  | zero => exact ⟨R, rfl⟩
  | succ c =>
    have : ascii " tel:" = 32 :: 116 :: [101, 108, 58] := by decide
    refine ⟨[101, 108, 58] ++ threeDigits s ++ telLinks (s + 1) c ++ 32 :: 116 :: R, ?_⟩
    simp [telLinks, this]

/-- The passes over `c` links `tel:ddd` numbered from `s`, none seen before. -/
theorem scanLoop_tel_links (slack : Nat) (c : Nat) :
    ∀ (s fuel : Nat) (st : ScanState) (R : Bytes), s + c ≤ 999 → st.urls = telUrls s →
      (telLinks s c ++ 32 :: 116 :: R).length < fuel →
      scanLoop slack fuel st (telLinks s c ++ 32 :: 116 :: R) =
        scanLoop slack (R.length + 3)
          { st with buf := st.buf ++ telMarkers s c, urls := telUrls (s + c) }
          (32 :: 116 :: R) := by
  induction c with
  | zero =>
    intro s fuel st R _ hurls hfuel
    have hst : ({ st with buf := st.buf ++ telMarkers s 0, urls := telUrls (s + 0) } : ScanState)
        = st := by
      cases st with
      | mk b u ca =>
        have hu : u = telUrls s := hurls
        simp only [telMarkers, List.append_nil, Nat.add_zero, hu]
    rw [hst]
    simp only [telLinks, List.nil_append] at hfuel ⊢
    exact scanLoop_fuel slack fuel (R.length + 3) st _ hfuel (by simp)
  | succ c ih =>
    intro s fuel st R hs hurls hfuel
    obtain ⟨R1, hR1⟩ := telLinks_head (s + 1) c R
    have hin : telLinks s (c + 1) ++ 32 :: 116 :: R
        = ascii " tel:" ++ threeDigits s ++ 32 :: 116 :: R1 := by
      rw [← hR1]
      simp [telLinks]
    cases fuel with
    | zero => omega
    | succ f =>
      have hstep := scanStep_tel_link slack st s (by omega) R1 hurls
      rw [hin, scanLoop, hstep]
      simp only
      rw [← hR1]
      rw [ih (s + 1) f _ R (by omega) rfl]
      · have hm : telMarkers s (c + 1) = [32] ++ marker (s + 1) ++ telMarkers (s + 1) c := rfl
        rw [hm]
        simp only [List.append_assoc, Nat.add_assoc, Nat.add_comm 1 c]
      · rw [hin, ← hR1] at hfuel
        have h5 : (ascii " tel:").length = 5 := by decide
        have h3 : (threeDigits s).length = 3 := rfl
        simp only [List.length_append, List.length_cons, h5, h3] at hfuel ⊢
        omega

/-- The last two passes over `manyLinksInput`: the marker `[1000]` is six
bytes long and is written over the five bytes `tel: ` and over the `h` of
`http`, so the next pass reads `0]ttp://x` and finds no token. -/
theorem scanLoop_tail (slack : Nat) (st : ScanState) (hurls : st.urls = telUrls 999) :
    scanLoop slack 15 st (ascii " tel: http://x") =
      { st with buf := st.buf ++ ascii " [1000]0]ttp://x",
                urls := telUrls 999 ++ [ascii "tel:"] } := by
  have hin : ascii " tel: http://x" = ascii " tel" ++ 58 :: ([] ++ ascii " http://x") := by decide
  have hb : 58 ∉ ascii " tel" := by decide
  have hstep := scanStep_chunk slack st (ascii " tel") [] (ascii " http://x") hb
    (by simp) (by decide)
  have hnew : ascii "tel" ++ [58] ++ [] ∉ st.urls := by
    rw [hurls]
    intro h
    simp only [telUrls, List.mem_map, List.mem_range] at h
    obtain ⟨j, _, hj⟩ := h
    have := congrArg List.length hj
    simp [telUrl, threeDigits] at this
  have hchunk := scanChunk_tel slack st (ascii " tel" ++ 58 :: ([] ++ ascii " http://x"))
    [] (ascii " http://x") (by decide) hnew (by decide)
  have hne : ¬ (ascii " http://x" = []) := by decide
  have hov : appendInPlace slack (ascii " tel" ++ 58 :: ([] ++ ascii " http://x")) [32]
      (marker (999 + 1)) (ascii " http://x") = ascii "0]ttp://x" := by
    have hfit : [32].length + (marker (999 + 1)).length
        ≤ (ascii " tel" ++ 58 :: ([] ++ ascii " http://x")).length + slack := by
      have h1 : [32].length + (marker (999 + 1)).length = 7 := by decide
      have h2 : (ascii " tel" ++ 58 :: ([] ++ ascii " http://x")).length = 14 := by decide
      omega
    unfold appendInPlace
    rw [if_pos hfit]
    decide
  have hesc : xml.EscapeText ([32] ++ marker (999 + 1)) = ascii " [1000]" := by decide
  have hstep2 : ∀ st2 : ScanState, scanStep slack st2 (ascii "0]ttp://x") =
      ({ st2 with buf := st2.buf ++ ascii "0]ttp://x" }, none) := by
    intro st2
    have hin2 : ascii "0]ttp://x" = ascii "0]ttp" ++ 58 :: (ascii "//x" ++ []) := by decide
    have hs := scanStep_chunk slack st2 (ascii "0]ttp") (ascii "//x") [] (by decide)
      (by decide) (by simp)
    have hm : matchProtocol (ascii "0]ttp") (ascii "//x") protocol_list 0 = none := by decide
    have he : xml.EscapeText (ascii "0]ttp" ++ [58] ++ ascii "//x") = ascii "0]ttp://x" := by
      decide
    rw [hin2, hs]
    simp only [scanChunk, hm, if_true, he]
    rw [← hin2]
  rw [hin, scanLoop, hstep, if_neg hne, hchunk, hurls, telUrls_length, hov, hesc]
  simp only
  rw [scanLoop, hstep2]
  simp only [List.append_assoc]
  have : ascii " [1000]" ++ ascii "0]ttp://x" = ascii " [1000]0]ttp://x" := by decide
  rw [this]
  rfl

theorem telLinks_length (s c : Nat) : (telLinks s c).length = 8 * c := by
  induction c generalizing s with
  | zero => rfl
  | succ c ih =>
    have : (ascii " tel:").length = 5 := by decide
    simp [telLinks, this, threeDigits, ih]
    omega

/-- The scan of an input that starts with `c` links `tel:000` … -/
theorem scanInput_tel_links (slack : Nat) (input : Bytes) (c : Nat) (R : Bytes) (hc : c ≤ 999)
    (hin : input = telLinks 0 c ++ 32 :: 116 :: R) :
    scanInput slack input =
      scanLoop slack (R.length + 3)
        { buf := xhtmlOpen ++ telMarkers 0 c, urls := telUrls c, categories := [] }
        (32 :: 116 :: R) := by
  have hf : (telLinks 0 c ++ 32 :: 116 :: R).length < input.length + 1 := by
    rw [← hin]
    exact Nat.lt_succ_self _
  have hloop := scanLoop_tel_links slack c 0 (input.length + 1)
    { buf := xhtmlOpen, urls := [], categories := [] } R (by omega) rfl hf
  rw [scanInput, hin]
  rw [hin] at hloop
  rw [hloop]
  simp only [Nat.zero_add]

set_option maxRecDepth 20000 in
/-- The state in which the loop ends on `manyLinksInput`. -/
theorem scanInput_manyLinks (slack : Nat) :
    scanInput slack manyLinksInput =
      { buf := xhtmlOpen ++ telMarkers 0 999 ++ ascii " [1000]0]ttp://x",
        urls := telUrls 999 ++ [ascii "tel:"], categories := [] } := by
  have h12 : ascii " tel: http://x" = 32 :: 116 :: ascii "el: http://x" := by decide
  have hin : manyLinksInput = telLinks 0 999 ++ 32 :: 116 :: ascii "el: http://x" :=
    congrArg (fun t => telLinks 0 999 ++ t) h12
  have hlen : (ascii "el: http://x").length + 3 = 15 := by decide
  rw [scanInput_tel_links slack manyLinksInput 999 (ascii "el: http://x") (by omega) hin,
    hlen, ← h12]
  rw [scanLoop_tail slack _ rfl]

set_option maxRecDepth 20000 in
/-- The end of `manyLinksInput` on its own: both links get a marker and a
footer line. -/
theorem preparePlainText_two_links (slack : Nat) :
    preparePlainText slack (ascii " tel: http://x") =
      (xhtmlOpen ++ ascii " [1] [2]</p><div style=\"word-break:break-all;\">"
        ++ ascii "<a href=\"tel:\">[1]&#xA0;tel:</a><a href=\"http://x\">[2]&#xA0;http://x</a>"
        ++ ascii "</div></div>", []) := by
  have h1 : scanStep slack { buf := xhtmlOpen, urls := [], categories := [] }
      (ascii " tel: http://x") =
      ({ buf := xhtmlOpen ++ ascii " [1]", urls := [ascii "tel:"], categories := [] },
        some (ascii " http://x")) := by
    have hin : ascii " tel: http://x" = ascii " tel" ++ 58 :: ([] ++ ascii " http://x") := by
      decide
    have hs := scanStep_chunk slack { buf := xhtmlOpen, urls := [], categories := [] }
      (ascii " tel") [] (ascii " http://x") (by decide) (by simp) (by decide)
    have hc := scanChunk_tel slack { buf := xhtmlOpen, urls := [], categories := [] }
      (ascii " tel" ++ 58 :: ([] ++ ascii " http://x")) [] (ascii " http://x") (by decide)
      (by simp) (by decide)
    have hne : ¬ (ascii " http://x" = []) := by decide
    have hov : appendInPlace slack (ascii " tel" ++ 58 :: ([] ++ ascii " http://x")) [32]
        (marker (0 + 1)) (ascii " http://x") = ascii " http://x" := by
      unfold appendInPlace
      split
      · decide
      · rfl
    have hesc : xml.EscapeText ([32] ++ marker (0 + 1)) = ascii " [1]" := by decide
    have hu : ([] : List Bytes) ++ [ascii "tel" ++ [58] ++ []] = [ascii "tel:"] := by decide
    rw [hin, hs, if_neg hne, hc]
    simp only [List.length_nil, hov, hesc, hu]
  have h2 : scanStep slack ⟨xhtmlOpen ++ ascii " [1]", [ascii "tel:"], []⟩ (ascii " http://x") =
      (⟨xhtmlOpen ++ ascii " [1] [2]", [ascii "tel:", ascii "http://x"], []⟩, none) := by
    have hin : ascii " http://x" = ascii " http" ++ 58 :: (ascii "//x" ++ []) := by decide
    have hs := scanStep_chunk slack ⟨xhtmlOpen ++ ascii " [1]", [ascii "tel:"], []⟩
      (ascii " http") (ascii "//x") [] (by decide) (by decide) (by simp)
    have hm : matchProtocol (ascii " http") (ascii "//x") protocol_list 0
        = some (1, ascii "http") := by decide
    rw [hin, hs]
    simp only [scanChunk, hm, dropSpaceBeforePeriod, Option.map, if_true, one_ne_zero, if_false]
    decide
  have hlen : (ascii " tel: http://x").length + 1 = 13 + 1 + 1 := by decide
  rw [preparePlainText, scanInput, hlen, scanLoop, h1]
  simp only
  rw [scanLoop, h2]
  simp only
  decide

/-- C8 (the code at a failing input): on ` tel:000 … tel:998 tel: http://x`
the 1000th URL is `tel:`, and its marker `[1000]` is longer than the token and
the space after it.  `append` writes the marker into the array that
`input_bytes` still points into, so the text ends in ` [1000]0]ttp://x`: the
token `http://x`, which the loop recognises (`matchProtocol`) and which gets
the marker `[2]` and a footer line when the same text ` tel: http://x` is the
whole input, is not replaced by a marker and is missing from the footer. -/
theorem preparePlainText_marker_overwrites_input (slack : Nat) :
    preparePlainText slack manyLinksInput =
      (xhtmlOpen ++ telMarkers 0 999 ++ ascii " [1000]0]ttp://x" ++ ascii "</p>"
        ++ ascii "<div style=\"word-break:break-all;\">"
        ++ footerLinks 0 (telUrls 999 ++ [ascii "tel:"]) ++ ascii "</div>" ++ ascii "</div>", [])
    ∧ ascii "http://x" ∉ telUrls 999 ++ [ascii "tel:"]
    ∧ matchProtocol (ascii " http") (ascii "//x") protocol_list 0 = some (1, ascii "http")
    ∧ preparePlainText slack (ascii " tel: http://x") =
      (xhtmlOpen ++ ascii " [1] [2]</p><div style=\"word-break:break-all;\">"
        ++ ascii "<a href=\"tel:\">[1]&#xA0;tel:</a><a href=\"http://x\">[2]&#xA0;http://x</a>"
        ++ ascii "</div></div>", []) := by
  refine ⟨?_, ?_, by decide, preparePlainText_two_links slack⟩
  · rw [preparePlainText, scanInput_manyLinks, finishPlainText]
    have hl : (telUrls 999 ++ [ascii "tel:"]).length ≠ 0 := by simp
    simp only [hl, if_true, ne_eq, not_false_eq_true]
  · intro h
    rcases List.mem_append.mp h with h | h
    · simp only [telUrls, List.mem_map, List.mem_range] at h
      obtain ⟨j, _, hj⟩ := h
      have := congrArg List.length hj
      have h8 : (ascii "http://x").length = 8 := by decide
      have h3 : (ascii "tel").length = 3 := by decide
      simp [telUrl, threeDigits, h8, h3] at this
    · have : ascii "http://x" ≠ ascii "tel:" := by decide
      exact this (by simpa using h)

/-! ## C11: where the tail of a token ends -/

/-- The tail that a pass of the loop cuts off: the longest run of bytes other
than space and newline, and what follows it. -/
theorem takeWhile_tail_spec (after0 : Bytes) :
    ∃ tail rest, after0 = tail ++ rest ∧
      tail = after0.takeWhile (fun b => !isNewlineOrSpace b) ∧
      (∀ b ∈ tail, b ≠ 32 ∧ b ≠ 10) ∧ (∀ c ∈ rest.head?, c = 32 ∨ c = 10) ∧
      restAfterTail after0 = (if rest = [] then none else some rest) := by
  refine ⟨after0.takeWhile (fun b => !isNewlineOrSpace b),
    after0.dropWhile (fun b => !isNewlineOrSpace b), (List.takeWhile_append_dropWhile _ _).symm,
    rfl, ?_, ?_, ?_⟩
  · intro b hb
    have := List.mem_takeWhile_imp hb
    simp only [isNewlineOrSpace, Bool.not_eq_true', Bool.or_eq_false_iff,
      decide_eq_false_iff_not] at this
    exact ⟨this.2, this.1⟩
  · intro c hc
    cases hd : after0.dropWhile (fun b => !isNewlineOrSpace b) with
    | nil => rw [hd] at hc; simp at hc
    | cons x xs =>
      rw [hd] at hc
      simp only [List.head?_cons, Option.mem_def, Option.some.injEq] at hc
      subst hc
      have := dropWhile_cons_head hd
      simp only [isNewlineOrSpace, Bool.not_eq_false', Bool.or_eq_true, decide_eq_true_eq] at this
      exact this.symm
  · unfold restAfterTail
    cases hd : after0.dropWhile (fun b => !isNewlineOrSpace b) with
    | nil => simp
    | cons x xs => simp

/-- C11 (as stated, refuted): a tab or a carriage return does not end the
tail.  In `see http://a` followed by a tab and `b` the tail is `//a`, the tab
and `b`; that text does not parse as a URL, so no URL is recorded, whereas
with a space in place of the tab `http://a` is.  The same for `cat:`. -/
theorem preparePlainText_tab_in_tail_counterexample :
    (scanInput 0 (ascii "see http://a\tb")).urls = [] ∧
    (scanInput 0 (ascii "see http://a b")).urls = [ascii "http://a"] ∧
    (scanInput 0 (ascii "see http://a\rb")).urls = [] ∧
    (scanInput 0 (ascii "see cat:x\ty z")).categories = [] ∧
    (scanInput 0 (ascii "see cat:x y z")).categories = [ascii "x"] := by
  decide

/-- C11 (amended): in a pass over `before:after0` the tail of the token is the
longest run of bytes after the `:` that holds no space and no newline; it runs
to the end of the input when there is none (`rest = []`), a tab or a carriage
return being part of it.  When a scheme is recognised the category or URL is
the scheme, `:` and that tail; the bytes from the space or newline on belong
to neither. -/
theorem scanStep_tail (slack : Nat) (st : ScanState) (before after0 : Bytes)
    (hb : 58 ∉ before) :
    ∃ tail rest, after0 = tail ++ rest ∧ (∀ b ∈ tail, b ≠ 32 ∧ b ≠ 10) ∧
      (∀ c ∈ rest.head?, c = 32 ∨ c = 10) ∧
      scanStep slack st (before ++ 58 :: after0) =
        scanChunk slack st (before ++ 58 :: after0) before tail
          (if rest = [] then none else some rest) ∧
      ∀ k v, matchProtocol before tail protocol_list 0 = some (k, v) →
        (k = 0 →
          (scanStep slack st (before ++ 58 :: after0)).1.categories =
            st.categories ++ [strings.TrimPrefix (v ++ [58] ++ tail) (ascii "cat:")] ∧
          (scanStep slack st (before ++ 58 :: after0)).1.urls = st.urls) ∧
        (k ≠ 0 →
          (scanStep slack st (before ++ 58 :: after0)).1.urls =
            (if v ++ [58] ++ tail ∈ st.urls then st.urls else st.urls ++ [v ++ [58] ++ tail]) ∧
          (scanStep slack st (before ++ 58 :: after0)).1.categories = st.categories) := by
  obtain ⟨tail, rest, h1, h2, h3, h4, h5⟩ := takeWhile_tail_spec after0
  obtain ⟨c1, c2⟩ := takeWhile_colon_split before after0 hb
  have hstep : scanStep slack st (before ++ 58 :: after0) =
      scanChunk slack st (before ++ 58 :: after0) before tail
        (if rest = [] then none else some rest) := by
    simp only [scanStep, c1, c2, ← h2, h5]
  refine ⟨tail, rest, h1, h3, h4, hstep, ?_⟩
  intro k v hm
  rw [hstep]
  constructor
  · intro hk
    subst hk
    simp only [scanChunk, hm, if_true]
    exact ⟨trivial, trivial⟩
  · intro hk
    simp only [scanChunk, hm, if_neg hk]
    exact ⟨trivial, trivial⟩

theorem scanStep_tail_witness :
    58 ∉ ascii "see http" ∧
    ∃ tail rest, ascii "//a\tb c" = tail ++ rest ∧ (∀ b ∈ tail, b ≠ 32 ∧ b ≠ 10) ∧
      (∀ c ∈ rest.head?, c = 32 ∨ c = 10) ∧
      scanStep 0 ⟨[], [], []⟩ (ascii "see http" ++ 58 :: ascii "//a\tb c") =
        scanChunk 0 ⟨[], [], []⟩ (ascii "see http" ++ 58 :: ascii "//a\tb c") (ascii "see http")
          tail (if rest = [] then none else some rest) ∧
      ∀ k v, matchProtocol (ascii "see http") tail protocol_list 0 = some (k, v) →
        (k = 0 →
          (scanStep 0 ⟨[], [], []⟩ (ascii "see http" ++ 58 :: ascii "//a\tb c")).1.categories =
            ([] : List Bytes) ++ [strings.TrimPrefix (v ++ [58] ++ tail) (ascii "cat:")] ∧
          (scanStep 0 ⟨[], [], []⟩ (ascii "see http" ++ 58 :: ascii "//a\tb c")).1.urls = []) ∧
        (k ≠ 0 →
          (scanStep 0 ⟨[], [], []⟩ (ascii "see http" ++ 58 :: ascii "//a\tb c")).1.urls =
            (if v ++ [58] ++ tail ∈ ([] : List Bytes) then [] else [] ++ [v ++ [58] ++ tail]) ∧
          (scanStep 0 ⟨[], [], []⟩ (ascii "see http" ++ 58 :: ascii "//a\tb c")).1.categories
            = []) :=
  ⟨by decide, scanStep_tail 0 ⟨[], [], []⟩ (ascii "see http") (ascii "//a\tb c") (by decide)⟩

/-! ## C14: `Link.Validate` -/

/-- C14: `Link.Validate` fails on a nil link; on a link `k` it succeeds exactly
when the href is non-empty and parses as a URL and the relation is empty or
one of self, related, alternate, enclosure, via, edit, edit-media, and it then
returns the relation itself, `alternate` for the empty relation. -/
theorem Link_Validate_spec (k : Link) :
    Link.Validate none = .error "nil link" ∧
    ((∃ rel, Link.Validate (some k) = .ok rel) ↔
      k.Href ≠ [] ∧ url.Parse k.Href = true ∧ (k.Relation = [] ∨ k.Relation ∈ knownRelations)) ∧
    (∀ rel, Link.Validate (some k) = .ok rel →
      rel = if k.Relation = [] then ascii "alternate" else k.Relation) ∧
    knownRelations = [ascii "self", ascii "related", ascii "alternate", ascii "enclosure",
      ascii "via", ascii "edit", ascii "edit-media"] := by
  refine ⟨rfl, ?_, ?_, rfl⟩
  · unfold Link.Validate
    by_cases h1 : k.Href = []
    · simp [h1]
    · by_cases h2 : url.Parse k.Href = true
      · by_cases h3 : k.Relation = []
        · simp [h1, h2, h3]
        · by_cases h4 : k.Relation ∈ knownRelations
          · simp [h1, h2, h3, h4]
          · simp [h1, h2, h3, h4]
      · simp [h1, h2]
  · intro rel
    unfold Link.Validate
    by_cases h1 : k.Href = []
    · simp [h1]
    · by_cases h2 : url.Parse k.Href = true
      · by_cases h3 : k.Relation = []
        · simp only [h1, h2, h3, if_true, if_false, Bool.not_true, Bool.false_eq_true,
            Except.ok.injEq]
          exact fun h => h.symm
        · by_cases h4 : k.Relation ∈ knownRelations
          · simp only [h1, h2, h3, h4, if_true, if_false, Bool.not_true, Bool.false_eq_true,
              Except.ok.injEq]
            exact fun h => h.symm
          · simp [h1, h2, h3, h4]
      · simp [h1, h2]

theorem Link_Validate_spec_witness :
    Link.Validate (some ⟨ascii "/feed/1", [], [], [], [], 0⟩) = .ok (ascii "alternate") ∧
    ascii "alternate" = (if ([] : Bytes) = [] then ascii "alternate" else []) :=
  ⟨by decide,
    (Link_Validate_spec ⟨ascii "/feed/1", [], [], [], [], 0⟩).2.2.1 (ascii "alternate")
      (by decide)⟩

/-! ## C15: `Content.Validate` -/

/-- C15 (as stated, refuted): inline content of type `image/png` satisfies
none of (a), (b), (c), and `Content.Validate` returns no error for it: the
media type parses, and the method only asks for a summary. -/
theorem Content_Validate_inline_image_counterexample :
    Content.Validate mime.ParseMediaType
      (some { «Type» := ascii "image/png", Src := [], Body := some (ascii "iVBORw0KGgo=") })
      = .ok (false, true) ∧
    mime.ParseMediaType (ascii "image/png") = .ok (ascii "image/png") ∧
    ascii "image/png" ∉ plainContentTypes ∧
    (ascii "text/").isPrefixOf (ascii "image/png") = false ∧
    (ascii "/xml").isSuffixOf (ascii "image/png") = false ∧
    (ascii "+xml").isSuffixOf (ascii "image/png") = false := by
  decide

/-- The contents on which `Content.Validate` returns no error. -/
theorem Content_Validate_ok_iff (ParseMediaType : Bytes → Except String Bytes) (c : Content) :
    (∃ flags, Content.Validate ParseMediaType (some c) = .ok flags) ↔
      (c.Src = [] ∧ (c.«Type» ∈ plainContentTypes ∨ ∃ mt, ParseMediaType c.«Type» = .ok mt)) ∨
      (c.Src ≠ [] ∧ url.Parse c.Src = true ∧ (∃ mt, ParseMediaType c.«Type» = .ok mt) ∧
        c.Body = none) := by
  unfold Content.Validate
  by_cases h1 : c.Src = []
  · by_cases h2 : c.«Type» ∈ plainContentTypes
    · simp [h1, h2]
    · cases hp : ParseMediaType c.«Type» with
      | error e => simp [h1, h2, hp]
      | ok mt =>
        simp only [h1, h2, hp, ne_eq, not_true_eq_false, if_false]
        by_cases h3 : (ascii "text/").isPrefixOf mt = true
        · simp [h3]
        · by_cases h4 : ((ascii "/xml").isSuffixOf mt || (ascii "+xml").isSuffixOf mt) = true
          · simp [h3, h4]
          · simp [h3, h4]
  · by_cases h2 : url.Parse c.Src = true
    · cases hp : ParseMediaType c.«Type» with
      | error e => simp [h1, h2, hp]
      | ok mt =>
        by_cases h3 : c.Body = none
        · simp [h1, h2, hp, h3]
        · simp [h1, h2, hp, h3]
    · simp [h1, h2]

/-- The flags that `Content.Validate` returns. -/
theorem Content_Validate_flags (ParseMediaType : Bytes → Except String Bytes) (c : Content)
    (nal ns : Bool) (h : Content.Validate ParseMediaType (some c) = .ok (nal, ns)) :
    nal = false ∧
    (ns = true ↔ c.Src ≠ [] ∨ (c.«Type» ∉ plainContentTypes ∧
      ∃ mt, ParseMediaType c.«Type» = .ok mt ∧ (ascii "text/").isPrefixOf mt = false ∧
        (ascii "/xml").isSuffixOf mt = false ∧ (ascii "+xml").isSuffixOf mt = false)) := by
  revert h
  unfold Content.Validate
  by_cases h1 : c.Src = []
  · by_cases h2 : c.«Type» ∈ plainContentTypes
    · simp only [h1, h2, ne_eq, not_true_eq_false, if_false, if_true, Except.ok.injEq,
        Prod.mk.injEq]
      rintro ⟨rfl, rfl⟩
      simp
    · cases hp : ParseMediaType c.«Type» with
      | error e => simp [h1, h2, hp]
      | ok mt =>
        simp only [h1, h2, hp, ne_eq, not_true_eq_false, if_false]
        by_cases h3 : (ascii "text/").isPrefixOf mt = true
        · simp only [h3, if_true, Except.ok.injEq, Prod.mk.injEq]
          rintro ⟨rfl, rfl⟩
          simp [h3]
        · by_cases h4 : ((ascii "/xml").isSuffixOf mt || (ascii "+xml").isSuffixOf mt) = true
          · simp only [h3, h4, if_true, if_false, Except.ok.injEq, Prod.mk.injEq]
            rintro ⟨rfl, rfl⟩
            simp only [Bool.or_eq_true] at h4
            simp only [Bool.false_eq_true, not_false_eq_true, true_and, false_iff, not_or,
              not_exists, not_and, Except.ok.injEq, forall_eq', true_and, Bool.not_eq_false]
            intro _ h5
            rcases h4 with h4 | h4
            · simp [h4] at h5
            · exact h4
          · simp only [h3, h4, if_false, Except.ok.injEq, Prod.mk.injEq]
            rintro ⟨rfl, rfl⟩
            simp only [Bool.or_eq_true, not_or, Bool.not_eq_true] at h4
            simp only [Bool.not_eq_true] at h3
            simp [h3, h4.1, h4.2]
  · by_cases h2 : url.Parse c.Src = true
    · cases hp : ParseMediaType c.«Type» with
      | error e => simp [h1, h2, hp]
      | ok mt =>
        by_cases h3 : c.Body = none
        · simp only [h1, h2, hp, h3, ne_eq, not_false_eq_true, if_true, Bool.not_true,
            Bool.false_eq_true, if_false, not_true_eq_false, Except.ok.injEq, Prod.mk.injEq]
          rintro ⟨rfl, rfl⟩
          simp
        · simp [h1, h2, hp, h3]
    · simp [h1, h2]

/-- C15 (amended): `Content.Validate` returns no error on nil content, on
inline content whose type is empty, `text`, `html` or `xhtml` or parses as a
media type (whatever the media type), and on out-of-line content whose src
parses as a URL, whose type parses as a media type and whose body is nil; on
no other content.  It asks for a summary exactly for out-of-line content and
for inline content of a media type that neither starts with `text/` nor ends
in `/xml` or `+xml`, and for an alternate link on nil content only. -/
theorem Content_Validate_spec (ParseMediaType : Bytes → Except String Bytes) (c : Content) :
    Content.Validate ParseMediaType none = .ok (true, false) ∧
    ((∃ flags, Content.Validate ParseMediaType (some c) = .ok flags) ↔
      (c.Src = [] ∧ (c.«Type» ∈ plainContentTypes ∨ ∃ mt, ParseMediaType c.«Type» = .ok mt)) ∨
      (c.Src ≠ [] ∧ url.Parse c.Src = true ∧ (∃ mt, ParseMediaType c.«Type» = .ok mt) ∧
        c.Body = none)) ∧
    (∀ nal ns, Content.Validate ParseMediaType (some c) = .ok (nal, ns) →
      nal = false ∧
      (ns = true ↔ c.Src ≠ [] ∨ (c.«Type» ∉ plainContentTypes ∧
        ∃ mt, ParseMediaType c.«Type» = .ok mt ∧ (ascii "text/").isPrefixOf mt = false ∧
          (ascii "/xml").isSuffixOf mt = false ∧ (ascii "+xml").isSuffixOf mt = false))) :=
  ⟨rfl, Content_Validate_ok_iff ParseMediaType c,
    fun nal ns h => Content_Validate_flags ParseMediaType c nal ns h⟩

theorem Content_Validate_spec_witness :
    Content.Validate mime.ParseMediaType (some ⟨ascii "image/svg+xml", [], some (ascii "<svg/>")⟩)
      = .ok (false, false) ∧
    false = false ∧
    ((false = true) ↔ ([] : Bytes) ≠ [] ∨ (ascii "image/svg+xml" ∉ plainContentTypes ∧
        ∃ mt, mime.ParseMediaType (ascii "image/svg+xml") = .ok mt ∧
          (ascii "text/").isPrefixOf mt = false ∧
          (ascii "/xml").isSuffixOf mt = false ∧ (ascii "+xml").isSuffixOf mt = false)) :=
  ⟨by decide,
    (Content_Validate_spec mime.ParseMediaType ⟨ascii "image/svg+xml", [], some (ascii "<svg/>")⟩).2.2
      false false (by decide)⟩

/-! ## C16 and C17: `Entry.Validate` and `Feed.Validate` -/

theorem validatePersons_ok (loc : Bytes) (count : Bool) (ps : List Person) (ha : Bool)
    (h : ∀ a ∈ ps, a.XMLName.isNot loc atom_xmlns = false) :
    validatePersons loc count ha ps = (ha || (count && decide (ps ≠ [])), false) := by
  induction ps generalizing ha with
  | nil => simp [validatePersons]
  | cons a rest ih =>
    have ha1 := h a (List.mem_cons_self _ _)
    have hrest := ih (ha || count) (fun x hx => h x (List.mem_cons_of_mem _ hx))
    simp only [validatePersons, ha1, Bool.false_eq_true, if_false, hrest]
    cases ha <;> cases count <;> simp

theorem entryLinks_false (links : List Link)
    (h : ∀ l ∈ links, ∃ rel, Link.Validate (some l) = .ok rel) :
    entryLinks false links = .ok false := by
  induction links with
  | nil => rfl
  | cons l rest ih =>
    obtain ⟨rel, hrel⟩ := h l (List.mem_cons_self _ _)
    simp only [entryLinks, hrel, ite_self]
    exact ih (fun x hx => h x (List.mem_cons_of_mem _ hx))

/-- C16 (as stated, refuted): an entry with an author, inline content of type
`image/png` and a link with relation `alternate` but no summary is rejected
(`needs summary`): the link does not stand in for the summary.  An entry with
an author and inline content of type `text/plain`, a type other than `text`,
`html` and `xhtml`, is accepted with neither a link nor a summary. -/
theorem Entry_Validate_alternate_counterexample :
    Entry.Validate mime.ParseMediaType none
      (some { sampleEntry with
        Authors := [⟨⟨atom_xmlns, ascii "author"⟩, ascii "John Doe", none⟩]
        Content := ⟨ascii "image/png", [], some (ascii "iVBORw0KGgo=")⟩
        Links := [⟨ascii "http://example.org/a", ascii "alternate", [], [], [], 0⟩]
        Summary := none, Source := none }) none = (false, some "needs summary") ∧
    Entry.Validate mime.ParseMediaType none
      (some { sampleEntry with
        Authors := [⟨⟨atom_xmlns, ascii "author"⟩, ascii "John Doe", none⟩]
        Content := ⟨ascii "text/plain", [], some (ascii "hello")⟩
        Links := [], Summary := none, Source := none }) none = (true, none) := by
  decide

/-- C16 (amended): for an entry that is valid apart from its summary and has
an author of its own, `Entry.Validate` succeeds exactly when a summary is
present or the content does not need one.  The content needs a summary when it
is out-of-line, and when it is inline of a type other than empty, `text`,
`html`, `xhtml` whose media type neither starts with `text/` nor ends in
`/xml` or `+xml`; the links of the entry play no part. -/
theorem Entry_Validate_summary (ParseMediaType : Bytes → Except String Bytes)
    (source : Option Source) (t : Entry) (feed_id : Option URI) (hs : Bool)
    (h1 : t.Title.Text ≠ [])
    (h2 : t.Updated.XMLName.isNot (ascii "updated") atom_xmlns = false)
    (h3 : t.Id.XMLName.isNot (ascii "id") atom_xmlns = false)
    (h4 : t.Published.any (fun n => n.XMLName.isNot (ascii "published") atom_xmlns) = false)
    (h5 : t.Edited.any (fun n => n.XMLName.isNot (ascii "edited") app_xmlns) = false)
    (h6 : Source.Validate source feed_id = (hs, none))
    (h7 : ∃ flags, Content.Validate ParseMediaType (some t.Content) = .ok flags)
    (h8 : ∀ l ∈ t.Links, ∃ rel, Link.Validate (some l) = .ok rel)
    (h9 : ∀ a ∈ t.Authors, a.XMLName.isNot (ascii "author") atom_xmlns = false)
    (h10 : ∀ a ∈ t.Contributors, a.XMLName.isNot (ascii "contributor") atom_xmlns = false)
    (h11 : t.Authors ≠ []) :
    (Entry.Validate ParseMediaType source (some t) feed_id).2 = none ↔
      (t.Summary ≠ none ∨
        ¬ (t.Content.Src ≠ [] ∨ (t.Content.«Type» ∉ plainContentTypes ∧
          ∃ mt, ParseMediaType t.Content.«Type» = .ok mt ∧
            (ascii "text/").isPrefixOf mt = false ∧ (ascii "/xml").isSuffixOf mt = false ∧
            (ascii "+xml").isSuffixOf mt = false))) := by
  obtain ⟨⟨nal, ns⟩, hc⟩ := h7
  obtain ⟨hnal, hns⟩ := Content_Validate_flags ParseMediaType t.Content nal ns hc
  subst hnal
  rw [← hns]
  have hl := entryLinks_false t.Links h8
  have ha := validatePersons_ok (ascii "author") true t.Authors hs h9
  have hco := validatePersons_ok (ascii "contributor") false t.Contributors
    (hs || (true && decide (t.Authors ≠ []))) h10
  have hauth : (hs || (true && decide (t.Authors ≠ []))) = true := by simp [h11]
  rw [hauth] at ha hco
  simp only [Bool.false_and, Bool.or_false] at hco
  by_cases hsum : t.Summary = none ∧ ns = true
  · have hrest : t.validateRest hs false ns = (hs, some "needs summary", true) := by
      simp only [Entry.validateRest, hsum, and_self, if_true]
    simp only [Entry.Validate, h1, h2, h3, h4, h5, h6, hc, hrest, if_false, Bool.false_eq_true]
    simp [hsum.1, hsum.2]
  · have hrest : t.validateRest hs false ns = (true, none, false) := by
      simp only [Entry.validateRest, hsum, if_false, hl, ha, hco]
    simp only [Entry.Validate, h1, h2, h3, h4, h5, h6, hc, hrest, if_false, Bool.false_eq_true]
    simp only [Bool.true_eq_false, and_false, if_false, true_iff]
    by_cases hsn : t.Summary = none
    · right
      intro hn
      exact hsum ⟨hsn, hn⟩
    · exact Or.inl hsn

theorem Entry_Validate_summary_witness :
    (Entry.Validate mime.ParseMediaType none
      (some { sampleEntry with
        Authors := [⟨⟨atom_xmlns, ascii "author"⟩, ascii "John Doe", none⟩]
        Content := ⟨ascii "image/png", ascii "http://example.org/a.png", none⟩
        Summary := some ⟨⟨atom_xmlns, ascii "summary"⟩, [], ascii "a picture"⟩
        Source := none }) none).2 = none :=
  (Entry_Validate_summary mime.ParseMediaType none
    { sampleEntry with
      Authors := [⟨⟨atom_xmlns, ascii "author"⟩, ascii "John Doe", none⟩]
      Content := ⟨ascii "image/png", ascii "http://example.org/a.png", none⟩
      Summary := some ⟨⟨atom_xmlns, ascii "summary"⟩, [], ascii "a picture"⟩
      Source := none } none false
    (by decide) (by decide) (by decide) (by decide) (by decide) (by decide)
    ⟨(false, true), by decide⟩ (by simp [sampleEntry, Entry.zeroWith]) (by decide) (by decide)
    (by decide)).mpr
    (Or.inl (by decide))

theorem feedLinks_ok_false (links : List Link) (ns : Bool)
    (h : feedLinks ns links = .ok false) :
    ns = false ∨ ∃ l ∈ links, l.Relation = ascii "self" ∧
      Link.Validate (some l) = .ok (ascii "self") := by
  induction links generalizing ns with
  | nil =>
    simp only [feedLinks, Except.ok.injEq] at h
    exact Or.inl h
  | cons l rest ih =>
    simp only [feedLinks] at h
    cases hl : Link.Validate (some l) with
    | error e => simp [hl] at h
    | ok rel =>
      simp only [hl] at h
      by_cases hself : rel = ascii "self"
      · right
        subst hself
        refine ⟨l, List.mem_cons_self _ _, ?_, hl⟩
        have hk := hl
        unfold Link.Validate at hk
        by_cases h1 : l.Href = []
        · simp [h1] at hk
        · by_cases h2 : url.Parse l.Href = true
          · by_cases h3 : l.Relation = []
            · simp only [h1, h2, h3, if_true, if_false, Bool.not_true, Bool.false_eq_true,
                Except.ok.injEq] at hk
              exact absurd hk (by decide)
            · by_cases h4 : l.Relation ∈ knownRelations
              · simp only [h1, h2, h3, h4, if_true, if_false, Bool.not_true,
                  Bool.false_eq_true, Except.ok.injEq] at hk
                exact hk
              · simp [h1, h2, h3, h4] at hk
          · simp [h1, h2] at hk
      · simp only [hself, if_false] at h
        rcases ih ns h with h0 | ⟨l1, hm, hr, hv⟩
        · exact Or.inl h0
        · exact Or.inr ⟨l1, List.mem_cons_of_mem _ hm, hr, hv⟩

/-- C17: `Feed.Validate` returns an error for a feed without a title or with
an empty title text and for a feed none of whose links has the relation
`self`; when it returns no error on a feed, the feed has a title with text, an
id and an updated element named in the Atom namespace, and a link with the
relation `self` that validates. -/
theorem Feed_Validate_spec (ParseMediaType : Bytes → Except String Bytes) (heap : List Source)
    (f : Feed) :
    (f.Title = none ∨ (∃ t, f.Title = some t ∧ t.Text = []) →
      Feed.Validate ParseMediaType heap (some f) = some "error: empty title") ∧
    ((∀ l ∈ f.Links, l.Relation ≠ ascii "self") →
      Feed.Validate ParseMediaType heap (some f) ≠ none) ∧
    (Feed.Validate ParseMediaType heap (some f) = none →
      (∃ t, f.Title = some t ∧ t.Text ≠ []) ∧
      (∃ id, f.Id = some id ∧ id.XMLName = ⟨atom_xmlns, ascii "id"⟩) ∧
      (∃ up, f.Updated = some up ∧ up.XMLName = ⟨atom_xmlns, ascii "updated"⟩) ∧
      ∃ l ∈ f.Links, l.Relation = ascii "self" ∧
        Link.Validate (some l) = .ok (ascii "self")) := by
  have key : Feed.Validate ParseMediaType heap (some f) = none →
      (∃ t, f.Title = some t ∧ t.Text ≠ []) ∧
      (∃ id, f.Id = some id ∧ id.XMLName = ⟨atom_xmlns, ascii "id"⟩) ∧
      (∃ up, f.Updated = some up ∧ up.XMLName = ⟨atom_xmlns, ascii "updated"⟩) ∧
      ∃ l ∈ f.Links, l.Relation = ascii "self" ∧
        Link.Validate (some l) = .ok (ascii "self") := by
    intro h
    unfold Feed.Validate at h
    simp only at h
    split at h
    · simp at h
    · rename_i ht
      split at h
      · simp at h
      · rename_i hu
        split at h
        · simp at h
        · rename_i hi
          split at h
          · simp at h
          · split at h
            · simp at h
            · split at h
              · simp at h
              · split at h
                · simp at h
                · split at h
                  · simp at h
                  · split at h
                    · simp at h
                    · split at h
                      · simp at h
                      · split at h
                        · simp at h
                        · split at h
                          · simp at h
                          · split at h
                            · simp at h
                            · simp at h
                            · rename_i hl
                              refine ⟨?_, ?_, ?_, ?_⟩
                              · cases hT : f.Title with
                                | none => simp [hT] at ht
                                | some t =>
                                  refine ⟨t, rfl, ?_⟩
                                  simpa [hT] using ht
                              · cases hI : f.Id with
                                | none => simp [hI] at hi
                                | some id =>
                                  refine ⟨id, rfl, ?_⟩
                                  simp only [hI, Option.any_some, Name.isNot, Bool.not_not,
                                    Bool.not_eq_true, Bool.or_eq_false_iff,
                                    decide_eq_false_iff_not, ne_eq, not_not] at hi
                                  cases hn : id.XMLName with
                                  | mk sp lo =>
                                    rw [hn] at hi
                                    simp only at hi
                                    rw [hi.1, hi.2]
                              · cases hU : f.Updated with
                                | none => simp [hU] at hu
                                | some up =>
                                  refine ⟨up, rfl, ?_⟩
                                  simp only [hU, Option.any_some, Name.isNot, Bool.not_not,
                                    Bool.not_eq_true, Bool.or_eq_false_iff,
                                    decide_eq_false_iff_not, ne_eq, not_not] at hu
                                  cases hn : up.XMLName with
                                  | mk sp lo =>
                                    rw [hn] at hu
                                    simp only at hu
                                    rw [hu.1, hu.2]
                              · rcases feedLinks_ok_false f.Links true hl with h0 | h0
                                · exact absurd h0 (by decide)
                                · exact h0
  refine ⟨?_, ?_, key⟩
  · intro h
    unfold Feed.Validate
    rcases h with h | ⟨t, h, ht⟩
    · simp [h]
    · simp [h, ht]
  · intro h hv
    obtain ⟨_, _, _, l, hl, hr, _⟩ := key hv
    exact h l hl hr

theorem Feed_Validate_spec_witness :
    Feed.Validate mime.ParseMediaType [] (some collisionFeed) = none ∧
    ∃ l ∈ collisionFeed.Links, l.Relation = ascii "self" ∧
      Link.Validate (some l) = .ok (ascii "self") :=
  ⟨by decide, ((Feed_Validate_spec mime.ParseMediaType [] collisionFeed).2.2 (by decide)).2.2.2⟩

/-! ## C12 and C13: the validator of XHTML on PUT -/

/-- The scan of the input `http://x`, whatever the capacity of its array. -/
theorem scanInput_single_link (slack : Nat) :
    scanInput slack (ascii "http://x") =
      { buf := xhtmlOpen ++ ascii "[1]", urls := [ascii "http://x"], categories := [] } := by
  have hin : ascii "http://x" = ascii "http" ++ 58 :: (ascii "//x" ++ []) := by decide
  have hs := scanStep_chunk slack { buf := xhtmlOpen, urls := [], categories := [] }
    (ascii "http") (ascii "//x") [] (by decide) (by decide) (by simp)
  have hm : matchProtocol (ascii "http") (ascii "//x") protocol_list 0
      = some (1, ascii "http") := by decide
  have hlen : (ascii "http://x").length + 1 = 8 + 1 := by decide
  rw [scanInput, hlen, scanLoop, hin, hs]
  simp only [scanChunk, hm, dropSpaceBeforePeriod, Option.map, if_true, one_ne_zero, if_false]
  decide

/-- The `for` loop of `preparePutContent` over tokens that end at `io.EOF`: it
is left at `io.EOF` exactly when every start element is a `p` or an `a`, and
returns an error otherwise. -/
theorem putContentLoop_EOF (toks : List XmlToken) :
    (putContentLoop .EOF toks = some none ↔
      ∀ name, XmlToken.StartElement name ∈ toks →
        name.Local = ascii "p" ∨ name.Local = ascii "a") ∧
    (putContentLoop .EOF toks ≠ some none → ∃ e, putContentLoop .EOF toks = some (some e)) := by
  induction toks with
  | nil => simp [putContentLoop]
  | cons t rest ih =>
    cases t with
    | other =>
      simp only [putContentLoop, List.mem_cons, reduceCtorEq, false_or]
      exact ih
    | StartElement n =>
      by_cases hn : n.Local = ascii "p" ∨ n.Local = ascii "a"
      · simp only [putContentLoop, hn, if_true, List.mem_cons, XmlToken.StartElement.injEq]
        refine ⟨?_, ih.2⟩
        rw [ih.1]
        constructor
        · intro h name hm
          rcases hm with hm | hm
          · rw [hm]; exact hn
          · exact h name hm
        · intro h name hm
          exact h name (Or.inr hm)
      · simp only [putContentLoop, hn, if_false, List.mem_cons, XmlToken.StartElement.injEq]
        refine ⟨?_, fun _ => ⟨_, rfl⟩⟩
        constructor
        · intro h
          simp at h
        · intro h
          exact absurd (h n (Or.inl rfl)) hn

/-- What `preparePutContent` does when the run of the decoder over the input
without its newlines ends at `io.EOF`: it returns that input when the first
token is the start element `div` of XHTML and every later start element is a
`p` or an `a`, and an error otherwise. -/
theorem preparePutContent_EOF (decode : Bytes → DecoderRun) (innerxml : Bytes)
    (h : (decode (dropNewlinesFrom 0 innerxml)).ending = .EOF) :
    (preparePutContent decode innerxml = some (.ok (dropNewlinesFrom 0 innerxml)) ↔
      ∃ rest, (decode (dropNewlinesFrom 0 innerxml)).tokens =
          .StartElement ⟨xhtml_xmlns, ascii "div"⟩ :: rest ∧
        ∀ name, XmlToken.StartElement name ∈ rest →
          name.Local = ascii "p" ∨ name.Local = ascii "a") ∧
    (preparePutContent decode innerxml ≠ some (.ok (dropNewlinesFrom 0 innerxml)) →
      ∃ e, preparePutContent decode innerxml = some (.error e)) := by
  unfold preparePutContent
  simp only [h]
  cases ht : (decode (dropNewlinesFrom 0 innerxml)).tokens with
  | nil => simp
  | cons t rest =>
    cases t with
    | other => simp
    | StartElement n =>
      by_cases hn : n.Space ≠ xhtml_xmlns ∨ n.Local ≠ ascii "div"
      · simp only [hn, if_true]
        refine ⟨⟨fun h0 => by simp at h0, ?_⟩, fun _ => ⟨_, rfl⟩⟩
        rintro ⟨r, hr, _⟩
        simp only [List.cons.injEq, XmlToken.StartElement.injEq] at hr
        rw [hr.1] at hn
        simp at hn
      · simp only [hn, if_false]
        have hn2 : n = ⟨xhtml_xmlns, ascii "div"⟩ := by
          cases n with
          | mk sp lo =>
            simp only [ne_eq, not_or, not_not] at hn
            rw [hn.1, hn.2]
        obtain ⟨l1, l2⟩ := putContentLoop_EOF rest
        cases hl : putContentLoop .EOF rest with
        | none =>
          have := l2 (by rw [hl]; simp)
          rw [hl] at this
          simp at this
        | some r =>
          cases r with
          | none =>
            refine ⟨⟨fun _ => ⟨rest, by rw [hn2], l1.mp hl⟩, fun _ => rfl⟩, fun h0 => ?_⟩
            exact absurd rfl h0
          | some e =>
            refine ⟨⟨fun h0 => by simp at h0, ?_⟩, fun _ => ⟨_, rfl⟩⟩
            rintro ⟨r, hr, hall⟩
            simp only [List.cons.injEq, XmlToken.StartElement.injEq] at hr
            rw [← hr.2] at hall
            have := l1.mpr hall
            rw [hl] at this
            simp at this

set_option maxRecDepth 100000 in
/-- C12 (the code at a failing input): the body that `preparePlainText` makes
of the text `http://x` holds the footer `<div style="word-break:break-all;">`,
a start element other than `p` and `a` behind the first token, and
`preparePutContent` rejects it with `tag div not allowed`. -/
theorem preparePutContent_rejects_footer (slack : Nat) :
    (preparePlainText slack (ascii "http://x")).1 =
      ascii ("<div xmlns=\"http://www.w3.org/1999/xhtml\" style=\"white-space: pre-line;\">"
        ++ "<p>[1]</p><div style=\"word-break:break-all;\">"
        ++ "<a href=\"http://x\">[1]&#xA0;http://x</a></div></div>") ∧
    preparePutContent xml.decode (preparePlainText slack (ascii "http://x")).1 =
      some (.error "tag div not allowed") := by
  rw [preparePlainText, scanInput_single_link]
  decide

set_option maxRecDepth 100000 in
/-- C13 (the code at a failing input): the inner XML
`<div xmlns="http://www.w3.org/1999/xhtml"><div><p>x</p></div></div>` is well
formed, its first token is the start element `div` of XHTML and its start
elements are `div`, `div` and `p`; `preparePutContent` returns the error
`tag div not allowed`. -/
theorem preparePutContent_rejects_nested_div :
    xml.decode (ascii "<div xmlns=\"http://www.w3.org/1999/xhtml\"><div><p>x</p></div></div>") =
      { tokens := [.StartElement ⟨xhtml_xmlns, ascii "div"⟩,
          .StartElement ⟨xhtml_xmlns, ascii "div"⟩, .StartElement ⟨xhtml_xmlns, ascii "p"⟩,
          .other, .other, .other, .other],
        ending := .EOF } ∧
    preparePutContent xml.decode
      (ascii "<div xmlns=\"http://www.w3.org/1999/xhtml\"><div><p>x</p></div></div>") =
      some (.error "tag div not allowed") := by
  decide

/-! ## C18: author coverage -/

set_option maxRecDepth 100000 in
/-- C18 (the code at a failing sequence of requests): from the empty backend,
a feed with an author is created (`PostToRoot`), a plain text is posted to it
(`PostToFeed`; the entry has no author of its own), and a feed document
without an author is PUT.  Every document passes the validation of the
handler and every call succeeds.  Afterwards the entry has no author and its
Source has none either, and the feed that `GetFeed` builds of them no longer
validates (`error: feed needs author`). -/
theorem PutFeed_drops_author_coverage :
    ∃ (b1 b2 b3 : Backend Unit) (feed : Feed) (entry : Entry),
      Feed.Validate mime.ParseMediaType []
        (some (newFeed (some (atomId "urn:uuid:00000000-0000-4000-8000-000000000001"))))
        = none ∧
      Backend.PostToRoot okStorer mime.ParseMediaType ⟨1739525592, 546909000, 0⟩
        (ascii "00000000-0000-4000-8000-00000000000a") [] (Backend.empty ())
        ⟨ascii "POST", ascii "/"⟩
        (newFeed (some (atomId "urn:uuid:00000000-0000-4000-8000-000000000001")))
        = (b1, feed, ascii "/feed/00000000-0000-4000-8000-000000000001", none) ∧
      Backend.PostToFeed okStorer mime.ParseMediaType 507 ⟨1739525600, 100000000, 0⟩
        ⟨1739525600, 123456000, 0⟩ (ascii "00000000-0000-4000-8000-000000000002") b1
        ⟨ascii "POST", ascii "/feed/00000000-0000-4000-8000-000000000001"⟩
        (ascii "text/plain") [] (ascii "hello")
        = some (b2, some entry, ascii "/entry/00000000-0000-4000-8000-000000000002", none) ∧
      (b2.heap[0]?).map (fun v => (v.Id, v.Updated))
        = some (authorlessFeed.Id, authorlessFeed.Updated) ∧
      Feed.Validate mime.ParseMediaType [] (some authorlessFeed) = none ∧
      Backend.PutFeed okStorer ⟨1739525700, 0, 0⟩ b2
        ⟨ascii "PUT", ascii "/feed/00000000-0000-4000-8000-000000000001"⟩ authorlessFeed
        = some (b3, none) ∧
      ∃ (e : Entry) (src : Source),
        b3.entrymap.lookup (ascii "/entry/00000000-0000-4000-8000-000000000002") = some e ∧
        e.Authors = [] ∧ deref b3.heap e.Source = some src ∧ src.Authors = [] ∧
        Feed.Validate mime.ParseMediaType b3.heap (some (feedOf src [e]))
          = some "error: feed needs author" :=
  ⟨_, _, _, _, _, by decide, rfl, rfl, by decide, by decide, rfl, _, _, rfl, by decide, rfl,
    by decide, by decide⟩

/-! ## C19: ids and conflicts in `PostToRoot` -/

set_option maxRecDepth 100000 in
/-- C19 (as stated, refuted): a feed document without an author whose id
parses as the uuid of a feed in the feed map gets the error 400, not 409: the
test for title and author comes first. -/
theorem PostToRoot_conflict_without_author_counterexample :
    oneFeedBackend.sourcemap.lookup (ascii "/feed/00000000-0000-4000-8000-000000000001")
      = some 0 ∧
    uuid.Parse (ascii "urn:uuid:00000000-0000-4000-8000-000000000001")
      = some (ascii "00000000-0000-4000-8000-000000000001") ∧
    (Backend.PostToRoot okStorer mime.ParseMediaType ⟨1739525600, 0, 0⟩
      (ascii "00000000-0000-4000-8000-000000000002") [] oneFeedBackend ⟨ascii "POST", ascii "/"⟩
      { newFeed (some (atomId "urn:uuid:00000000-0000-4000-8000-000000000001")) with
        Authors := [] }).2.2 =
      ([], some { code := 400, message := "need to set <title> and <author> for new feeds" }) ∧
    (Backend.PostToRoot okStorer mime.ParseMediaType ⟨1739525600, 0, 0⟩
      (ascii "00000000-0000-4000-8000-000000000002") [] oneFeedBackend ⟨ascii "POST", ascii "/"⟩
      (newFeed (some (atomId "urn:uuid:00000000-0000-4000-8000-000000000001")))).2.2 =
      (ascii "/feed/00000000-0000-4000-8000-000000000001",
        some { code := 409, message := "feed with given URI already exists" }) := by
  decide

/-- C19 (amended): for a feed document with a title and an author,
`PostToRoot` returns the error 409 and leaves the backend and the document as
they were when the id parses as a uuid `u` and `/feed/u` is in the feed map.
When the id is absent or does not parse and `/feed/fresh` is not in the feed
map for the minted uuid `fresh`, the returned feed URL is `/feed/fresh` and
the id of the returned feed is `urn:uuid:fresh`. -/
theorem PostToRoot_id {σ : Type} (S : Storer σ) (ParseMediaType : Bytes → Except String Bytes)
    (now : Time) (fresh : Bytes) (doc : List Source) (b : Backend σ) (r : Request)
    (new_feed : Feed) (ht : new_feed.Title ≠ none) (ha : new_feed.Authors ≠ []) :
    (∀ id u, new_feed.Id = some id → uuid.Parse id.Target = some u →
      (b.sourcemap.lookup (ascii "/feed/" ++ u)).isSome = true →
      Backend.PostToRoot S ParseMediaType now fresh doc b r new_feed =
        (b, new_feed, ascii "/feed/" ++ u,
          some { code := 409, message := "feed with given URI already exists" })) ∧
    ((new_feed.Id = none ∨ ∃ id, new_feed.Id = some id ∧ uuid.Parse id.Target = none) →
      b.sourcemap.lookup (ascii "/feed/" ++ fresh) = none →
      (Backend.PostToRoot S ParseMediaType now fresh doc b r new_feed).2.2.1 =
        ascii "/feed/" ++ fresh ∧
      (Backend.PostToRoot S ParseMediaType now fresh doc b r new_feed).2.1.Id =
        some ⟨⟨atom_xmlns, ascii "id"⟩, ascii "urn:uuid:" ++ fresh⟩) := by
  have h0 : ¬ (new_feed.Title = none ∨ new_feed.Authors = []) := by
    intro h
    rcases h with h | h
    · exact ht h
    · exact ha h
  constructor
  · intro id u hid hu hin
    simp only [Backend.PostToRoot, h0, if_false, hid, hu, hin, if_true]
  · intro hid hfresh
    rcases hid with h | ⟨id, h, hp⟩
    · simp only [Backend.PostToRoot, h0, if_false, h, hfresh, Option.isSome_none,
        Bool.false_eq_true]
      split
      · exact ⟨rfl, rfl⟩
      · split
        · exact ⟨rfl, rfl⟩
        · exact ⟨rfl, rfl⟩
    · simp only [Backend.PostToRoot, h0, if_false, h, hp, hfresh, Option.isSome_none,
        Bool.false_eq_true]
      split
      · exact ⟨rfl, rfl⟩
      · split
        · exact ⟨rfl, rfl⟩
        · exact ⟨rfl, rfl⟩

theorem PostToRoot_id_witness :
    (Backend.PostToRoot okStorer mime.ParseMediaType ⟨1739525592, 546909000, 0⟩
      (ascii "00000000-0000-4000-8000-000000000001") [] (Backend.empty ())
      ⟨ascii "POST", ascii "/"⟩ (newFeed none)).2.2.1 =
      ascii "/feed/" ++ ascii "00000000-0000-4000-8000-000000000001" ∧
    (Backend.PostToRoot okStorer mime.ParseMediaType ⟨1739525592, 546909000, 0⟩
      (ascii "00000000-0000-4000-8000-000000000001") [] (Backend.empty ())
      ⟨ascii "POST", ascii "/"⟩ (newFeed none)).2.1.Id =
      some ⟨⟨atom_xmlns, ascii "id"⟩,
        ascii "urn:uuid:" ++ ascii "00000000-0000-4000-8000-000000000001"⟩ :=
  (PostToRoot_id okStorer mime.ParseMediaType ⟨1739525592, 546909000, 0⟩
    (ascii "00000000-0000-4000-8000-000000000001") [] (Backend.empty ())
    ⟨ascii "POST", ascii "/"⟩ (newFeed none) (by decide) (by decide)).2 (Or.inl rfl) rfl

/-! ## C20: the collection list of the workspace -/

theorem fillSlot_spec (p : SourcePtr) (cols : List (Option SourcePtr)) :
    (none ∈ cols → ∃ i, i < cols.length ∧ cols[i]? = some none ∧
      (∀ j, j < i → cols[j]? ≠ some none) ∧ fillSlot p cols = cols.set i (some p)) ∧
    (none ∉ cols → fillSlot p cols = cols ++ [some p]) := by
  induction cols with
  | nil => simp [fillSlot]
  | cons c rest ih =>
    cases c with
    | none =>
      refine ⟨fun _ => ⟨0, by simp, by simp, by simp, by simp [fillSlot]⟩, fun h => ?_⟩
      simp at h
    | some q =>
      constructor
      · intro h
        have hr : none ∈ rest := by simpa using h
        obtain ⟨i, h1, h2, h3, h4⟩ := ih.1 hr
        refine ⟨i + 1, by simp; omega, by simpa using h2, ?_, by simp [fillSlot, h4]⟩
        intro j hj
        cases j with
        | zero => simp
        | succ j =>
          simp only [List.getElem?_cons_succ]
          exact h3 j (by omega)
      · intro h
        have hr : none ∉ rest := by
          intro h0
          exact h (List.mem_cons_of_mem _ h0)
        simp [fillSlot, ih.2 hr]

theorem clearSlots_spec (heap : List Source) (path : Bytes) (cols slots : List (Option SourcePtr))
    (ret : Bool) (h : clearSlots heap path cols = some (slots, ret)) :
    slots.length = cols.length ∧
    (∀ i : Nat, slots[i]? = cols[i]? ∨ (slots[i]? = some none ∧
      ∃ (p : SourcePtr) (src : Source) (c : Collection),
        cols[i]? = some (some p) ∧ heap[p]? = some src ∧ src.Collection = some c ∧
        url.ParsePath c.Href = some path)) ∧
    (ret = false → ∀ (i : Nat) (p : SourcePtr) (src : Source) (c : Collection),
      cols[i]? = some (some p) → heap[p]? = some src →
      src.Collection = some c → url.ParsePath c.Href = some path → slots[i]? = some none) := by
  induction cols generalizing slots ret with
  | nil =>
    simp only [clearSlots, Option.some.injEq, Prod.mk.injEq] at h
    obtain ⟨rfl, rfl⟩ := h
    simp
  | cons c rest ih =>
    cases c with
    | none =>
      simp only [clearSlots] at h
      cases hr : clearSlots heap path rest with
      | none => simp [hr] at h
      | some res =>
        obtain ⟨s1, r1⟩ := res
        simp only [hr, Option.some.injEq, Prod.mk.injEq] at h
        obtain ⟨rfl, rfl⟩ := h
        obtain ⟨i1, i2, i3⟩ := ih s1 r1 hr
        refine ⟨by simp [i1], ?_, ?_⟩
        · intro i
          cases i with
          | zero => simp
          | succ i => simpa using i2 i
        · intro hret i p src c hc
          cases i with
          | zero => simp at hc
          | succ i =>
            simp only [List.getElem?_cons_succ] at hc ⊢
            exact i3 hret i p src c hc
    | some q =>
      simp only [clearSlots] at h
      cases hq : (heap[q]?).bind (fun src => src.Collection) with
      | none => simp [hq] at h
      | some c0 =>
        simp only [hq] at h
        obtain ⟨src0, hs0, hc0⟩ : ∃ src0, heap[q]? = some src0 ∧ src0.Collection = some c0 := by
          cases hh : heap[q]? with
          | none => simp [hh] at hq
          | some src0 => exact ⟨src0, rfl, by simpa [hh] using hq⟩
        cases hp : url.ParsePath c0.Href with
        | none =>
          simp only [hp, Option.some.injEq, Prod.mk.injEq] at h
          obtain ⟨rfl, rfl⟩ := h
          refine ⟨rfl, fun i => Or.inl rfl, fun hret => by simp at hret⟩
        | some u =>
          simp only [hp] at h
          cases hr : clearSlots heap path rest with
          | none => simp [hr] at h
          | some res =>
            obtain ⟨s1, r1⟩ := res
            simp only [hr, Option.some.injEq, Prod.mk.injEq] at h
            obtain ⟨rfl, rfl⟩ := h
            obtain ⟨i1, i2, i3⟩ := ih s1 r1 hr
            refine ⟨by simp [i1], ?_, ?_⟩
            · intro i
              cases i with
              | zero =>
                by_cases hu : u = path
                · right
                  refine ⟨by simp [hu], q, src0, c0, by simp, hs0, hc0, by rw [hp, hu]⟩
                · left
                  simp [hu]
              | succ i => simpa using i2 i
            · intro hret i p src c hc hsrc hcol hpath
              cases i with
              | zero =>
                simp only [List.getElem?_cons_zero, Option.some.injEq] at hc
                subst hc
                rw [hs0] at hsrc
                simp only [Option.some.injEq] at hsrc
                subst hsrc
                rw [hc0] at hcol
                simp only [Option.some.injEq] at hcol
                subst hcol
                rw [hp] at hpath
                simp only [Option.some.injEq] at hpath
                simp [hpath]
              | succ i =>
                simp only [List.getElem?_cons_succ] at hc ⊢
                exact i3 hret i p src c hc hsrc hcol hpath

theorem PutFeed_collections {σ : Type} (S : Storer σ) (now : Time) (b b' : Backend σ)
    (r : Request) (new_feed : Feed) (e : Option HTTPError)
    (h : Backend.PutFeed S now b r new_feed = some (b', e)) :
    b'.collections = b.collections := by
  unfold Backend.PutFeed at h
  repeat' (split at h)
  all_goals first
    | (cases h; rfl)
    | (simp only [Option.some.injEq] at h; exact (storeSource_eq S _ _ _ _ _ h).2.2.2)
    | (simp at h)

theorem PutEntry_collections {σ : Type} (S : Storer σ) (decode : Bytes → DecoderRun)
    (now1 now2 : Time) (b b' : Backend σ) (r : Request) (new_entry : Entry)
    (e : Option HTTPError)
    (h : Backend.PutEntry S decode now1 now2 b r new_entry = some (b', e)) :
    b'.collections = b.collections := by
  unfold Backend.PutEntry at h
  repeat' (first | split at h | (simp only at h; split at h))
  all_goals first
    | (cases h; rfl)
    | (simp only [Option.some.injEq] at h; exact (storeEntry_eq S _ _ _ _ _ _ h).2.2.2)
    | (simp at h)

theorem DeleteEntry_collections {σ : Type} (S : Storer σ) (now : Time) (b b' : Backend σ)
    (r : Request) (e : Option HTTPError)
    (h : Backend.DeleteEntry S now b r = some (b', e)) :
    b'.collections = b.collections := by
  unfold Backend.DeleteEntry at h
  repeat' (first | split at h | (simp only at h; split at h))
  all_goals first
    | (cases h; rfl)
    | (simp at h)

theorem PostToFeed_collections {σ : Type} (S : Storer σ)
    (ParseMediaType : Bytes → Except String Bytes) (slack : Nat) (now1 now2 : Time)
    (fresh : Bytes) (b b' : Backend σ) (r : Request) (contentType slug body : Bytes)
    (res : Option Entry × Bytes × Option HTTPError)
    (h : Backend.PostToFeed S ParseMediaType slack now1 now2 fresh b r contentType slug body
      = some (b', res)) :
    b'.collections = b.collections := by
  unfold Backend.PostToFeed at h
  repeat' (first | split at h | (simp only at h; split at h))
  all_goals first
    | (cases h; rfl)
    | (simp only [Option.some.injEq, Prod.mk.injEq] at h
       rename_i hs
       rw [← h.1]
       exact (storeEntry_eq S _ _ _ _ _ _ hs).2.2.2)
    | (simp at h)

theorem PostToRoot_collections {σ : Type} (S : Storer σ)
    (ParseMediaType : Bytes → Except String Bytes) (now : Time) (fresh : Bytes)
    (doc : List Source) (b b' : Backend σ) (r : Request) (new_feed feed : Feed)
    (feed_URL : Bytes) (e : Option HTTPError)
    (h : Backend.PostToRoot S ParseMediaType now fresh doc b r new_feed
      = (b', feed, feed_URL, e)) :
    (e ≠ none → b'.collections = b.collections) ∧
    (e = none → b'.collections = fillSlot b.heap.length b.collections ∧
      ∃ src c, b'.heap = b.heap ++ [src] ∧ src.Collection = some c ∧ c.Href = feed_URL) := by
  unfold Backend.PostToRoot at h
  simp only at h
  split at h
  · cases h
    exact ⟨fun _ => rfl, fun h0 => by simp at h0⟩
  · split at h
    · cases h
      exact ⟨fun _ => rfl, fun h0 => by simp at h0⟩
    · split at h
      · cases h
        exact ⟨fun _ => rfl, fun h0 => by simp at h0⟩
      · split at h
        · rename_i hs
          have hf := storeSource_eq S _ _ _ _ _ hs
          cases h
          exact ⟨fun _ => hf.2.2.2, fun h0 => by simp at h0⟩
        · rename_i hs
          have hf := storeSource_eq S _ _ _ _ _ hs
          cases h
          refine ⟨fun h0 => absurd rfl h0, fun _ => ⟨?_, _, _, hf.1, rfl, rfl⟩⟩
          simp only [hf.2.2.2]


theorem deleteEntries_return {σ : Type} (S : Storer σ) (heap : List Source) (id : Option URI)
    (todo kept entries : List (Bytes × Entry)) (s s1 : σ) (err err1 : Option HTTPError)
    (h : deleteEntries S heap id kept todo s err = some (entries, s1, err1, true)) :
    err1 ≠ none := by
  induction todo generalizing kept s err with
  | nil => simp [deleteEntries] at h
  | cons kv rest ih =>
    obtain ⟨k, v⟩ := kv
    simp only [deleteEntries] at h
    split at h
    · simp only [Option.some.injEq, Prod.mk.injEq] at h
      rw [← h.2.2.1]
      simp
    · split at h
      · simp at h
      · split at h
        · simp only [Option.some.injEq, Prod.mk.injEq] at h
          rw [← h.2.2.1]
          simp
        · split at h
          · exact ih _ _ _ h
          · split at h
            · exact ih _ _ _ h
            · exact ih _ _ _ h

theorem DeleteFeed_collections {σ : Type} (S : Storer σ) (b b' : Backend σ) (r : Request)
    (e : Option HTTPError) (h : Backend.DeleteFeed S b r = some (b', e)) :
    b'.collections.length = b.collections.length ∧
    (∀ i : Nat, b'.collections[i]? = b.collections[i]? ∨ (b'.collections[i]? = some none ∧
      ∃ (p : SourcePtr) (src : Source) (c : Collection),
        b.collections[i]? = some (some p) ∧ b.heap[p]? = some src ∧ src.Collection = some c ∧
        url.ParsePath c.Href = some r.Path)) ∧
    (e = none → ∀ (i : Nat) (p : SourcePtr) (src : Source) (c : Collection),
      b.collections[i]? = some (some p) → b.heap[p]? = some src →
      src.Collection = some c → url.ParsePath c.Href = some r.Path →
      b'.collections[i]? = some none) := by
  have same : ∀ (b1 : Backend σ) (e1 : Option HTTPError), b' = b1 → e = e1 →
      b1.collections = b.collections → e1 ≠ none →
      b'.collections.length = b.collections.length ∧
      (∀ i : Nat, b'.collections[i]? = b.collections[i]? ∨ (b'.collections[i]? = some none ∧
        ∃ (p : SourcePtr) (src : Source) (c : Collection),
          b.collections[i]? = some (some p) ∧ b.heap[p]? = some src ∧
          src.Collection = some c ∧ url.ParsePath c.Href = some r.Path)) ∧
      (e = none → ∀ (i : Nat) (p : SourcePtr) (src : Source) (c : Collection),
        b.collections[i]? = some (some p) → b.heap[p]? = some src →
        src.Collection = some c → url.ParsePath c.Href = some r.Path →
        b'.collections[i]? = some none) := by
    intro b1 e1 hb hee hc he
    subst hb hee
    exact ⟨by rw [hc], fun i => Or.inl (by rw [hc]), fun h0 => absurd h0 he⟩
  have cleared : ∀ (b1 : Backend σ) (e1 : Option HTTPError) (slots : List (Option SourcePtr))
      (ret : Bool), b' = b1 → e = e1 →
      clearSlots b.heap r.Path b.collections = some (slots, ret) →
      b1.collections = slots → (e1 = none → ret = false) →
      b'.collections.length = b.collections.length ∧
      (∀ i : Nat, b'.collections[i]? = b.collections[i]? ∨ (b'.collections[i]? = some none ∧
        ∃ (p : SourcePtr) (src : Source) (c : Collection),
          b.collections[i]? = some (some p) ∧ b.heap[p]? = some src ∧
          src.Collection = some c ∧ url.ParsePath c.Href = some r.Path)) ∧
      (e = none → ∀ (i : Nat) (p : SourcePtr) (src : Source) (c : Collection),
        b.collections[i]? = some (some p) → b.heap[p]? = some src →
        src.Collection = some c → url.ParsePath c.Href = some r.Path →
        b'.collections[i]? = some none) := by
    intro b1 e1 slots ret hb hee hcl hc he
    subst hb hee
    obtain ⟨c1, c2, c3⟩ := clearSlots_spec b.heap r.Path b.collections slots ret hcl
    rw [hc]
    exact ⟨c1, c2, fun h0 => c3 (he h0)⟩
  unfold Backend.DeleteFeed at h
  split at h
  · simp only [Option.some.injEq, Prod.mk.injEq] at h
    exact same _ _ h.1.symm h.2.symm rfl (by simp)
  · split at h
    · simp at h
    · split at h
      · simp only [Option.some.injEq, Prod.mk.injEq] at h
        exact same _ _ h.1.symm h.2.symm rfl (by simp)
      · split at h
        · simp at h
        · rename_i hd
          simp only [Option.some.injEq, Prod.mk.injEq] at h
          exact same _ _ h.1.symm h.2.symm rfl (deleteEntries_return S _ _ _ _ _ _ _ _ _ hd)
        · split at h
          · simp at h
          · rename_i hcl
            simp only [Option.some.injEq, Prod.mk.injEq] at h
            exact cleared _ _ _ _ h.1.symm h.2.symm hcl rfl (by simp)
          · rename_i hcl
            simp only at h
            split at h
            · simp only [Option.some.injEq, Prod.mk.injEq] at h
              exact cleared _ _ _ _ h.1.symm h.2.symm hcl rfl (by simp)
            · split at h
              · simp only [Option.some.injEq, Prod.mk.injEq] at h
                exact cleared _ _ _ _ h.1.symm h.2.symm hcl rfl (by simp)
              · simp only [Option.some.injEq, Prod.mk.injEq] at h
                exact cleared _ _ _ _ h.1.symm h.2.symm hcl rfl (fun _ => rfl)

/-- C20: `DeleteFeed` leaves the length of the collection list and every slot
as they were, except that a slot whose href has the path of the request
becomes empty (every such slot does when the call succeeds); a successful
`PostToRoot` puts the new Source, whose collection has the returned feed URL
as its href, into the empty slot of lowest index when there is one and
appends it otherwise, and a failed one leaves the list alone; `PutFeed`,
`PutEntry`, `DeleteEntry` and `PostToFeed` leave the list alone.  So no
operation shortens the list. -/
theorem collections_fill_or_append {σ : Type} (S : Storer σ)
    (ParseMediaType : Bytes → Except String Bytes) (decode : Bytes → DecoderRun)
    (slack : Nat) (now1 now2 : Time) (fresh : Bytes) (doc : List Source)
    (b b' : Backend σ) (r : Request) :
    (∀ e, Backend.DeleteFeed S b r = some (b', e) →
      b'.collections.length = b.collections.length ∧
      (∀ i : Nat, b'.collections[i]? = b.collections[i]? ∨ (b'.collections[i]? = some none ∧
        ∃ (p : SourcePtr) (src : Source) (c : Collection),
          b.collections[i]? = some (some p) ∧ b.heap[p]? = some src ∧
          src.Collection = some c ∧ url.ParsePath c.Href = some r.Path)) ∧
      (e = none → ∀ (i : Nat) (p : SourcePtr) (src : Source) (c : Collection),
        b.collections[i]? = some (some p) → b.heap[p]? = some src →
        src.Collection = some c → url.ParsePath c.Href = some r.Path →
        b'.collections[i]? = some none)) ∧
    (∀ new_feed feed feed_URL e,
      Backend.PostToRoot S ParseMediaType now1 fresh doc b r new_feed
        = (b', feed, feed_URL, e) →
      (e ≠ none → b'.collections = b.collections) ∧
      (e = none →
        (none ∈ b.collections → ∃ i, i < b.collections.length ∧ b.collections[i]? = some none ∧
          (∀ j, j < i → b.collections[j]? ≠ some none) ∧
          b'.collections = b.collections.set i (some b.heap.length)) ∧
        (none ∉ b.collections → b'.collections = b.collections ++ [some b.heap.length]) ∧
        ∃ src c, b'.heap = b.heap ++ [src] ∧ src.Collection = some c ∧ c.Href = feed_URL)) ∧
    (∀ new_feed e, Backend.PutFeed S now1 b r new_feed = some (b', e) →
      b'.collections = b.collections) ∧
    (∀ new_entry e, Backend.PutEntry S decode now1 now2 b r new_entry = some (b', e) →
      b'.collections = b.collections) ∧
    (∀ e, Backend.DeleteEntry S now1 b r = some (b', e) → b'.collections = b.collections) ∧
    (∀ contentType slug body res,
      Backend.PostToFeed S ParseMediaType slack now1 now2 fresh b r contentType slug body
        = some (b', res) → b'.collections = b.collections) := by
  refine ⟨fun e h => DeleteFeed_collections S b b' r e h, ?_,
    fun new_feed e h => PutFeed_collections S now1 b b' r new_feed e h,
    fun new_entry e h => PutEntry_collections S decode now1 now2 b b' r new_entry e h,
    fun e h => DeleteEntry_collections S now1 b b' r e h,
    fun contentType slug body res h =>
      PostToFeed_collections S ParseMediaType slack now1 now2 fresh b b' r contentType slug body
        res h⟩
  intro new_feed feed feed_URL e h
  obtain ⟨h1, h2⟩ := PostToRoot_collections S ParseMediaType now1 fresh doc b b' r new_feed feed
    feed_URL e h
  refine ⟨h1, fun he => ?_⟩
  obtain ⟨h3, h4⟩ := h2 he
  obtain ⟨f1, f2⟩ := fillSlot_spec b.heap.length b.collections
  refine ⟨fun hn => ?_, fun hn => ?_, h4⟩
  · obtain ⟨i, i1, i2, i3, i4⟩ := f1 hn
    exact ⟨i, i1, i2, i3, by rw [h3, i4]⟩
  · rw [h3, f2 hn]

set_option maxRecDepth 100000 in
theorem collections_fill_or_append_witness :
    holeBackend.collections = [none] ∧ holeBackend.heap.length = 1 ∧
    ∃ (b' : Backend Unit) (feed : Feed),
      Backend.PostToRoot okStorer mime.ParseMediaType ⟨1739525600, 0, 0⟩
        (ascii "00000000-0000-4000-8000-000000000002") [] holeBackend ⟨ascii "POST", ascii "/"⟩
        (newFeed none) =
        (b', feed, ascii "/feed/00000000-0000-4000-8000-000000000002", none) ∧
      (none ∈ holeBackend.collections → ∃ i, i < holeBackend.collections.length ∧
        holeBackend.collections[i]? = some none ∧
        (∀ j, j < i → holeBackend.collections[j]? ≠ some none) ∧
        b'.collections = holeBackend.collections.set i (some holeBackend.heap.length)) :=
  ⟨by decide, by decide, _, _, rfl,
    (((collections_fill_or_append okStorer mime.ParseMediaType divDecoder 0 ⟨1739525600, 0, 0⟩
      ⟨1739525600, 0, 0⟩ (ascii "00000000-0000-4000-8000-000000000002") [] holeBackend _
      ⟨ascii "POST", ascii "/"⟩).2.1 (newFeed none) _ _ none rfl).2 rfl).1⟩

/-! ## The maps of the backend -/

theorem lookup_mem {α : Type} (m : List (Bytes × α)) (k : Bytes) (v : α)
    (h : m.lookup k = some v) : (k, v) ∈ m := by
  induction m with
  | nil => simp [List.lookup] at h
  | cons kv rest ih =>
    obtain ⟨k1, v1⟩ := kv
    by_cases hk : k = k1
    · subst hk
      simp [List.lookup] at h
      simp [h]
    · have h2 : (k == k1) = false := by simpa using hk
      simp only [List.lookup, h2] at h
      exact List.mem_cons_of_mem _ (ih h)

theorem mem_lookup {α : Type} (m : List (Bytes × α)) (k : Bytes) (v : α)
    (hn : (m.map Prod.fst).Nodup) (h : (k, v) ∈ m) : m.lookup k = some v := by
  induction m with
  | nil => simp at h
  | cons kv rest ih =>
    obtain ⟨k1, v1⟩ := kv
    simp only [List.map_cons, List.nodup_cons, List.mem_map, Prod.exists, exists_and_right,
      exists_eq_right, not_exists] at hn
    by_cases hk : k = k1
    · subst hk
      rcases List.mem_cons.1 h with h1 | h1
      · simp only [Prod.mk.injEq, true_and] at h1
        simp [List.lookup, h1]
      · exact absurd h1 (hn.1 v)
    · have h2 : (k == k1) = false := by simpa using hk
      simp only [List.lookup, h2]
      rcases List.mem_cons.1 h with h1 | h1
      · simp only [Prod.mk.injEq] at h1
        exact absurd h1.1 hk
      · exact ih hn.2 h1

theorem mapSet_keys {α : Type} (m : List (Bytes × α)) (k : Bytes) (v : α) (x : Bytes) :
    x ∈ (mapSet m k v).map Prod.fst ↔ x = k ∨ x ∈ m.map Prod.fst := by
  induction m with
  | nil => simp [mapSet]
  | cons kv rest ih =>
    obtain ⟨k1, v1⟩ := kv
    by_cases hk : k1 = k
    · subst hk
      simp [mapSet]
    · simp only [mapSet, hk, if_false, List.map_cons, List.mem_cons, ih]
      tauto

theorem mapSet_nodup {α : Type} (m : List (Bytes × α)) (k : Bytes) (v : α)
    (hn : (m.map Prod.fst).Nodup) : ((mapSet m k v).map Prod.fst).Nodup := by
  induction m with
  | nil => simp [mapSet]
  | cons kv rest ih =>
    obtain ⟨k1, v1⟩ := kv
    simp only [List.map_cons, List.nodup_cons] at hn
    by_cases hk : k1 = k
    · subst hk
      simpa [mapSet] using hn
    · simp only [mapSet, hk, if_false, List.map_cons, List.nodup_cons]
      refine ⟨?_, ih hn.2⟩
      rw [mapSet_keys]
      intro h
      rcases h with h | h
      · exact hk h
      · exact hn.1 h

theorem mem_mapSet {α : Type} (m : List (Bytes × α)) (k : Bytes) (v : α) (k1 : Bytes) (v1 : α)
    (hn : (m.map Prod.fst).Nodup) :
    (k1, v1) ∈ mapSet m k v ↔ (k1 = k ∧ v1 = v) ∨ (k1 ≠ k ∧ (k1, v1) ∈ m) := by
  induction m with
  | nil => simp [mapSet]
  | cons kv rest ih =>
    obtain ⟨k2, v2⟩ := kv
    simp only [List.map_cons, List.nodup_cons, List.mem_map, Prod.exists, exists_and_right,
      exists_eq_right, not_exists] at hn
    by_cases hk : k2 = k
    · subst hk
      simp only [mapSet, if_true, List.mem_cons, Prod.mk.injEq]
      constructor
      · rintro (h | h)
        · exact Or.inl h
        · right
          refine ⟨?_, Or.inr h⟩
          rintro rfl
          exact hn.1 v1 h
      · rintro (h | ⟨h1, h2 | h2⟩)
        · exact Or.inl h
        · exact absurd h2.1 h1
        · exact Or.inr h2
    · simp only [mapSet, hk, if_false, List.mem_cons, Prod.mk.injEq, ih hn.2]
      constructor
      · rintro (⟨rfl, rfl⟩ | h | h)
        · exact Or.inr ⟨hk, Or.inl ⟨rfl, rfl⟩⟩
        · exact Or.inl h
        · exact Or.inr ⟨h.1, Or.inr h.2⟩
      · rintro (h | ⟨h1, h2 | h2⟩)
        · exact Or.inr (Or.inl h)
        · exact Or.inl h2
        · exact Or.inr (Or.inr ⟨h1, h2⟩)

theorem mapDelete_nodup {α : Type} (m : List (Bytes × α)) (k : Bytes)
    (hn : (m.map Prod.fst).Nodup) : ((mapDelete m k).map Prod.fst).Nodup :=
  hn.sublist (List.Sublist.map _ (List.filter_sublist _))

theorem PostToFeed_effect {σ : Type} (S : Storer σ)
    (ParseMediaType : Bytes → Except String Bytes) (slack : Nat) (now1 now2 : Time)
    (fresh : Bytes) (b b' : Backend σ) (r : Request) (contentType slug body : Bytes)
    (entry : Option Entry) (entry_URL : Bytes)
    (h : Backend.PostToFeed S ParseMediaType slack now1 now2 fresh b r contentType slug body
      = some (b', entry, entry_URL, none)) :
    ∃ (ptr : SourcePtr) (source source1 : Source) (en : Entry),
      b.sourcemap.lookup r.Path = some ptr ∧ b.heap[ptr]? = some source ∧
      entry = some en ∧ en.Source = some ptr ∧
      en.Title.Text = (if slug = [] then ascii "Untitled" else slug) ∧
      en.Content.«Type» = ascii "xhtml" ∧
      en.Categories = pickCategories (preparePlainText slack body).2 source.Categories ∧
      contentType = ascii "text/plain" ∧
      source1.Id = source.Id ∧ source1.Collection = source.Collection ∧
      entry_URL = ascii "/entry/" ++ fresh ∧
      b'.heap = b.heap.set ptr source1 ∧ b'.sourcemap = b.sourcemap ∧
      b'.entrymap = mapSet b.entrymap entry_URL en ∧ b'.collections = b.collections := by
  unfold Backend.PostToFeed at h
  split at h
  · simp at h
  · simp at h
  · simp at h
  · split at h
    · simp at h
    · rename_i hct
      simp only at h
      split at h
      · split at h
        · simp at h
        · split at h
          · simp at h
          · simp at h
      · rename_i ptr hptr
        split at h
        · simp at h
        · rename_i source hsource
          split at h
          · simp at h
          · split at h
            · simp at h
            · split at h
              · simp at h
              · rename_i hs
                simp only [Option.some.injEq, Prod.mk.injEq, and_true] at h
                obtain ⟨hf1, hf2, hf3, hf4⟩ := storeEntry_eq S _ _ _ _ _ _ hs
                obtain ⟨h1, h2, h3⟩ := h
                subst h1 h2 h3
                refine ⟨ptr, source, _, _, hptr, hsource, rfl, ?_, ?_, ?_, ?_,
                  by simpa using hct, ?_, ?_, rfl, hf1, hf2, ?_, hf4⟩
                all_goals first | rfl | simp only [hf3]

theorem GetRoot_getElem {σ : Type} (b : Backend σ) (j : Nat) (cj : Collection) :
    b.GetRoot[j]? = some (some cj) ↔ ∃ (q : SourcePtr) (src : Source),
      b.collections[j]? = some (some q) ∧ b.heap[q]? = some src ∧ src.Collection = some cj := by
  simp only [Backend.GetRoot, List.getElem?_map]
  cases hj : b.collections[j]? with
  | none => simp
  | some slot =>
    cases slot with
    | none => simp
    | some q =>
      cases hq : b.heap[q]? with
      | none => simp [hq]
      | some src => simp [hq]

theorem WellFormed.slots {σ : Type} (b : Backend σ) (hw : WellFormed b) :
    (∀ k p, b.sourcemap.lookup k = some p → ∃ (i : Nat) (src : Source) (c : Collection),
      b.heap[p]? = some src ∧ src.Collection = some c ∧ b.collections[i]? = some (some p) ∧
      b.GetRoot[i]? = some (some c) ∧ url.ParsePath c.Href = some k ∧
      ∀ (j : Nat) (cj : Collection), b.GetRoot[j]? = some (some cj) →
        url.ParsePath cj.Href = some k → j = i) ∧
    (∀ (j : Nat) (cj : Collection), b.GetRoot[j]? = some (some cj) →
      ∃ k p, url.ParsePath cj.Href = some k ∧ b.sourcemap.lookup k = some p ∧
        b.collections[j]? = some (some p)) := by
  have hsec : ∀ (j : Nat) (cj : Collection), b.GetRoot[j]? = some (some cj) →
      ∃ k p, url.ParsePath cj.Href = some k ∧ (k, p) ∈ b.sourcemap ∧
        b.collections[j]? = some (some p) := by
    intro j cj hj
    obtain ⟨q, src, g1, g2, g3⟩ := (GetRoot_getElem b j cj).1 hj
    obtain ⟨k, hk⟩ := hw.slotFeeds j q g1
    obtain ⟨u, src0, c0, f1, _, _, f4, f5, f6⟩ := hw.feedIds k q hk
    rw [g2] at f1
    simp only [Option.some.injEq] at f1
    subst f1
    rw [g3] at f4
    simp only [Option.some.injEq] at f4
    subst f4
    exact ⟨k, q, by rw [f5, f6], hk, g1⟩
  constructor
  · intro k p hkp
    have hm := lookup_mem _ _ _ hkp
    obtain ⟨u, src, c, f1, _, _, f4, f5, f6⟩ := hw.feedIds k p hm
    obtain ⟨i, g1, g2⟩ := hw.slotOf k p hm
    refine ⟨i, src, c, f1, f4, g1, (GetRoot_getElem b i c).2 ⟨p, src, g1, f1, f4⟩,
      by rw [f5, f6], fun j cj hj hp => ?_⟩
    obtain ⟨k', p', e1, e2, e3⟩ := hsec j cj hj
    rw [hp] at e1
    simp only [Option.some.injEq] at e1
    subst e1
    have := mem_lookup _ _ _ hw.feedKeys e2
    rw [hkp] at this
    simp only [Option.some.injEq] at this
    subst this
    exact g2 j e3
  · intro j cj hj
    obtain ⟨k, p, e1, e2, e3⟩ := hsec j cj hj
    exact ⟨k, p, e1, mem_lookup _ _ _ hw.feedKeys e2, e3⟩

theorem After_iff (t u : Time) :
    t.After u = true ↔ u.sec < t.sec ∨ (t.sec = u.sec ∧ u.nsec < t.nsec) := by
  simp [Time.After]

theorem updatedAfter_strictWeak : sort.StrictWeak updatedAfter := by
  refine ⟨fun a => ?_, fun a b c h1 h2 => ?_, fun a b c h1 h2 => ?_⟩
  · rw [← Bool.not_eq_true, updatedAfter, After_iff]
    omega
  · rw [updatedAfter, After_iff] at h1 h2 ⊢
    omega
  · rw [← Bool.not_eq_true, updatedAfter, After_iff] at h1 h2 ⊢
    omega

theorem insertDown_perm {α : Type} (less : α → α → Bool) (x : α) (l : List α) :
    (sort.insertDown less x l).Perm (x :: l) := by
  induction l with
  | nil => simp [sort.insertDown]
  | cons y ys ih =>
    simp only [sort.insertDown]
    split
    · exact (List.Perm.cons y ih).trans (List.Perm.swap x y ys)
    · exact List.Perm.refl _

theorem insertDown_sorted {α : Type} (less : α → α → Bool) (hl : sort.StrictWeak less) (x : α)
    (l : List α) (h : l.Pairwise (fun a b => less a b = false)) :
    (sort.insertDown less x l).Pairwise (fun a b => less a b = false) := by
  induction l with
  | nil => simp [sort.insertDown]
  | cons y ys ih =>
    rw [List.pairwise_cons] at h
    simp only [sort.insertDown]
    split
    · rename_i hxy
      rw [List.pairwise_cons]
      refine ⟨fun z hz => ?_, ih h.2⟩
      rcases List.mem_cons.1 ((insertDown_perm less x ys).mem_iff.1 hz) with rfl | hz'
      · cases hyz : less y z with
        | false => rfl
        | true =>
          have := hl.2.1 _ _ _ hxy hyz
          rw [hl.1] at this
          exact Bool.noConfusion this
      · exact h.1 z hz'
    · rename_i hxy
      have hxy' : less x y = false := by simpa using hxy
      rw [List.pairwise_cons]
      refine ⟨fun z hz => ?_, List.pairwise_cons.2 h⟩
      rcases List.mem_cons.1 hz with rfl | hz'
      · exact hxy'
      · exact hl.2.2 _ _ _ hxy' (h.1 z hz')

theorem insertionSort_fold {α : Type} (less : α → α → Bool) (hl : sort.StrictWeak less)
    (l acc : List α) (h : acc.Pairwise (fun a b => less a b = false)) :
    (l.foldl (fun sorted x => sort.insertDown less x sorted) acc).Perm (l ++ acc) ∧
    (l.foldl (fun sorted x => sort.insertDown less x sorted) acc).Pairwise
      (fun a b => less a b = false) := by
  induction l generalizing acc with
  | nil => exact ⟨List.Perm.refl _, h⟩
  | cons x xs ih =>
    simp only [List.foldl_cons]
    obtain ⟨i1, i2⟩ := ih _ (insertDown_sorted less hl x acc h)
    refine ⟨i1.trans ?_, i2⟩
    exact ((List.Perm.append_left xs (insertDown_perm less x acc)).trans
      List.perm_middle)

theorem insertionSort_sorts {α : Type} : sort.Sorts (@sort.insertionSort α) := by
  intro less hl l
  obtain ⟨h1, h2⟩ := insertionSort_fold less hl l [] List.Pairwise.nil
  refine ⟨(List.reverse_perm _).trans (by simpa using h1), ?_⟩
  rw [sort.insertionSort, List.pairwise_reverse]
  exact h2

theorem gatherEntries_spec (heap : List Source) (id : Option URI) (acc : List Entry)
    (todo : List (Bytes × Entry))
    (h : ∀ kv ∈ todo, (deref heap kv.2.Source).isSome = true) :
    gatherEntries heap id acc todo = some (some (acc ++ (todo.map Prod.snd).filter
      (fun e => (deref heap e.Source).any (fun src => URI.Consumes id src.Id)))) := by
  induction todo generalizing acc with
  | nil => simp [gatherEntries]
  | cons kv rest ih =>
    obtain ⟨k, v⟩ := kv
    have hv := h (k, v) (by simp)
    have hr : ∀ kv ∈ rest, (deref heap kv.2.Source).isSome = true :=
      fun kv hkv => h kv (List.mem_cons_of_mem _ hkv)
    simp only [gatherEntries]
    cases hs : v.Source with
    | none => simp [deref, hs] at hv
    | some p =>
      cases hp : heap[p]? with
      | none => simp [deref, hs, hp] at hv
      | some src =>
        simp only
        by_cases hc : URI.Consumes id src.Id = true
        · simp [hc, ih _ hr, deref, hs, hp, List.filter_cons]
        · have hc' : URI.Consumes id src.Id = false := by simpa using hc
          simp [hc', ih _ hr, deref, hs, hp, List.filter_cons]

/-- What `GetFeed` returns for a path of the feed map, for a `sort.Slice` that
leaves the slice as a rearrangement in which no element is less than one
before it. -/
theorem GetFeed_sorted {σ : Type}
    (sortSlice : (Entry → Entry → Bool) → List Entry → List Entry)
    (hsort : sort.Sorts sortSlice) (b : Backend σ) (r : Request)
    (hsrc : ∀ kv ∈ b.entrymap, (deref b.heap kv.2.Source).isSome = true)
    (ptr : SourcePtr) (source : Source) (h1 : b.sourcemap.lookup r.Path = some ptr)
    (h2 : b.heap[ptr]? = some source) (h3 : source.Id ≠ none) :
    ∃ feed, b.GetFeed sortSlice r = some (some feed, none) ∧ feed.Id = source.Id ∧
      feed.Updated = source.Updated ∧
      feed.Entries.Perm ((b.entrymap.map Prod.snd).filter
        (fun e => (deref b.heap e.Source).any (fun src => URI.Consumes source.Id src.Id))) ∧
      feed.Entries.Pairwise (fun ei ej => ej.Updated.T.After ei.Updated.T = false) ∧
      feed.Entries.Chain' (fun ei ej => ej.Updated.T.After ei.Updated.T = false) := by
  obtain ⟨s1, s2⟩ := hsort updatedAfter updatedAfter_strictWeak
    ((b.entrymap.map Prod.snd).filter
      (fun e => (deref b.heap e.Source).any (fun src => URI.Consumes source.Id src.Id)))
  refine ⟨feedOf source (sortSlice updatedAfter ((b.entrymap.map Prod.snd).filter
      (fun e => (deref b.heap e.Source).any
        (fun (src : Source) => URI.Consumes source.Id src.Id)))),
    ?_, rfl, rfl, s1, s2, List.Pairwise.chain' s2⟩
  simp only [Backend.GetFeed, h1, h2, h3, if_false, gatherEntries_spec _ _ _ _ hsrc,
    List.nil_append, feedOf]

/-- C23: `GetFeed` returns the error 404 for a path that is not in the feed
map.  For a path of the feed map whose Source has an id, every entry of the
entry map pointing to a Source object (as in every state of a run), it returns
a feed with the id and the updated element of the Source, whose entries are
the entries of the entry map with a Source whose id is the id of the feed,
each as often as it is in the map and none of another feed, in an order in
which no entry was updated after one before it.  This holds with the
insertion sort that `sort.Slice` runs on a slice of at most 12 elements, whose
code is embedded (`sort.insertionSort`), and with every routine that leaves
the slice as the library promises of `sort.Slice`. -/
theorem GetFeed_spec {σ : Type} (b : Backend σ) (r : Request)
    (hsrc : ∀ kv ∈ b.entrymap, (deref b.heap kv.2.Source).isSome = true) :
    (b.sourcemap.lookup r.Path = none →
      ∀ sortSlice, b.GetFeed sortSlice r = some (none, some { code := 404, message := "" })) ∧
    (∀ ptr source, b.sourcemap.lookup r.Path = some ptr → b.heap[ptr]? = some source →
      source.Id ≠ none →
      (∃ feed, b.GetFeed sort.insertionSort r = some (some feed, none) ∧
        feed.Id = source.Id ∧ feed.Updated = source.Updated ∧
        feed.Entries.Perm ((b.entrymap.map Prod.snd).filter
          (fun e => (deref b.heap e.Source).any (fun src => URI.Consumes source.Id src.Id))) ∧
        feed.Entries.Pairwise (fun ei ej => ej.Updated.T.After ei.Updated.T = false) ∧
        feed.Entries.Chain' (fun ei ej => ej.Updated.T.After ei.Updated.T = false)) ∧
      (∀ sortSlice, sort.Sorts sortSlice →
        ∃ feed, b.GetFeed sortSlice r = some (some feed, none) ∧
          feed.Id = source.Id ∧ feed.Updated = source.Updated ∧
          feed.Entries.Perm ((b.entrymap.map Prod.snd).filter
            (fun e => (deref b.heap e.Source).any
              (fun src => URI.Consumes source.Id src.Id))) ∧
          feed.Entries.Pairwise (fun ei ej => ej.Updated.T.After ei.Updated.T = false) ∧
          feed.Entries.Chain' (fun ei ej => ej.Updated.T.After ei.Updated.T = false))) := by
  constructor
  · intro h sortSlice
    simp [Backend.GetFeed, h]
  · intro ptr source h1 h2 h3
    exact ⟨GetFeed_sorted sort.insertionSort insertionSort_sorts b r hsrc ptr source h1 h2 h3,
      fun sortSlice hsort => GetFeed_sorted sortSlice hsort b r hsrc ptr source h1 h2 h3⟩

set_option maxRecDepth 100000 in
/-- C23 at an instance: in `twoFeedsBackend` the entry map holds, in the order
of its list, the entries `…0011`, `…0091`, `…0012` and `…0013`, updated at
20, 25, 50 and 40 seconds past 1739525600; the second belongs to the other
feed.  `GetFeed` of the first feed returns `…0012`, `…0013`, `…0011`, in this
order, which is neither the order of the map nor its reverse; `GetFeed` of the
other feed returns `…0091` alone, and `GetFeed` of an unknown path the error
404. -/
theorem GetFeed_spec_witness :
    twoFeedsBackend.entrymap.map (fun kv => (kv.1.drop 31, kv.2.Updated.T.sec, kv.2.Source))
      = [(ascii "000000000011", 1739525620, some 0), (ascii "000000000091", 1739525625, some 1),
         (ascii "000000000012", 1739525650, some 0),
         (ascii "000000000013", 1739525640, some 0)] ∧
    (twoFeedsBackend.GetFeed sort.insertionSort
        ⟨ascii "GET", ascii "/feed/00000000-0000-4000-8000-000000000001"⟩).map
        (fun res => (res.1.map entryOrder, res.2))
      = some (some [(ascii "000000000012", 1739525650), (ascii "000000000013", 1739525640),
          (ascii "000000000011", 1739525620)], none) ∧
    (twoFeedsBackend.GetFeed sort.insertionSort
        ⟨ascii "GET", ascii "/feed/00000000-0000-4000-8000-000000000009"⟩).map
        (fun res => (res.1.map entryOrder, res.2))
      = some (some [(ascii "000000000091", 1739525625)], none) ∧
    twoFeedsBackend.GetFeed sort.insertionSort
        ⟨ascii "GET", ascii "/feed/00000000-0000-4000-8000-000000000002"⟩
      = some (none, some { code := 404, message := "" }) ∧
    ∃ source, twoFeedsBackend.heap[0]? = some source ∧ source.Id ≠ none ∧
    ∃ feed, twoFeedsBackend.GetFeed sort.insertionSort
        ⟨ascii "GET", ascii "/feed/00000000-0000-4000-8000-000000000001"⟩
        = some (some feed, none) ∧ feed.Id = source.Id ∧ feed.Updated = source.Updated ∧
      feed.Entries.Perm ((twoFeedsBackend.entrymap.map Prod.snd).filter
        (fun e => (deref twoFeedsBackend.heap e.Source).any
          (fun src => URI.Consumes source.Id src.Id))) ∧
      feed.Entries.Pairwise (fun ei ej => ej.Updated.T.After ei.Updated.T = false) ∧
      feed.Entries.Chain' (fun ei ej => ej.Updated.T.After ei.Updated.T = false) :=
  ⟨by decide, by decide, by decide,
    (GetFeed_spec twoFeedsBackend
      ⟨ascii "GET", ascii "/feed/00000000-0000-4000-8000-000000000002"⟩ (by decide)).1
      (by decide) sort.insertionSort,
    _, rfl, by decide,
    ((GetFeed_spec twoFeedsBackend
      ⟨ascii "GET", ascii "/feed/00000000-0000-4000-8000-000000000001"⟩ (by decide)).2 0 _
      (by decide) rfl (by decide)).1⟩

/-! ## C24: the entry that `PostToFeed` creates -/

theorem pickCategories_mem (cats : List Bytes) (sourceCategories : List Category)
    (c : Category) :
    c ∈ pickCategories cats sourceCategories ↔ c ∈ sourceCategories ∧ c.Term ∈ cats := by
  simp only [pickCategories, List.mem_flatMap, List.mem_filter, decide_eq_true_eq]
  constructor
  · rintro ⟨term, h1, h2, h3⟩
    exact ⟨h2, by rw [h3]; exact h1⟩
  · rintro ⟨h1, h2⟩
    exact ⟨c.Term, h2, h1, rfl⟩

/-- C24: when `PostToFeed` returns no error, the content type of the request
is `text/plain`, and the entry it returns has as title text the value of the
`Slug` header, or `Untitled` when that is empty, has the content type `xhtml`,
and has as categories exactly the categories of the Source of the feed whose
term is in the category list that the ingestion extracted from the body. -/
theorem PostToFeed_entry {σ : Type} (S : Storer σ)
    (ParseMediaType : Bytes → Except String Bytes) (slack : Nat) (now1 now2 : Time)
    (fresh : Bytes) (b b' : Backend σ) (r : Request) (contentType slug body : Bytes)
    (entry : Option Entry) (entry_URL : Bytes)
    (h : Backend.PostToFeed S ParseMediaType slack now1 now2 fresh b r contentType slug body
      = some (b', entry, entry_URL, none)) :
    contentType = ascii "text/plain" ∧
    ∃ (en : Entry) (ptr : SourcePtr) (source : Source),
      entry = some en ∧ b.sourcemap.lookup r.Path = some ptr ∧ b.heap[ptr]? = some source ∧
      en.Source = some ptr ∧ b'.entrymap.lookup entry_URL = some en ∧
      en.Title.Text = (if slug = [] then ascii "Untitled" else slug) ∧
      en.Content.«Type» = ascii "xhtml" ∧
      ∀ c : Category, c ∈ en.Categories ↔
        c ∈ source.Categories ∧ c.Term ∈ (preparePlainText slack body).2 := by
  obtain ⟨ptr, source, source1, en, h1, h2, h3, h4, h5, h6, h7, h8, _, _, _, _, _, h9, _⟩ :=
    PostToFeed_effect S ParseMediaType slack now1 now2 fresh b b' r contentType slug body entry
      entry_URL h
  refine ⟨h8, en, ptr, source, h3, h1, h2, h4, ?_, h5, h6, fun c => ?_⟩
  · rw [h9]
    exact mapSet_lookup _ _ _
  · rw [h7]
    exact pickCategories_mem _ _ c

set_option maxRecDepth 100000 in
theorem PostToFeed_entry_witness :
    ∃ (b' : Backend Unit) (en : Entry),
      Backend.PostToFeed okStorer mime.ParseMediaType 497 ⟨1739525600, 100000000, 0⟩
        ⟨1739525600, 123456000, 0⟩ (ascii "00000000-0000-4000-8000-000000000002") catBackend
        ⟨ascii "POST", ascii "/feed/00000000-0000-4000-8000-000000000001"⟩ (ascii "text/plain")
        (ascii "a slug") (ascii "hello cat:foo x")
        = some (b', some en, ascii "/entry/00000000-0000-4000-8000-000000000002", none) ∧
      en.Title.Text = ascii "a slug" ∧ en.Categories = [⟨ascii "foo", [], []⟩] ∧
      (ascii "text/plain" = ascii "text/plain" ∧
      ∃ (en1 : Entry) (ptr : SourcePtr) (source : Source),
        some en = some en1 ∧
        catBackend.sourcemap.lookup (ascii "/feed/00000000-0000-4000-8000-000000000001")
          = some ptr ∧
        catBackend.heap[ptr]? = some source ∧ en1.Source = some ptr ∧
        b'.entrymap.lookup (ascii "/entry/00000000-0000-4000-8000-000000000002") = some en1 ∧
        en1.Title.Text = (if ascii "a slug" = [] then ascii "Untitled" else ascii "a slug") ∧
        en1.Content.«Type» = ascii "xhtml" ∧
        ∀ c : Category, c ∈ en1.Categories ↔
          c ∈ source.Categories ∧ c.Term ∈ (preparePlainText 497 (ascii "hello cat:foo x")).2) :=
  ⟨_, _, rfl, by decide, by decide,
    PostToFeed_entry okStorer mime.ParseMediaType 497 ⟨1739525600, 100000000, 0⟩
      ⟨1739525600, 123456000, 0⟩ (ascii "00000000-0000-4000-8000-000000000002") catBackend _
      ⟨ascii "POST", ascii "/feed/00000000-0000-4000-8000-000000000001"⟩ (ascii "text/plain")
      (ascii "a slug") (ascii "hello cat:foo x") _ _ rfl⟩

/-! ## C25: the type checks of `PutEntry` -/

set_option maxRecDepth 100000 in
/-- C25 (the code at a failing input): a PUT to the entry of `postedBackend`
of the stored entry with a title of type `html` passes the validation of the
handler and `PutEntry` returns no error; the stored entry then has the title
of type `html`.  A second PUT, of the same entry with a title of type `text`,
is answered with the error 400 `title type must be "text"`: the test reads the
type of the stored title, not of the submitted one. -/
theorem PutEntry_checks_stored_title :
    ∃ (b1 b2 : Backend Unit),
      (Entry.Validate mime.ParseMediaType (deref postedBackend.heap htmlTitleEntry.Source)
        (some htmlTitleEntry) none).2 = none ∧
      Backend.PutEntry okStorer xml.decode ⟨1739525700, 0, 0⟩ ⟨1739525700, 0, 0⟩ postedBackend
        ⟨ascii "PUT", ascii "/entry/00000000-0000-4000-8000-000000000002"⟩ htmlTitleEntry
        = some (b1, none) ∧
      (b1.entrymap.lookup (ascii "/entry/00000000-0000-4000-8000-000000000002")).map
        (fun e => e.Title) = some htmlTitleEntry.Title ∧
      htmlTitleEntry.Title.«Type» = ascii "html" ∧
      textTitleEntry.Title.«Type» = ascii "text" ∧
      Backend.PutEntry okStorer xml.decode ⟨1739525800, 0, 0⟩ ⟨1739525800, 0, 0⟩ b1
        ⟨ascii "PUT", ascii "/entry/00000000-0000-4000-8000-000000000002"⟩ textTitleEntry
        = some (b2, some { code := 400, message := "title type must be \"text\"" }) :=
  ⟨_, _, by decide, rfl, by decide, by decide, by decide, rfl⟩

/-! ## C27: loading the store -/

set_option maxRecDepth 100000 in
/-- C27 (the code at a failing input): the store holds the Source and the
entry of `postedBackend`, which `PostToRoot` and `PostToFeed` returned under
`/feed/00000000-0000-4000-8000-000000000001` and
`/entry/00000000-0000-4000-8000-000000000002`.  `NewBackend` registers them
under these paths followed by `.atom`: after the restart `GetFeed` and
`GetEntry` return the error 404 for the paths of before, and the href of the
collection in the service document is not the feed URL of before. -/
theorem Populate_keys_counterexample :
    ∃ b : Backend Unit,
      postedBackend.sourcemap = [(ascii "/feed/00000000-0000-4000-8000-000000000001", 0)] ∧
      postedBackend.entrymap.map Prod.fst
        = [ascii "/entry/00000000-0000-4000-8000-000000000002"] ∧
      NewBackend mime.ParseMediaType [storedSource] [storedEntry] () = some b ∧
      b.sourcemap = [(ascii "/feed/00000000-0000-4000-8000-000000000001.atom", 0)] ∧
      b.entrymap.map Prod.fst = [ascii "/entry/00000000-0000-4000-8000-000000000002.atom"] ∧
      b.entrymap.map (fun kv => kv.2.Content) = [postedEntry.Content] ∧
      b.GetRoot.map (fun slot => slot.map (fun c => c.Href))
        = [some (ascii "/feed/00000000-0000-4000-8000-000000000001.atom")] ∧
      b.GetFeed sort.insertionSort
        ⟨ascii "GET", ascii "/feed/00000000-0000-4000-8000-000000000001"⟩
        = some (none, some { code := 404, message := "" }) ∧
      b.GetEntry ⟨ascii "GET", ascii "/entry/00000000-0000-4000-8000-000000000002"⟩
        = (none, some { code := 404, message := "" }) :=
  ⟨_, by decide, by decide, rfl, by decide, by decide, by decide, by decide, by decide,
    by decide⟩

/-! ## C28: the line breaks of the staged files -/

set_option maxRecDepth 100000 in
/-- C29 (the code at a failing input): the entry `ampersandEntry` validates,
and `MarshalTo` writes the name of its author as it is,
`<name>Tom & Jerry</name>`.  The decoder stops in this element of the staged
document with a syntax error, so `Decode` returns an error and no entry.  The
same holds for a Source with the category term `5" disks`, written as
`term="5" disks"`.  The document of the same entry with the author
`Tom and Jerry` is read to its end. -/
theorem MarshalTo_writes_names_raw :
    (Entry.Validate mime.ParseMediaType (postedBackend.heap[0]?) (some ampersandEntry) none).2
      = none ∧
    (∃ w, Entry.MarshalTo mime.ParseMediaType (postedBackend.heap[0]?) (some ampersandEntry)
        none = .ok w ∧
      adjacent 38 32 w = true ∧
      (xml.decodeDocument (stageLines [] false (xml.Header ++ w))).ending
        = .error "XML syntax error in character data" ∧
      (xml.decodeDocument (stageLines [] false (xml.Header ++ w))).tokens.getLast?
        = some (.StartElement ⟨atom_xmlns, ascii "name"⟩)) ∧
    (∃ w, Source.MarshalTo mime.ParseMediaType (some quoteSource) none none = .ok w ∧
      (xml.decodeDocument (stageLines [] false (xml.Header ++ w))).ending
        = .error "XML syntax error in element") ∧
    (∃ w, Entry.MarshalTo mime.ParseMediaType (postedBackend.heap[0]?) (some plainNameEntry)
        none = .ok w ∧
      (xml.decodeDocument (stageLines [] false (xml.Header ++ w))).ending = .EOF) :=
  ⟨by decide, ⟨_, rfl, by decide, by decide, by decide⟩, ⟨_, rfl, by decide⟩,
    ⟨_, rfl, by decide⟩⟩

/-! ## C30: errors of staging -/

set_option maxRecDepth 100000 in
/-- C30 (the code at failing inputs): `AddSource` returns a nil error for a
nil Source, for a Source without id, for a Source whose id is no UUID, and for
a Source that `MarshalTo` refuses (a category without term), for which it
leaves an empty file; `AddEntry` returns an error for a nil entry.  So over
every store with this `AddSource` and this `Commit`, `PutFeed` of a feed
document with such a category, which passes the validation of the handler,
returns no error and commits: the commit replaces the document of the Source
by an empty blob. -/
theorem AddSource_reports_no_error (S : Storer BillyStorer)
    (hA : S.AddSource = BillyStorer.AddSource mime.ParseMediaType)
    (hC : S.Commit = BillyStorer.Commit) :
    BillyStorer.AddSource mime.ParseMediaType billyBackend.storer none
      = (billyBackend.storer, none) ∧
    (BillyStorer.AddEntry mime.ParseMediaType billyBackend.storer none none).2
      = some "nil pointer dereference" ∧
    BillyStorer.AddSource mime.ParseMediaType billyBackend.storer
      (some { noTermSource with Id := none }) = (billyBackend.storer, none) ∧
    BillyStorer.AddSource mime.ParseMediaType billyBackend.storer
      (some { noTermSource with Id := some (atomId "urn:uuid:1") }) = (billyBackend.storer, none) ∧
    Source.MarshalTo mime.ParseMediaType (some noTermSource) none none
      = .error "Category is missing term" ∧
    BillyStorer.AddSource mime.ParseMediaType billyBackend.storer (some noTermSource)
      = ({ billyBackend.storer with
           fsys := [(ascii "source/00000000-0000-4000-8000-000000000001.atom", [])] }, none) ∧
    Feed.Validate mime.ParseMediaType [] (some noTermFeed) = none ∧
    (billyBackend.storer.hashmap.lookup
      (ascii "source/00000000-0000-4000-8000-000000000001.atom")).map
        (fun blob => (xml.decodeDocument blob).ending) = some .EOF ∧
    ∃ b' : Backend BillyStorer,
      Backend.PutFeed S ⟨1739525700, 0, 0⟩ billyBackend
        ⟨ascii "PUT", ascii "/feed/00000000-0000-4000-8000-000000000001"⟩ noTermFeed
        = some (b', none) ∧
      b'.storer.hashmap.lookup (ascii "source/00000000-0000-4000-8000-000000000001.atom")
        = some [] ∧
      b'.storer.commits = [ascii "POST /feed/00000000-0000-4000-8000-000000000001",
        ascii "PUT /feed/00000000-0000-4000-8000-000000000001"] := by
  obtain ⟨addEntry, deleteEntry, addSource, deleteSource, commit⟩ := S
  simp only at hA hC
  subst hA
  subst hC
  exact ⟨by decide, by decide, by decide, by decide, by decide, by decide, by decide, by decide,
    _, rfl, rfl, rfl⟩

set_option maxRecDepth 100000 in
theorem AddSource_reports_no_error_witness :
    ∃ b' : Backend BillyStorer,
      Backend.PutFeed
        { AddEntry := fun s e src => BillyStorer.AddEntry mime.ParseMediaType s (some e) src
          DeleteEntry := fun s _ _ => (s, none)
          AddSource := BillyStorer.AddSource mime.ParseMediaType
          DeleteSource := fun s _ => (s, none)
          Commit := BillyStorer.Commit }
        ⟨1739525700, 0, 0⟩ billyBackend
        ⟨ascii "PUT", ascii "/feed/00000000-0000-4000-8000-000000000001"⟩ noTermFeed
        = some (b', none) ∧
      b'.storer.hashmap.lookup (ascii "source/00000000-0000-4000-8000-000000000001.atom")
        = some [] ∧
      b'.storer.commits = [ascii "POST /feed/00000000-0000-4000-8000-000000000001",
        ascii "PUT /feed/00000000-0000-4000-8000-000000000001"] :=
  (AddSource_reports_no_error _ rfl rfl).2.2.2.2.2.2.2.2

/-! ## C31 and C38: preconditions in the handler -/

theorem matchETagLoop_miss (etag : Bytes) (toks : List Bytes)
    (h : ∀ p ∈ toks, strconv.Unquote p ≠ none ∧ strconv.Unquote p ≠ some etag) :
    matchETagLoop etag toks = .ok (true, false) := by
  induction toks with
  | nil => rfl
  | cons p ps ih =>
    obtain ⟨h1, h2⟩ := h p (by simp)
    have ih' := ih (fun q hq => h q (by simp [hq]))
    cases hu : strconv.Unquote p with
    | none => exact absurd hu h1
    | some u =>
      have hne : u ≠ etag := fun e => h2 (by rw [hu, e])
      simp [matchETagLoop, hu, hne, ih']

/-- A header that is set, is not `*`, and all of whose pieces unquote to
something other than the current ETag is "set, no match". -/
theorem matchETag_miss (etag header_val : Bytes) (h1 : header_val ≠ [])
    (h2 : header_val ≠ ascii "*")
    (h3 : ∀ p ∈ strings.Split header_val (ascii ", "),
      strconv.Unquote p ≠ none ∧ strconv.Unquote p ≠ some etag) :
    matchETag etag header_val = .ok (true, false) := by
  by_cases he : etag = []
  · subst he
    exact matchETag_empty_etag header_val h1
  · rw [matchETag_list etag header_val he h1 h2]
    exact matchETagLoop_miss etag _ h3

theorem IfMatchIfNoneMatch_miss (etag ifmatch ifnonematch : Bytes) (s m : Bool)
    (hinm : matchETag etag ifnonematch = .ok (s, m))
    (him : matchETag etag ifmatch = .ok (true, false)) :
    IfMatchIfNoneMatch etag ifmatch ifnonematch = .ok false := by
  cases s <;> cases m <;> simp [IfMatchIfNoneMatch, hinm, him]

theorem IfMatchIfNoneMatch_hit (etag ifmatch ifnonematch : Bytes)
    (hinm : matchETag etag ifnonematch = .ok (true, true)) :
    IfMatchIfNoneMatch etag ifmatch ifnonematch = .ok false := by
  simp [IfMatchIfNoneMatch, hinm]

theorem GetEntry_found {σ : Type} (b : Backend σ) (r : Request) (entry : Entry)
    (h : b.entrymap.lookup r.Path = some entry) : b.GetEntry r = (some entry, none) := by
  simp [Backend.GetEntry, h]

set_option maxRecDepth 100000 in
/-- C31 (the code at an input of the claim): a PUT to the entry of
`postedBackend` with the content type of an entry and the If-Match header
`"wrong"`, which is set, well formed and does not hold the ETag
`ZHYSFBYW34CMM` of the entry, is answered with 400 when the If-None-Match
header is `bad`, and with 415 when the content type is `text/plain`; with no
If-None-Match header and the content type of an entry it is answered with
412.  In all three cases the body is not read. -/
theorem putEntry_not_412_counterexample :
    Entry.ETag (postedBackend.entrymap.lookup
      (ascii "/entry/00000000-0000-4000-8000-000000000002")) = .ok (ascii "ZHYSFBYW34CMM") ∧
    matchETag (ascii "ZHYSFBYW34CMM") (ascii "\"wrong\"") = .ok (true, false) ∧
    (Handler.putEntry okStorer mime.ParseMediaType xml.decode ⟨1739525700, 0, 0⟩
      ⟨1739525700, 0, 0⟩ postedBackend
      ⟨ascii "PUT", ascii "/entry/00000000-0000-4000-8000-000000000002"⟩
      ⟨ascii "application/atom+xml;type=entry", ascii "\"wrong\"", ascii "bad"⟩
      (some postedEntry)).map (fun x => (x.bodyRead, x.response))
      = some (false, .error { code := 400, message := "invalid syntax" }) ∧
    (Handler.putEntry okStorer mime.ParseMediaType xml.decode ⟨1739525700, 0, 0⟩
      ⟨1739525700, 0, 0⟩ postedBackend
      ⟨ascii "PUT", ascii "/entry/00000000-0000-4000-8000-000000000002"⟩
      ⟨ascii "text/plain", ascii "\"wrong\"", []⟩
      (some postedEntry)).map (fun x => (x.bodyRead, x.response))
      = some (false, .error
          { code := 415, message := "content-type must be application/atom+xml;type=entry" }) ∧
    (Handler.putEntry okStorer mime.ParseMediaType xml.decode ⟨1739525700, 0, 0⟩
      ⟨1739525700, 0, 0⟩ postedBackend
      ⟨ascii "PUT", ascii "/entry/00000000-0000-4000-8000-000000000002"⟩
      ⟨ascii "application/atom+xml;type=entry", ascii "\"wrong\"", []⟩
      (some postedEntry)).map (fun x => (x.bodyRead, x.response))
      = some (false, .error { code := 412, message := "" }) := by
  refine ⟨by decide, by decide, by decide, by decide, by decide⟩

/-- C31 (amended): let the If-Match header be set, not `*`, and a list of
quoted strings none of which is the current ETag, and let the If-None-Match
header be empty or parse.  Then a PUT with the content type that the handler
asks for and a DELETE of an existing entry or feed are answered with the
error 412; the body is not read and the backend (feed map, entry map, service
document, store) is returned as it was.  And a GET whose If-None-Match header
is set and matches the current ETag is answered with the status 304 and no
body. -/
theorem precondition_failed {σ : Type} (S : Storer σ)
    (ParseMediaType : Bytes → Except String Bytes) (decode : Bytes → DecoderRun)
    (sortSlice : (Entry → Entry → Bool) → List Entry → List Entry) (now1 now2 : Time)
    (b : Backend σ) (r : Request) (h : RequestHeader) (etag : Bytes) (s m : Bool)
    (him1 : h.IfMatch ≠ []) (him2 : h.IfMatch ≠ ascii "*")
    (him3 : ∀ p ∈ strings.Split h.IfMatch (ascii ", "),
      strconv.Unquote p ≠ none ∧ strconv.Unquote p ≠ some etag)
    (hinm : matchETag etag h.IfNoneMatch = .ok (s, m)) :
    (∀ entry new_entry, b.entrymap.lookup r.Path = some entry →
      Entry.ETag (some entry) = .ok etag →
      (h.ContentType = ascii "application/atom+xml;type=entry" →
        Handler.putEntry S ParseMediaType decode now1 now2 b r h new_entry
          = some ⟨b, false, .error { code := 412, message := "" }⟩) ∧
      Handler.deleteEntry S now1 b r h
        = some ⟨b, false, .error { code := 412, message := "" }⟩) ∧
    (∀ feed new_feed doc, b.GetFeed sortSlice r = some (some feed, none) →
      Feed.ETag (some feed) = .ok etag →
      (h.ContentType = ascii "application/atom+xml;type=feed" →
        Handler.putFeed S ParseMediaType sortSlice now1 b r h new_feed doc
          = some ⟨b, false, .error { code := 412, message := "" }⟩) ∧
      Handler.deleteFeed S sortSlice b r h
        = some ⟨b, false, .error { code := 412, message := "" }⟩) ∧
    (∀ g : RequestHeader, matchETag etag g.IfNoneMatch = .ok (true, true) →
      (∀ entry, b.entrymap.lookup r.Path = some entry → Entry.ETag (some entry) = .ok etag →
        Handler.serveEntry ParseMediaType b r g = .header 304 ∧
        (Handler.serveEntry ParseMediaType b r g).status = 304) ∧
      (∀ feed, b.GetFeed sortSlice r = some (some feed, none) →
        Feed.ETag (some feed) = .ok etag →
        Handler.serveFeed ParseMediaType sortSlice b r g = some (.header 304))) := by
  have hmiss := IfMatchIfNoneMatch_miss etag h.IfMatch h.IfNoneMatch s m hinm
    (matchETag_miss etag h.IfMatch him1 him2 him3)
  refine ⟨?_, ?_, ?_⟩
  · intro entry new_entry hentry hetag
    have hget := GetEntry_found b r entry hentry
    refine ⟨?_, ?_⟩
    · intro hct
      simp [Handler.putEntry, hct, hget, hetag, hmiss]
    · simp [Handler.deleteEntry, hget, hetag, hmiss]
  · intro feed new_feed doc hfeed hetag
    refine ⟨?_, ?_⟩
    · intro hct
      simp [Handler.putFeed, hct, hfeed, hetag, hmiss]
    · simp [Handler.deleteFeed, hfeed, hetag, hmiss]
  · intro g hg
    have hhit := IfMatchIfNoneMatch_hit etag g.IfMatch g.IfNoneMatch hg
    refine ⟨?_, ?_⟩
    · intro entry hentry hetag
      have hget := GetEntry_found b r entry hentry
      have : Handler.serveEntry ParseMediaType b r g = .header 304 := by
        simp [Handler.serveEntry, hget, hetag, hhit]
      exact ⟨this, by rw [this]; rfl⟩
    · intro feed hfeed hetag
      simp [Handler.serveFeed, hfeed, hetag, hhit]

set_option maxRecDepth 100000 in
/-- C31 at an instance: a PUT to the entry of `postedBackend` with the content
type of an entry, the If-Match header `"wrong"` and no If-None-Match header
is answered with 412; the body is not read and the backend is returned as it
was. -/
theorem precondition_failed_witness :
    (ascii "\"wrong\"" ≠ [] ∧ ascii "\"wrong\"" ≠ ascii "*" ∧
      matchETag (ascii "ZHYSFBYW34CMM") [] = .ok (false, false)) ∧
    (postedBackend.entrymap.lookup (ascii "/entry/00000000-0000-4000-8000-000000000002")
        = some postedEntry ∧
      Entry.ETag (some postedEntry) = .ok (ascii "ZHYSFBYW34CMM")) ∧
    Handler.putEntry okStorer mime.ParseMediaType xml.decode ⟨1739525700, 0, 0⟩
      ⟨1739525700, 0, 0⟩ postedBackend
      ⟨ascii "PUT", ascii "/entry/00000000-0000-4000-8000-000000000002"⟩
      ⟨ascii "application/atom+xml;type=entry", ascii "\"wrong\"", []⟩ (some postedEntry)
      = some ⟨postedBackend, false, .error { code := 412, message := "" }⟩ :=
  have hp := (precondition_failed okStorer mime.ParseMediaType xml.decode sort.insertionSort
    ⟨1739525700, 0, 0⟩ ⟨1739525700, 0, 0⟩ postedBackend
    ⟨ascii "PUT", ascii "/entry/00000000-0000-4000-8000-000000000002"⟩
    ⟨ascii "application/atom+xml;type=entry", ascii "\"wrong\"", []⟩ (ascii "ZHYSFBYW34CMM")
    false false (by decide) (by decide) (by decide) (by decide)).1 postedEntry
    (some postedEntry) (by decide) (by decide)
  ⟨⟨by decide, by decide, by decide⟩, ⟨by decide, by decide⟩, hp.1 rfl⟩

set_option maxRecDepth 100000 in
/-- C38 (the code at an input of the claim): a GET of the entry and of the
feed of `postedBackend` with no If-None-Match header and the If-Match header
`"wrong"`, which is set, well formed and matches neither ETag, is answered
with the status 304, not 412. -/
theorem serveEntry_if_match_304_counterexample :
    Entry.ETag (postedBackend.entrymap.lookup
      (ascii "/entry/00000000-0000-4000-8000-000000000002")) = .ok (ascii "ZHYSFBYW34CMM") ∧
    matchETag (ascii "ZHYSFBYW34CMM") (ascii "\"wrong\"") = .ok (true, false) ∧
    Handler.serveEntry mime.ParseMediaType postedBackend
      ⟨ascii "GET", ascii "/entry/00000000-0000-4000-8000-000000000002"⟩
      ⟨[], ascii "\"wrong\"", []⟩ = .header 304 ∧
    matchETag (ascii "46TLTQQUGJ6B4") (ascii "\"wrong\"") = .ok (true, false) ∧
    Handler.serveFeed mime.ParseMediaType sort.insertionSort postedBackend
      ⟨ascii "GET", ascii "/feed/00000000-0000-4000-8000-000000000001"⟩
      ⟨[], ascii "\"wrong\"", []⟩ = some (.header 304) ∧
    (∃ body, Handler.serveFeed mime.ParseMediaType sort.insertionSort postedBackend
      ⟨ascii "GET", ascii "/feed/00000000-0000-4000-8000-000000000001"⟩
      ⟨[], [], []⟩ = some (.document (ascii "46TLTQQUGJ6B4") body)) := by
  exact ⟨by decide, by decide, by decide, by decide, by decide, ⟨_, rfl⟩⟩

/-- C38 (amended): a GET of an existing entry or feed with no If-None-Match
header and an If-Match header that is set, is not `*`, and is a list of
quoted strings none of which is the current ETag is answered with the status
304 and no body; the handler has no answer 412 for a GET. -/
theorem serve_if_match_miss {σ : Type} (ParseMediaType : Bytes → Except String Bytes)
    (sortSlice : (Entry → Entry → Bool) → List Entry → List Entry)
    (b : Backend σ) (r : Request) (h : RequestHeader) (etag : Bytes)
    (hinm : h.IfNoneMatch = [])
    (him1 : h.IfMatch ≠ []) (him2 : h.IfMatch ≠ ascii "*")
    (him3 : ∀ p ∈ strings.Split h.IfMatch (ascii ", "),
      strconv.Unquote p ≠ none ∧ strconv.Unquote p ≠ some etag) :
    (∀ entry, b.entrymap.lookup r.Path = some entry → Entry.ETag (some entry) = .ok etag →
      Handler.serveEntry ParseMediaType b r h = .header 304 ∧
      (Handler.serveEntry ParseMediaType b r h).status ≠ 412) ∧
    (∀ feed, b.GetFeed sortSlice r = some (some feed, none) →
      Feed.ETag (some feed) = .ok etag →
      Handler.serveFeed ParseMediaType sortSlice b r h = some (.header 304)) ∧
    (∀ g : RequestHeader, (Handler.serveEntry ParseMediaType b r g).status ≠ 412) := by
  have hmiss := IfMatchIfNoneMatch_miss etag h.IfMatch h.IfNoneMatch false false
    (by rw [hinm]; exact matchETag_empty_header etag)
    (matchETag_miss etag h.IfMatch him1 him2 him3)
  refine ⟨?_, ?_, ?_⟩
  · intro entry hentry hetag
    have hget := GetEntry_found b r entry hentry
    have : Handler.serveEntry ParseMediaType b r h = .header 304 := by
      simp [Handler.serveEntry, hget, hetag, hmiss]
    exact ⟨this, by rw [this]; decide⟩
  · intro feed hfeed hetag
    simp [Handler.serveFeed, hfeed, hetag, hmiss]
  · intro g hg
    unfold Handler.serveEntry at hg
    unfold Backend.GetEntry at hg
    split at hg
    · rename_i e he
      split at he
      · simp only [Prod.mk.injEq, Option.some.injEq] at he
        obtain ⟨_, rfl⟩ := he
        simp [Response.status] at hg
      · simp at he
    · rename_i he
      split at he <;> simp at he
    · split at hg
      · simp [Response.status] at hg
      · split at hg
        · rename_i e he
          have h400 : e.code = 400 := by
            unfold IfMatchIfNoneMatch at he
            split at he
            · simp only [Except.error.injEq] at he
              rw [← he]
              rfl
            · split at he
              · simp at he
              · split at he
                · simp only [Except.error.injEq] at he
                  rw [← he]
                  rfl
                · split at he <;> simp at he
          simp [Response.status, h400] at hg
        · simp [Response.status] at hg
        · split at hg <;> simp [Response.status] at hg

set_option maxRecDepth 100000 in
/-- C38 at an instance: a GET of the entry of `postedBackend` with the
If-Match header `"wrong"` and no If-None-Match header is answered with the
status 304. -/
theorem serve_if_match_miss_witness :
    Handler.serveEntry mime.ParseMediaType postedBackend
      ⟨ascii "GET", ascii "/entry/00000000-0000-4000-8000-000000000002"⟩
      ⟨[], ascii "\"wrong\"", []⟩ = .header 304 :=
  ((serve_if_match_miss mime.ParseMediaType sort.insertionSort postedBackend
    ⟨ascii "GET", ascii "/entry/00000000-0000-4000-8000-000000000002"⟩
    ⟨[], ascii "\"wrong\"", []⟩ (ascii "ZHYSFBYW34CMM") rfl (by decide) (by decide)
    (by decide)).1 postedEntry (by decide) (by decide)).1

/-! ## C32: the `updated` elements and the clock -/

theorem Round_unfold (t : Time) (d : Nat) :
    t.Round d =
      { sec := (if t.UnixNano % d + t.UnixNano % d < d then t.UnixNano - t.UnixNano % d
          else t.UnixNano + d - t.UnixNano % d) / 1000000000,
        nsec := ((if t.UnixNano % d + t.UnixNano % d < d then t.UnixNano - t.UnixNano % d
          else t.UnixNano + d - t.UnixNano % d) % 1000000000).toNat,
        offset := t.offset } := by
  simp only [Time.Round, Time.UnixNano]
  rw [Int.fdiv_eq_ediv _ (by decide), Int.fmod_eq_emod _ (by decide)]
  rfl

/-- Rounding to microseconds keeps the order of two instants. -/
theorem After_Round_Microsecond (t1 t2 : Time) (h : t1.UnixNano ≤ t2.UnixNano) :
    (t1.Round Time.Microsecond).After (t2.Round Time.Microsecond) = false := by
  rw [← Bool.not_eq_true, After_iff, Round_unfold, Round_unfold]
  simp only [Time.Microsecond]
  generalize t1.UnixNano = n1 at h ⊢
  generalize t2.UnixNano = n2 at h ⊢
  push_cast
  split_ifs <;> omega

/-- Rounding to seconds keeps the order of two instants. -/
theorem After_Round_Second (t1 t2 : Time) (h : t1.UnixNano ≤ t2.UnixNano) :
    (t1.Round Time.Second).After (t2.Round Time.Second) = false := by
  rw [← Bool.not_eq_true, After_iff, Round_unfold, Round_unfold]
  simp only [Time.Second]
  generalize t1.UnixNano = n1 at h ⊢
  generalize t2.UnixNano = n2 at h ⊢
  push_cast
  split_ifs <;> omega

theorem After_self (t : Time) : t.After t = false := by
  rw [← Bool.not_eq_true, After_iff]
  omega

/-! ### What each operation does to the `updated` elements, whatever it returns -/

theorem PutFeed_raw {σ : Type} (S : Storer σ) (now : Time) (b b' : Backend σ) (r : Request)
    (new_feed : Feed) (err : Option HTTPError)
    (h : Backend.PutFeed S now b r new_feed = some (b', err)) :
    (err ≠ none ∧ b'.heap = b.heap ∧ b'.entrymap = b.entrymap) ∨
    ∃ (ptr : SourcePtr) (v v1 : Source),
      b.sourcemap.lookup r.Path = some ptr ∧ b.heap[ptr]? = some v ∧
      v1.Updated = v.Updated.map (fun d => d.Set (now.Round Time.Microsecond)) ∧
      b'.heap = b.heap.set ptr v1 ∧ b'.entrymap = b.entrymap := by
  unfold Backend.PutFeed at h
  split at h
  · simp only [Option.some.injEq, Prod.mk.injEq] at h
    obtain ⟨rfl, rfl⟩ := h
    exact Or.inl ⟨by simp, rfl, rfl⟩
  · rename_i ptr hptr
    split at h
    · simp at h
    · rename_i v hv
      split at h
      · simp only [Option.some.injEq, Prod.mk.injEq] at h
        obtain ⟨rfl, rfl⟩ := h
        exact Or.inl ⟨by simp, rfl, rfl⟩
      · split at h
        · simp at h
        · simp only [Option.some.injEq] at h
          obtain ⟨hf1, _, hf3, _⟩ := storeSource_eq S _ _ _ _ _ h
          exact Or.inr ⟨ptr, v, _, hptr, hv, rfl, hf1, hf3⟩

theorem PutEntry_raw {σ : Type} (S : Storer σ) (decode : Bytes → DecoderRun)
    (now1 now2 : Time) (b b' : Backend σ) (r : Request) (new_entry : Entry)
    (err : Option HTTPError)
    (h : Backend.PutEntry S decode now1 now2 b r new_entry = some (b', err)) :
    (err ≠ none ∧ b'.heap = b.heap ∧ b'.entrymap = b.entrymap) ∨
    ∃ (entry : Entry) (ptr : SourcePtr) (source : Source) (updated : DateConstruct) (e : Entry),
      b.entrymap.lookup r.Path = some entry ∧ entry.Source = some ptr ∧
      b.heap[ptr]? = some source ∧ source.Updated = some updated ∧
      b'.heap = b.heap.set ptr
        { source with Updated := some (updated.Set (now2.Round Time.Microsecond)) } ∧
      b'.entrymap = mapSet b.entrymap r.Path e ∧ e.Updated.T = now1.Round Time.Second := by
  unfold Backend.PutEntry at h
  split at h
  · simp only [Option.some.injEq, Prod.mk.injEq] at h
    obtain ⟨rfl, rfl⟩ := h
    exact Or.inl ⟨by simp, rfl, rfl⟩
  · rename_i entry hentry
    split at h
    · simp only [Option.some.injEq, Prod.mk.injEq] at h
      obtain ⟨rfl, rfl⟩ := h
      exact Or.inl ⟨by simp, rfl, rfl⟩
    · rename_i ptr hptr
      split at h
      · simp at h
      · rename_i source hsource
        split at h
        · simp only [Option.some.injEq, Prod.mk.injEq] at h
          obtain ⟨rfl, rfl⟩ := h
          exact Or.inl ⟨by simp, rfl, rfl⟩
        · rename_i updated hupdated
          split at h
          · simp only [Option.some.injEq, Prod.mk.injEq] at h
            obtain ⟨rfl, rfl⟩ := h
            exact Or.inl ⟨by simp, rfl, rfl⟩
          · right
            refine ⟨entry, ptr, source, updated, ?_⟩
            simp only at h
            repeat' split at h
            all_goals first
              | (simp at h; done)
              | (simp only [Option.some.injEq, Prod.mk.injEq] at h
                 obtain ⟨rfl, rfl⟩ := h
                 exact ⟨_, hentry, hptr, hsource, hupdated, rfl, rfl, rfl⟩)
              | (simp only [Option.some.injEq] at h
                 obtain ⟨hf1, _, hf3, _⟩ := storeEntry_eq S _ _ _ _ _ _ h
                 exact ⟨_, hentry, hptr, hsource, hupdated, hf1, hf3, rfl⟩)

theorem DeleteEntry_raw {σ : Type} (S : Storer σ) (now : Time) (b b' : Backend σ)
    (r : Request) (err : Option HTTPError)
    (h : Backend.DeleteEntry S now b r = some (b', err)) :
    (err ≠ none ∧ b'.heap = b.heap ∧ b'.entrymap = b.entrymap) ∨
    ∃ (entry : Entry) (ptr : SourcePtr) (source : Source) (updated : DateConstruct),
      b.entrymap.lookup r.Path = some entry ∧ entry.Source = some ptr ∧
      b.heap[ptr]? = some source ∧ source.Updated = some updated ∧
      b'.heap = b.heap.set ptr
        { source with Updated := some (updated.Set (now.Round Time.Microsecond)) } ∧
      (b'.entrymap = b.entrymap ∨ b'.entrymap = mapDelete b.entrymap r.Path) := by
  unfold Backend.DeleteEntry at h
  split at h
  · simp only [Option.some.injEq, Prod.mk.injEq] at h
    obtain ⟨rfl, rfl⟩ := h
    exact Or.inl ⟨by simp, rfl, rfl⟩
  · rename_i entry hentry
    split at h
    · simp only [Option.some.injEq, Prod.mk.injEq] at h
      obtain ⟨rfl, rfl⟩ := h
      exact Or.inl ⟨by simp, rfl, rfl⟩
    · rename_i ptr hptr
      split at h
      · simp at h
      · rename_i source hsource
        split at h
        · simp only [Option.some.injEq, Prod.mk.injEq] at h
          obtain ⟨rfl, rfl⟩ := h
          exact Or.inl ⟨by simp, rfl, rfl⟩
        · rename_i updated hupdated
          right
          refine ⟨entry, ptr, source, updated, hentry, hptr, hsource, hupdated, ?_⟩
          simp only at h
          repeat' split at h
          all_goals
            simp only [Option.some.injEq, Prod.mk.injEq] at h
            obtain ⟨rfl, rfl⟩ := h
          · exact ⟨rfl, Or.inl rfl⟩
          · exact ⟨rfl, Or.inl rfl⟩
          · exact ⟨rfl, Or.inr rfl⟩

theorem PostToFeed_raw {σ : Type} (S : Storer σ)
    (ParseMediaType : Bytes → Except String Bytes) (slack : Nat) (now1 now2 : Time)
    (fresh : Bytes) (b b' : Backend σ) (r : Request) (contentType slug body : Bytes)
    (entry : Option Entry) (entry_URL : Bytes) (err : Option HTTPError)
    (h : Backend.PostToFeed S ParseMediaType slack now1 now2 fresh b r contentType slug body
      = some (b', entry, entry_URL, err)) :
    (err ≠ none ∧ b'.heap = b.heap ∧ b'.entrymap = b.entrymap) ∨
    ∃ (ptr : SourcePtr) (source : Source) (updated : DateConstruct),
      b.sourcemap.lookup r.Path = some ptr ∧
      b.heap[ptr]? = some source ∧ source.Updated = some updated ∧
      b'.heap = b.heap.set ptr
        { source with Updated := some (updated.Set (now2.Round Time.Microsecond)) } ∧
      (b'.entrymap = b.entrymap ∨
        ∃ en : Entry, entry = some en ∧ en.Updated.T = now1.Round Time.Second ∧
          b'.entrymap = mapSet b.entrymap entry_URL en) := by
  unfold Backend.PostToFeed at h
  split at h
  · simp at h
  · simp only [Option.some.injEq, Prod.mk.injEq] at h
    obtain ⟨rfl, _, _, rfl⟩ := h
    exact Or.inl ⟨by simp, rfl, rfl⟩
  · simp only [Option.some.injEq, Prod.mk.injEq] at h
    obtain ⟨rfl, _, _, rfl⟩ := h
    exact Or.inl ⟨by simp, rfl, rfl⟩
  · split at h
    · simp at h
    · simp only at h
      split at h
      · repeat' split at h
        all_goals first
          | (simp at h; done)
          | (simp only [Option.some.injEq, Prod.mk.injEq] at h
             obtain ⟨rfl, _, _, rfl⟩ := h
             exact Or.inl ⟨by simp, rfl, rfl⟩)
      · rename_i ptr hptr
        split at h
        · simp at h
        · rename_i source hsource
          split at h
          · simp only [Option.some.injEq, Prod.mk.injEq] at h
            obtain ⟨rfl, _, _, rfl⟩ := h
            exact Or.inl ⟨by simp, rfl, rfl⟩
          · split at h
            · simp at h
            · rename_i updated hupdated
              right
              refine ⟨ptr, source, updated, hptr, hsource, hupdated, ?_⟩
              split at h
              · rename_i b2 e hst
                simp only [Option.some.injEq, Prod.mk.injEq] at h
                obtain ⟨rfl, _, _, _⟩ := h
                obtain ⟨hf1, _, hf3, _⟩ := storeEntry_eq S _ _ _ _ _ _ hst
                exact ⟨hf1, Or.inl hf3⟩
              · rename_i b2 hst
                simp only [Option.some.injEq, Prod.mk.injEq] at h
                obtain ⟨rfl, rfl, rfl, _⟩ := h
                obtain ⟨hf1, _, hf3, _⟩ := storeEntry_eq S _ _ _ _ _ _ hst
                refine ⟨hf1, Or.inr ⟨_, rfl, rfl, ?_⟩⟩
                simp only [hf3]

theorem PostToRoot_raw {σ : Type} (S : Storer σ)
    (ParseMediaType : Bytes → Except String Bytes) (now : Time) (fresh : Bytes)
    (doc : List Source) (b : Backend σ) (r : Request) (new_feed : Feed) :
    (Backend.PostToRoot S ParseMediaType now fresh doc b r new_feed).1.entrymap = b.entrymap ∧
    ((Backend.PostToRoot S ParseMediaType now fresh doc b r new_feed).1.heap = b.heap ∨
      ∃ source : Source,
        (Backend.PostToRoot S ParseMediaType now fresh doc b r new_feed).1.heap
          = b.heap ++ [source] ∧
        source.Updated = some ⟨⟨atom_xmlns, ascii "updated"⟩, now.Round Time.Microsecond⟩) := by
  unfold Backend.PostToRoot
  split
  · exact ⟨rfl, Or.inl rfl⟩
  · simp only
    split
    · exact ⟨rfl, Or.inl rfl⟩
    · split
      · exact ⟨rfl, Or.inl rfl⟩
      · split
        · rename_i b2 e hst
          obtain ⟨hf1, _, hf3, _⟩ := storeSource_eq S _ _ _ _ _ hst
          exact ⟨hf3, Or.inr ⟨_, hf1, rfl⟩⟩
        · rename_i b2 hst
          obtain ⟨hf1, _, hf3, _⟩ := storeSource_eq S _ _ _ _ _ hst
          exact ⟨hf3, Or.inr ⟨_, hf1, rfl⟩⟩

theorem deleteEntries_sublist {σ : Type} (S : Storer σ) (heap : List Source) (id : Option URI)
    (todo kept entries : List (Bytes × Entry)) (s s1 : σ) (err err1 : Option HTTPError)
    (ret : Bool)
    (h : deleteEntries S heap id kept todo s err = some (entries, s1, err1, ret)) :
    entries.Sublist (kept ++ todo) := by
  induction todo generalizing kept s err with
  | nil =>
    simp only [deleteEntries, Option.some.injEq, Prod.mk.injEq] at h
    obtain ⟨rfl, _, _, _⟩ := h
    simp
  | cons kv rest ih =>
    obtain ⟨k, v⟩ := kv
    simp only [deleteEntries] at h
    split at h
    · simp only [Option.some.injEq, Prod.mk.injEq] at h
      obtain ⟨rfl, _, _, _⟩ := h
      exact List.Sublist.refl _
    · split at h
      · simp at h
      · split at h
        · simp only [Option.some.injEq, Prod.mk.injEq] at h
          obtain ⟨rfl, _, _, _⟩ := h
          exact List.Sublist.refl _
        · split at h
          · have := ih _ _ _ h
            simpa using this
          · split at h
            · have := ih _ _ _ h
              simpa using this
            · have := ih _ _ _ h
              exact this.trans (List.Sublist.append_left (List.sublist_cons_self _ _) _)

theorem DeleteFeed_raw {σ : Type} (S : Storer σ) (b b' : Backend σ) (r : Request)
    (err : Option HTTPError) (h : Backend.DeleteFeed S b r = some (b', err)) :
    b'.heap = b.heap ∧ b'.entrymap.Sublist b.entrymap := by
  unfold Backend.DeleteFeed at h
  split at h
  · simp only [Option.some.injEq, Prod.mk.injEq] at h
    obtain ⟨rfl, _⟩ := h
    exact ⟨rfl, List.Sublist.refl _⟩
  · split at h
    · simp at h
    · split at h
      · simp only [Option.some.injEq, Prod.mk.injEq] at h
        obtain ⟨rfl, _⟩ := h
        exact ⟨rfl, List.Sublist.refl _⟩
      · split at h
        · simp at h
        · rename_i entries s2 err2 hde
          have hsub := deleteEntries_sublist S _ _ _ _ _ _ _ _ _ _ hde
          simp only [Option.some.injEq, Prod.mk.injEq] at h
          obtain ⟨rfl, _⟩ := h
          exact ⟨rfl, by simpa using hsub⟩
        · rename_i entries s2 err2 hde
          have hsub := deleteEntries_sublist S _ _ _ _ _ _ _ _ _ _ hde
          repeat' split at h
          all_goals first
            | (simp at h; done)
            | (simp only [Option.some.injEq, Prod.mk.injEq] at h
               obtain ⟨rfl, _⟩ := h
               exact ⟨rfl, by simpa using hsub⟩)

/-! ### Runs -/

theorem getElem?_map_updated (heap heap' : List Source) (p : Nat)
    (h : heap'.map (fun s => s.Updated) = heap.map (fun s => s.Updated)) :
    (heap'[p]?).map (fun s => s.Updated) = (heap[p]?).map (fun s => s.Updated) := by
  rw [← List.getElem?_map, ← List.getElem?_map, h]

/-- The Source objects after `heap.set ptr s1`, where `s1` holds a new
reading. -/
theorem heap_set_updated (heap heap' : List Source) (ptr : Nat) (s s1 : Source)
    (d : DateConstruct) (now : Time) (t t' : Int)
    (hset : heap' = heap.set ptr s1) (hs : heap[ptr]? = some s) (hd : s1.Updated = some d)
    (hT : d.T = now.Round Time.Microsecond) (h1 : t ≤ now.UnixNano) (h2 : now.UnixNano ≤ t')
    (p : Nat) :
    (heap'[p]?).map (fun s => s.Updated) = (heap[p]?).map (fun s => s.Updated) ∨
    ∃ (s' : Source) (d : DateConstruct) (now : Time), heap'[p]? = some s' ∧
      s'.Updated = some d ∧ d.T = now.Round Time.Microsecond ∧ t ≤ now.UnixNano ∧
      now.UnixNano ≤ t' := by
  subst hset
  by_cases hp : ptr = p
  · subst hp
    exact Or.inr ⟨s1, d, now, List.getElem?_set_self (getElem?_lt _ _ _ hs), hd, hT, h1, h2⟩
  · left
    rw [List.getElem?_set_ne hp]

/-- One more call in a run: what holds of the `updated` elements before it
holds after it. -/
theorem run_extend {σ : Type} (t0 t t' : Int) (b0 b b' : Backend σ) (ht0 : t0 ≤ t)
    (hb : UpdatedBefore t b)
    (H1 : ∀ (p : Nat) (s0 : Source) (d0 : DateConstruct), b0.heap[p]? = some s0 →
      s0.Updated = some d0 → ∃ (s : Source) (d : DateConstruct), b.heap[p]? = some s ∧
        s.Updated = some d ∧
        (d.T = d0.T ∨ ∃ now : Time, d.T = now.Round Time.Microsecond ∧ t0 ≤ now.UnixNano))
    (H2 : ∀ (k : Bytes) (e' : Entry), (k, e') ∈ b.entrymap →
      (∃ e0, (k, e0) ∈ b0.entrymap ∧ e0.Updated = e'.Updated) ∨
      ∃ now : Time, e'.Updated.T = now.Round Time.Second ∧ t0 ≤ now.UnixNano)
    (htt : t ≤ t')
    (hheap : ∀ p : Nat,
      (b'.heap[p]?).map (fun s => s.Updated) = (b.heap[p]?).map (fun s => s.Updated) ∨
      ∃ (s' : Source) (d : DateConstruct) (now : Time), b'.heap[p]? = some s' ∧
        s'.Updated = some d ∧ d.T = now.Round Time.Microsecond ∧ t ≤ now.UnixNano ∧
        now.UnixNano ≤ t')
    (hnodup : (b'.entrymap.map Prod.fst).Nodup)
    (hent : ∀ (k : Bytes) (e' : Entry), (k, e') ∈ b'.entrymap →
      (∃ e, (k, e) ∈ b.entrymap ∧ e.Updated = e'.Updated) ∨
      ∃ now : Time, e'.Updated.T = now.Round Time.Second ∧ t ≤ now.UnixNano ∧
        now.UnixNano ≤ t') :
    t0 ≤ t' ∧ UpdatedBefore t' b' ∧
    (∀ (p : Nat) (s0 : Source) (d0 : DateConstruct), b0.heap[p]? = some s0 →
      s0.Updated = some d0 → ∃ (s : Source) (d : DateConstruct), b'.heap[p]? = some s ∧
        s.Updated = some d ∧
        (d.T = d0.T ∨ ∃ now : Time, d.T = now.Round Time.Microsecond ∧ t0 ≤ now.UnixNano)) ∧
    (∀ (k : Bytes) (e' : Entry), (k, e') ∈ b'.entrymap →
      (∃ e0, (k, e0) ∈ b0.entrymap ∧ e0.Updated = e'.Updated) ∨
      ∃ now : Time, e'.Updated.T = now.Round Time.Second ∧ t0 ≤ now.UnixNano) := by
  obtain ⟨_, hbh, hbe⟩ := hb
  refine ⟨by omega, ⟨hnodup, ?_, ?_⟩, ?_, ?_⟩
  · intro p s' hs'
    rcases hheap p with heq | ⟨s2, d, now, h1, h2, h3, h4, h5⟩
    · rw [hs'] at heq
      cases hbp : b.heap[p]? with
      | none => simp [hbp] at heq
      | some s =>
        rw [hbp] at heq
        simp only [Option.map_some', Option.some.injEq] at heq
        obtain ⟨d, now, hd, hT, hn⟩ := hbh p s hbp
        exact ⟨d, now, by rw [heq, hd], hT, by omega⟩
    · rw [hs'] at h1
      simp only [Option.some.injEq] at h1
      subst h1
      exact ⟨d, now, h2, h3, h5⟩
  · intro k e' he'
    rcases hent k e' he' with ⟨e, he, heq⟩ | ⟨now, h1, h2, h3⟩
    · obtain ⟨now, hT, hn⟩ := hbe k e he
      exact ⟨now, by rw [← heq, hT], by omega⟩
    · exact ⟨now, h1, h3⟩
  · intro p s0 d0 hs0 hd0
    obtain ⟨s, d, hs, hd, hcase⟩ := H1 p s0 d0 hs0 hd0
    rcases hheap p with heq | ⟨s2, d2, now, h1, h2, h3, h4, h5⟩
    · rw [hs] at heq
      cases hbp : b'.heap[p]? with
      | none => simp [hbp] at heq
      | some s' =>
        rw [hbp] at heq
        simp only [Option.map_some', Option.some.injEq] at heq
        exact ⟨s', d, rfl, by rw [heq, hd], hcase⟩
    · exact ⟨s2, d2, h1, h2, Or.inr ⟨now, h3, by omega⟩⟩
  · intro k e' he'
    rcases hent k e' he' with ⟨e, he, heq⟩ | ⟨now, h1, h2, h3⟩
    · rcases H2 k e he with ⟨e0, he0, heq0⟩ | ⟨now, h1, h2⟩
      · exact Or.inl ⟨e0, he0, by rw [heq0, heq]⟩
      · exact Or.inr ⟨now, by rw [← heq, h1], h2⟩
    · exact Or.inr ⟨now, h1, by omega⟩

/-- The entries after `mapSet m key e`, where `e` holds a new reading. -/
theorem mapSet_updated (m : List (Bytes × Entry)) (key : Bytes) (e : Entry) (now : Time)
    (t t' : Int) (hn : (m.map Prod.fst).Nodup) (hT : e.Updated.T = now.Round Time.Second)
    (h1 : t ≤ now.UnixNano) (h2 : now.UnixNano ≤ t') (k : Bytes) (e' : Entry)
    (h : (k, e') ∈ mapSet m key e) :
    (∃ e0, (k, e0) ∈ m ∧ e0.Updated = e'.Updated) ∨
    ∃ now : Time, e'.Updated.T = now.Round Time.Second ∧ t ≤ now.UnixNano ∧
      now.UnixNano ≤ t' := by
  rcases (mem_mapSet m key e k e' hn).1 h with ⟨_, rfl⟩ | ⟨_, hm⟩
  · exact Or.inr ⟨now, hT, h1, h2⟩
  · exact Or.inl ⟨e', hm, rfl⟩

theorem same_entries (m m' : List (Bytes × Entry)) (t t' : Int) (h : m' = m)
    (k : Bytes) (e' : Entry) (hm : (k, e') ∈ m') :
    (∃ e0, (k, e0) ∈ m ∧ e0.Updated = e'.Updated) ∨
    ∃ now : Time, e'.Updated.T = now.Round Time.Second ∧ t ≤ now.UnixNano ∧
      now.UnixNano ≤ t' := by
  subst h
  exact Or.inl ⟨e', hm, rfl⟩

theorem sub_entries (m m' : List (Bytes × Entry)) (t t' : Int) (h : m'.Sublist m)
    (k : Bytes) (e' : Entry) (hm : (k, e') ∈ m') :
    (∃ e0, (k, e0) ∈ m ∧ e0.Updated = e'.Updated) ∨
    ∃ now : Time, e'.Updated.T = now.Round Time.Second ∧ t ≤ now.UnixNano ∧
      now.UnixNano ≤ t' :=
  Or.inl ⟨e', h.subset hm, rfl⟩

theorem same_heap (heap heap' : List Source) (t t' : Int) (h : heap' = heap) (p : Nat) :
    (heap'[p]?).map (fun s => s.Updated) = (heap[p]?).map (fun s => s.Updated) ∨
    ∃ (s' : Source) (d : DateConstruct) (now : Time), heap'[p]? = some s' ∧
      s'.Updated = some d ∧ d.T = now.Round Time.Microsecond ∧ t ≤ now.UnixNano ∧
      now.UnixNano ≤ t' := by
  subst h
  exact Or.inl rfl

/-- Along a run from a backend whose `updated` elements hold readings at or
before `t0`: the clock does not go back, the `updated` elements hold readings
at or before the last one, and each of them is the one of the start or holds a
reading of the run. -/
theorem ClockRun_updated {σ : Type} (S : Storer σ)
    (ParseMediaType : Bytes → Except String Bytes) (decode : Bytes → DecoderRun)
    (t0 t : Int) (b0 b : Backend σ) (h : ClockRun S ParseMediaType decode t0 b0 t b)
    (h0 : UpdatedBefore t0 b0) :
    t0 ≤ t ∧ UpdatedBefore t b ∧
    (∀ (p : Nat) (s0 : Source) (d0 : DateConstruct), b0.heap[p]? = some s0 →
      s0.Updated = some d0 → ∃ (s : Source) (d : DateConstruct), b.heap[p]? = some s ∧
        s.Updated = some d ∧
        (d.T = d0.T ∨ ∃ now : Time, d.T = now.Round Time.Microsecond ∧ t0 ≤ now.UnixNano)) ∧
    (∀ (k : Bytes) (e' : Entry), (k, e') ∈ b.entrymap →
      (∃ e0, (k, e0) ∈ b0.entrymap ∧ e0.Updated = e'.Updated) ∨
      ∃ now : Time, e'.Updated.T = now.Round Time.Second ∧ t0 ≤ now.UnixNano) := by
  induction h with
  | start =>
    exact ⟨le_refl _, h0, fun p s0 d0 hs hd => ⟨s0, d0, hs, hd, Or.inl rfl⟩,
      fun k e' he => Or.inl ⟨e', he, rfl⟩⟩
  | PostToRoot t b now fresh doc r new_feed _ hle ih =>
    obtain ⟨ht0, hb, H1, H2⟩ := ih
    obtain ⟨hent, hheap⟩ := PostToRoot_raw S ParseMediaType now fresh doc b r new_feed
    refine run_extend t0 t now.UnixNano b0 b _ ht0 hb H1 H2 hle ?_ ?_ ?_
    · intro p
      rcases hheap with hh | ⟨source, hh, hu⟩
      · exact same_heap _ _ _ _ hh p
      · rw [hh]
        by_cases hp : p < b.heap.length
        · left
          rw [List.getElem?_append_left hp]
        · by_cases hp2 : p = b.heap.length
          · right
            subst hp2
            exact ⟨source, _, now, by simp, hu, rfl, hle, le_refl _⟩
          · left
            have h1 : (b.heap ++ [source])[p]? = none := by
              rw [List.getElem?_eq_none_iff]
              simp
              omega
            have h2 : b.heap[p]? = none := by
              rw [List.getElem?_eq_none_iff]
              omega
            rw [h1, h2]
    · rw [hent]
      exact hb.1
    · exact same_entries _ _ _ _ hent
  | PutFeed t b b' now r new_feed err _ hle hop ih =>
    obtain ⟨ht0, hb, H1, H2⟩ := ih
    rcases PutFeed_raw S now b b' r new_feed err hop with ⟨_, hh, he⟩ |
      ⟨ptr, v, v1, _, hv, hu, hh, he⟩
    · exact run_extend t0 t now.UnixNano b0 b b' ht0 hb H1 H2 hle (same_heap _ _ _ _ hh)
        (by rw [he]; exact hb.1) (same_entries _ _ _ _ he)
    · obtain ⟨d, _, hd, _, _⟩ := hb.2.1 ptr v hv
      rw [hd] at hu
      exact run_extend t0 t now.UnixNano b0 b b' ht0 hb H1 H2 hle
        (heap_set_updated _ _ ptr v v1 _ now t _ hh hv hu rfl hle (le_refl _))
        (by rw [he]; exact hb.1) (same_entries _ _ _ _ he)
  | DeleteFeed t b b' r err _ hop ih =>
    obtain ⟨ht0, hb, H1, H2⟩ := ih
    obtain ⟨hh, hsub⟩ := DeleteFeed_raw S b b' r err hop
    exact run_extend t0 t t b0 b b' ht0 hb H1 H2 (le_refl _) (same_heap _ _ _ _ hh)
      (hb.1.sublist (hsub.map _)) (sub_entries _ _ _ _ hsub)
  | PostToFeed t b b' slack now1 now2 fresh r contentType slug body entry entry_URL err
      _ hle1 hle2 hop ih =>
    obtain ⟨ht0, hb, H1, H2⟩ := ih
    rcases PostToFeed_raw S ParseMediaType slack now1 now2 fresh b b' r contentType slug body
      entry entry_URL err hop with ⟨_, hh, he⟩ | ⟨ptr, source, updated, _, hs, _, hh, he⟩
    · exact run_extend t0 t now2.UnixNano b0 b b' ht0 hb H1 H2 (by omega)
        (same_heap _ _ _ _ hh) (by rw [he]; exact hb.1) (same_entries _ _ _ _ he)
    · have hheap := heap_set_updated _ _ ptr source _ _ now2 t now2.UnixNano hh hs rfl rfl
        (by omega) (le_refl _)
      rcases he with he | ⟨en, _, hT, he⟩
      · exact run_extend t0 t now2.UnixNano b0 b b' ht0 hb H1 H2 (by omega) hheap
          (by rw [he]; exact hb.1) (same_entries _ _ _ _ he)
      · exact run_extend t0 t now2.UnixNano b0 b b' ht0 hb H1 H2 (by omega) hheap
          (by rw [he]; exact mapSet_nodup _ _ _ hb.1)
          (by rw [he]; exact mapSet_updated _ _ _ now1 t _ hb.1 hT hle1 hle2)
  | PutEntry t b b' now1 now2 r new_entry err _ hle1 hle2 hop ih =>
    obtain ⟨ht0, hb, H1, H2⟩ := ih
    rcases PutEntry_raw S decode now1 now2 b b' r new_entry err hop with ⟨_, hh, he⟩ |
      ⟨entry, ptr, source, updated, e, _, _, hs, _, hh, he, hT⟩
    · exact run_extend t0 t now2.UnixNano b0 b b' ht0 hb H1 H2 (by omega)
        (same_heap _ _ _ _ hh) (by rw [he]; exact hb.1) (same_entries _ _ _ _ he)
    · exact run_extend t0 t now2.UnixNano b0 b b' ht0 hb H1 H2 (by omega)
        (heap_set_updated _ _ ptr source _ _ now2 t now2.UnixNano hh hs rfl rfl (by omega)
          (le_refl _))
        (by rw [he]; exact mapSet_nodup _ _ _ hb.1)
        (by rw [he]; exact mapSet_updated _ _ _ now1 t _ hb.1 hT hle1 hle2)
  | DeleteEntry t b b' now r err _ hle hop ih =>
    obtain ⟨ht0, hb, H1, H2⟩ := ih
    rcases DeleteEntry_raw S now b b' r err hop with ⟨_, hh, he⟩ |
      ⟨entry, ptr, source, updated, _, _, hs, _, hh, he⟩
    · exact run_extend t0 t now.UnixNano b0 b b' ht0 hb H1 H2 hle
        (same_heap _ _ _ _ hh) (by rw [he]; exact hb.1) (same_entries _ _ _ _ he)
    · have hheap := heap_set_updated _ _ ptr source _ _ now t now.UnixNano hh hs rfl rfl
        hle (le_refl _)
      rcases he with he | he
      · exact run_extend t0 t now.UnixNano b0 b b' ht0 hb H1 H2 hle hheap
          (by rw [he]; exact hb.1) (same_entries _ _ _ _ he)
      · exact run_extend t0 t now.UnixNano b0 b b' ht0 hb H1 H2 hle hheap
          (by rw [he]; exact mapDelete_nodup _ _ hb.1)
          (sub_entries _ _ _ _ (by rw [he]; exact List.filter_sublist _))
  | marshalled t b b' _ hheap hent ih =>
    obtain ⟨ht0, hb, H1, H2⟩ := ih
    refine run_extend t0 t t b0 b b' ht0 hb H1 H2 (le_refl _)
      (fun p => Or.inl (getElem?_map_updated _ _ p hheap)) ?_ ?_
    · have hk : b'.entrymap.map Prod.fst = b.entrymap.map Prod.fst := by
        have := congrArg (List.map Prod.fst) hent
        simpa [List.map_map, Function.comp_def] using this
      rw [hk]
      exact hb.1
    · intro k e' he'
      have hm : (k, e'.Updated) ∈ b'.entrymap.map (fun kv => (kv.1, kv.2.Updated)) :=
        List.mem_map.2 ⟨(k, e'), he', rfl⟩
      rw [hent] at hm
      obtain ⟨⟨k0, e0⟩, hm0, heq⟩ := List.mem_map.1 hm
      simp only [Prod.mk.injEq] at heq
      obtain ⟨rfl, hu⟩ := heq
      exact Or.inl ⟨e0, hm0, hu⟩

theorem UpdatedBefore_empty {σ : Type} (t : Int) (storer : σ) :
    UpdatedBefore t (Backend.empty storer) := by
  refine ⟨by simp [Backend.empty], ?_, ?_⟩
  · intro p s hs
    simp [Backend.empty] at hs
  · intro k e he
    simp [Backend.empty] at he

/-- C32: let the backend `b0` be reached from the empty backend by a run
under a clock that does not go back.  A `PostToFeed` on `b0` that returns no
error leaves the Source of the feed with the second reading of the clock
rounded to microseconds as its `updated` value; a `PutEntry` that returns no
error leaves the Source of the entry with the second reading rounded to
microseconds and the entry with the first reading rounded to seconds; a
`DeleteEntry` that returns no error leaves the Source of the entry, and a
`PutFeed` that returns no error the Source of the feed, with the reading
rounded to microseconds.  And over every run from `b0` whose readings do not
go back, whatever its calls return, no `updated` value goes back: every Source
object keeps an `updated` value that is not before the one it had, and an
entry under a key of `b0` has an `updated` value that is not before the one of
the entry of `b0`. -/
theorem updated_follows_clock {σ : Type} (S : Storer σ)
    (ParseMediaType : Bytes → Except String Bytes) (decode : Bytes → DecoderRun)
    (storer : σ) (tstart t0 : Int) (b0 : Backend σ)
    (h0 : ClockRun S ParseMediaType decode tstart (Backend.empty storer) t0 b0) :
    (∀ (slack : Nat) (now1 now2 : Time) (fresh : Bytes) (r : Request)
        (contentType slug body : Bytes) (b' : Backend σ) (entry : Option Entry)
        (entry_URL : Bytes),
      Backend.PostToFeed S ParseMediaType slack now1 now2 fresh b0 r contentType slug body
        = some (b', entry, entry_URL, none) →
      ∃ (ptr : SourcePtr) (s : Source) (d : DateConstruct),
        b0.sourcemap.lookup r.Path = some ptr ∧ b'.heap[ptr]? = some s ∧
        s.Updated = some d ∧ d.T = now2.Round Time.Microsecond) ∧
    (∀ (now1 now2 : Time) (r : Request) (new_entry : Entry) (b' : Backend σ),
      Backend.PutEntry S decode now1 now2 b0 r new_entry = some (b', none) →
      ∃ (entry : Entry) (ptr : SourcePtr) (s : Source) (d : DateConstruct) (e : Entry),
        b0.entrymap.lookup r.Path = some entry ∧ entry.Source = some ptr ∧
        b'.heap[ptr]? = some s ∧ s.Updated = some d ∧ d.T = now2.Round Time.Microsecond ∧
        b'.entrymap.lookup r.Path = some e ∧ e.Updated.T = now1.Round Time.Second) ∧
    (∀ (now : Time) (r : Request) (b' : Backend σ),
      Backend.DeleteEntry S now b0 r = some (b', none) →
      ∃ (entry : Entry) (ptr : SourcePtr) (s : Source) (d : DateConstruct),
        b0.entrymap.lookup r.Path = some entry ∧ entry.Source = some ptr ∧
        b'.heap[ptr]? = some s ∧ s.Updated = some d ∧ d.T = now.Round Time.Microsecond) ∧
    (∀ (now : Time) (r : Request) (new_feed : Feed) (b' : Backend σ),
      Backend.PutFeed S now b0 r new_feed = some (b', none) →
      ∃ (ptr : SourcePtr) (s : Source) (d : DateConstruct),
        b0.sourcemap.lookup r.Path = some ptr ∧ b'.heap[ptr]? = some s ∧
        s.Updated = some d ∧ d.T = now.Round Time.Microsecond) ∧
    (∀ (t : Int) (b : Backend σ), ClockRun S ParseMediaType decode t0 b0 t b →
      UpdatedMonotone b0 b) := by
  have hb0 : UpdatedBefore t0 b0 :=
    (ClockRun_updated S ParseMediaType decode tstart t0 _ b0 h0
      (UpdatedBefore_empty tstart storer)).2.1
  refine ⟨?_, ?_, ?_, ?_, ?_⟩
  · intro slack now1 now2 fresh r contentType slug body b' entry entry_URL h
    rcases PostToFeed_raw S ParseMediaType slack now1 now2 fresh b0 b' r contentType slug body
      entry entry_URL none h with ⟨hne, _, _⟩ | ⟨ptr, source, updated, hptr, hs, _, hh, _⟩
    · exact absurd rfl hne
    · refine ⟨ptr, { source with Updated := some (updated.Set (now2.Round Time.Microsecond)) },
        updated.Set (now2.Round Time.Microsecond), hptr, ?_, rfl, rfl⟩
      rw [hh]
      exact List.getElem?_set_self (getElem?_lt _ _ _ hs)
  · intro now1 now2 r new_entry b' h
    rcases PutEntry_raw S decode now1 now2 b0 b' r new_entry none h with ⟨hne, _, _⟩ |
      ⟨entry, ptr, source, updated, e, hentry, hptr, hs, _, hh, he, hT⟩
    · exact absurd rfl hne
    · refine ⟨entry, ptr,
        { source with Updated := some (updated.Set (now2.Round Time.Microsecond)) },
        updated.Set (now2.Round Time.Microsecond), e, hentry, hptr, ?_, rfl, rfl, ?_, hT⟩
      · rw [hh]
        exact List.getElem?_set_self (getElem?_lt _ _ _ hs)
      · rw [he]
        exact mapSet_lookup _ _ _
  · intro now r b' h
    rcases DeleteEntry_raw S now b0 b' r none h with ⟨hne, _, _⟩ |
      ⟨entry, ptr, source, updated, hentry, hptr, hs, _, hh, _⟩
    · exact absurd rfl hne
    · refine ⟨entry, ptr,
        { source with Updated := some (updated.Set (now.Round Time.Microsecond)) },
        updated.Set (now.Round Time.Microsecond), hentry, hptr, ?_, rfl, rfl⟩
      rw [hh]
      exact List.getElem?_set_self (getElem?_lt _ _ _ hs)
  · intro now r new_feed b' h
    rcases PutFeed_raw S now b0 b' r new_feed none h with ⟨hne, _, _⟩ |
      ⟨ptr, v, v1, hptr, hv, hu, hh, _⟩
    · exact absurd rfl hne
    · obtain ⟨d, _, hd, _, _⟩ := hb0.2.1 ptr v hv
      rw [hd] at hu
      refine ⟨ptr, v1, _, hptr, ?_, hu, rfl⟩
      rw [hh]
      exact List.getElem?_set_self (getElem?_lt _ _ _ hv)
  · intro t b hrun
    obtain ⟨_, _, H1, H2⟩ := ClockRun_updated S ParseMediaType decode t0 t b0 b hrun hb0
    refine ⟨?_, ?_⟩
    · intro p s d hs hd
      obtain ⟨s', d', hs', hd', hcase⟩ := H1 p s d hs hd
      refine ⟨s', d', hs', hd', ?_⟩
      rcases hcase with heq | ⟨now, hT, hn⟩
      · rw [heq]
        exact After_self _
      · obtain ⟨d0, now0, hd0, hT0, hn0⟩ := hb0.2.1 p s hs
        rw [hd] at hd0
        simp only [Option.some.injEq] at hd0
        subst hd0
        rw [hT0, hT]
        exact After_Round_Microsecond now0 now (by omega)
    · intro k e e' he he'
      rcases H2 k e' he' with ⟨e0, he0, heq⟩ | ⟨now, hT, hn⟩
      · have h1 := mem_lookup _ _ _ hb0.1 he
        have h2 := mem_lookup _ _ _ hb0.1 he0
        rw [h1] at h2
        simp only [Option.some.injEq] at h2
        subst h2
        rw [← heq]
        exact After_self _
      · obtain ⟨now0, hT0, hn0⟩ := hb0.2.2 k e he
        rw [hT0, hT]
        exact After_Round_Second now0 now (by omega)

set_option maxRecDepth 100000 in
/-- C32 at an instance: `oneFeedBackend` is reached from the empty backend by
a `PostToRoot` at 2025-02-14T09:33:12.546909Z, and `postedBackend` from it by
a `PostToFeed` with the readings 09:33:20.1 and 09:33:20.123456: the
`updated` value of the Source goes from the first instant to the last. -/
theorem updated_follows_clock_witness :
    (oneFeedBackend.heap[0]?).bind (fun s => s.Updated)
      = some (atomUpdated ⟨1739525592, 546909000, 0⟩) ∧
    (postedBackend.heap[0]?).bind (fun s => s.Updated)
      = some (atomUpdated ⟨1739525600, 123456000, 0⟩) ∧
    UpdatedMonotone oneFeedBackend postedBackend :=
  ⟨by decide, by decide,
    (updated_follows_clock okStorer mime.ParseMediaType xml.decode () 0
      (Time.UnixNano ⟨1739525592, 546909000, 0⟩) oneFeedBackend
      (ClockRun.PostToRoot 0 (Backend.empty ()) ⟨1739525592, 546909000, 0⟩
        (ascii "00000000-0000-4000-8000-000000000001") [] ⟨ascii "POST", ascii "/"⟩
        (newFeed none) ClockRun.start (by decide))).2.2.2.2
      (Time.UnixNano ⟨1739525600, 123456000, 0⟩) postedBackend
      (ClockRun.PostToFeed (Time.UnixNano ⟨1739525592, 546909000, 0⟩) oneFeedBackend
        postedBackend 507 ⟨1739525600, 100000000, 0⟩ ⟨1739525600, 123456000, 0⟩
        (ascii "00000000-0000-4000-8000-000000000002")
        ⟨ascii "POST", ascii "/feed/00000000-0000-4000-8000-000000000001"⟩
        (ascii "text/plain") [] (ascii "hello") (some postedEntry)
        (ascii "/entry/00000000-0000-4000-8000-000000000002") none
        ClockRun.start (by decide) (by decide) rfl)⟩

/-! ## C37: the Source of an entry inside a feed -/

theorem writeAll_append (xs ys : List (Except String Bytes)) (w : Bytes)
    (h : writeAll (xs ++ ys) = .ok w) :
    ∃ w1 w2, writeAll xs = .ok w1 ∧ writeAll ys = .ok w2 ∧ w = w1 ++ w2 := by
  induction xs generalizing w with
  | nil => exact ⟨[], w, rfl, h, rfl⟩
  | cons x xs ih =>
    cases x with
    | error e =>
      rw [List.cons_append, writeAll] at h
      cases h
    | ok v =>
      rw [List.cons_append, writeAll] at h
      cases hr : writeAll (xs ++ ys) with
      | error e => simp [hr] at h
      | ok ws =>
        simp only [hr, Except.ok.injEq] at h
        obtain ⟨w1, w2, h1, h2, h3⟩ := ih ws hr
        refine ⟨v ++ w1, w2, ?_, h2, ?_⟩
        · simp [writeAll, h1]
        · rw [← h, h3, List.append_assoc]

theorem writeAll_cons_ok (x : Except String Bytes) (xs : List (Except String Bytes)) (w : Bytes)
    (h : writeAll (x :: xs) = .ok w) :
    ∃ w1 w2, x = .ok w1 ∧ writeAll xs = .ok w2 ∧ w = w1 ++ w2 := by
  cases x with
  | error e => simp [writeAll] at h
  | ok v =>
    simp only [writeAll] at h
    cases hr : writeAll xs with
    | error e => simp [hr] at h
    | ok ws =>
      simp only [hr, Except.ok.injEq] at h
      exact ⟨v, ws, rfl, rfl, h.symm⟩

theorem Consumes_eq_true_iff (fid : URI) (id : Option URI) :
    URI.Consumes (some fid) id = true ↔ id = some fid := by
  cases id with
  | none => simp [URI.Consumes]
  | some x =>
    cases x with
    | mk xn xt =>
      cases fid with
      | mk fname ft =>
        simp only [URI.Consumes, Bool.and_eq_true, decide_eq_true_eq, Option.some.injEq,
          URI.mk.injEq]
        constructor
        · rintro ⟨h1, h2⟩
          exact ⟨h2.symm, h1.symm⟩
        · rintro ⟨h1, h2⟩
          exact ⟨h2.symm, h1.symm⟩

/-- C37: for an entry `t` marshalled inside a feed with the id `fid`, the
Source `s` of the entry is written as nothing when its id equals `fid`.
Otherwise, when the entry is marshalled without error, its bytes end with the
bytes of the Source and `</entry>`, and these are `<source>`, the id of the
Source, its authors when the entry has none of its own (nothing otherwise),
its rights when the entry has none of its own (nothing otherwise), and
`</source>`.  No other field of the Source is read: two Sources with the same
id, authors and rights are written alike. -/
theorem Source_MarshalTo_in_entry (ParseMediaType : Bytes → Except String Bytes)
    (s : Source) (t : Entry) (fid : URI) :
    (s.Id = some fid → Source.MarshalTo ParseMediaType (some s) (some fid) (some t) = .ok []) ∧
    (∀ w, s.Id ≠ some fid →
      Entry.MarshalTo ParseMediaType (some s) (some t) (some fid) = .ok w →
      ∃ front wid wauthors wrights,
        w = front ++ (ascii "<source>" ++ wid ++ wauthors ++ wrights ++ ascii "</source>")
          ++ ascii "</entry>" ∧
        Source.MarshalTo ParseMediaType (some s) (some fid) (some t)
          = .ok (ascii "<source>" ++ wid ++ wauthors ++ wrights ++ ascii "</source>") ∧
        URI.MarshalTo s.Id = .ok wid ∧
        (if t.Authors = [] then marshalEach Person.MarshalTo s.Authors else .ok [])
          = .ok wauthors ∧
        (if t.Rights = none then TextConstruct.MarshalTo s.Rights ⟨atom_xmlns, ascii "source"⟩
          else .ok []) = .ok wrights) ∧
    (∀ s2 : Source, s2.Id = s.Id → s2.Authors = s.Authors → s2.Rights = s.Rights →
      Source.MarshalTo ParseMediaType (some s2) (some fid) (some t)
        = Source.MarshalTo ParseMediaType (some s) (some fid) (some t)) := by
  refine ⟨?_, ?_, ?_⟩
  · intro hid
    have hc : URI.Consumes (some fid) s.Id = true := (Consumes_eq_true_iff fid s.Id).2 hid
    simp [Source.MarshalTo, hc]
  · intro w hid hw
    have hc : URI.Consumes (some fid) s.Id = false := by
      cases h : URI.Consumes (some fid) s.Id with
      | false => rfl
      | true => exact absurd ((Consumes_eq_true_iff fid s.Id).1 h) hid
    simp only [Entry.MarshalTo, ne_eq, reduceCtorEq, not_false_eq_true, if_true] at hw
    have hsplit : ∀ (xs : List (Except String Bytes)) (y z : Except String Bytes),
        writeAll (xs ++ [y, z]) = .ok w →
        ∃ w1 wy wz, writeAll xs = .ok w1 ∧ y = .ok wy ∧ z = .ok wz ∧ w = w1 ++ wy ++ wz := by
      intro xs y z h
      obtain ⟨w1, w2, h1, h2, h3⟩ := writeAll_append xs [y, z] w h
      obtain ⟨wy, w3, hy, h4, h5⟩ := writeAll_cons_ok y [z] w2 h2
      obtain ⟨wz, w4, hz, h6, h7⟩ := writeAll_cons_ok z [] w3 h4
      simp only [writeAll, Except.ok.injEq] at h6
      refine ⟨w1, wy, wz, h1, hy, hz, ?_⟩
      rw [h3, h5, h7, ← h6]
      simp
    obtain ⟨front, wsrc, wend, _, hsrc, hend, hwe⟩ := hsplit
      [ .ok (ascii "<" ++ ascii "entry" ++ ascii ">"),
        TextConstruct.MarshalTo (some t.Title) ⟨atom_xmlns, ascii "entry"⟩,
        TextConstruct.MarshalTo t.Summary ⟨atom_xmlns, ascii "entry"⟩,
        DateConstruct.MarshalTo (some t.Updated),
        DateConstruct.MarshalTo t.Published,
        DateConstruct.MarshalTo t.Edited,
        URI.MarshalTo (some t.Id),
        marshalEach Person.MarshalTo t.Authors,
        marshalEach Person.MarshalTo t.Contributors,
        t.Content.MarshalTo,
        marshalEach (Link.MarshalTo ParseMediaType) t.Links,
        marshalEach (fun (c : Category) => c.MarshalTo ⟨atom_xmlns, ascii "entry"⟩) t.Categories,
        TextConstruct.MarshalTo t.Rights ⟨atom_xmlns, ascii "entry"⟩,
        PublishingControl.MarshalTo t.Control ]
      (Source.MarshalTo ParseMediaType (some s) (some fid) (some t)) (.ok (ascii "</entry>")) hw
    simp only [Except.ok.injEq] at hend
    have hsrc2 := hsrc
    simp only [Source.MarshalTo, hc, Bool.false_eq_true, if_false] at hsrc2
    obtain ⟨w0, r1, h0, hr1, e1⟩ := writeAll_cons_ok _ _ _ hsrc2
    obtain ⟨wid, r2, hwid, hr2, e2⟩ := writeAll_cons_ok _ _ _ hr1
    obtain ⟨wauthors, r3, hwa, hr3, e3⟩ := writeAll_cons_ok _ _ _ hr2
    obtain ⟨wrights, r4, hwr, hr4, e4⟩ := writeAll_cons_ok _ _ _ hr3
    obtain ⟨wclose, r5, hwc, hr5, e5⟩ := writeAll_cons_ok _ _ _ hr4
    simp only [writeAll, Except.ok.injEq] at hr5
    simp only [Except.ok.injEq] at h0 hwc
    have hshape : wsrc = ascii "<source>" ++ wid ++ wauthors ++ wrights ++ ascii "</source>" := by
      rw [e1, e2, e3, e4, e5, ← hr5, ← h0, ← hwc]
      simp
    refine ⟨front, wid, wauthors, wrights, ?_, ?_, hwid, hwa, hwr⟩
    · rw [hwe, hshape, ← hend]
    · rw [hsrc, hshape]
  · intro s2 h1 h2 h3
    simp [Source.MarshalTo, h1, h2, h3]

set_option maxRecDepth 100000 in
/-- C37 at an instance: the entry of `postedBackend`, which has no author and
no rights of its own, inside a feed with another id: the `source` element
holds the id and the author of the Source and nothing else; inside the feed
of its Source nothing is written for the Source. -/
theorem Source_MarshalTo_in_entry_witness :
    (postedBackend.heap[0]?).map (fun s => s.Id)
      = some (some (atomId "urn:uuid:00000000-0000-4000-8000-000000000001")) ∧
    (postedBackend.heap[0]?).bind (fun s =>
      (Source.MarshalTo mime.ParseMediaType (some s)
        (some (atomId "urn:uuid:00000000-0000-4000-8000-000000000001"))
        (some postedEntry)).toOption) = some [] ∧
    (postedBackend.heap[0]?).bind (fun s =>
      (Source.MarshalTo mime.ParseMediaType (some s)
        (some (atomId "urn:uuid:00000000-0000-4000-8000-000000000009"))
        (some postedEntry)).toOption)
      = some (ascii "<source><id>urn:uuid:00000000-0000-4000-8000-000000000001</id>"
          ++ ascii "<author><name>John Doe</name></author></source>") ∧
    Source.MarshalTo mime.ParseMediaType (some sampleSource)
      (some (atomId "urn:uuid:00000000-0000-4000-8000-000000000001")) (some sampleEntry)
      = .ok [] :=
  ⟨by decide, by decide, by decide,
    (Source_MarshalTo_in_entry mime.ParseMediaType sampleSource sampleEntry
      (atomId "urn:uuid:00000000-0000-4000-8000-000000000001")).1 rfl⟩

/-! ## UTF-8: what `bytes.Map` writes back -/

theorem dropNewlinesFrom_zero_cons (b : Nat) (rest : Bytes) :
    dropNewlinesFrom 0 (b :: rest) =
      (if (utf8.DecodeRune (b :: rest)).1 = 10 then []
        else utf8.EncodeRune (utf8.DecodeRune (b :: rest)).1)
      ++ dropNewlinesFrom ((utf8.DecodeRune (b :: rest)).2 - 1) rest := by
  simp [dropNewlinesFrom]

theorem dropNewlinesFrom_skip (pre t : Bytes) :
    dropNewlinesFrom pre.length (pre ++ t) = dropNewlinesFrom 0 t := by
  induction pre with
  | nil => rfl
  | cons x xs ih => simpa [dropNewlinesFrom] using ih

theorem DecodeRune_one (a : Nat) (t : Bytes) (ha : a < 0x80) :
    utf8.DecodeRune (a :: t) = (a, 1) := by
  simp [utf8.DecodeRune, ha]

theorem DecodeRune_two (a b : Nat) (t : Bytes) (ha : 0xC2 ≤ a) (ha2 : a < 0xE0)
    (hb : 0x80 ≤ b) (hb2 : b ≤ 0xBF) :
    utf8.DecodeRune (a :: b :: t) = ((a % 0x20) * 0x40 + b % 0x40, 2) := by
  have h1 : ¬ a < 0x80 := by omega
  have h2 : ¬ a < 0xC2 := by omega
  have hc : utf8.isCont b = true := by simp [utf8.isCont, hb, hb2]
  simp [utf8.DecodeRune, h1, h2, ha2, hc]

theorem DecodeRune_three (a b c : Nat) (t : Bytes) (ha : 0xE0 ≤ a) (ha2 : a < 0xF0)
    (hlo : (if a = 0xE0 then 0xA0 else 0x80) ≤ b)
    (hhi : b ≤ (if a = 0xED then 0x9F else 0xBF))
    (hc : 0x80 ≤ c) (hc2 : c ≤ 0xBF) :
    utf8.DecodeRune (a :: b :: c :: t)
      = ((a % 0x10) * 0x1000 + (b % 0x40) * 0x40 + c % 0x40, 3) := by
  have h1 : ¬ a < 0x80 := by omega
  have h2 : ¬ a < 0xC2 := by omega
  have h3 : ¬ a < 0xE0 := by omega
  have hcc : utf8.isCont c = true := by simp [utf8.isCont, hc, hc2]
  have hlo' : ¬ b < (if a = 0xE0 then 0xA0 else 0x80) := by omega
  have hhi' : ¬ (if a = 0xED then 0x9F else 0xBF) < b := by omega
  simp [utf8.DecodeRune, h1, h2, h3, ha2, hcc, hlo', hhi']

theorem DecodeRune_four (a b c d : Nat) (t : Bytes) (ha : 0xF0 ≤ a) (ha2 : a < 0xF5)
    (hlo : (if a = 0xF0 then 0x90 else 0x80) ≤ b)
    (hhi : b ≤ (if a = 0xF4 then 0x8F else 0xBF))
    (hc : 0x80 ≤ c) (hc2 : c ≤ 0xBF) (hd : 0x80 ≤ d) (hd2 : d ≤ 0xBF) :
    utf8.DecodeRune (a :: b :: c :: d :: t)
      = ((a % 0x08) * 0x40000 + (b % 0x40) * 0x1000 + (c % 0x40) * 0x40 + d % 0x40, 4) := by
  have h1 : ¬ a < 0x80 := by omega
  have h2 : ¬ a < 0xC2 := by omega
  have h3 : ¬ a < 0xE0 := by omega
  have h4 : ¬ a < 0xF0 := by omega
  have hcc : utf8.isCont c = true := by simp [utf8.isCont, hc, hc2]
  have hdd : utf8.isCont d = true := by simp [utf8.isCont, hd, hd2]
  have hlo' : ¬ b < (if a = 0xF0 then 0x90 else 0x80) := by omega
  have hhi' : ¬ (if a = 0xF4 then 0x8F else 0xBF) < b := by omega
  simp [utf8.DecodeRune, h1, h2, h3, h4, ha2, hcc, hdd, hlo', hhi']

/-- The encoding of a rune is decoded to a rune with the same encoding, over
all its bytes. -/
theorem DecodeRune_EncodeRune (r : Nat) (t : Bytes) :
    utf8.EncodeRune (utf8.DecodeRune (utf8.EncodeRune r ++ t)).1 = utf8.EncodeRune r ∧
    (utf8.DecodeRune (utf8.EncodeRune r ++ t)).2 = (utf8.EncodeRune r).length ∧
    ((utf8.DecodeRune (utf8.EncodeRune r ++ t)).1 = 10 ↔ r = 10) := by
  by_cases h1 : r < 0x80
  · have he : utf8.EncodeRune r = [r] := by simp [utf8.EncodeRune, h1]
    rw [he, List.singleton_append, DecodeRune_one r t h1]
    simp [he]
  by_cases h2 : r < 0x800
  · have he : utf8.EncodeRune r = [0xC0 + r / 0x40, 0x80 + r % 0x40] := by
      simp [utf8.EncodeRune, h1, h2]
    have e : [0xC0 + r / 0x40, 0x80 + r % 0x40] ++ t
        = (0xC0 + r / 0x40) :: (0x80 + r % 0x40) :: t := rfl
    have hv : (0xC0 + r / 0x40) % 0x20 * 0x40 + (0x80 + r % 0x40) % 0x40 = r := by omega
    rw [he, e, DecodeRune_two _ _ t (by omega) (by omega) (by omega) (by omega), hv, he]
    simp
  by_cases h3 : utf8.ValidRune r = true
  · have hr : (r < 0xD800 ∨ 0xDFFF < r) ∧ r ≤ 0x10FFFF := by
      simp only [utf8.ValidRune, Bool.or_eq_true, decide_eq_true_eq, Bool.and_eq_true] at h3
      omega
    by_cases h4 : r < 0x10000
    · have he : utf8.EncodeRune r
          = [0xE0 + r / 0x1000, 0x80 + r / 0x40 % 0x40, 0x80 + r % 0x40] := by
        simp [utf8.EncodeRune, h1, h2, h3, h4]
      have e : [0xE0 + r / 0x1000, 0x80 + r / 0x40 % 0x40, 0x80 + r % 0x40] ++ t
          = (0xE0 + r / 0x1000) :: (0x80 + r / 0x40 % 0x40) :: (0x80 + r % 0x40) :: t := rfl
      have hv : (0xE0 + r / 0x1000) % 0x10 * 0x1000 + (0x80 + r / 0x40 % 0x40) % 0x40 * 0x40
          + (0x80 + r % 0x40) % 0x40 = r := by omega
      rw [he, e, DecodeRune_three _ _ _ t (by omega) (by omega) (by split_ifs <;> omega)
        (by split_ifs <;> omega) (by omega) (by omega), hv, he]
      simp
    · have he : utf8.EncodeRune r
          = [0xF0 + r / 0x40000, 0x80 + r / 0x1000 % 0x40, 0x80 + r / 0x40 % 0x40,
              0x80 + r % 0x40] := by
        simp [utf8.EncodeRune, h1, h2, h3, h4]
      have e : [0xF0 + r / 0x40000, 0x80 + r / 0x1000 % 0x40, 0x80 + r / 0x40 % 0x40,
          0x80 + r % 0x40] ++ t
          = (0xF0 + r / 0x40000) :: (0x80 + r / 0x1000 % 0x40) :: (0x80 + r / 0x40 % 0x40)
            :: (0x80 + r % 0x40) :: t := rfl
      have hv : (0xF0 + r / 0x40000) % 0x08 * 0x40000
          + (0x80 + r / 0x1000 % 0x40) % 0x40 * 0x1000
          + (0x80 + r / 0x40 % 0x40) % 0x40 * 0x40 + (0x80 + r % 0x40) % 0x40 = r := by omega
      rw [he, e, DecodeRune_four _ _ _ _ t (by omega) (by omega) (by split_ifs <;> omega)
        (by split_ifs <;> omega) (by omega) (by omega) (by omega) (by omega), hv, he]
      simp
  · have he : utf8.EncodeRune r = [0xEF, 0xBF, 0xBD] := by
      simp [utf8.EncodeRune, h1, h2, h3]
    have e : [0xEF, 0xBF, 0xBD] ++ t = 0xEF :: 0xBF :: 0xBD :: t := rfl
    rw [he, e, DecodeRune_three _ _ _ t (by omega) (by omega) (by simp) (by simp) (by omega)
      (by omega)]
    refine ⟨by decide, rfl, ?_⟩
    constructor
    · intro h
      exact absurd h (by decide)
    · intro h
      omega

theorem EncodeRune_ne_nil (r : Nat) : utf8.EncodeRune r ≠ [] := by
  unfold utf8.EncodeRune
  split_ifs <;> simp

theorem EncodeRune_high (r : Nat) (hr : 0x80 ≤ r) : ∀ x ∈ utf8.EncodeRune r, 0x80 ≤ x := by
  unfold utf8.EncodeRune
  split_ifs with h1 h2 h3 h4
  · omega
  all_goals
    intro x hx
    simp only [List.mem_cons, List.mem_singleton, List.not_mem_nil, or_false] at hx
    omega

/-- What `bytes.Map` writes for a rune other than the newline, it reads back
and writes again as it is. -/
theorem dropNewlinesFrom_EncodeRune (r : Nat) (hr : r ≠ 10) (t : Bytes) :
    dropNewlinesFrom 0 (utf8.EncodeRune r ++ t) = utf8.EncodeRune r ++ dropNewlinesFrom 0 t := by
  obtain ⟨h1, h2, h3⟩ := DecodeRune_EncodeRune r t
  have hne := EncodeRune_ne_nil r
  cases he : utf8.EncodeRune r with
  | nil => exact absurd he hne
  | cons x xs =>
    rw [he] at h1 h2 h3
    rw [List.cons_append, dropNewlinesFrom_zero_cons]
    rw [List.cons_append] at h1 h2 h3
    have hn : ¬ (utf8.DecodeRune (x :: (xs ++ t))).1 = 10 := fun h => hr (h3.1 h)
    rw [if_neg hn, h1, h2]
    simp only [List.length_cons, Nat.add_sub_cancel, List.cons_append, List.cons.injEq, true_and,
      List.append_cancel_left_eq]
    exact dropNewlinesFrom_skip xs t

/-- A rune that `DecodeRune` reads from a valid encoding is encoded by the
bytes it was read from. -/
theorem DecodeRune_valid (p0 : Nat) (rest : Bytes)
    (h : ¬ ((utf8.DecodeRune (p0 :: rest)).1 = utf8.RuneError
      ∧ (utf8.DecodeRune (p0 :: rest)).2 = 1)) :
    utf8.EncodeRune (utf8.DecodeRune (p0 :: rest)).1
      = (p0 :: rest).take (utf8.DecodeRune (p0 :: rest)).2 ∧
    ((utf8.DecodeRune (p0 :: rest)).1 = 10 ↔ p0 = 10) ∧
    (p0 < 0x80 ∧ utf8.DecodeRune (p0 :: rest) = (p0, 1) ∨
      0x80 ≤ p0 ∧ ∀ x ∈ (p0 :: rest).take (utf8.DecodeRune (p0 :: rest)).2, 0x80 ≤ x) := by
  by_cases h1 : p0 < 0x80
  · rw [DecodeRune_one p0 rest h1]
    refine ⟨by simp [utf8.EncodeRune, h1], Iff.rfl, Or.inl ⟨h1, rfl⟩⟩
  by_cases h2 : p0 < 0xC2
  · exact absurd (by simp [utf8.DecodeRune, h1, h2]) h
  by_cases h3 : p0 < 0xE0
  · rcases rest with _ | ⟨b1, t⟩
    · exact absurd (by simp [utf8.DecodeRune, h1, h2, h3]) h
    · by_cases hc : utf8.isCont b1 = true
      · have hb : 0x80 ≤ b1 ∧ b1 ≤ 0xBF := by simpa [utf8.isCont] using hc
        rw [DecodeRune_two p0 b1 t (by omega) h3 hb.1 hb.2]
        have hr1 : ¬ (p0 % 0x20 * 0x40 + b1 % 0x40 < 0x80) := by omega
        have hr2 : p0 % 0x20 * 0x40 + b1 % 0x40 < 0x800 := by omega
        refine ⟨?_, ?_, Or.inr ⟨by omega, ?_⟩⟩
        · simp only [utf8.EncodeRune, hr1, hr2, if_true, if_false, List.take_succ_cons,
            List.take_zero, List.cons.injEq, and_true]
          omega
        · constructor <;> intro hh <;> omega
        · intro x hx
          simp only [List.take_succ_cons, List.take_zero, List.mem_cons, List.mem_singleton,
            List.not_mem_nil, or_false] at hx
          omega
      · exact absurd (by simp [utf8.DecodeRune, h1, h2, h3, hc]) h
  by_cases h4 : p0 < 0xF0
  · rcases rest with _ | ⟨b1, _ | ⟨b2, t⟩⟩
    · exact absurd (by simp [utf8.DecodeRune, h1, h2, h3, h4]) h
    · exact absurd (by simp [utf8.DecodeRune, h1, h2, h3, h4]) h
    · by_cases hlo : b1 < (if p0 = 0xE0 then 0xA0 else 0x80)
      · exact absurd (by simp [utf8.DecodeRune, h1, h2, h3, h4, hlo]) h
      by_cases hhi : (if p0 = 0xED then 0x9F else 0xBF) < b1
      · exact absurd (by simp [utf8.DecodeRune, h1, h2, h3, h4, hlo, hhi]) h
      by_cases hc : utf8.isCont b2 = true
      · have hb : 0x80 ≤ b2 ∧ b2 ≤ 0xBF := by simpa [utf8.isCont] using hc
        have hlo2 : 0x80 ≤ b1 := by
          split_ifs at hlo <;> omega
        have hhi2 : b1 ≤ 0xBF := by
          split_ifs at hhi <;> omega
        rw [DecodeRune_three p0 b1 b2 t (by omega) h4 (by omega) (by omega) hb.1 hb.2]
        have hr1 : ¬ (p0 % 0x10 * 0x1000 + b1 % 0x40 * 0x40 + b2 % 0x40 < 0x80) := by
          split_ifs at hlo <;> omega
        have hr2 : ¬ (p0 % 0x10 * 0x1000 + b1 % 0x40 * 0x40 + b2 % 0x40 < 0x800) := by
          split_ifs at hlo <;> omega
        have hr4 : p0 % 0x10 * 0x1000 + b1 % 0x40 * 0x40 + b2 % 0x40 < 0x10000 := by omega
        have hv : utf8.ValidRune (p0 % 0x10 * 0x1000 + b1 % 0x40 * 0x40 + b2 % 0x40) = true := by
          simp only [utf8.ValidRune, Bool.or_eq_true, decide_eq_true_eq, Bool.and_eq_true]
          split_ifs at hhi <;> omega
        refine ⟨?_, ?_, Or.inr ⟨by omega, ?_⟩⟩
        · simp only [utf8.EncodeRune, hr1, hr2, hr4, hv, if_true, if_false, Bool.not_true,
            Bool.false_eq_true, List.take_succ_cons, List.take_zero, List.cons.injEq, and_true]
          omega
        · constructor <;> intro hh <;> omega
        · intro x hx
          simp only [List.take_succ_cons, List.take_zero, List.mem_cons, List.mem_singleton,
            List.not_mem_nil, or_false] at hx
          omega
      · exact absurd (by simp [utf8.DecodeRune, h1, h2, h3, h4, hlo, hhi, hc]) h
  by_cases h5 : p0 < 0xF5
  · rcases rest with _ | ⟨b1, _ | ⟨b2, _ | ⟨b3, t⟩⟩⟩
    · exact absurd (by simp [utf8.DecodeRune, h1, h2, h3, h4, h5]) h
    · exact absurd (by simp [utf8.DecodeRune, h1, h2, h3, h4, h5]) h
    · exact absurd (by simp [utf8.DecodeRune, h1, h2, h3, h4, h5]) h
    · by_cases hlo : b1 < (if p0 = 0xF0 then 0x90 else 0x80)
      · exact absurd (by simp [utf8.DecodeRune, h1, h2, h3, h4, h5, hlo]) h
      by_cases hhi : (if p0 = 0xF4 then 0x8F else 0xBF) < b1
      · exact absurd (by simp [utf8.DecodeRune, h1, h2, h3, h4, h5, hlo, hhi]) h
      by_cases hc : utf8.isCont b2 = true
      · by_cases hd : utf8.isCont b3 = true
        · have hb : 0x80 ≤ b2 ∧ b2 ≤ 0xBF := by simpa [utf8.isCont] using hc
          have hb3 : 0x80 ≤ b3 ∧ b3 ≤ 0xBF := by simpa [utf8.isCont] using hd
          have hlo2 : 0x80 ≤ b1 := by
            split_ifs at hlo <;> omega
          have hhi2 : b1 ≤ 0xBF := by
            split_ifs at hhi <;> omega
          rw [DecodeRune_four p0 b1 b2 b3 t (by omega) h5 (by omega) (by omega) hb.1 hb.2
            hb3.1 hb3.2]
          have hr4 : ¬ (p0 % 0x08 * 0x40000 + b1 % 0x40 * 0x1000 + b2 % 0x40 * 0x40 + b3 % 0x40
              < 0x10000) := by
            split_ifs at hlo <;> omega
          have hr1 : ¬ (p0 % 0x08 * 0x40000 + b1 % 0x40 * 0x1000 + b2 % 0x40 * 0x40 + b3 % 0x40
              < 0x80) := by omega
          have hr2 : ¬ (p0 % 0x08 * 0x40000 + b1 % 0x40 * 0x1000 + b2 % 0x40 * 0x40 + b3 % 0x40
              < 0x800) := by omega
          have hv : utf8.ValidRune
              (p0 % 0x08 * 0x40000 + b1 % 0x40 * 0x1000 + b2 % 0x40 * 0x40 + b3 % 0x40)
              = true := by
            simp only [utf8.ValidRune, Bool.or_eq_true, decide_eq_true_eq, Bool.and_eq_true]
            split_ifs at hhi <;> omega
          refine ⟨?_, ?_, Or.inr ⟨by omega, ?_⟩⟩
          · simp only [utf8.EncodeRune, hr1, hr2, hr4, hv, if_true, if_false, Bool.not_true,
              Bool.false_eq_true, List.take_succ_cons, List.take_zero, List.cons.injEq, and_true]
            omega
          · constructor <;> intro hh <;> omega
          · intro x hx
            simp only [List.take_succ_cons, List.take_zero, List.mem_cons, List.mem_singleton,
              List.not_mem_nil, or_false] at hx
            omega
        · exact absurd (by simp [utf8.DecodeRune, h1, h2, h3, h4, h5, hlo, hhi, hc, hd]) h
      · exact absurd (by simp [utf8.DecodeRune, h1, h2, h3, h4, h5, hlo, hhi, hc]) h
  · exact absurd (by simp [utf8.DecodeRune, h1, h2, h3, h4, h5]) h

/-! ## Text that `bytes.Map` leaves as it is -/

theorem Runes_stable (s : Bytes) (h : Runes s) (t : Bytes) :
    dropNewlinesFrom 0 (s ++ t) = s ++ dropNewlinesFrom 0 t := by
  induction h with
  | nil => rfl
  | ascii b rest hb hn _ ih =>
    rw [List.cons_append, dropNewlinesFrom_zero_cons, DecodeRune_one b _ hb]
    simp [hn, utf8.EncodeRune, hb, ih]
  | multi raw rest _ _ hst _ ih =>
    rw [List.append_assoc, hst, ih, List.append_assoc]

theorem Runes_fixed (s : Bytes) (h : Runes s) : dropNewlinesFrom 0 s = s := by
  have := Runes_stable s h []
  simpa [dropNewlinesFrom] using this

theorem Runes_no_newline (s : Bytes) (h : Runes s) : 10 ∉ s := by
  induction h with
  | nil => simp
  | ascii b rest hb hn _ ih =>
    intro hm
    rcases List.mem_cons.1 hm with h1 | h1
    · exact hn h1.symm
    · exact ih h1
  | multi raw rest _ hhigh _ _ ih =>
    intro hm
    rcases List.mem_append.1 hm with h1 | h1
    · have := hhigh 10 h1
      omega
    · exact ih h1

theorem Runes_append (s t : Bytes) (hs : Runes s) (ht : Runes t) : Runes (s ++ t) := by
  induction hs with
  | nil => exact ht
  | ascii b rest hb hn _ ih => exact Runes.ascii b _ hb hn ih
  | multi raw rest hne hhigh hst _ ih =>
    rw [List.append_assoc]
    exact Runes.multi raw _ hne hhigh hst ih

theorem Runes_of_ascii (s : Bytes) (h : ∀ x ∈ s, x < 0x80 ∧ x ≠ 10) : Runes s := by
  induction s with
  | nil => exact Runes.nil
  | cons b rest ih =>
    exact Runes.ascii b rest (h b (by simp)).1 (h b (by simp)).2
      (ih (fun x hx => h x (List.mem_cons_of_mem _ hx)))

theorem Runes_EncodeRune (r : Nat) (hr : r ≠ 10) (rest : Bytes) (h : Runes rest) :
    Runes (utf8.EncodeRune r ++ rest) := by
  by_cases h1 : r < 0x80
  · have he : utf8.EncodeRune r = [r] := by simp [utf8.EncodeRune, h1]
    rw [he]
    exact Runes.ascii r rest h1 hr h
  · exact Runes.multi _ rest (EncodeRune_ne_nil r) (EncodeRune_high r (by omega))
      (dropNewlinesFrom_EncodeRune r hr) h

/-- What `bytes.Map` returns is text that it leaves as it is. -/
theorem Runes_dropNewlinesFrom (s : Bytes) : ∀ skip, Runes (dropNewlinesFrom skip s) := by
  induction s with
  | nil =>
    intro skip
    cases skip <;> exact Runes.nil
  | cons b rest ih =>
    intro skip
    cases skip with
    | succ k => exact ih k
    | zero =>
      rw [dropNewlinesFrom_zero_cons]
      by_cases h : (utf8.DecodeRune (b :: rest)).1 = 10
      · rw [if_pos h]
        exact ih _
      · rw [if_neg h]
        exact Runes_EncodeRune _ h _ (ih _)

theorem dropNewlinesFrom_idem (x : Bytes) :
    dropNewlinesFrom 0 (dropNewlinesFrom 0 x) = dropNewlinesFrom 0 x :=
  Runes_fixed _ (Runes_dropNewlinesFrom x 0)

/-- On valid UTF-8, `bytes.Map` with the mapping of `preparePutContent`
removes the newline bytes and keeps every other byte. -/
theorem dropNewlinesFrom_valid (s : Bytes) : ∀ skip, utf8.validFrom skip s = true →
    dropNewlinesFrom skip s = (s.drop skip).filter (fun b => b ≠ 10) := by
  induction s with
  | nil =>
    intro skip _
    cases skip <;> rfl
  | cons b rest ih =>
    intro skip hv
    cases skip with
    | succ k =>
      simp only [utf8.validFrom] at hv
      simpa [dropNewlinesFrom] using ih k hv
    | zero =>
      have hw := DecodeRune_width b rest
      have hvalid : ¬ ((utf8.DecodeRune (b :: rest)).1 = utf8.RuneError
          ∧ (utf8.DecodeRune (b :: rest)).2 = 1) := by
        intro hbad
        simp [utf8.validFrom, hbad.1, hbad.2] at hv
      have hrest : utf8.validFrom ((utf8.DecodeRune (b :: rest)).2 - 1) rest = true := by
        simp only [utf8.validFrom] at hv
        split_ifs at hv with hc
        exact hv
      obtain ⟨henc, hnl, hcase⟩ := DecodeRune_valid b rest hvalid
      rw [dropNewlinesFrom_zero_cons, ih _ hrest, List.drop_zero]
      have hsplit : b :: rest = (b :: rest).take (utf8.DecodeRune (b :: rest)).2
          ++ rest.drop ((utf8.DecodeRune (b :: rest)).2 - 1) := by
        obtain ⟨k, hk⟩ : ∃ k, (utf8.DecodeRune (b :: rest)).2 = k + 1 :=
          ⟨(utf8.DecodeRune (b :: rest)).2 - 1, by omega⟩
        rw [hk]
        simp
      conv_rhs => rw [hsplit, List.filter_append]
      congr 1
      rcases hcase with ⟨hb, hd⟩ | ⟨hb, hhigh⟩
      · rw [hd]
        by_cases h10 : b = 10
        · simp [h10]
        · simp [h10, utf8.EncodeRune, hb]
      · have hne : ¬ (utf8.DecodeRune (b :: rest)).1 = 10 := by
          intro h
          have := hnl.1 h
          omega
        rw [if_neg hne, henc]
        symm
        rw [List.filter_eq_self]
        intro x hx
        have := hhigh x hx
        simp only [ne_eq, decide_not, Bool.not_eq_eq_eq_not, Bool.not_true, decide_eq_false_iff_not]
        omega

/-! ## The output of ingestion is text that `bytes.Map` leaves as it is -/

theorem digitChar_digit (m : Nat) (hm : m < 10) :
    48 ≤ (Nat.digitChar m).toNat ∧ (Nat.digitChar m).toNat ≤ 57 := by
  interval_cases m <;> decide

theorem toDigitsCore_digit (fuel : Nat) : ∀ (n : Nat) (ds : List Char),
    (∀ c ∈ ds, 48 ≤ c.toNat ∧ c.toNat ≤ 57) →
    ∀ c ∈ Nat.toDigitsCore 10 fuel n ds, 48 ≤ c.toNat ∧ c.toNat ≤ 57 := by
  induction fuel with
  | zero =>
    intro n ds hds c hc
    exact hds c (by simpa [Nat.toDigitsCore] using hc)
  | succ k ih =>
    intro n ds hds c hc
    have hd := digitChar_digit (n % 10) (Nat.mod_lt _ (by decide))
    have hcons : ∀ c ∈ Nat.digitChar (n % 10) :: ds, 48 ≤ c.toNat ∧ c.toNat ≤ 57 := by
      intro c hc
      rcases List.mem_cons.1 hc with h | h
      · rw [h]
        exact hd
      · exact hds c h
    simp only [Nat.toDigitsCore] at hc
    split_ifs at hc
    · exact hcons c hc
    · exact ih _ _ hcons c hc

theorem digits_digit (n : Nat) : ∀ x ∈ Time.digits n, 48 ≤ x ∧ x ≤ 57 := by
  intro x hx
  simp only [Time.digits, List.mem_map] at hx
  obtain ⟨c, hc, rfl⟩ := hx
  exact toDigitsCore_digit _ _ [] (by simp) c hc

theorem Runes_digits (n : Nat) : Runes (Time.digits n) :=
  Runes_of_ascii _ (fun x hx => by
    have := digits_digit n x hx
    omega)

theorem Runes_escapeRune (b : Nat) (rest : Bytes) :
    Runes (xml.escapeRune (utf8.DecodeRune (b :: rest)).1 (utf8.DecodeRune (b :: rest)).2
      ((b :: rest).take (utf8.DecodeRune (b :: rest)).2)) := by
  unfold xml.escapeRune
  split_ifs with h1 h2 h3 h4 h5 h6 h7 h8 h9
  · exact Runes_of_ascii _ (by decide)
  · exact Runes_of_ascii _ (by decide)
  · exact Runes_of_ascii _ (by decide)
  · exact Runes_of_ascii _ (by decide)
  · exact Runes_of_ascii _ (by decide)
  · exact Runes_of_ascii _ (by decide)
  · exact Runes_of_ascii _ (by decide)
  · exact Runes_of_ascii _ (by decide)
  · have := Runes_EncodeRune 0xFFFD (by decide) [] Runes.nil
    simpa [utf8.EncodeRune, utf8.ValidRune] using this
  · have hvalid : ¬ ((utf8.DecodeRune (b :: rest)).1 = utf8.RuneError
        ∧ (utf8.DecodeRune (b :: rest)).2 = 1) := by
      intro hbad
      apply h9
      simp [hbad.1, hbad.2]
    obtain ⟨henc, _, _⟩ := DecodeRune_valid b rest hvalid
    rw [← henc]
    have := Runes_EncodeRune (utf8.DecodeRune (b :: rest)).1 h7 [] Runes.nil
    simpa using this

theorem Runes_escapeFrom (s : Bytes) : ∀ skip, Runes (xml.escapeFrom skip s) := by
  induction s with
  | nil =>
    intro skip
    cases skip <;> exact Runes.nil
  | cons b rest ih =>
    intro skip
    cases skip with
    | succ k => exact ih k
    | zero =>
      simp only [xml.escapeFrom]
      exact Runes_append _ _ (Runes_escapeRune b rest) (ih _)

theorem Runes_EscapeText (s : Bytes) : Runes (xml.EscapeText s) := Runes_escapeFrom s 0

theorem scanStep_buf (slack : Nat) (st : ScanState) (input_bytes : Bytes) :
    ∃ x, (scanStep slack st input_bytes).1.buf = st.buf ++ xml.EscapeText x := by
  unfold scanStep
  split
  · exact ⟨_, rfl⟩
  · unfold scanChunk
    split
    · split
      · exact ⟨_, rfl⟩
      · exact ⟨_, rfl⟩
    · exact ⟨_, rfl⟩

theorem Runes_scanLoop (slack : Nat) (fuel : Nat) : ∀ (st : ScanState) (input_bytes : Bytes),
    Runes st.buf → Runes (scanLoop slack fuel st input_bytes).buf := by
  induction fuel with
  | zero =>
    intro st input_bytes h
    exact h
  | succ k ih =>
    intro st input_bytes h
    obtain ⟨x, hx⟩ := scanStep_buf slack st input_bytes
    have h1 : Runes (scanStep slack st input_bytes).1.buf := by
      rw [hx]
      exact Runes_append _ _ h (Runes_EscapeText x)
    simp only [scanLoop]
    split
    · rename_i st1 heq
      rw [heq] at h1
      exact h1
    · rename_i st1 r heq
      rw [heq] at h1
      exact ih st1 r h1

theorem Runes_footerLinks (us : List Bytes) : ∀ k, Runes (footerLinks k us) := by
  induction us with
  | nil =>
    intro k
    exact Runes.nil
  | cons u us ih =>
    intro k
    simp only [footerLinks]
    have h1 : Runes (ascii "<a href=\"") := Runes_of_ascii _ (by decide)
    have h2 : Runes (ascii "\">[") := Runes_of_ascii _ (by decide)
    have h3 : Runes (ascii "]&#xA0;") := Runes_of_ascii _ (by decide)
    have h4 : Runes (ascii "</a>") := Runes_of_ascii _ (by decide)
    exact Runes_append _ _ (Runes_append _ _ (Runes_append _ _ (Runes_append _ _
      (Runes_append _ _ (Runes_append _ _ (Runes_append _ _ h1 (Runes_EscapeText u)) h2)
        (Runes_digits _)) h3) (Runes_EscapeText u)) h4) (ih _)

/-- The output of `preparePlainText` is text that `bytes.Map` leaves as it
is. -/
theorem Runes_preparePlainText (slack : Nat) (input : Bytes) :
    Runes (preparePlainText slack input).1 := by
  have h := Runes_scanLoop slack (input.length + 1)
    { buf := xhtmlOpen, urls := [], categories := [] } input (Runes_of_ascii _ (by decide))
  simp only [preparePlainText, finishPlainText, scanInput]
  refine Runes_append _ _ ?_ (Runes_of_ascii _ (by decide))
  split_ifs
  · exact Runes_append _ _ (Runes_append _ _ (Runes_append _ _
      (Runes_append _ _ h (Runes_of_ascii _ (by decide))) (Runes_of_ascii _ (by decide)))
      (Runes_footerLinks _ _)) (Runes_of_ascii _ (by decide))
  · exact Runes_append _ _ h (Runes_of_ascii _ (by decide))

/-! ## C33: the line breaks of the store and the content of an entry -/

theorem stageLines_true_cons (l : Bytes) (b : Nat) (rest : Bytes) :
    stageLines l true (b :: rest)
      = (if b ≠ 60 then [b] else [10, b]) ++ stageLines [] false rest := by
  rw [stageLines]

theorem stageLines_false_cons (l : Bytes) (c : Nat) (rest : Bytes) :
    stageLines l false (c :: rest)
      = if c = 62 then l ++ [c] ++ stageLines [] true rest
        else stageLines (l ++ [c]) false rest := by
  rw [stageLines]

theorem stageLines_nil (l : Bytes) (f : Bool) : stageLines l f [] = [] := by
  cases f <;> rw [stageLines]

theorem stageNext_true_cons (c : Nat) (rest : Bytes) :
    stageNext true (c :: rest) = stageNext false rest := by
  rw [stageNext]

theorem stageNext_false_cons (c : Nat) (rest : Bytes) :
    stageNext false (c :: rest) = stageNext (decide (c = 62)) rest := by
  rw [stageNext]

theorem stageNext_nil (f : Bool) : stageNext f [] = f := by
  cases f <;> rw [stageNext]

theorem stageLines_flush (s : Bytes) : ∀ l, 62 ∈ s →
    stageLines l false s = l ++ stageLines [] false s := by
  induction s with
  | nil =>
    intro l h
    simp at h
  | cons c rest ih =>
    intro l h
    by_cases hc : c = 62
    · rw [stageLines_false_cons, stageLines_false_cons, if_pos hc, if_pos hc]
      simp
    · have hr : 62 ∈ rest := by
        rcases List.mem_cons.1 h with h1 | h1
        · exact absurd h1.symm hc
        · exact h1
      rw [stageLines_false_cons, stageLines_false_cons, if_neg hc, if_neg hc,
        ih (l ++ [c]) hr, ih ([] ++ [c]) hr]
      simp

theorem stageNext_append (a : Bytes) : ∀ (f : Bool) (b : Bytes),
    stageNext f (a ++ b) = stageNext (stageNext f a) b := by
  induction a with
  | nil =>
    intro f b
    rw [stageNext_nil, List.nil_append]
  | cons c rest ih =>
    intro f b
    cases f
    · rw [List.cons_append, stageNext_false_cons, stageNext_false_cons, ih]
    · rw [List.cons_append, stageNext_true_cons, stageNext_true_cons, ih]

theorem stageNext_gt (X : Bytes) (c : Nat) (hc : c ≠ 62) (f : Bool) :
    stageNext f (X ++ [c, 62]) = true := by
  rw [stageNext_append]
  cases stageNext f X
  · rw [stageNext_false_cons]
    simp only [hc, decide_False]
    rw [stageNext_false_cons, stageNext_nil]
    simp
  · rw [stageNext_true_cons, stageNext_false_cons, stageNext_nil]
    simp

theorem stageNext_high (raw : Bytes) (h : ∀ x ∈ raw, x ≠ 62) : stageNext false raw = false := by
  induction raw with
  | nil => rfl
  | cons c rest ih =>
    have hc : c ≠ 62 := h c (by simp)
    rw [stageNext_false_cons]
    simp only [hc, decide_False]
    exact ih (fun x hx => h x (List.mem_cons_of_mem _ hx))

theorem stageLines_high (raw : Bytes) (h : ∀ x ∈ raw, x ≠ 62) : ∀ (l X : Bytes),
    stageLines l false (raw ++ X) = stageLines (l ++ raw) false X := by
  induction raw with
  | nil =>
    intro l X
    simp
  | cons c rest ih =>
    intro l X
    have hc : c ≠ 62 := h c (by simp)
    rw [List.cons_append, stageLines_false_cons, if_neg hc,
      ih (fun x hx => h x (List.mem_cons_of_mem _ hx))]
    simp

theorem getLast?_cons_of_ne_nil (c : Nat) (rest : Bytes) (hne : rest ≠ [])
    (h : (c :: rest).getLast? = some 62) : rest.getLast? = some 62 := by
  cases rest with
  | nil => exact absurd rfl hne
  | cons d rest2 => simpa [List.getLast?_cons_cons] using h

/-- The loop splits after a `>`: what is read up to there is written before
the rest is read. -/
theorem stageLines_split (X : Bytes) : ∀ (l : Bytes) (f : Bool) (Z : Bytes),
    X.getLast? = some 62 →
    stageLines l f (X ++ Z) = stageLines l f X ++ stageLines [] (stageNext f X) Z := by
  induction X with
  | nil =>
    intro l f Z h
    simp at h
  | cons c rest ih =>
    intro l f Z h
    by_cases hne : rest = []
    · subst hne
      have hc : c = 62 := by simpa using h
      subst hc
      cases f
      · rw [List.cons_append, List.nil_append, stageLines_false_cons, stageLines_false_cons,
          if_pos rfl, if_pos rfl, stageLines_nil, stageNext_false_cons, stageNext_nil]
        simp
      · rw [List.cons_append, List.nil_append, stageLines_true_cons, stageLines_true_cons,
          stageLines_nil, stageNext_true_cons, stageNext_nil]
        simp
    · have hr := getLast?_cons_of_ne_nil c rest hne h
      cases f
      · by_cases hc : c = 62
        · rw [List.cons_append, stageLines_false_cons, stageLines_false_cons, if_pos hc, if_pos hc,
            stageNext_false_cons, ih [] true Z hr]
          simp [hc]
        · rw [List.cons_append, stageLines_false_cons, stageLines_false_cons, if_neg hc, if_neg hc,
            stageNext_false_cons, ih (l ++ [c]) false Z hr]
          simp [hc]
      · rw [List.cons_append, stageLines_true_cons, stageLines_true_cons, stageNext_true_cons,
          ih [] false Z hr]
        simp

/-- Over text that ends in `>`, the loop adds nothing but newlines. -/
theorem stageLines_filter (s : Bytes) : ∀ (l : Bytes) (f : Bool), s.getLast? = some 62 →
    (stageLines l f s).filter (fun b => b ≠ 10)
      = ((if f then [] else l) ++ s).filter (fun b => b ≠ 10) := by
  induction s with
  | nil =>
    intro l f h
    simp at h
  | cons c rest ih =>
    intro l f h
    by_cases hne : rest = []
    · subst hne
      have hc : c = 62 := by simpa using h
      subst hc
      cases f
      · rw [stageLines_false_cons, if_pos rfl, stageLines_nil]
        simp
      · rw [stageLines_true_cons, stageLines_nil]
        simp
    · have hr := getLast?_cons_of_ne_nil c rest hne h
      cases f
      · by_cases hc : c = 62
        · rw [stageLines_false_cons, if_pos hc, List.filter_append, ih [] true hr]
          simp only [Bool.false_eq_true, if_false, if_true, List.nil_append]
          rw [← List.filter_append, List.append_assoc, List.singleton_append]
        · rw [stageLines_false_cons, if_neg hc, ih (l ++ [c]) false hr]
          simp only [Bool.false_eq_true, if_false]
          rw [List.append_assoc, List.singleton_append]
      · rw [stageLines_true_cons, List.filter_append, ih [] false hr]
        simp only [Bool.false_eq_true, if_false, if_true, List.nil_append]
        have hf : List.filter (fun b => decide (b ≠ 10)) (if c ≠ 60 then [c] else [10, c])
            = List.filter (fun b => decide (b ≠ 10)) [c] := by
          by_cases h60 : c = 60
          · simp [h60]
          · simp [h60]
        rw [hf, ← List.filter_append, List.singleton_append]

/-- Over text that `bytes.Map` leaves as it is and that is followed by more
text with a `>`, the loop writes bytes that `bytes.Map` turns back into the
text. -/
theorem stageLines_runes (s : Bytes) (hs : Runes s) : ∀ (f : Bool) (t : Bytes), 62 ∈ t →
    ∃ inner, stageLines [] f (s ++ t) = inner ++ stageLines [] (stageNext f s) t ∧
      ∀ u, dropNewlinesFrom 0 (inner ++ u) = s ++ dropNewlinesFrom 0 u := by
  induction hs with
  | nil =>
    intro f t _
    refine ⟨[], ?_, fun u => rfl⟩
    rw [stageNext_nil]
    rfl
  | ascii b rest hb hn _ ih =>
    intro f t ht
    have hmem : 62 ∈ rest ++ t := List.mem_append_right _ ht
    have hdrop : ∀ v, dropNewlinesFrom 0 (b :: v) = b :: dropNewlinesFrom 0 v := by
      intro v
      rw [dropNewlinesFrom_zero_cons, DecodeRune_one b _ hb]
      simp [hn, utf8.EncodeRune, hb]
    have hnl : ∀ v, dropNewlinesFrom 0 (10 :: v) = dropNewlinesFrom 0 v := by
      intro v
      rw [dropNewlinesFrom_zero_cons, DecodeRune_one 10 _ (by decide)]
      simp
    cases f
    · by_cases hc : b = 62
      · obtain ⟨inner, h1, h2⟩ := ih true t ht
        refine ⟨b :: inner, ?_, ?_⟩
        · rw [List.cons_append, stageLines_false_cons, if_pos hc, stageNext_false_cons, h1]
          simp [hc]
        · intro u
          rw [List.cons_append, hdrop, h2, List.cons_append]
      · obtain ⟨inner, h1, h2⟩ := ih false t ht
        refine ⟨b :: inner, ?_, ?_⟩
        · rw [List.cons_append, stageLines_false_cons, if_neg hc, stageNext_false_cons,
            stageLines_flush _ _ hmem, h1]
          simp [hc]
        · intro u
          rw [List.cons_append, hdrop, h2, List.cons_append]
    · obtain ⟨inner, h1, h2⟩ := ih false t ht
      refine ⟨(if b ≠ 60 then [b] else [10, b]) ++ inner, ?_, ?_⟩
      · rw [List.cons_append, stageLines_true_cons, stageNext_true_cons, h1]
        simp
      · intro u
        by_cases h60 : b = 60
        · simp only [h60, ne_eq, not_true_eq_false, if_false, List.cons_append, List.nil_append]
          rw [hnl, ← h60, hdrop, h2]
        · simp only [ne_eq, h60, not_false_eq_true, if_true, List.cons_append, List.nil_append]
          rw [hdrop, h2]
  | multi raw rest hne hhigh hst _ ih =>
    intro f t ht
    have hmem : 62 ∈ rest ++ t := List.mem_append_right _ ht
    have h62 : ∀ x ∈ raw, x ≠ 62 := by
      intro x hx
      have := hhigh x hx
      omega
    obtain ⟨inner, h1, h2⟩ := ih false t ht
    have hnext : stageNext f (raw ++ rest) = stageNext false rest := by
      rw [stageNext_append]
      congr 1
      cases raw with
      | nil => exact absurd rfl hne
      | cons r0 raw2 =>
        have h0 : r0 ≠ 62 := h62 r0 (by simp)
        have hr2 : stageNext false raw2 = false :=
          stageNext_high raw2 (fun x hx => h62 x (List.mem_cons_of_mem _ hx))
        cases f
        · rw [stageNext_false_cons]
          simp [h0, hr2]
        · rw [stageNext_true_cons, hr2]
    have hstage : stageLines [] f (raw ++ (rest ++ t)) = raw ++ stageLines [] false (rest ++ t) := by
      cases f
      · rw [stageLines_high raw h62, stageLines_flush _ _ hmem]
        simp
      · cases raw with
        | nil => exact absurd rfl hne
        | cons r0 raw2 =>
          have h0 : r0 ≠ 60 := by
            have := hhigh r0 (by simp)
            omega
          rw [List.cons_append, stageLines_true_cons, if_pos h0,
            stageLines_high raw2 (fun x hx => h62 x (List.mem_cons_of_mem _ hx)),
            stageLines_flush _ _ hmem]
          simp
    refine ⟨raw ++ inner, ?_, ?_⟩
    · rw [List.append_assoc, hstage, h1, hnext, List.append_assoc]
    · intro u
      rw [List.append_assoc, hst, h2, List.append_assoc]

theorem getLast?_append_gt (X : Bytes) (c : Nat) : (X ++ [c, 62]).getLast? = some 62 := by
  simp [List.getLast?_append]

/-- What holds of the content of every entry made of a plain text: the body
`(preparePlainText slack input).1` that ingestion produces for the plain text
`input` holds no newline byte, and `bytes.Map` with the mapping of `Populate`
returns it as it is.  For an entry `e` with this body as its `xhtml` content
that is marshalled to the bytes `w`: the bytes staged for the store are those
of `xml.Header` and `w` with nothing but newline bytes added, and they hold,
between the `<content type="xhtml">` tag and the `</content>` tag, bytes
`inner` that `bytes.Map` turns back into the body, byte for byte.  Whether the
staged document can be decoded is another matter, which depends on the other
elements of the entry. -/
theorem staged_content_bytes (ParseMediaType : Bytes → Except String Bytes)
    (slack : Nat) (input : Bytes) (source : Option Source) (e : Entry) (w : Bytes)
    (hc : e.Content = ⟨ascii "xhtml", [], some (preparePlainText slack input).1⟩)
    (hw : Entry.MarshalTo ParseMediaType source (some e) none = .ok w) :
    10 ∉ (preparePlainText slack input).1 ∧
    dropNewlinesFrom 0 (preparePlainText slack input).1 = (preparePlainText slack input).1 ∧
    (stageLines [] false (xml.Header ++ w)).filter (fun b => b ≠ 10)
      = (xml.Header ++ w).filter (fun b => b ≠ 10) ∧
    ∃ front back inner,
      w = front ++ ascii "<content type=\"xhtml\">" ++ (preparePlainText slack input).1
        ++ ascii "</content>" ++ back ∧
      stageLines [] false (xml.Header ++ w)
        = stageLines [] false (xml.Header ++ front ++ ascii "<content type=\"xhtml\">")
          ++ inner ++ ascii "</content>" ++ stageLines [] true back ∧
      dropNewlinesFrom 0 inner = (preparePlainText slack input).1 := by
  have hR := Runes_preparePlainText slack input
  obtain ⟨B, hB⟩ : ∃ B, (preparePlainText slack input).1 = B ++ [118, 62] := by
    have hsplit : ∀ X : Bytes, X ++ ascii "</div>" = (X ++ ascii "</di") ++ [118, 62] := by
      intro X
      rw [List.append_assoc]
      rfl
    simp only [preparePlainText, finishPlainText]
    exact ⟨_, hsplit _⟩
  -- the bytes of the entry around its content
  unfold Entry.MarshalTo at hw
  simp only [ne_eq, not_true_eq_false, if_false] at hw
  split at hw
  · cases hw
  rename_i header hheader
  obtain ⟨front, w2, hfront, hrest, hw1⟩ := writeAll_append
    [ .ok (ascii "<" ++ header ++ ascii ">"),
      TextConstruct.MarshalTo (some e.Title) ⟨atom_xmlns, ascii "entry"⟩,
      TextConstruct.MarshalTo e.Summary ⟨atom_xmlns, ascii "entry"⟩,
      DateConstruct.MarshalTo (some e.Updated),
      DateConstruct.MarshalTo e.Published,
      DateConstruct.MarshalTo e.Edited,
      URI.MarshalTo (some e.Id),
      marshalEach Person.MarshalTo e.Authors,
      marshalEach Person.MarshalTo e.Contributors ]
    [ e.Content.MarshalTo,
      marshalEach (Link.MarshalTo ParseMediaType) e.Links,
      marshalEach (fun (c : Category) => c.MarshalTo ⟨atom_xmlns, ascii "entry"⟩) e.Categories,
      TextConstruct.MarshalTo e.Rights ⟨atom_xmlns, ascii "entry"⟩,
      PublishingControl.MarshalTo e.Control,
      Source.MarshalTo ParseMediaType source none (some e),
      .ok (ascii "</entry>") ] w hw
  obtain ⟨wc, w3, hwc, hafter, hw2⟩ := writeAll_cons_ok _ _ _ hrest
  obtain ⟨mid, wend, _, hend, hw3⟩ := writeAll_append
    [ marshalEach (Link.MarshalTo ParseMediaType) e.Links,
      marshalEach (fun (c : Category) => c.MarshalTo ⟨atom_xmlns, ascii "entry"⟩) e.Categories,
      TextConstruct.MarshalTo e.Rights ⟨atom_xmlns, ascii "entry"⟩,
      PublishingControl.MarshalTo e.Control,
      Source.MarshalTo ParseMediaType source none (some e) ]
    [ .ok (ascii "</entry>") ] w3 hafter
  simp only [writeAll, Except.ok.injEq] at hend
  have hcontent : wc = ascii "<content type=\"xhtml\">" ++ (preparePlainText slack input).1
      ++ ascii "</content>" := by
    rw [hc] at hwc
    simp only [Content.MarshalTo, ne_eq, not_true_eq_false, if_false, Except.ok.injEq,
      Option.getD_some] at hwc
    rw [← hwc]
    rfl
  have hwshape : w = front ++ ascii "<content type=\"xhtml\">" ++ (preparePlainText slack input).1
      ++ ascii "</content>" ++ (mid ++ ascii "</entry>") := by
    rw [hw1, hw2, hcontent, hw3, ← hend]
    simp
  -- the staged bytes
  have hwlast : (xml.Header ++ w).getLast? = some 62 := by
    rw [hwshape]
    have : xml.Header ++ (front ++ ascii "<content type=\"xhtml\">"
        ++ (preparePlainText slack input).1 ++ ascii "</content>" ++ (mid ++ ascii "</entry>"))
        = (xml.Header ++ front ++ ascii "<content type=\"xhtml\">"
          ++ (preparePlainText slack input).1 ++ ascii "</content>" ++ mid ++ ascii "</entr")
          ++ [121, 62] := by
      simp only [List.append_assoc]
      rfl
    rw [this]
    exact getLast?_append_gt _ _
  have hpre : xml.Header ++ front ++ ascii "<content type=\"xhtml\">"
      = (xml.Header ++ front ++ ascii "<content type=\"xhtml") ++ [34, 62] := by
    simp only [List.append_assoc]
    rfl
  have hpost : 62 ∈ ascii "</content>" ++ (mid ++ ascii "</entry>") :=
    List.mem_append_left _ (by decide)
  obtain ⟨inner, hinner, hdrop⟩ := stageLines_runes _ hR true
    (ascii "</content>" ++ (mid ++ ascii "</entry>")) hpost
  have hnextB : stageNext true (preparePlainText slack input).1 = true := by
    rw [hB]
    exact stageNext_gt B 118 (by decide) true
  have hclose : stageLines [] true (ascii "</content>" ++ (mid ++ ascii "</entry>"))
      = [10] ++ ascii "</content>" ++ stageLines [] true (mid ++ ascii "</entry>") := by
    have e1 : ascii "</content>" ++ (mid ++ ascii "</entry>")
        = 60 :: (ascii "/content" ++ (62 :: (mid ++ ascii "</entry>"))) := rfl
    rw [e1, stageLines_true_cons, if_neg (by decide),
      stageLines_high (ascii "/content") (by decide) [], List.nil_append, stageLines_false_cons,
      if_pos rfl]
    simp only [List.append_assoc, List.cons_append, List.nil_append, List.singleton_append]
    rfl
  have hstaged : stageLines [] false (xml.Header ++ w)
      = stageLines [] false (xml.Header ++ front ++ ascii "<content type=\"xhtml\">")
        ++ (inner ++ [10]) ++ ascii "</content>" ++ stageLines [] true (mid ++ ascii "</entry>") := by
    have e2 : xml.Header ++ w = (xml.Header ++ front ++ ascii "<content type=\"xhtml\">")
        ++ ((preparePlainText slack input).1
          ++ (ascii "</content>" ++ (mid ++ ascii "</entry>"))) := by
      rw [hwshape]
      simp only [List.append_assoc]
    rw [e2, stageLines_split _ [] false _ (by rw [hpre]; exact getLast?_append_gt _ _)]
    have hnextpre : stageNext false (xml.Header ++ front ++ ascii "<content type=\"xhtml\">")
        = true := by
      rw [hpre]
      exact stageNext_gt _ 34 (by decide) false
    rw [hnextpre, hinner, hnextB, hclose]
    simp only [List.append_assoc]
  refine ⟨Runes_no_newline _ hR, Runes_fixed _ hR, ?_, front, mid ++ ascii "</entry>",
    inner ++ [10], hwshape, hstaged, ?_⟩
  · have := stageLines_filter (xml.Header ++ w) [] false hwlast
    simpa using this
  · rw [hdrop]
    simp [dropNewlinesFrom, utf8.DecodeRune]

set_option maxRecDepth 100000 in
/-- C33 (the code at a failing input): over every store with the `AddEntry`,
the `AddSource` and the `Commit` of `BillyStorer`, a POST of the text `hello`
with the Slug `a<b` to the feed of `billyBackend` returns an entry and no
error.  The title of the entry is the Slug and its content is the body that
ingestion produces.  The document committed for the entry is what
`MarshalTo` and the line breaks make of it, and `MarshalTo` writes the title
as it is: the document starts with the XML declaration, the `entry` tag and
`<title type="text">a<b</title>`.  The decoder stops in this element with a
syntax error, so at a restart `Decode` returns an error for the document and
no content body is reloaded from it.  The document of the entry that was
posted without a Slug is read to its end, and the entry that `NewBackend`
makes of it has the content of before. -/
theorem PostToFeed_slug_not_reloaded (S : Storer BillyStorer)
    (hE : S.AddEntry = fun s e src => BillyStorer.AddEntry mime.ParseMediaType s (some e) src)
    (hA : S.AddSource = BillyStorer.AddSource mime.ParseMediaType)
    (hC : S.Commit = BillyStorer.Commit) :
    ∃ (b' : Backend BillyStorer) (entry : Entry) (doc : Bytes),
      Backend.PostToFeed S mime.ParseMediaType 507 ⟨1739525700, 0, 0⟩ ⟨1739525700, 0, 0⟩
        (ascii "00000000-0000-4000-8000-000000000003") billyBackend
        ⟨ascii "POST", ascii "/feed/00000000-0000-4000-8000-000000000001"⟩
        (ascii "text/plain") (ascii "a<b") (ascii "hello")
        = some (b', some entry, ascii "/entry/00000000-0000-4000-8000-000000000003", none) ∧
      entry.Title.Text = ascii "a<b" ∧
      entry.Content = ⟨ascii "xhtml", [], some (preparePlainText 507 (ascii "hello")).1⟩ ∧
      b'.entrymap.lookup (ascii "/entry/00000000-0000-4000-8000-000000000003") = some entry ∧
      b'.storer.hashmap.lookup (ascii "entry/00000000-0000-4000-8000-000000000003.atom")
        = some doc ∧
      (∃ w, Entry.MarshalTo mime.ParseMediaType (b'.heap[0]?) (some entry) none = .ok w ∧
        doc = stageLines [] false (xml.Header ++ w)) ∧
      (xml.Header ++ ascii "<entry xmlns=\"http://www.w3.org/2005/Atom\">\n"
        ++ ascii "<title type=\"text\">a<b</title>").isPrefixOf doc = true ∧
      (xml.decodeDocument doc).ending = .error "XML syntax error in element" ∧
      (xml.decodeDocument doc).tokens.length = 6 ∧
      ((xml.decodeDocument doc).tokens.filter (fun t => t ≠ .other))
        = [.StartElement ⟨atom_xmlns, ascii "entry"⟩,
           .StartElement ⟨atom_xmlns, ascii "title"⟩] ∧
      (billyBackend.storer.hashmap.lookup
        (ascii "entry/00000000-0000-4000-8000-000000000002.atom")).map
          (fun blob => (xml.decodeDocument blob).ending) = some .EOF ∧
      (NewBackend mime.ParseMediaType [storedSource] [storedEntry] ()).map
          (fun b => b.entrymap.map (fun kv => kv.2.Content)) = some [postedEntry.Content] := by
  obtain ⟨addEntry, deleteEntry, addSource, deleteSource, commit⟩ := S
  simp only at hE hA hC
  subst hE
  subst hA
  subst hC
  exact ⟨_, _, _, rfl, by decide, by decide, by decide, rfl, ⟨_, rfl, by decide⟩, by decide,
    by decide, by decide, by decide, by decide, by decide⟩

set_option maxRecDepth 100000 in
/-- C33 at an instance: the store with the methods of `BillyStorer`. -/
theorem PostToFeed_slug_not_reloaded_witness :
    ∃ (b' : Backend BillyStorer) (entry : Entry) (doc : Bytes),
      Backend.PostToFeed
        { AddEntry := fun s e src => BillyStorer.AddEntry mime.ParseMediaType s (some e) src
          DeleteEntry := fun s e _ => BillyStorer.DeleteEntry s (some e)
          AddSource := BillyStorer.AddSource mime.ParseMediaType
          DeleteSource := fun s _ => (s, none)
          Commit := BillyStorer.Commit }
        mime.ParseMediaType 507 ⟨1739525700, 0, 0⟩ ⟨1739525700, 0, 0⟩
        (ascii "00000000-0000-4000-8000-000000000003") billyBackend
        ⟨ascii "POST", ascii "/feed/00000000-0000-4000-8000-000000000001"⟩
        (ascii "text/plain") (ascii "a<b") (ascii "hello")
        = some (b', some entry, ascii "/entry/00000000-0000-4000-8000-000000000003", none) ∧
      b'.storer.hashmap.lookup (ascii "entry/00000000-0000-4000-8000-000000000003.atom")
        = some doc ∧
      (xml.decodeDocument doc).ending = .error "XML syntax error in element" :=
  (PostToFeed_slug_not_reloaded _ rfl rfl rfl).elim
    (fun b' h1 => h1.elim (fun entry h2 => h2.elim (fun doc h =>
      ⟨b', entry, doc, h.1, h.2.2.2.2.1, h.2.2.2.2.2.2.2.1⟩)))

/-! ## C34: the `updated` value of a Source after `DeleteEntry` and a restart -/

set_option maxRecDepth 100000 in
/-- C34 (the code at a failing input): the store of `billyBackend` holds the
documents of the Source and of the entry of `postedBackend`; the `updated`
value of the Source is 2025-02-14T09:33:20.123456Z.  Over every store with the
`DeleteEntry` and the `Commit` of `BillyStorer`, `DeleteEntry` of the backend
at 09:35:00 returns no error: in memory the `updated` value of the Source is
now 09:35:00, the blob of the entry is taken out of the store and a commit is
made.  But `AddSource` is not called: the blob of the Source is the one of
before, the document that `MarshalTo` wrote of the Source before the call.
`NewBackend` over the object that `Decode` makes of this document (a
restart) gives the Source the `updated` value 09:33:20.123456, not the one
held in memory before the restart. -/
theorem DeleteEntry_source_not_stored (S : Storer BillyStorer)
    (hD : S.DeleteEntry = fun s e _ => BillyStorer.DeleteEntry s (some e))
    (hC : S.Commit = BillyStorer.Commit) :
    ∃ b' : Backend BillyStorer,
      Backend.DeleteEntry S ⟨1739525700, 0, 0⟩ billyBackend
        ⟨ascii "DELETE", ascii "/entry/00000000-0000-4000-8000-000000000002"⟩
        = some (b', none) ∧
      (billyBackend.heap[0]?).bind (fun s => s.Updated)
        = some (atomUpdated ⟨1739525600, 123456000, 0⟩) ∧
      (b'.heap[0]?).bind (fun s => s.Updated) = some (atomUpdated ⟨1739525700, 0, 0⟩) ∧
      b'.entrymap = [] ∧
      b'.storer.hashmap.lookup (ascii "entry/00000000-0000-4000-8000-000000000002.atom")
        = none ∧
      b'.storer.commits = [ascii "POST /feed/00000000-0000-4000-8000-000000000001",
        ascii "DELETE /entry/00000000-0000-4000-8000-000000000002"] ∧
      b'.storer.hashmap.lookup (ascii "source/00000000-0000-4000-8000-000000000001.atom")
        = billyBackend.storer.hashmap.lookup
            (ascii "source/00000000-0000-4000-8000-000000000001.atom") ∧
      (∃ w, Source.MarshalTo mime.ParseMediaType (billyBackend.heap[0]?) none none = .ok w ∧
        b'.storer.hashmap.lookup (ascii "source/00000000-0000-4000-8000-000000000001.atom")
          = some (stageLines [] false (xml.Header ++ w))) ∧
      storedSource.Updated = some (atomUpdated ⟨1739525600, 123456000, 0⟩) ∧
      ∃ b2 : Backend BillyStorer,
        NewBackend mime.ParseMediaType [storedSource] [] b'.storer = some b2 ∧
        (b2.heap[0]?).bind (fun s => s.Updated)
          = some (atomUpdated ⟨1739525600, 123456000, 0⟩) := by
  obtain ⟨addEntry, deleteEntry, addSource, deleteSource, commit⟩ := S
  simp only at hD hC
  subst hD
  subst hC
  exact ⟨_, rfl, by decide, by decide, by decide, by decide, by decide, by decide,
    ⟨_, rfl, by decide⟩, by decide, _, rfl, by decide⟩

set_option maxRecDepth 100000 in
/-- C34 at an instance: the store with the methods of `BillyStorer`. -/
theorem DeleteEntry_source_not_stored_witness :
    ∃ b' : Backend BillyStorer,
      Backend.DeleteEntry
        { AddEntry := fun s e src => BillyStorer.AddEntry mime.ParseMediaType s (some e) src
          DeleteEntry := fun s e _ => BillyStorer.DeleteEntry s (some e)
          AddSource := BillyStorer.AddSource mime.ParseMediaType
          DeleteSource := fun s _ => (s, none)
          Commit := BillyStorer.Commit }
        ⟨1739525700, 0, 0⟩ billyBackend
        ⟨ascii "DELETE", ascii "/entry/00000000-0000-4000-8000-000000000002"⟩
        = some (b', none) ∧
      (b'.heap[0]?).bind (fun s => s.Updated) = some (atomUpdated ⟨1739525700, 0, 0⟩) ∧
      b'.storer.hashmap.lookup (ascii "source/00000000-0000-4000-8000-000000000001.atom")
        = billyBackend.storer.hashmap.lookup
            (ascii "source/00000000-0000-4000-8000-000000000001.atom") :=
  (DeleteEntry_source_not_stored _ rfl rfl).elim
    (fun b' h => ⟨b', h.1, h.2.2.1, h.2.2.2.2.2.2.1⟩)

/-! ## C35: the space before a period -/

/-- The chunk ` tel:tail` with a URL not seen before and text after it, a
space before a period being dropped from that text. -/
theorem scanChunk_tel_rest (slack : Nat) (st : ScanState) (cur tail R : Bytes)
    (hurl : url.Parse (ascii "tel" ++ [58] ++ tail) = true)
    (hnew : ascii "tel" ++ [58] ++ tail ∉ st.urls) :
    scanChunk slack st cur (ascii " tel") tail (some R) =
      ({ st with buf := st.buf ++ xml.EscapeText ([32] ++ marker (st.urls.length + 1)),
                 urls := st.urls ++ [ascii "tel" ++ [58] ++ tail] },
        (dropSpaceBeforePeriod (some R)).map
          (appendInPlace slack cur [32] (marker (st.urls.length + 1)))) := by
  have hm : matchProtocol (ascii " tel") tail protocol_list 0 = some (4, ascii "tel") := by
    have h1 : (ascii "cat").isSuffixOf (ascii " tel") = false := by decide
    have h2 : (ascii "http").isSuffixOf (ascii " tel") = false := by decide
    have h3 : (ascii "https").isSuffixOf (ascii " tel") = false := by decide
    have h4 : (ascii "mailto").isSuffixOf (ascii " tel") = false := by decide
    have h5 : (ascii "tel").isSuffixOf (ascii " tel") = true := by decide
    simp only [protocol_list, matchProtocol, h1, h2, h3, h4, h5, hurl, Bool.false_and,
      Bool.true_and, if_true, if_false, Bool.false_eq_true]
  have hidx : st.urls.indexOf? (ascii "tel" ++ [58] ++ tail) = none := by
    rw [List.indexOf?_eq_none_iff]
    intro x hx hxe
    have : x = ascii "tel" ++ [58] ++ tail := by simpa using hxe
    exact hnew (this ▸ hx)
  have htake : (ascii " tel").take ((ascii " tel").length - (ascii "tel").length) = [32] := by
    decide
  simp only [scanChunk, hm, htake, urlMarker, hidx, hnew, if_false]
  simp

theorem tel_not_mem_telUrls (n : Nat) : ascii "tel" ++ [58] ++ [] ∉ telUrls n := by
  intro h
  simp only [telUrls, List.mem_map, List.mem_range] at h
  obtain ⟨j, _, hj⟩ := h
  have := congrArg List.length hj
  simp [telUrl, threeDigits] at this

/-- The pass over text without a colon, which ends the loop. -/
theorem scanStep_plain (slack : Nat) (st : ScanState) (cur : Bytes) (h : 58 ∉ cur) :
    scanStep slack st cur = ({ st with buf := st.buf ++ xml.EscapeText cur }, none) := by
  have hd : cur.dropWhile (fun b => decide (b ≠ 58)) = [] := by
    rw [List.dropWhile_eq_nil_iff]
    intro x hx
    have : x ≠ 58 := fun e => h (e ▸ hx)
    simp [this]
  simp only [scanStep, hd]

/-- Where the marker is no longer than the token and the space it replaces,
a token other than `cat:` that is followed by a space and a period is
replaced by its marker, and the scan goes on at the period: the space is
dropped, and nothing else. -/
theorem scanChunk_period_fits (slack : Nat) (st : ScanState) (before after r : Bytes)
    (k : Nat) (v : Bytes)
    (hm : matchProtocol before after protocol_list 0 = some (k, v)) (hk : k ≠ 0)
    (hv : v.length ≤ before.length)
    (hfit : (urlMarker st.urls (v ++ [58] ++ after)).length ≤ v.length + after.length + 2) :
    scanChunk slack st (before ++ 58 :: (after ++ 32 :: 46 :: r)) before after
        (some (32 :: 46 :: r)) =
      ({ st with
          buf := st.buf ++ xml.EscapeText (before.take (before.length - v.length)
            ++ urlMarker st.urls (v ++ [58] ++ after)),
          urls := if v ++ [58] ++ after ∈ st.urls then st.urls
            else st.urls ++ [v ++ [58] ++ after] },
        some (46 :: r)) := by
  simp only [scanChunk, hm, hk, if_false, dropSpaceBeforePeriod, Option.map]
  congr 2
  unfold appendInPlace
  split
  · have hdrop : (urlMarker st.urls (v ++ [58] ++ after)).drop
        ((before ++ 58 :: (after ++ 32 :: 46 :: r)).length - (46 :: r).length
          - (before.take (before.length - v.length)).length) = [] := by
      rw [List.drop_eq_nil_iff]
      simp only [List.length_append, List.length_cons, List.length_take]
      omega
    rw [hdrop]
    simp [overwrite]
  · rfl

/-- The last two passes over 999 links and ` tel: .`: the space before the
period is dropped, and the marker `[1000]`, six bytes long, is written over
the five bytes `tel: ` and over the period. -/
theorem scanLoop_period_tail (slack : Nat) (st : ScanState) (hurls : st.urls = telUrls 999) :
    scanLoop slack 8 st (ascii " tel: .") =
      { st with buf := st.buf ++ ascii " [1000]]",
                urls := telUrls 999 ++ [ascii "tel:"] } := by
  have hin : ascii " tel: ." = ascii " tel" ++ 58 :: ([] ++ ascii " .") := by decide
  have hstep := scanStep_chunk slack st (ascii " tel") [] (ascii " .") (by decide)
    (by simp) (by decide)
  have hnew : ascii "tel" ++ [58] ++ [] ∉ st.urls := by
    rw [hurls]
    exact tel_not_mem_telUrls 999
  have hchunk := scanChunk_tel_rest slack st (ascii " tel" ++ 58 :: ([] ++ ascii " ."))
    [] (ascii " .") (by decide) hnew
  have hne : ¬ (ascii " ." = []) := by decide
  have hdrop : dropSpaceBeforePeriod (some (ascii " .")) = some (ascii ".") := by decide
  have hov : appendInPlace slack (ascii " tel" ++ 58 :: ([] ++ ascii " .")) [32]
      (marker (999 + 1)) (ascii ".") = ascii "]" := by
    have hfit : [32].length + (marker (999 + 1)).length
        ≤ (ascii " tel" ++ 58 :: ([] ++ ascii " .")).length + slack := by
      have h1 : [32].length + (marker (999 + 1)).length = 7 := by decide
      have h2 : (ascii " tel" ++ 58 :: ([] ++ ascii " .")).length = 7 := by decide
      omega
    unfold appendInPlace
    rw [if_pos hfit]
    decide
  have hesc : xml.EscapeText ([32] ++ marker (999 + 1)) = ascii " [1000]" := by decide
  have he2 : xml.EscapeText (ascii "]") = ascii "]" := by decide
  rw [hin, scanLoop, hstep, if_neg hne, hchunk, hdrop, hurls, telUrls_length]
  simp only [Option.map, hov, hesc]
  rw [scanLoop, scanStep_plain slack _ _ (by decide)]
  simp only [he2, List.append_assoc]
  have : ascii " [1000]" ++ ascii "]" = ascii " [1000]]" := by decide
  rw [this]
  rfl

/-- The last two passes over 99 links and ` tel: x`: the marker `[100]`, five
bytes long, is written over the four bytes `tel:` and over the space that
follows the token. -/
theorem scanLoop_space_tail (slack : Nat) (st : ScanState) (hurls : st.urls = telUrls 99) :
    scanLoop slack 8 st (ascii " tel: x") =
      { st with buf := st.buf ++ ascii " [100]]x",
                urls := telUrls 99 ++ [ascii "tel:"] } := by
  have hin : ascii " tel: x" = ascii " tel" ++ 58 :: ([] ++ ascii " x") := by decide
  have hstep := scanStep_chunk slack st (ascii " tel") [] (ascii " x") (by decide)
    (by simp) (by decide)
  have hnew : ascii "tel" ++ [58] ++ [] ∉ st.urls := by
    rw [hurls]
    exact tel_not_mem_telUrls 99
  have hchunk := scanChunk_tel_rest slack st (ascii " tel" ++ 58 :: ([] ++ ascii " x"))
    [] (ascii " x") (by decide) hnew
  have hne : ¬ (ascii " x" = []) := by decide
  have hdrop : dropSpaceBeforePeriod (some (ascii " x")) = some (ascii " x") := by decide
  have hov : appendInPlace slack (ascii " tel" ++ 58 :: ([] ++ ascii " x")) [32]
      (marker (99 + 1)) (ascii " x") = ascii "]x" := by
    have hfit : [32].length + (marker (99 + 1)).length
        ≤ (ascii " tel" ++ 58 :: ([] ++ ascii " x")).length + slack := by
      have h1 : [32].length + (marker (99 + 1)).length = 6 := by decide
      have h2 : (ascii " tel" ++ 58 :: ([] ++ ascii " x")).length = 7 := by decide
      omega
    unfold appendInPlace
    rw [if_pos hfit]
    decide
  have hesc : xml.EscapeText ([32] ++ marker (99 + 1)) = ascii " [100]" := by decide
  have he2 : xml.EscapeText (ascii "]x") = ascii "]x" := by decide
  rw [hin, scanLoop, hstep, if_neg hne, hchunk, hdrop, hurls, telUrls_length]
  simp only [Option.map, hov, hesc]
  rw [scanLoop, scanStep_plain slack _ _ (by decide)]
  simp only [he2, List.append_assoc]
  have : ascii " [100]" ++ ascii "]x" = ascii " [100]]x" := by decide
  rw [this]
  rfl

set_option maxRecDepth 20000 in
/-- C35 (the code at failing inputs): in ` tel:000 … tel:998 tel: .` the token
`tel:` is followed by a space and a period.  The space is dropped, but the
marker `[1000]`, which `append` writes into the array that `input_bytes` still
points into, is longer than the token and the space: it runs over the period,
and the text ends in ` [1000]]`, with no period after the marker.  In
` tel:000 … tel:098 tel: x` the token is followed by a space and `x`; the
marker `[100]` runs over the space, and the text ends in ` [100]]x`.  The same
tails as whole inputs give ` [1].` and ` [1] x`. -/
theorem preparePlainText_marker_overwrites_period (slack : Nat) :
    (preparePlainText slack (telLinks 0 999 ++ ascii " tel: .")).1 =
      xhtmlOpen ++ telMarkers 0 999 ++ ascii " [1000]]" ++ ascii "</p>"
        ++ ascii "<div style=\"word-break:break-all;\">"
        ++ footerLinks 0 (telUrls 999 ++ [ascii "tel:"]) ++ ascii "</div>" ++ ascii "</div>" ∧
    (preparePlainText slack (telLinks 0 99 ++ ascii " tel: x")).1 =
      xhtmlOpen ++ telMarkers 0 99 ++ ascii " [100]]x" ++ ascii "</p>"
        ++ ascii "<div style=\"word-break:break-all;\">"
        ++ footerLinks 0 (telUrls 99 ++ [ascii "tel:"]) ++ ascii "</div>" ++ ascii "</div>" ∧
    (preparePlainText 0 (ascii " tel: .")).1 =
      xhtmlOpen ++ ascii " [1].</p><div style=\"word-break:break-all;\">"
        ++ ascii "<a href=\"tel:\">[1]&#xA0;tel:</a></div></div>" ∧
    (preparePlainText 0 (ascii " tel: x")).1 =
      xhtmlOpen ++ ascii " [1] x</p><div style=\"word-break:break-all;\">"
        ++ ascii "<a href=\"tel:\">[1]&#xA0;tel:</a></div></div>" := by
  refine ⟨?_, ?_, by decide, by decide⟩
  · have h12 : ascii " tel: ." = 32 :: 116 :: ascii "el: ." := by decide
    have hin : telLinks 0 999 ++ ascii " tel: ." = telLinks 0 999 ++ 32 :: 116 :: ascii "el: ." :=
      congrArg (fun t => telLinks 0 999 ++ t) h12
    have hlen : (ascii "el: .").length + 3 = 8 := by decide
    rw [preparePlainText, scanInput_tel_links slack _ 999 (ascii "el: .") (by omega) hin,
      hlen, ← h12, scanLoop_period_tail slack _ rfl, finishPlainText]
    have hl : (telUrls 999 ++ [ascii "tel:"]).length ≠ 0 := by simp
    simp only [hl, if_true, ne_eq, not_false_eq_true]
  · have h12 : ascii " tel: x" = 32 :: 116 :: ascii "el: x" := by decide
    have hin : telLinks 0 99 ++ ascii " tel: x" = telLinks 0 99 ++ 32 :: 116 :: ascii "el: x" :=
      congrArg (fun t => telLinks 0 99 ++ t) h12
    have hlen : (ascii "el: x").length + 3 = 8 := by decide
    rw [preparePlainText, scanInput_tel_links slack _ 99 (ascii "el: x") (by omega) hin,
      hlen, ← h12, scanLoop_space_tail slack _ rfl, finishPlainText]
    have hl : (telUrls 99 ++ [ascii "tel:"]).length ≠ 0 := by simp
    simp only [hl, if_true, ne_eq, not_false_eq_true]

/-! ## C36: what `preparePutContent` returns -/

set_option maxRecDepth 100000 in
/-- C36, counterexample: the inner XML `<div xmlns="http://www.w3.org/1999/xhtml">`,
the byte 255 and `</div>` holds no newline, and `preparePutContent` succeeds
on it, but the bytes returned are not the input: `bytes.Map` has written the
three bytes of U+FFFD for the byte 255, which is no valid UTF-8.  So the
result of a success is not always the input without its newline bytes. -/
theorem preparePutContent_invalid_utf8_counterexample :
    preparePutContent xml.decode
        (ascii "<div xmlns=\"http://www.w3.org/1999/xhtml\">" ++ [255] ++ ascii "</div>")
      = some (.ok (ascii "<div xmlns=\"http://www.w3.org/1999/xhtml\">" ++ [239, 191, 189]
          ++ ascii "</div>")) ∧
    (ascii "<div xmlns=\"http://www.w3.org/1999/xhtml\">" ++ [255] ++ ascii "</div>").filter
        (fun b => b ≠ 10)
      = ascii "<div xmlns=\"http://www.w3.org/1999/xhtml\">" ++ [255] ++ ascii "</div>" ∧
    ¬ (∀ x y : Bytes, preparePutContent xml.decode x = some (.ok y) →
        y = x.filter (fun b => b ≠ 10)) := by
  refine ⟨by decide, by decide, ?_⟩
  intro h
  exact absurd (h _ _ (by decide :
    preparePutContent xml.decode
        (ascii "<div xmlns=\"http://www.w3.org/1999/xhtml\">" ++ [255] ++ ascii "</div>")
      = some (.ok (ascii "<div xmlns=\"http://www.w3.org/1999/xhtml\">" ++ [239, 191, 189]
          ++ ascii "</div>")))) (by decide)

/-- C36, amended: whenever `preparePutContent` succeeds on `x` with the bytes
`y`, `y` is what `bytes.Map` makes of `x` with the mapping that drops the
newline rune, `y` holds no newline byte, and the operation is idempotent:
on `y` it succeeds and returns `y`.  When `x` is valid UTF-8, `y` is `x` with
every newline byte removed and all other bytes kept in order. -/
theorem preparePutContent_strips_newlines (decode : Bytes → DecoderRun) (x y : Bytes)
    (h : preparePutContent decode x = some (.ok y)) :
    y = dropNewlinesFrom 0 x ∧ 10 ∉ y ∧
    preparePutContent decode y = some (.ok y) ∧
    (utf8.ValidString x = true → y = x.filter (fun b => b ≠ 10)) := by
  have hy : y = dropNewlinesFrom 0 x := by
    unfold preparePutContent at h
    simp only at h
    split at h
    · split at h <;> simp at h
    · simp at h
    · split at h
      · simp at h
      · split at h
        · simp at h
        · simp at h
        · simpa using h.symm
  have hfix : dropNewlinesFrom 0 y = y := by
    rw [hy]
    exact dropNewlinesFrom_idem x
  refine ⟨hy, ?_, ?_, ?_⟩
  · rw [hy]
    exact Runes_no_newline _ (Runes_dropNewlinesFrom x 0)
  · have h2 : preparePutContent decode y = preparePutContent decode x := by
      unfold preparePutContent
      simp only [hfix]
      rw [← hy]
    rw [h2, h]
  · intro hv
    rw [hy]
    have := dropNewlinesFrom_valid x 0 hv
    simpa using this

set_option maxRecDepth 100000 in
/-- C36 at an instance: a body over three lines, which is valid UTF-8, is
returned without its two newline bytes. -/
theorem preparePutContent_strips_newlines_witness :
    preparePutContent xml.decode
        (ascii "<div xmlns=\"http://www.w3.org/1999/xhtml\">\n<p>caf" ++ [195, 169]
          ++ ascii "</p>\n</div>")
      = some (.ok (ascii "<div xmlns=\"http://www.w3.org/1999/xhtml\"><p>caf" ++ [195, 169]
          ++ ascii "</p></div>")) ∧
    (ascii "<div xmlns=\"http://www.w3.org/1999/xhtml\"><p>caf" ++ [195, 169]
        ++ ascii "</p></div>")
      = dropNewlinesFrom 0 (ascii "<div xmlns=\"http://www.w3.org/1999/xhtml\">\n<p>caf"
          ++ [195, 169] ++ ascii "</p>\n</div>") ∧
    preparePutContent xml.decode
        (ascii "<div xmlns=\"http://www.w3.org/1999/xhtml\"><p>caf" ++ [195, 169]
          ++ ascii "</p></div>")
      = some (.ok (ascii "<div xmlns=\"http://www.w3.org/1999/xhtml\"><p>caf" ++ [195, 169]
          ++ ascii "</p></div>")) :=
  ⟨by decide,
    (preparePutContent_strips_newlines xml.decode _ _ (by decide)).1,
    (preparePutContent_strips_newlines xml.decode
      (ascii "<div xmlns=\"http://www.w3.org/1999/xhtml\">\n<p>caf" ++ [195, 169]
          ++ ascii "</p>\n</div>") _ (by decide)).2.2.1⟩

/-! ## C39: the loop of `preparePutContent` -/

/-- Where the loop never ends, it is still running after any number of
passes. -/
theorem putContentPasses_of_loop_none (ending : DecoderEnd) (passes : Nat)
    (toks : List XmlToken) (h : putContentLoop ending toks = none) :
    putContentPasses ending passes toks = none := by
  induction passes generalizing toks with
  | zero => rfl
  | succ n ih =>
    cases toks with
    | nil =>
      cases ending with
      | EOF => simp [putContentLoop] at h
      | error msg => simpa [putContentPasses] using ih [] h
    | cons t rest =>
      cases t with
      | other =>
        simp only [putContentLoop] at h
        simpa [putContentPasses] using ih rest h
      | StartElement name =>
        simp only [putContentLoop] at h
        simp only [putContentPasses]
        split
        · rename_i hpa
          rw [if_pos hpa] at h
          exact ih rest h
        · rename_i hpa
          rw [if_neg hpa] at h
          simp at h

/-- Where the loop is left, it is left after at most as many passes as there
are tokens, plus one. -/
theorem putContentPasses_of_loop_some (ending : DecoderEnd) (toks : List XmlToken)
    (res : Option String) (h : putContentLoop ending toks = some res) :
    putContentPasses ending (toks.length + 1) toks = some res := by
  induction toks with
  | nil =>
    cases ending with
    | EOF => simpa [putContentLoop, putContentPasses] using h
    | error msg => simp [putContentLoop] at h
  | cons t rest ih =>
    cases t with
    | other =>
      simp only [putContentLoop] at h
      simpa [putContentPasses] using ih h
    | StartElement name =>
      simp only [putContentLoop] at h
      simp only [List.length_cons, putContentPasses]
      split
      · rename_i hpa
        rw [if_pos hpa] at h
        exact ih h
      · rename_i hpa
        rw [if_neg hpa] at h
        exact h

set_option maxRecDepth 100000 in
/-- C39 (the code at failing inputs): for the inner XML
`<div xmlns="http://www.w3.org/1999/xhtml"><p>`, whose elements are not
closed, the decoder returns the two start elements and then the syntax error
`unexpected EOF` on every call; for
`<div xmlns="http://www.w3.org/1999/xhtml"><p></div>` it returns the two start
elements and then the error of the mismatched end tag on every call.  In both
cases the loop of `preparePutContent` is still running after any number of
passes, so the function does not return.  For the same text with both
elements closed it returns the text. -/
theorem preparePutContent_never_returns :
    xml.decode (ascii "<div xmlns=\"http://www.w3.org/1999/xhtml\"><p>")
      = { tokens := [.StartElement ⟨xhtml_xmlns, ascii "div"⟩,
                     .StartElement ⟨xhtml_xmlns, ascii "p"⟩],
          ending := .error "XML syntax error: unexpected EOF" } ∧
    (∀ passes, putContentPasses (.error "XML syntax error: unexpected EOF") passes
      [.StartElement ⟨xhtml_xmlns, ascii "p"⟩] = none) ∧
    preparePutContent xml.decode (ascii "<div xmlns=\"http://www.w3.org/1999/xhtml\"><p>")
      = none ∧
    xml.decode (ascii "<div xmlns=\"http://www.w3.org/1999/xhtml\"><p></div>")
      = { tokens := [.StartElement ⟨xhtml_xmlns, ascii "div"⟩,
                     .StartElement ⟨xhtml_xmlns, ascii "p"⟩],
          ending := .error "XML syntax error: element closed by another" } ∧
    (∀ passes, putContentPasses (.error "XML syntax error: element closed by another") passes
      [.StartElement ⟨xhtml_xmlns, ascii "p"⟩] = none) ∧
    preparePutContent xml.decode (ascii "<div xmlns=\"http://www.w3.org/1999/xhtml\"><p></div>")
      = none ∧
    preparePutContent xml.decode
        (ascii "<div xmlns=\"http://www.w3.org/1999/xhtml\"><p></p></div>")
      = some (.ok (ascii "<div xmlns=\"http://www.w3.org/1999/xhtml\"><p></p></div>")) :=
  ⟨by decide,
    fun passes => putContentPasses_of_loop_none _ passes _ (by decide),
    by decide, by decide,
    fun passes => putContentPasses_of_loop_none _ passes _ (by decide),
    by decide, by decide⟩

/-! ## C40: the content type of `PostToFeed` -/

set_option maxRecDepth 100000 in
/-- C40 (the code at a failing input): a POST to the feed of `oneFeedBackend`
with the content type `TEXT/PLAIN`.  The path matches the collection and the
content type matches its accepted type `text/plain` under
`strings.EqualFold`, so the first loop jumps to `jump`; the `switch` compares
with `"text/plain"` exactly, takes the `default` branch and leaves `entry`
nil, and the next statement `entry.Source = source` writes through the nil
pointer: the call panics.  With the content type `text/plain` the same request
returns an entry and no error. -/
theorem PostToFeed_content_type_case :
    strings.EqualFold (ascii "TEXT/PLAIN") (ascii "text/plain") = true ∧
    findCollection oneFeedBackend.heap (ascii "/feed/00000000-0000-4000-8000-000000000001")
      (ascii "TEXT/PLAIN") oneFeedBackend.collections = some (some true) ∧
    Backend.PostToFeed okStorer mime.ParseMediaType 507 ⟨1739525600, 100000000, 0⟩
      ⟨1739525600, 123456000, 0⟩ (ascii "00000000-0000-4000-8000-000000000002") oneFeedBackend
      ⟨ascii "POST", ascii "/feed/00000000-0000-4000-8000-000000000001"⟩ (ascii "TEXT/PLAIN") []
      (ascii "hello") = none ∧
    (Backend.PostToFeed okStorer mime.ParseMediaType 507 ⟨1739525600, 100000000, 0⟩
      ⟨1739525600, 123456000, 0⟩ (ascii "00000000-0000-4000-8000-000000000002") oneFeedBackend
      ⟨ascii "POST", ascii "/feed/00000000-0000-4000-8000-000000000001"⟩ (ascii "text/plain") []
      (ascii "hello")).map (fun res => (res.2.1.isSome, res.2.2))
      = some (true, ascii "/entry/00000000-0000-4000-8000-000000000002", none) := by
  exact ⟨by decide, by decide, rfl, by decide⟩

end AtomPub
